import Mathlib

/-!
# MiniVideo: sample-index construction of the MP4 and WAVE demuxers

A shallow embedding of `minivideo/src/demuxer/mp4/mp4.c` (the table-join function
`convertTrack`, the sample-table box parsers, the box header parser `parse_box_header`,
the resynchroniser `jumpy_mp4`, the tree-walk loops from `mp4_fileParse` down to
`parse_stsd`, and the content parsers `parse_hdlr`, `parse_stsd` and `parse_avcC`), of
`minivideo/src/demuxer/wave/wave.c` (the chunk parsers, `wave_indexer_initmap` and
`wave_fileParse`) and of `minivideo/src/fourcc.c` (`getCodecFromFourCC` and the two
`getFccString` functions), together with theorems about them.

Conventions of the embedding.

* C arrays are lists.  Every array access is bounds-checked: an access outside the
  array is undefined behaviour in C and is reported as `Fault.outOfBounds`.
* `unsigned int` / `uint32_t` values are natural numbers, and every operation that can
  leave the 32-bit range is reduced with `u32` (modulo `2^32`), as C defines it.
* `int64_t` values are integers.  Signed overflow is undefined behaviour in C and is
  reported as `Fault.overflow`; a division whose divisor is zero is reported as
  `Fault.divByZero`.
* A function of the embedding returns `Except.ok` exactly on the executions whose
  behaviour C defines.
* A `for` loop is `forLoop`, a structurally recursive iteration; loop variables that
  live across iterations are carried in an explicit state.
* A `while` loop is `whileLoop`, which runs at most `fuel` iterations and gives `none`
  when the loop is still running then; a function that contains such a loop has the
  parameter `fuel` and the result type `Except Fault (Option _)`.
* Code that is not among the sources (the cursor of `bitstream.c`, the RIFF readers of
  `riff.c`, the constants of `fourcc.h`, `mp4_box.h` and `wave_struct.h`) is either
  modelled from the specification, and marked so, or a parameter of the embedding.
* A ghost log (`visited`, `CursorCall`, `DtsAccess`) records what a loop does; nothing
  is ever read from it.
-/

namespace MiniVideo

/-! ## Machine arithmetic and memory -/

/-- Executions that yield no result: an access outside an array (also: a cursor read that
crosses the end of the data), a signed overflow, a division by zero. -/
inductive Fault where
  | outOfBounds
  | overflow
  | divByZero
  deriving DecidableEq, Repr

/-- Reduction of a natural number to the range of `uint32_t`. -/
def u32 (n : Nat) : Nat := n % 4294967296

/-- Reduction of a natural number to the range of `uint64_t`. -/
def u64 (n : Nat) : Nat := n % 18446744073709551616

/-- Membership in the range of `int64_t`. -/
def inI64 (z : Int) : Prop := -9223372036854775808 ≤ z ∧ z < 9223372036854775808

instance (z : Int) : Decidable (inI64 z) := by
  unfold inI64
  infer_instance

/-- Subtraction of two `uint32_t` values, `a - b` in C. -/
def u32sub (a b : Nat) : Nat := (a + 4294967296 - b % 4294967296) % 4294967296

/-- Array read `a[i]`. -/
def readAt {α : Type} (a : List α) (i : Nat) : Except Fault α :=
  match a[i]? with
  | some v => .ok v
  | none => .error .outOfBounds

/-- Array write `a[i] = v`. -/
def writeAt {α : Type} (a : List α) (i : Nat) (v : α) : Except Fault (List α) :=
  if i < a.length then .ok (a.set i v) else .error .outOfBounds

/-- Addition `a + b` of two `int64_t` values. -/
def addI64 (a b : Int) : Except Fault Int :=
  if inI64 (a + b) then .ok (a + b) else .error .overflow

/-- Multiplication `a * b` of two `int64_t` values. -/
def mulI64 (a b : Int) : Except Fault Int :=
  if inI64 (a * b) then .ok (a * b) else .error .overflow

/-- Division `a / b` of an `int64_t` by a `uint32_t` (C truncates towards zero). -/
def divI64 (a : Int) (b : Nat) : Except Fault Int :=
  if b = 0 then .error .divByZero else .ok (Int.tdiv a (b : Int))

/-- The loop `for (i = lo; i < lo + n; i++) body`: `forLoop body lo n s` runs `body` at
`lo`, `lo + 1`, ..., `lo + n - 1`, threading the state, and stops at the first fault. -/
def forLoop {σ : Type} (body : Nat → σ → Except Fault σ) : Nat → Nat → σ → Except Fault σ
  | _, 0, s => .ok s
  | i, n + 1, s =>
    match body i s with
    | .ok s' => forLoop body (i + 1) n s'
    | .error e => .error e

/-! ## Data model -/

/-- Handler types tested by `convertTrack` (`track->handlerType`); `HANDLER_OTHER` stands
for every other value of the field. -/
inductive HandlerType where
  | HANDLER_AUDIO
  | HANDLER_VIDEO
  | HANDLER_SUBT
  | HANDLER_SBTL
  | HANDLER_TEXT
  | HANDLER_TMCD
  | HANDLER_META
  | HANDLER_HINT
  | HANDLER_OTHER
  deriving DecidableEq, Repr

/-- Sample kinds stored in `map->sample_type`; `sample_UNKNOWN` is the value of an entry
nothing has been written to. -/
inductive SampleType where
  | sample_UNKNOWN
  | sample_AUDIO
  | sample_VIDEO
  | sample_VIDEO_SYNC
  | sample_VIDEO_PARAM
  | sample_TEXT
  | sample_OTHER
  deriving DecidableEq, Repr

/-- Codec identifier `CODEC_LPCM` of `avcodecs.h`. -/
def CODEC_LPCM : Nat := 128
/-- Codec identifier `CODEC_LogPCM` of `avcodecs.h`. -/
def CODEC_LogPCM : Nat := 129
/-- Codec identifier `CODEC_DPCM` of `avcodecs.h`. -/
def CODEC_DPCM : Nat := 130
/-- Codec identifier `CODEC_ADPCM` of `avcodecs.h`. -/
def CODEC_ADPCM : Nat := 131
/-- Codec identifier `CODEC_H264` of `avcodecs.h`. -/
def CODEC_H264 : Nat := 262
/-- Codec identifier `CODEC_H265` of `avcodecs.h`. -/
def CODEC_H265 : Nat := 263

/-- The fields of `Mp4Track_t` read by `convertTrack`, with `name` and `fcc`.  A pointer
that `convertTrack` tests against NULL is an `Option`; the other arrays are lists (a NULL
array is the empty list, every access to it faults).  `name` is the content of the array
`name` as `parse_hdlr` stores it: the bytes written to `name[0]`, `name[1]`, ... in order.
The other scalar fields that the box parsers fill (dimensions, colour, bitrates, sample
rate, compressor name, ...) are not part of the embedding. -/
structure Mp4Track where
  handlerType : HandlerType
  codec : Nat
  timescale : Nat
  channel_count : Nat
  sample_size_bits : Nat
  sps_count : Nat
  sps_sample_offset : List Int
  sps_sample_size : List Nat
  pps_count : Nat
  pps_sample_offset : List Int
  pps_sample_size : List Nat
  stts_entry_count : Nat
  stts_sample_count : List Nat
  stts_sample_delta : List Nat
  ctts_entry_count : Nat
  ctts_sample_count : Option (List Nat)
  ctts_sample_offset : List Int
  stss_entry_count : Nat
  stss_sample_number : List Nat
  stsc_entry_count : Nat
  stsc_first_chunk : List Nat
  stsc_samples_per_chunk : List Nat
  stsz_sample_size : Nat
  stsz_sample_count : Nat
  stsz_entry_size : Option (List Nat)
  stco_entry_count : Nat
  stco_chunk_offset : List Int
  name : List Nat
  fcc : Nat
  deriving DecidableEq, Repr

/-- The fields of `BitstreamMap_t` that `convertTrack` fills for the sample index: the
entry count `sample_count`, the byte counter `stream_size` (an unsigned 64-bit counter)
and the five per-entry arrays. -/
structure BitstreamMap where
  sample_count : Nat
  stream_size : Nat
  sample_type : List SampleType
  sample_size : List Nat
  sample_offset : List Int
  sample_pts : List Int
  sample_dts : List Int
  deriving DecidableEq, Repr

/-- The value `track->sps_count + track->pps_count`, the index of the first real sample. -/
def firstSample (track : Mp4Track) : Nat := u32 (track.sps_count + track.pps_count)

/-! ## convertTrack -/

/-- One parameter-set entry of `convertTrack` (the body of the "Set SPS" and "Set PPS"
loops): entry `at_` of the map becomes a `sample_VIDEO_PARAM` pseudo-sample carrying the
offset and size recorded at position `i` of the given tables, with both timestamps -1. -/
def setParamSample (offsets : List Int) (sizes : List Nat) (i at_ : Nat) (map : BitstreamMap) :
    Except Fault BitstreamMap := do
  let ty ← writeAt map.sample_type at_ SampleType.sample_VIDEO_PARAM
  let off ← readAt offsets i
  let offs ← writeAt map.sample_offset at_ off
  let sz ← readAt sizes i
  let szs ← writeAt map.sample_size at_ sz
  let pts ← writeAt map.sample_pts at_ (-1)
  let dts ← writeAt map.sample_dts at_ (-1)
  pure { map with sample_type := ty, sample_offset := offs, sample_size := szs,
                  sample_pts := pts, sample_dts := dts }

/-- The "Codec specific metadata" block of `convertTrack`: for an H.264 / H.265 video
track the SPS then the PPS are stored as the first entries of the map. -/
def setParameterSets (track : Mp4Track) (map : BitstreamMap) : Except Fault BitstreamMap :=
  if track.handlerType = HandlerType.HANDLER_VIDEO ∧
      (track.codec = CODEC_H264 ∨ track.codec = CODEC_H265) then do
    let map ← forLoop (fun i m =>
      setParamSample track.sps_sample_offset track.sps_sample_size i i m) 0 track.sps_count map
    forLoop (fun i m =>
      setParamSample track.pps_sample_offset track.pps_sample_size i
        (u32 (i + track.sps_count)) m) 0 track.pps_count map
  else .ok map

/-- The "Bitrate mode" block of `convertTrack`: the value of `sample_size_cbr`. -/
def sampleSizeCbr (track : Mp4Track) : Nat :=
  match track.stsz_entry_size with
  | some _ => 0
  | none =>
    if track.stsz_sample_size = 1 ∧
        (track.codec = CODEC_LPCM ∨ track.codec = CODEC_LogPCM ∨
         track.codec = CODEC_DPCM ∨ track.codec = CODEC_ADPCM) then
      u32 (track.channel_count * (track.sample_size_bits / 8))
    else track.stsz_sample_size

/-- The sync-sample scan of `convertTrack` for real sample `i` stored at `sid`: entry `j`
of `stss_sample_number` marks the sample as `sample_VIDEO_SYNC` when
`i == stss_sample_number[j] - 1`. -/
def markSync (track : Mp4Track) (i sid j : Nat) (types : List SampleType) :
    Except Fault (List SampleType) := do
  let number ← readAt track.stss_sample_number j
  if i = u32sub number 1 then writeAt types sid SampleType.sample_VIDEO_SYNC
  else pure types

/-- The "Set sample type" step of `convertTrack` for real sample `i` stored at `sid`. -/
def setSampleType (track : Mp4Track) (i sid : Nat) (types : List SampleType) :
    Except Fault (List SampleType) :=
  match track.handlerType with
  | HandlerType.HANDLER_VIDEO => do
    let types ← writeAt types sid SampleType.sample_VIDEO
    forLoop (fun j ty => markSync track i sid j ty) 0 track.stss_entry_count types
  | HandlerType.HANDLER_AUDIO => writeAt types sid SampleType.sample_AUDIO
  | HandlerType.HANDLER_SUBT => writeAt types sid SampleType.sample_TEXT
  | HandlerType.HANDLER_SBTL => writeAt types sid SampleType.sample_TEXT
  | HandlerType.HANDLER_TEXT => writeAt types sid SampleType.sample_TEXT
  | _ => writeAt types sid SampleType.sample_OTHER

/-- The value stored by the "Set sample size" step of `convertTrack` for real sample `i`:
`stsz_entry_size[i]` when that table exists, `sample_size_cbr` otherwise. -/
def sampleSizeOf (track : Mp4Track) (i : Nat) : Except Fault Nat :=
  match track.stsz_entry_size with
  | some entry_size => readAt entry_size i
  | none => pure (sampleSizeCbr track)

/-- The body of the "Set sample type & size" loop of `convertTrack` for real sample `i`:
type, size, and contribution to `stream_size`. -/
def setSampleTypeSize (track : Mp4Track) (i : Nat) (map : BitstreamMap) :
    Except Fault BitstreamMap := do
  let sid := u32 (i + track.sps_count + track.pps_count)
  let types ← setSampleType track i sid map.sample_type
  let size ← sampleSizeOf track i
  let sizes ← writeAt map.sample_size sid size
  let stored ← readAt sizes sid
  pure { map with sample_type := types, sample_size := sizes,
                  stream_size := u64 (map.stream_size + stored) }

/-- The "Set sample type & size" loop of `convertTrack`. -/
def setTypesAndSizes (track : Mp4Track) (map : BitstreamMap) : Except Fault BitstreamMap :=
  forLoop (setSampleTypeSize track) 0 track.stsz_sample_count map

/-- State of the timestamp loops of `convertTrack`: the map and the sample index `k`. -/
structure TimeState where
  map : BitstreamMap
  k : Nat
  deriving DecidableEq, Repr

/-- The body of the inner loop of "Compute DTS" for run `i` of `time_to_sample`:
`sample_dts[k] = sample_dts[k - 1] + stts_sample_delta[i]`, then `k++`.  The two copies of
the loop in the source differ only in that the second one (no composition offsets,
`copyToPts = true`) stores the same value in `sample_pts[k]` as well. -/
def dtsStep (track : Mp4Track) (copyToPts : Bool) (i : Nat) (_j : Nat) (s : TimeState) :
    Except Fault TimeState := do
  let previous ← readAt s.map.sample_dts (u32sub s.k 1)
  let delta ← readAt track.stts_sample_delta i
  let dts ← addI64 previous (delta : Int)
  let ptss ← (if copyToPts then writeAt s.map.sample_pts s.k dts else pure s.map.sample_pts)
  let dtss ← writeAt s.map.sample_dts s.k dts
  pure { map := { s.map with sample_dts := dtss, sample_pts := ptss }, k := u32 (s.k + 1) }

/-- The body of the outer loop of "Compute DTS" for run `i` of `time_to_sample`: when `k`
is still the index of the first real sample that sample gets decode time 0 and `j` starts
at 1; then the inner loop runs while `j < stts_sample_count[i]`. -/
def dtsRun (track : Mp4Track) (copyToPts : Bool) (i : Nat) (s : TimeState) :
    Except Fault TimeState := do
  if s.k = firstSample track then
    let ptss ← (if copyToPts then writeAt s.map.sample_pts s.k 0 else pure s.map.sample_pts)
    let dtss ← writeAt s.map.sample_dts s.k 0
    let s1 : TimeState :=
      { map := { s.map with sample_dts := dtss, sample_pts := ptss }, k := u32 (s.k + 1) }
    let count ← readAt track.stts_sample_count i
    forLoop (dtsStep track copyToPts i) 1 (count - 1) s1
  else
    let count ← readAt track.stts_sample_count i
    forLoop (dtsStep track copyToPts i) 0 count s

/-- The body of the inner loop of "Then compute PTS" for run `i` of the composition
offsets: `sample_pts[k] = sample_dts[k] + ctts_sample_offset[i] + _samples_pts_to_dts_shift`
(the shift is the constant 0), then `k++`. -/
def ptsStep (track : Mp4Track) (i : Nat) (_j : Nat) (s : TimeState) : Except Fault TimeState := do
  let dts ← readAt s.map.sample_dts s.k
  let offset ← readAt track.ctts_sample_offset i
  let sum ← addI64 dts offset
  let pts ← addI64 sum 0
  let ptss ← writeAt s.map.sample_pts s.k pts
  pure { map := { s.map with sample_pts := ptss }, k := u32 (s.k + 1) }

/-- The body of the outer loop of "Then compute PTS" for run `i`; `counts` is the array
`ctts_sample_count`. -/
def ptsRun (track : Mp4Track) (counts : List Nat) (i : Nat) (s : TimeState) :
    Except Fault TimeState := do
  let count ← readAt counts i
  forLoop (ptsStep track i) 0 count s

/-- The "Set sample decoding and presentation timecodes" block of `convertTrack`: the
branch is chosen by the pointer test `if (track->ctts_sample_count)`. -/
def setTimecodes (track : Mp4Track) (map : BitstreamMap) : Except Fault BitstreamMap :=
  match track.ctts_sample_count with
  | some counts => do
    let s ← forLoop (dtsRun track false) 0 track.stts_entry_count
      { map := map, k := firstSample track }
    let s ← forLoop (ptsRun track counts) 0 track.ctts_entry_count
      { map := s.map, k := firstSample track }
    pure s.map
  | none => do
    let s ← forLoop (dtsRun track true) 0 track.stts_entry_count
      { map := map, k := firstSample track }
    pure s.map

/-- One execution of the body of the chunk loop of "Set sample offset": the value of
`chunkOffset` (the chunk's position in `stco_chunk_offset`), the value of `index` when
the body starts (the map index of the chunk's first sample) and the number of samples
`stsc_samples_per_chunk[i]` taken for the chunk. -/
structure ChunkVisit where
  chunk : Nat
  first : Nat
  samples : Nat
  deriving DecidableEq, Repr

/-- State of the "Set sample offset" loops of `convertTrack`: the map and the variables
`index` and `chunkOffset`.  `visited` is a ghost log of the chunk-loop bodies executed so
far; nothing is ever read from it. -/
structure OffsetState where
  map : BitstreamMap
  index : Nat
  chunkOffset : Nat
  visited : List ChunkVisit
  deriving DecidableEq, Repr

/-- The two statements `times[index] *= 1000000LL; times[index] /= track->timescale;`
applied to an entry whose value is `value`. -/
def scaleAt (track : Mp4Track) (times : List Int) (index : Nat) (value : Int) :
    Except Fault (List Int) := do
  let product ← mulI64 value 1000000
  let scaled ← divI64 product track.timescale
  writeAt times index scaled

/-- The "Adjust DTS and PTS unit" block executed for the sample at `index`: the decode
time is multiplied by `1000000LL` and divided by the timescale when it is not 0, the
presentation time always. -/
def adjustUnit (track : Mp4Track) (index : Nat) (map : BitstreamMap) :
    Except Fault BitstreamMap := do
  let dts ← readAt map.sample_dts index
  let dtss ← (if dts ≠ 0 then scaleAt track map.sample_dts index dts
    else pure map.sample_dts)
  let pts ← readAt map.sample_pts index
  let ptss ← scaleAt track map.sample_pts index pts
  pure { map with sample_dts := dtss, sample_pts := ptss }

/-- The body of the innermost loop of "Set sample offset" (sample `l` of the current
chunk): unit adjustment, then the byte offset, which is the chunk's offset for `l == 0`
and the previous entry's offset plus the previous entry's size otherwise; then `index++`. -/
def offsetStep (track : Mp4Track) (l : Nat) (s : OffsetState) : Except Fault OffsetState := do
  let map ← adjustUnit track s.index s.map
  let offset ← (if l = 0 then readAt track.stco_chunk_offset s.chunkOffset
    else do
      let previous ← readAt map.sample_offset (u32sub s.index 1)
      let size ← readAt map.sample_size (u32sub s.index 1)
      addI64 previous (size : Int))
  let offsets ← writeAt map.sample_offset s.index offset
  pure { s with map := { map with sample_offset := offsets }, index := u32 (s.index + 1) }

/-- The body of the chunk loop (`for (k = 0; k < n; k++)`) for entry `i` of
`sample_to_chunk`: `stsc_samples_per_chunk[i]` samples, then `chunkOffset++`. -/
def offsetChunk (track : Mp4Track) (i : Nat) (_k : Nat) (s : OffsetState) :
    Except Fault OffsetState := do
  let samples ← readAt track.stsc_samples_per_chunk i
  let visit : ChunkVisit := { chunk := s.chunkOffset, first := s.index, samples := samples }
  let s ← forLoop (offsetStep track) 0 samples s
  pure { s with chunkOffset := u32 (s.chunkOffset + 1), visited := s.visited ++ [visit] }

/-- The number `n` of chunks walked for entry `i` of `sample_to_chunk`. -/
def chunkRunLength (track : Mp4Track) (i chunkOffset : Nat) : Except Fault Nat :=
  if i + 1 = track.stsc_entry_count then
    if track.stsc_entry_count > 1 ∧ chunkOffset = 0 then pure 1
    else pure (u32sub track.stco_entry_count chunkOffset)
  else do
    let next ← readAt track.stsc_first_chunk (i + 1)
    let current ← readAt track.stsc_first_chunk i
    pure (u32sub next current)

/-- The body of the outer loop of "Set sample offset" for entry `i`.  The loop runs while
`i < stsc_entry_count && chunkOffset < stco_entry_count`; once the second condition fails
the state no longer changes, so leaving the loop is the same as skipping every later
entry. -/
def offsetEntry (track : Mp4Track) (i : Nat) (s : OffsetState) : Except Fault OffsetState :=
  if s.chunkOffset < track.stco_entry_count then do
    let n ← chunkRunLength track i s.chunkOffset
    forLoop (offsetChunk track i) 0 n s
  else pure s

/-- The "Set sample offset" block of `convertTrack`, with its final loop state. -/
def walkChunks (track : Mp4Track) (map : BitstreamMap) : Except Fault OffsetState :=
  forLoop (offsetEntry track) 0 track.stsc_entry_count
    { map := map, index := firstSample track, chunkOffset := 0, visited := [] }

/-- The "Set sample offset" block of `convertTrack`. -/
def setOffsets (track : Mp4Track) (map : BitstreamMap) : Except Fault BitstreamMap := do
  let s ← walkChunks track map
  pure s.map

/-- The sample passes of `convertTrack` ("Build bitstream map"), in the order of the
source: parameter sets, types and sizes, timestamps, byte offsets with unit adjustment.
`map` is the bitstream map that `init_bitstream_map` allocated for the track. -/
def convertTrack (track : Mp4Track) (map : BitstreamMap) : Except Fault BitstreamMap := do
  let map ← setParameterSets track map
  let map ← setTypesAndSizes track map
  let map ← setTimecodes track map
  setOffsets track map

/-- A zero-filled bitstream map with `n` entries. -/
def zeroMap (n : Nat) : BitstreamMap :=
  { sample_count := 0
    stream_size := 0
    sample_type := List.replicate n SampleType.sample_UNKNOWN
    sample_size := List.replicate n 0
    sample_offset := List.replicate n 0
    sample_pts := List.replicate n 0
    sample_dts := List.replicate n 0 }

/-- A track with every table empty and every scalar 0. -/
def emptyTrack : Mp4Track :=
  { handlerType := HandlerType.HANDLER_VIDEO, codec := 0, timescale := 0, channel_count := 0,
    sample_size_bits := 0, sps_count := 0, sps_sample_offset := [], sps_sample_size := [],
    pps_count := 0, pps_sample_offset := [], pps_sample_size := [], stts_entry_count := 0,
    stts_sample_count := [], stts_sample_delta := [], ctts_entry_count := 0,
    ctts_sample_count := none, ctts_sample_offset := [], stss_entry_count := 0,
    stss_sample_number := [], stsc_entry_count := 0, stsc_first_chunk := [],
    stsc_samples_per_chunk := [], stsz_sample_size := 0, stsz_sample_count := 0,
    stsz_entry_size := none, stco_entry_count := 0, stco_chunk_offset := [], name := [],
    fcc := 0 }

/-! ## parse_ctts -/

/-- Modelled from the spec: the byte/bit cursor of section 4.1 (`bitstream.c` is not among
the sources), a view over the file's bytes and a read position counted in bits. -/
structure Bitstream where
  bytes : List Nat
  position : Nat
  deriving DecidableEq, Repr

/-- Modelled from the spec: the bit at absolute bit position `p` of the cursor's data,
the most significant bit of a byte first. -/
def Bitstream.bitAt (bitstr : Bitstream) (p : Nat) : Nat :=
  (bitstr.bytes.getD (p / 8) 0 / 2 ^ (7 - p % 8)) % 2

/-- Modelled from the spec: `read_bits(n)`, the next `n` bits as an unsigned number in
big-endian bit order, the cursor moving `n` bits forward; the read fails when it would
cross the end of the available data. -/
def read_bits (bitstr : Bitstream) (n : Nat) : Except Fault (Nat × Bitstream) :=
  if bitstr.position + n ≤ 8 * bitstr.bytes.length then
    .ok ((List.range n).foldl (fun acc k => 2 * acc + bitstr.bitAt (bitstr.position + k)) 0,
         { bitstr with position := bitstr.position + n })
  else .error .outOfBounds

/-- The fields of `Mp4Box_t`. -/
structure Mp4Box where
  offset_start : Int
  offset_end : Int
  size : Int
  boxtype : Nat
  usertype : List Nat
  version : Nat
  flags : Nat
  deriving DecidableEq, Repr

/-- Return code `FAILURE` of `typedef.h`. -/
def FAILURE : Int := 0
/-- Return code `SUCCESS` of `typedef.h`. -/
def SUCCESS : Int := 1

/-- State of the entry loop of `parse_ctts`: the cursor and the two arrays being filled. -/
structure CttsState where
  bitstr : Bitstream
  sample_count : List Nat
  sample_offset : List Int
  deriving DecidableEq, Repr

/-- The body of the entry loop of `parse_ctts` for entry `i`.  Both version branches of
the source are the same expression `(int64_t)read_bits(bitstr, 32)`; a version other
than 0 and 1 reads no offset and leaves the entry as `calloc` zeroed it. -/
def parse_ctts_entry (version : Nat) (i : Nat) (s : CttsState) : Except Fault CttsState := do
  let (count, bitstr) ← read_bits s.bitstr 32
  let counts ← writeAt s.sample_count i count
  if version = 0 then
    let (offset, bitstr) ← read_bits bitstr 32
    let offsets ← writeAt s.sample_offset i (offset : Int)
    pure { bitstr := bitstr, sample_count := counts, sample_offset := offsets }
  else if version = 1 then
    let (offset, bitstr) ← read_bits bitstr 32
    let offsets ← writeAt s.sample_offset i (offset : Int)
    pure { bitstr := bitstr, sample_count := counts, sample_offset := offsets }
  else
    pure { bitstr := bitstr, sample_count := counts, sample_offset := s.sample_offset }

/-- The function `parse_ctts`: version and flags of the FullBox, the entry count, the two
`calloc`ed arrays (`allocated` tells whether both allocations succeeded) and the entries.
The result is the return code, the cursor, the box header and the track. -/
def parse_ctts (allocated : Bool) (bitstr : Bitstream) (box_header : Mp4Box)
    (track : Mp4Track) : Except Fault (Int × Bitstream × Mp4Box × Mp4Track) := do
  let (version, bitstr) ← read_bits bitstr 8
  let (flags, bitstr) ← read_bits bitstr 24
  let box_header := { box_header with version := version % 256, flags := flags }
  let (entry_count, bitstr) ← read_bits bitstr 32
  if allocated then
    let s ← forLoop (parse_ctts_entry box_header.version) 0 entry_count
      { bitstr := bitstr, sample_count := List.replicate entry_count 0,
        sample_offset := List.replicate entry_count 0 }
    pure (SUCCESS, s.bitstr, box_header,
      { track with ctts_entry_count := entry_count, ctts_sample_count := some s.sample_count,
                   ctts_sample_offset := s.sample_offset })
  else
    pure (FAILURE, bitstr, box_header,
      { track with ctts_entry_count := entry_count, ctts_sample_count := none,
                   ctts_sample_offset := [] })

/-- The content of a `ctts` box with the given version byte, flags 0 and the single entry
(sample count 1, offset field `0xFFFFFFFF`). -/
def cttsContent (version : Nat) : Bitstream :=
  { bytes := [version, 0, 0, 0, 0, 0, 0, 1, 0, 0, 0, 1, 255, 255, 255, 255], position := 0 }

/-- A box header with every field 0. -/
def emptyBox : Mp4Box :=
  { offset_start := 0, offset_end := 0, size := 0, boxtype := 0, usertype := [],
    version := 0, flags := 0 }

/-! ## convertTrack, the whole function -/

/-- The function `convertTrack` together with the final state of its offset loops: the
map, `index`, `chunkOffset` and the ghost log of the chunks walked. -/
def convertTrackWalk (track : Mp4Track) (map : BitstreamMap) : Except Fault OffsetState := do
  let map ← setParameterSets track map
  let map ← setTypesAndSizes track map
  let map ← setTimecodes track map
  walkChunks track map

/-- The size of the file and the track registry of `MediaFile_t`: for each category the
bitstream maps stored so far, in order.  The counters `tracks_audio_count`,
`tracks_video_count`, `tracks_subtitles_count` and `tracks_others_count` are the lengths of
the four lists. -/
structure MediaFile where
  file_size : Int
  tracks_audio : List BitstreamMap
  tracks_video : List BitstreamMap
  tracks_subt : List BitstreamMap
  tracks_others : List BitstreamMap
  deriving DecidableEq, Repr

/-- The number of entries that `convertTrack` asks `init_bitstream_map` for: a video
track gets room for its parameter sets, every other track only for its samples. -/
def mapEntries (track : Mp4Track) : Nat :=
  match track.handlerType with
  | HandlerType.HANDLER_VIDEO =>
    u32 (track.stsz_sample_count + track.sps_count + track.pps_count)
  | _ => track.stsz_sample_count

/-- The slot of the registry selected by the handler type receives the map, and the
slot's counter is incremented. -/
def storeMap (track : Mp4Track) (media : MediaFile) (map : BitstreamMap) : MediaFile :=
  match track.handlerType with
  | HandlerType.HANDLER_AUDIO => { media with tracks_audio := media.tracks_audio ++ [map] }
  | HandlerType.HANDLER_VIDEO => { media with tracks_video := media.tracks_video ++ [map] }
  | HandlerType.HANDLER_SUBT => { media with tracks_subt := media.tracks_subt ++ [map] }
  | HandlerType.HANDLER_SBTL => { media with tracks_subt := media.tracks_subt ++ [map] }
  | HandlerType.HANDLER_TEXT => { media with tracks_subt := media.tracks_subt ++ [map] }
  | _ => { media with tracks_others := media.tracks_others ++ [map] }

/-- The "Build bitstream map" block of `convertTrack`: the entry count
`map->sample_count = stsz_sample_count + sps_count + pps_count`, then the sample passes.
(The other scalar metadata of the map are not part of the embedding.) -/
def buildBitstreamMap (track : Mp4Track) (map : BitstreamMap) : Except Fault BitstreamMap :=
  convertTrack track
    { map with
      sample_count := u32 (track.stsz_sample_count + track.sps_count + track.pps_count) }

/-- The whole function `convertTrack(media, mp4, track)`.  A NULL `media` or `track` gives
`FAILURE`; otherwise `init_bitstream_map` allocates a map in the slot that the handler
type selects, and when it succeeds the map is built in place.  The result is the return
code and the registry.  `init_bitstream_map` is not among the sources: it is the
parameter of the same name, which gives the freshly allocated map for an entry count, or
nothing when the allocation fails. -/
def convertTrack_media (init_bitstream_map : Nat → Option BitstreamMap)
    (media : Option MediaFile) (track : Option Mp4Track) :
    Except Fault (Int × Option MediaFile) :=
  match media, track with
  | some media, some track =>
    match init_bitstream_map (mapEntries track) with
    | some map =>
      match buildBitstreamMap track map with
      | .ok map => .ok (SUCCESS, some (storeMap track media map))
      | .error e => .error e
    | none => .ok (FAILURE, some media)
  | media, _ => .ok (FAILURE, media)

/-- A registry without any track. -/
def emptyMedia : MediaFile :=
  { file_size := 0, tracks_audio := [], tracks_video := [], tracks_subt := [],
    tracks_others := [] }

/-! ## jumpy_mp4 and parse_box_header -/

/-- Subtraction `a - b` of two `int64_t` values. -/
def subI64 (a b : Int) : Except Fault Int :=
  if inI64 (a - b) then .ok (a - b) else .error .overflow

/-- The conversion `(unsigned int)x` of an `int64_t` value. -/
def toU32 (x : Int) : Nat := (x % 4294967296).toNat

/-- The conversion `(int64_t)x` of an unsigned 64-bit value. -/
def toI64 (x : Nat) : Int :=
  if x % 18446744073709551616 < 9223372036854775808 then ((x % 18446744073709551616 : Nat) : Int)
  else ((x % 18446744073709551616 : Nat) : Int) - 18446744073709551616

/-- The constant `UINT_MAX` of `<limits.h>` for a 32-bit `unsigned int`. -/
def UINT_MAX : Nat := 4294967295

/-- Modelled from the spec: `current_byte_offset()`, the byte that the read position
lies in (`bitstream_get_absolute_byte_offset` of `bitstream.c`). -/
def bitstream_get_absolute_byte_offset (bitstr : Bitstream) : Int :=
  ((bitstr.position / 8 : Nat) : Int)

/-- Modelled from the spec: `total_size()`, the number of bytes of the file
(`bitstream_get_full_size` of `bitstream.c`, the field `bitstream_size`). -/
def bitstream_get_full_size (bitstr : Bitstream) : Int := (bitstr.bytes.length : Int)

/-- Modelled from the spec: `skip_bits(n)` moves the cursor `n` bits forward and returns
`SUCCESS`; it fails, leaving the cursor where it is, when that would cross the end of the
available data. -/
def skip_bits (bitstr : Bitstream) (n : Nat) : Int × Bitstream :=
  if bitstr.position + n ≤ 8 * bitstr.bytes.length then
    (SUCCESS, { bitstr with position := bitstr.position + n })
  else (FAILURE, bitstr)

/-- Modelled from the spec: `rewind_bits(n)` moves the cursor `n` bits backward and
returns `SUCCESS`; it fails, leaving the cursor where it is, when that would cross the
start of the data. -/
def rewind_bits (bitstr : Bitstream) (n : Nat) : Int × Bitstream :=
  if n ≤ bitstr.position then (SUCCESS, { bitstr with position := bitstr.position - n })
  else (FAILURE, bitstr)

/-- Modelled from the spec: `goto_byte_offset(off)` puts the cursor on the first bit of
byte `off` and returns `SUCCESS`; it fails, leaving the cursor where it is, when `off` is
not a position of the data (`bitstream_goto_offset` of `bitstream.c`). -/
def bitstream_goto_offset (bitstr : Bitstream) (n_bytes : Int) : Int × Bitstream :=
  if 0 ≤ n_bytes ∧ n_bytes ≤ (bitstr.bytes.length : Int) then
    (SUCCESS, { bitstr with position := 8 * n_bytes.toNat })
  else (FAILURE, bitstr)

/-- Modelled from the spec: `read_bits64()`, a read of up to 64 bits (`read_bits_64` of
`bitstream.c`). -/
def read_bits_64 (bitstr : Bitstream) (n : Nat) : Except Fault (Nat × Bitstream) :=
  read_bits bitstr n

/-- A call of one of the cursor's motion helpers, with its argument. -/
inductive CursorCall where
  | skip (n : Nat)
  | rewind (n : Nat)
  | seek (n_bytes : Int)
  deriving DecidableEq, Repr

/-- The value of the local variable `offset_end` of `jumpy_mp4` after the two clamping
tests: `current->offset_end`, lowered to the parent's end when there is a parent whose
end is below the file size, and to the file size otherwise. -/
def jumpTarget (parent : Option Mp4Box) (current : Mp4Box) (file_size : Int) : Int :=
  match parent with
  | some parent =>
    if parent.offset_end < file_size then
      (if current.offset_end > parent.offset_end then parent.offset_end
        else current.offset_end)
    else (if current.offset_end > file_size then file_size else current.offset_end)
  | none => if current.offset_end > file_size then file_size else current.offset_end

/-- The function `jumpy_mp4(bitstr, parent, current)`.  The result is the return code, the
cursor, and a ghost log of the calls made to `skip_bits`, `rewind_bits` and
`bitstream_goto_offset`.  The statement `bitstr->bitstream_offset = file_size` puts the
cursor of the model on the end of the file. -/
def jumpy_mp4 (bitstr : Bitstream) (parent : Option Mp4Box) (current : Mp4Box) :
    Except Fault (Int × Bitstream × List CursorCall) :=
  let current_pos := bitstream_get_absolute_byte_offset bitstr
  if current_pos ≠ current.offset_end then
    let file_size := bitstream_get_full_size bitstr
    let offset_end := jumpTarget parent current file_size
    if offset_end ≥ file_size then
      .ok (SUCCESS, { bitstr with position := 8 * file_size.toNat }, [])
    else if current_pos < offset_end then do
      let jump ← subI64 offset_end current_pos
      if jump < ((UINT_MAX / 8 : Nat) : Int) then do
        let bits ← mulI64 jump 8
        let moved := skip_bits bitstr (toU32 bits)
        pure (moved.1, moved.2, [CursorCall.skip (toU32 bits)])
      else
        let moved := bitstream_goto_offset bitstr offset_end
        pure (moved.1, moved.2, [CursorCall.seek offset_end])
    else do
      let rewind ← subI64 current_pos offset_end
      if rewind > 0 then
        if rewind > ((UINT_MAX / 8 : Nat) : Int) then do
          let bits ← mulI64 rewind 8
          let moved := rewind_bits bitstr (toU32 bits)
          pure (moved.1, moved.2, [CursorCall.rewind (toU32 bits)])
        else
          let moved := bitstream_goto_offset bitstr offset_end
          pure (moved.1, moved.2, [CursorCall.seek offset_end])
      else pure (FAILURE, bitstr, [])
  else .ok (FAILURE, bitstr, [])

/-- The size of a box as `parse_box_header` settles it from the 32-bit size field: the
rest of the file for 0, the 64-bit field that follows the type for 1, the field itself
otherwise. -/
def boxSize (bitstr : Bitstream) (offset_start : Int) (size : Nat) :
    Except Fault (Int × Bitstream) :=
  if size = 0 then do
    let rest ← subI64 (bitstr.bytes.length : Int) offset_start
    pure (rest, bitstr)
  else if size = 1 then do
    let (large, bitstr) ← read_bits_64 bitstr 64
    pure (toI64 large, bitstr)
  else pure ((size : Int), bitstr)

/-- State of the loop of `parse_box_header` that reads the extended type. -/
structure UsertypeState where
  bitstr : Bitstream
  usertype : List Nat
  deriving DecidableEq, Repr

/-- The body of the loop over the 16 bytes of the extended type:
`usertype[i] = (uint8_t)read_bits(bitstr, 8)`.  The array is the 16-byte member of the
box header, of which the loop writes every element in order. -/
def readUsertype (_i : Nat) (s : UsertypeState) : Except Fault UsertypeState := do
  let (byte, bitstr) ← read_bits s.bitstr 8
  pure { bitstr := bitstr, usertype := s.usertype ++ [byte % 256] }

/-- The extended type of the box: read when the type is `BOX_UUID`, left alone
otherwise. -/
def boxUsertype (BOX_UUID : Nat) (bitstr : Bitstream) (boxtype : Nat) (usertype : List Nat) :
    Except Fault UsertypeState :=
  if boxtype = BOX_UUID then forLoop readUsertype 0 16 { bitstr := bitstr, usertype := [] }
  else pure { bitstr := bitstr, usertype := usertype }

/-- The function `parse_box_header(bitstr, box_header)`; `box_header` is `none` for a NULL
pointer.  `BOX_UUID` is the type code of `mp4_box.h`, which is not among the sources.  The
result is the return code, the cursor and the header. -/
def parse_box_header (BOX_UUID : Nat) (bitstr : Bitstream) (box_header : Option Mp4Box) :
    Except Fault (Int × Bitstream × Option Mp4Box) :=
  match box_header with
  | none => .ok (FAILURE, bitstr, none)
  | some box_header => do
    let offset_start := bitstream_get_absolute_byte_offset bitstr
    let (size, bitstr) ← read_bits bitstr 32
    let (boxtype, bitstr) ← read_bits bitstr 32
    let (size, bitstr) ← boxSize bitstr offset_start size
    let offset_end ← addI64 offset_start size
    let s ← boxUsertype BOX_UUID bitstr boxtype box_header.usertype
    pure (SUCCESS, s.bitstr,
      some { offset_start := offset_start, offset_end := offset_end, size := size,
             boxtype := boxtype, usertype := s.usertype, version := 0, flags := 0 })

/-! ## The box tree walk -/

/-- The loop `while (cond) body`, run for at most `fuel` iterations: the state in which
the condition fails, or `none` when the loop is still running after `fuel` iterations (a
body that is still running itself gives `none` as well). -/
def whileLoop {σ : Type} (cond : σ → Bool) (body : σ → Except Fault (Option σ)) :
    Nat → σ → Except Fault (Option σ)
  | 0, s => if cond s then .ok none else .ok (some s)
  | fuel + 1, s =>
    if cond s then
      match body s with
      | .ok (some s') => whileLoop cond body fuel s'
      | .ok none => .ok none
      | .error e => .error e
    else .ok (some s)

/-- The function `parse_unknown_box(bitstr, box_header)`: its body is `return SUCCESS;`
(with `ENABLE_DEBUG` it also prints the header).  The result is the return code and the
cursor. -/
def parse_unknown_box (bitstr : Bitstream) (_box_header : Mp4Box) : Int × Bitstream :=
  (SUCCESS, bitstr)

/-- The function `parse_mdat(bitstr, box_header)`: it prints the header and returns
`SUCCESS`. -/
def parse_mdat (bitstr : Bitstream) (_box_header : Mp4Box) : Int × Bitstream :=
  (SUCCESS, bitstr)

/-- The constants of the headers `mp4_box.h`, `mp4_struct.h` and `fourcc.h`, which are not
among the sources: the box type codes, the sample-entry type tags that `parse_stsd`
tests, the two colour types that `parse_colr` tests, and `handlerOf`, which tells which of
the constants `HANDLER_*` a 32-bit handler code is. -/
structure Mp4Codes where
  BOX_FTYP : Nat
  BOX_PDIN : Nat
  BOX_UDTA : Nat
  BOX_SIDX : Nat
  BOX_MOOV : Nat
  BOX_MOOF : Nat
  BOX_MDAT : Nat
  BOX_FREE : Nat
  BOX_UUID : Nat
  BOX_MVHD : Nat
  BOX_IODS : Nat
  BOX_TRAK : Nat
  BOX_TKHD : Nat
  BOX_EDTS : Nat
  BOX_MDIA : Nat
  BOX_MDHD : Nat
  BOX_HDLR : Nat
  BOX_MINF : Nat
  BOX_DINF : Nat
  BOX_STBL : Nat
  BOX_STSD : Nat
  BOX_STTS : Nat
  BOX_CTTS : Nat
  BOX_STSS : Nat
  BOX_STSC : Nat
  BOX_STSZ : Nat
  BOX_STZ2 : Nat
  BOX_STCO : Nat
  BOX_CO64 : Nat
  BOX_AVCC : Nat
  BOX_BTRT : Nat
  BOX_CLAP : Nat
  BOX_COLR : Nat
  BOX_FIEL : Nat
  BOX_GAMA : Nat
  BOX_PASP : Nat
  fcc_mp4a : Nat
  fcc_AC3 : Nat
  fcc_ac3 : Nat
  fcc_AC4 : Nat
  fcc_ac4 : Nat
  fcc_sowt : Nat
  fcc_avc1 : Nat
  fcc_hvc1 : Nat
  fcc_mp4v : Nat
  fcc_CFHD : Nat
  nclc : Nat
  nclx : Nat
  handlerOf : Nat → HandlerType

/-- State of a tree-walk loop: the return code, the cursor, the structure that the
content parsers fill (`acc`), and a ghost log of the boxes that `jumpy_mp4` has been
invoked for, in order. -/
structure Walk (σ : Type) where
  retcode : Int
  bitstr : Bitstream
  acc : σ
  resynced : List Mp4Box

/-- The second condition that `parse_minf` puts on the content of a box: the cursor is
still before the end of the enclosing box.  The other loops have no such condition
(`guard = none`). -/
def insideGuard (guard : Option Int) (bitstr : Bitstream) : Bool :=
  match guard with
  | none => true
  | some bound => decide (bitstream_get_absolute_byte_offset bitstr < bound)

/-- The body shared by the tree-walk loops of `mp4.c`:
`retcode = parse_box_header(bitstr, &box_subheader); if (retcode == SUCCESS)
{ switch (box_subheader.boxtype) { ... } jumpy_mp4(bitstr, parent, &box_subheader); }`.
`dispatch` is the `switch`, which sets `retcode`; the value that `jumpy_mp4` returns is
dropped.  The local `box_subheader` is not initialized; the model starts it as
`emptyBox`. -/
def walkStep {σ : Type} (codes : Mp4Codes)
    (dispatch : Bitstream → Mp4Box → σ → Except Fault (Option (Int × Bitstream × σ)))
    (parent : Option Mp4Box) (guard : Option Int) (w : Walk σ) :
    Except Fault (Option (Walk σ)) := do
  let (retcode, bitstr, header) ← parse_box_header codes.BOX_UUID w.bitstr (some emptyBox)
  match header with
  | some box_subheader =>
    if retcode = SUCCESS ∧ insideGuard guard bitstr = true then
      match dispatch bitstr box_subheader w.acc with
      | .ok (some (retcode, bitstr, acc)) => do
        let moved ← jumpy_mp4 bitstr parent box_subheader
        pure (some { retcode := retcode, bitstr := moved.2.1, acc := acc,
                     resynced := w.resynced ++ [box_subheader] })
      | .ok none => .ok none
      | .error e => .error e
    else pure (some { w with retcode := retcode, bitstr := bitstr })
  | none => pure (some { w with retcode := retcode, bitstr := bitstr })

/-- The condition of a tree-walk loop: `running` (the flag `mp4->run`, where the loop
tests it), `retcode == SUCCESS` and the cursor before `bound`. -/
def walkCond {σ : Type} (running : σ → Bool) (bound : Int) (w : Walk σ) : Bool :=
  running w.acc && decide (w.retcode = SUCCESS) &&
    decide (bitstream_get_absolute_byte_offset w.bitstr < bound)

/-- A tree-walk loop: `while (running && retcode == SUCCESS && offset < bound)` around
the shared body, for at most `fuel` iterations. -/
def treeWalk {σ : Type} (codes : Mp4Codes)
    (dispatch : Bitstream → Mp4Box → σ → Except Fault (Option (Int × Bitstream × σ)))
    (parent : Option Mp4Box) (guard : Option Int) (running : σ → Bool) (bound : Int)
    (fuel : Nat) (w : Walk σ) : Except Fault (Option (Walk σ)) :=
  whileLoop (walkCond running bound) (walkStep codes dispatch parent guard) fuel w

/-! ## The content parsers of the box tree -/

/-- Codec identifier `CODEC_UNKNOWN` of `avcodecs.h`. -/
def CODEC_UNKNOWN : Nat := 0
/-- Codec identifier `CODEC_AAC` of `avcodecs.h`. -/
def CODEC_AAC : Nat := 4
/-- Codec identifier `CODEC_AC3` of `avcodecs.h`. -/
def CODEC_AC3 : Nat := 35
/-- Codec identifier `CODEC_AC4` of `avcodecs.h`. -/
def CODEC_AC4 : Nat := 40
/-- Codec identifier `CODEC_MPEG4_ASP` of `avcodecs.h`. -/
def CODEC_MPEG4_ASP : Nat := 259
/-- Codec identifier `CODEC_VC5` of `avcodecs.h`. -/
def CODEC_VC5 : Nat := 281

/-- The conversion `(int)x` of an `int64_t` value to a 32-bit `int` (reduction modulo
`2^32`, as gcc and clang define it). -/
def toI32 (x : Int) : Int := (x + 2147483648) % 4294967296 - 2147483648

/-- The structure `Mp4_t` as the tree walk uses it: the flag `run` and the tracks
registered so far (`tracks_count` is the length of the list).  The array `tracks` of the
source has a fixed capacity, declared in `mp4_struct.h`, which is not among the sources:
the capacity is not part of the embedding. -/
structure Mp4 where
  run : Bool
  tracks : List Mp4Track
  deriving DecidableEq, Repr

/-- What the tree walk takes from outside.
`next_bits`, `init_bitstream_map` and `calloc` are not among the sources: `next_bits` is
the function of `bitstream.c` of that name, `calloc_track` and `calloc_ctts` tell whether
the allocations of `parse_trak` and of `parse_ctts` succeed when the cursor stands where it
does at the call, `init_bitstream_map` gives the freshly allocated map for an entry count.
The other fields stand for the content parsers of `mp4.c` of the same names, which read
the content of one box into the movie or the track: each is a function from the cursor,
the box header and the structure to the return code, the cursor and the structure (of
`parse_edts`, which contains a loop, possibly `none`). -/
structure Mp4Env where
  next_bits : Bitstream → Nat → Nat
  calloc_track : Bitstream → Bool
  calloc_ctts : Bitstream → Bool
  init_bitstream_map : Nat → Option BitstreamMap
  parse_ftyp : Bitstream → Mp4Box → Mp4 → Except Fault (Int × Bitstream × Mp4)
  parse_pdin : Bitstream → Mp4Box → Mp4 → Except Fault (Int × Bitstream × Mp4)
  parse_mvhd : Bitstream → Mp4Box → Mp4 → Except Fault (Int × Bitstream × Mp4)
  parse_iods : Bitstream → Mp4Box → Except Fault (Int × Bitstream)
  parse_tkhd : Bitstream → Mp4Box → Mp4Track → Except Fault (Int × Bitstream × Mp4Track)
  parse_edts : Bitstream → Mp4Box → Mp4Track →
    Except Fault (Option (Int × Bitstream × Mp4Track))
  parse_mdhd : Bitstream → Mp4Box → Mp4Track → Except Fault (Int × Bitstream × Mp4Track)
  parse_stts : Bitstream → Mp4Box → Mp4Track → Except Fault (Int × Bitstream × Mp4Track)
  parse_stss : Bitstream → Mp4Box → Mp4Track → Except Fault (Int × Bitstream × Mp4Track)
  parse_stsc : Bitstream → Mp4Box → Mp4Track → Except Fault (Int × Bitstream × Mp4Track)
  parse_stsz : Bitstream → Mp4Box → Mp4Track → Except Fault (Int × Bitstream × Mp4Track)
  parse_stco : Bitstream → Mp4Box → Mp4Track → Except Fault (Int × Bitstream × Mp4Track)

/-- One iteration of a loop `x[i] = read_bits(bitstr, 8)` whose values the embedding does
not keep. -/
def readByte (_i : Nat) (bitstr : Bitstream) : Except Fault Bitstream := do
  let (_, bitstr) ← read_bits bitstr 8
  pure bitstr

/-- State of the loop of `parse_hdlr` that stores the name. -/
structure NameState where
  bitstr : Bitstream
  name : List Nat
  deriving DecidableEq, Repr

/-- The body of the name loop of `parse_hdlr`: `track->name[i] = read_bits(bitstr, 8)`. -/
def hdlrNameByte (_i : Nat) (s : NameState) : Except Fault NameState := do
  let (byte, bitstr) ← read_bits s.bitstr 8
  pure { bitstr := bitstr, name := s.name ++ [byte] }

/-- The block `if (bytes_left > 0) { ... }` of `parse_hdlr`.  The statement
`bytes_left == namesize;` of the source is a comparison whose value is dropped:
`bytes_left` keeps its value.  The value that `skip_bits` returns is dropped as well. -/
def hdlrName (next_bits : Bitstream → Nat → Nat) (bitstr : Bitstream) (bytes_left : Int)
    (track : Mp4Track) : Except Fault (Bitstream × Mp4Track) :=
  if bytes_left > 0 then
    let namesize : Int := toI32 (next_bits bitstr 8 : Nat)
    let bitstr := if bytes_left = namesize + 1 then (skip_bits bitstr 8).2 else bitstr
    let bytes_left := if bytes_left > 128 then 128 else bytes_left
    match forLoop hdlrNameByte 0 bytes_left.toNat { bitstr := bitstr, name := [] } with
    | .ok s => .ok (s.bitstr, { track with name := s.name })
    | .error e => .error e
  else .ok (bitstr, track)

/-- The function `parse_hdlr(bitstr, box_header, track)`.  The result is the return code,
the cursor, the box header and the track. -/
def parse_hdlr (codes : Mp4Codes) (next_bits : Bitstream → Nat → Nat) (bitstr : Bitstream)
    (box_header : Mp4Box) (track : Mp4Track) :
    Except Fault (Int × Bitstream × Mp4Box × Mp4Track) := do
  let (version, bitstr) ← read_bits bitstr 8
  let (flags, bitstr) ← read_bits bitstr 24
  let box_header := { box_header with version := version % 256, flags := flags }
  let (_, bitstr) ← read_bits bitstr 32
  let (handlerType, bitstr) ← read_bits bitstr 32
  let track := { track with handlerType := codes.handlerOf handlerType }
  let (_, bitstr) ← read_bits bitstr 32
  let (_, bitstr) ← read_bits bitstr 32
  let (_, bitstr) ← read_bits bitstr 32
  let difference ← subI64 box_header.size 32
  let (bitstr, track) ← hdlrName next_bits bitstr (toI32 difference) track
  pure (SUCCESS, bitstr, box_header, track)

/-- State of the parameter-set loops of `parse_avcC`: the cursor and the two arrays being
filled. -/
structure ParamSetState where
  bitstr : Bitstream
  sample_size : List Nat
  sample_offset : List Int
  deriving DecidableEq, Repr

/-- The body of the two parameter-set loops of `parse_avcC`: the 16-bit size, the byte
offset of the cursor behind it, and `skip_bits(bitstr, size * 8)`, whose return value is
dropped. -/
def avcCParamSet (i : Nat) (s : ParamSetState) : Except Fault ParamSetState := do
  let (size, bitstr) ← read_bits s.bitstr 16
  let sizes ← writeAt s.sample_size i size
  let offsets ← writeAt s.sample_offset i (bitstream_get_absolute_byte_offset bitstr)
  pure { bitstr := (skip_bits bitstr (u32 (size * 8))).2, sample_size := sizes,
         sample_offset := offsets }

/-- The function `parse_avcC(bitstr, box_header, track)`.  The four arrays come from
`calloc`, whose result the source does not test: the embedding is of the executions in
which the allocations succeed. -/
def parse_avcC (bitstr : Bitstream) (_box_header : Mp4Box) (track : Mp4Track) :
    Except Fault (Int × Bitstream × Mp4Track) := do
  let track := { track with codec := CODEC_H264 }
  let (_, bitstr) ← read_bits bitstr 8
  let (_, bitstr) ← read_bits bitstr 8
  let (_, bitstr) ← read_bits bitstr 8
  let (_, bitstr) ← read_bits bitstr 8
  let (_, bitstr) ← read_bits bitstr 6
  let (_, bitstr) ← read_bits bitstr 2
  let (_, bitstr) ← read_bits bitstr 3
  let (sps_count, bitstr) ← read_bits bitstr 5
  let sps ← forLoop avcCParamSet 0 sps_count
    { bitstr := bitstr, sample_size := List.replicate sps_count 0,
      sample_offset := List.replicate sps_count 0 }
  let (pps_count, bitstr) ← read_bits sps.bitstr 8
  let pps ← forLoop avcCParamSet 0 pps_count
    { bitstr := bitstr, sample_size := List.replicate pps_count 0,
      sample_offset := List.replicate pps_count 0 }
  pure (SUCCESS, pps.bitstr,
    { track with sps_count := sps_count, sps_sample_offset := sps.sample_offset,
                 sps_sample_size := sps.sample_size, pps_count := pps_count,
                 pps_sample_offset := pps.sample_offset,
                 pps_sample_size := pps.sample_size })

/-- The function `parse_btrt`: three 32-bit reads. -/
def parse_btrt (bitstr : Bitstream) (_box_header : Mp4Box) (track : Mp4Track) :
    Except Fault (Int × Bitstream × Mp4Track) := do
  let (_, bitstr) ← read_bits bitstr 32
  let (_, bitstr) ← read_bits bitstr 32
  let (_, bitstr) ← read_bits bitstr 32
  pure (SUCCESS, bitstr, track)

/-- The function `parse_clap`: eight 32-bit reads. -/
def parse_clap (bitstr : Bitstream) (_box_header : Mp4Box) (track : Mp4Track) :
    Except Fault (Int × Bitstream × Mp4Track) := do
  let (_, bitstr) ← read_bits bitstr 32
  let (_, bitstr) ← read_bits bitstr 32
  let (_, bitstr) ← read_bits bitstr 32
  let (_, bitstr) ← read_bits bitstr 32
  let (_, bitstr) ← read_bits bitstr 32
  let (_, bitstr) ← read_bits bitstr 32
  let (_, bitstr) ← read_bits bitstr 32
  let (_, bitstr) ← read_bits bitstr 32
  pure (SUCCESS, bitstr, track)

/-- The function `parse_colr`: the colour type, and four 16-bit reads when it is `nclc`
or `nclx`. -/
def parse_colr (codes : Mp4Codes) (bitstr : Bitstream) (_box_header : Mp4Box)
    (track : Mp4Track) : Except Fault (Int × Bitstream × Mp4Track) := do
  let (colour_type, bitstr) ← read_bits bitstr 32
  if colour_type = codes.nclc ∨ colour_type = codes.nclx then
    let (_, bitstr) ← read_bits bitstr 16
    let (_, bitstr) ← read_bits bitstr 16
    let (_, bitstr) ← read_bits bitstr 16
    let (_, bitstr) ← read_bits bitstr 16
    pure (SUCCESS, bitstr, track)
  else pure (SUCCESS, bitstr, track)

/-- The function `parse_fiel`, whose body is `return SUCCESS`. -/
def parse_fiel (bitstr : Bitstream) (_box_header : Mp4Box) (track : Mp4Track) :
    Except Fault (Int × Bitstream × Mp4Track) := pure (SUCCESS, bitstr, track)

/-- The function `parse_gama`, whose body is `return SUCCESS`. -/
def parse_gama (bitstr : Bitstream) (_box_header : Mp4Box) (track : Mp4Track) :
    Except Fault (Int × Bitstream × Mp4Track) := pure (SUCCESS, bitstr, track)

/-- The function `parse_pasp`: two 32-bit reads. -/
def parse_pasp (bitstr : Bitstream) (_box_header : Mp4Box) (track : Mp4Track) :
    Except Fault (Int × Bitstream × Mp4Track) := do
  let (_, bitstr) ← read_bits bitstr 32
  let (_, bitstr) ← read_bits bitstr 32
  pure (SUCCESS, bitstr, track)

/-- A content parser that cannot be still running, as the body of a tree-walk loop takes
it. -/
def returned {α : Type} (x : Except Fault α) : Except Fault (Option α) :=
  match x with
  | .ok a => .ok (some a)
  | .error e => .error e

/-- A call `retcode = parse_unknown_box(bitstr, &box)` inside a `switch`: the structure
that the loop fills is not passed. -/
def unknownBox {σ : Type} (bitstr : Bitstream) (box_header : Mp4Box) (acc : σ) :
    Except Fault (Option (Int × Bitstream × σ)) :=
  .ok (some ((parse_unknown_box bitstr box_header).1, (parse_unknown_box bitstr box_header).2,
    acc))

/-- The `switch (box_subsubheader.boxtype)` of `parse_stsd`. -/
def stsdDispatch (codes : Mp4Codes) (bitstr : Bitstream) (box : Mp4Box) (track : Mp4Track) :
    Except Fault (Option (Int × Bitstream × Mp4Track)) :=
  if box.boxtype = codes.BOX_AVCC then returned (parse_avcC bitstr box track)
  else if box.boxtype = codes.BOX_BTRT then returned (parse_btrt bitstr box track)
  else if box.boxtype = codes.BOX_CLAP then returned (parse_clap bitstr box track)
  else if box.boxtype = codes.BOX_COLR then returned (parse_colr codes bitstr box track)
  else if box.boxtype = codes.BOX_FIEL then returned (parse_fiel bitstr box track)
  else if box.boxtype = codes.BOX_GAMA then returned (parse_gama bitstr box track)
  else if box.boxtype = codes.BOX_PASP then returned (parse_pasp bitstr box track)
  else unknownBox bitstr box track

/-- The codec that the `HANDLER_AUDIO` branch of `parse_stsd` stores for the type of the
sample entry. -/
def stsdAudioCodec (codes : Mp4Codes) (boxtype : Nat) : Nat :=
  if boxtype = codes.fcc_mp4a then CODEC_AAC
  else if boxtype = codes.fcc_AC3 ∨ boxtype = codes.fcc_ac3 then CODEC_AC3
  else if boxtype = codes.fcc_AC4 ∨ boxtype = codes.fcc_ac4 then CODEC_AC4
  else if boxtype = codes.fcc_sowt then CODEC_LPCM
  else CODEC_UNKNOWN

/-- The codec that the `HANDLER_VIDEO` branch of `parse_stsd` stores for the type of the
sample entry, before it walks the boxes inside the entry. -/
def stsdVideoCodec (codes : Mp4Codes) (boxtype : Nat) : Nat :=
  if boxtype = codes.fcc_avc1 then CODEC_H264
  else if boxtype = codes.fcc_hvc1 then CODEC_H265
  else if boxtype = codes.fcc_mp4v then CODEC_MPEG4_ASP
  else if boxtype = codes.fcc_CFHD then CODEC_VC5
  else CODEC_UNKNOWN

/-- The `HANDLER_AUDIO` branch of `parse_stsd`: the codec and the `AudioSampleEntry`
fields. -/
def stsdAudioEntry (codes : Mp4Codes) (bitstr : Bitstream) (box_subheader : Mp4Box)
    (track : Mp4Track) : Except Fault (Bitstream × Mp4Track) := do
  let track := { track with codec := stsdAudioCodec codes box_subheader.boxtype }
  let (_, bitstr) ← read_bits bitstr 32
  let (_, bitstr) ← read_bits bitstr 32
  let (channel_count, bitstr) ← read_bits bitstr 16
  let (sample_size_bits, bitstr) ← read_bits bitstr 16
  let (_, bitstr) ← read_bits bitstr 16
  let (_, bitstr) ← read_bits bitstr 16
  let (_, bitstr) ← read_bits bitstr 16
  pure (bitstr, { track with channel_count := channel_count,
                             sample_size_bits := sample_size_bits })

/-- The `HANDLER_VIDEO` branch of `parse_stsd` up to its loop: the codec and the
`VisualSampleEntry` fields.  The array `compressorname` is declared in `mp4_struct.h`,
which is not among the sources: its bytes are read and not kept, and the store
`compressorname[compressorsize] = 0` is not part of the embedding. -/
def stsdVideoEntry (codes : Mp4Codes) (bitstr : Bitstream) (box_subheader : Mp4Box)
    (track : Mp4Track) : Except Fault (Bitstream × Mp4Track) := do
  let track := { track with codec := stsdVideoCodec codes box_subheader.boxtype }
  let (_, bitstr) ← read_bits bitstr 16
  let (_, bitstr) ← read_bits bitstr 16
  let (_, bitstr) ← read_bits bitstr 32
  let (_, bitstr) ← read_bits bitstr 32
  let (_, bitstr) ← read_bits bitstr 32
  let (_, bitstr) ← read_bits bitstr 16
  let (_, bitstr) ← read_bits bitstr 16
  let (_, bitstr) ← read_bits bitstr 32
  let (_, bitstr) ← read_bits bitstr 32
  let (_, bitstr) ← read_bits bitstr 32
  let (_, bitstr) ← read_bits bitstr 16
  let (_, bitstr) ← read_bits bitstr 8
  let bitstr ← forLoop readByte 0 31 bitstr
  let (_, bitstr) ← read_bits bitstr 16
  let (_, bitstr) ← read_bits bitstr 16
  pure (bitstr, track)

/-- The part of `parse_stsd` in front of `switch (track->handlerType)`: the reserved
bytes, the header of the sample entry, the FullBox fields, the entry count, and
`track->fcc = box_subheader.boxtype`.  The result is the return code of
`parse_box_header`, the cursor, the two headers and the track. -/
def stsdHead (codes : Mp4Codes) (bitstr : Bitstream) (box_header : Mp4Box)
    (track : Mp4Track) : Except Fault (Int × Bitstream × Mp4Box × Mp4Box × Mp4Track) := do
  let bitstr ← forLoop readByte 0 6 bitstr
  let (_, bitstr) ← read_bits bitstr 16
  let (retcode, bitstr, header) ← parse_box_header codes.BOX_UUID bitstr (some emptyBox)
  let box_subheader := header.getD emptyBox
  let (version, bitstr) ← read_bits bitstr 8
  let (flags, bitstr) ← read_bits bitstr 24
  let box_header := { box_header with version := version % 256, flags := flags }
  let (_, bitstr) ← read_bits bitstr 32
  pure (retcode, bitstr, box_header, box_subheader,
    { track with fcc := box_subheader.boxtype })

/-- The function `parse_stsd(bitstr, box_header, track)`.  The result is the return code,
the cursor, the box header, the track and a ghost log of the boxes inside the sample
entry that `jumpy_mp4` has been invoked for. -/
def parse_stsd (codes : Mp4Codes) (fuel : Nat) (bitstr : Bitstream) (box_header : Mp4Box)
    (track : Mp4Track) :
    Except Fault (Option (Int × Bitstream × Mp4Box × Mp4Track × List Mp4Box)) :=
  match stsdHead codes bitstr box_header track with
  | .error e => .error e
  | .ok (retcode, bitstr, box_header, box_subheader, track) =>
    match track.handlerType with
    | HandlerType.HANDLER_AUDIO =>
      match stsdAudioEntry codes bitstr box_subheader track with
      | .ok (bitstr, track) => .ok (some (retcode, bitstr, box_header, track, []))
      | .error e => .error e
    | HandlerType.HANDLER_VIDEO =>
      match stsdVideoEntry codes bitstr box_subheader track with
      | .ok (bitstr, track) =>
        match treeWalk codes (stsdDispatch codes) (some box_subheader) none (fun _ => true)
            box_subheader.offset_end fuel
            { retcode := retcode, bitstr := bitstr, acc := track, resynced := [] } with
        | .ok (some w) => .ok (some (w.retcode, w.bitstr, box_header, w.acc, w.resynced))
        | .ok none => .ok none
        | .error e => .error e
      | .error e => .error e
    | _ => .ok (some (retcode, bitstr, box_header, track, []))

/-! ## The tree-walk loops of the box tree -/

/-- A content parser that updates its box header: the loop does not use the header
again, apart from `offset_end`, which no content parser writes. -/
def withoutBox {σ : Type} (x : Except Fault (Int × Bitstream × Mp4Box × σ)) :
    Except Fault (Option (Int × Bitstream × σ)) :=
  match x with
  | .ok (retcode, bitstr, _, acc) => .ok (some (retcode, bitstr, acc))
  | .error e => .error e

/-- What a tree-walk function returns: the return code, with the cursor and the structure
as the loop leaves them. -/
def walkResult {σ : Type} (x : Except Fault (Option (Walk σ))) :
    Except Fault (Option (Int × Bitstream × σ)) :=
  match x with
  | .ok (some w) => .ok (some (w.retcode, w.bitstr, w.acc))
  | .ok none => .ok none
  | .error e => .error e

/-- The `switch` of `parse_stbl`. -/
def stblDispatch (codes : Mp4Codes) (env : Mp4Env) (fuel : Nat) (bitstr : Bitstream)
    (box : Mp4Box) (track : Mp4Track) : Except Fault (Option (Int × Bitstream × Mp4Track)) :=
  if box.boxtype = codes.BOX_STSD then
    match parse_stsd codes fuel bitstr box track with
    | .ok (some (retcode, bitstr, _, track, _)) => .ok (some (retcode, bitstr, track))
    | .ok none => .ok none
    | .error e => .error e
  else if box.boxtype = codes.BOX_STTS then returned (env.parse_stts bitstr box track)
  else if box.boxtype = codes.BOX_CTTS then
    withoutBox (parse_ctts (env.calloc_ctts bitstr) bitstr box track)
  else if box.boxtype = codes.BOX_STSS then returned (env.parse_stss bitstr box track)
  else if box.boxtype = codes.BOX_STSC then returned (env.parse_stsc bitstr box track)
  else if box.boxtype = codes.BOX_STSZ then returned (env.parse_stsz bitstr box track)
  else if box.boxtype = codes.BOX_STZ2 then returned (env.parse_stsz bitstr box track)
  else if box.boxtype = codes.BOX_STCO then returned (env.parse_stco bitstr box track)
  else if box.boxtype = codes.BOX_CO64 then returned (env.parse_stco bitstr box track)
  else unknownBox bitstr box track

/-- The loop of `parse_stbl`, with its final state. -/
def stblWalk (codes : Mp4Codes) (env : Mp4Env) (fuel : Nat) (bitstr : Bitstream)
    (box_header : Mp4Box) (track : Mp4Track) : Except Fault (Option (Walk Mp4Track)) :=
  treeWalk codes (stblDispatch codes env fuel) (some box_header) none (fun _ => true)
    box_header.offset_end fuel
    { retcode := SUCCESS, bitstr := bitstr, acc := track, resynced := [] }

/-- The function `parse_stbl(bitstr, box_header, track)`. -/
def parse_stbl (codes : Mp4Codes) (env : Mp4Env) (fuel : Nat) (bitstr : Bitstream)
    (box_header : Mp4Box) (track : Mp4Track) :
    Except Fault (Option (Int × Bitstream × Mp4Track)) :=
  walkResult (stblWalk codes env fuel bitstr box_header track)

/-- The `switch` of `parse_minf`. -/
def minfDispatch (codes : Mp4Codes) (env : Mp4Env) (fuel : Nat) (bitstr : Bitstream)
    (box : Mp4Box) (track : Mp4Track) : Except Fault (Option (Int × Bitstream × Mp4Track)) :=
  if box.boxtype = codes.BOX_DINF then unknownBox bitstr box track
  else if box.boxtype = codes.BOX_STBL then parse_stbl codes env fuel bitstr box track
  else unknownBox bitstr box track

/-- The loop of `parse_minf`, with its final state.  It is the one loop that tests the
cursor against the end of the enclosing box a second time, behind `parse_box_header`. -/
def minfWalk (codes : Mp4Codes) (env : Mp4Env) (fuel : Nat) (bitstr : Bitstream)
    (box_header : Mp4Box) (track : Mp4Track) : Except Fault (Option (Walk Mp4Track)) :=
  treeWalk codes (minfDispatch codes env fuel) (some box_header)
    (some box_header.offset_end) (fun _ => true) box_header.offset_end fuel
    { retcode := SUCCESS, bitstr := bitstr, acc := track, resynced := [] }

/-- The function `parse_minf(bitstr, box_header, track)`. -/
def parse_minf (codes : Mp4Codes) (env : Mp4Env) (fuel : Nat) (bitstr : Bitstream)
    (box_header : Mp4Box) (track : Mp4Track) :
    Except Fault (Option (Int × Bitstream × Mp4Track)) :=
  walkResult (minfWalk codes env fuel bitstr box_header track)

/-- The `switch` of `parse_mdia`. -/
def mdiaDispatch (codes : Mp4Codes) (env : Mp4Env) (fuel : Nat) (bitstr : Bitstream)
    (box : Mp4Box) (track : Mp4Track) : Except Fault (Option (Int × Bitstream × Mp4Track)) :=
  if box.boxtype = codes.BOX_MDHD then returned (env.parse_mdhd bitstr box track)
  else if box.boxtype = codes.BOX_HDLR then
    withoutBox (parse_hdlr codes env.next_bits bitstr box track)
  else if box.boxtype = codes.BOX_MINF then parse_minf codes env fuel bitstr box track
  else unknownBox bitstr box track

/-- The loop of `parse_mdia`, with its final state. -/
def mdiaWalk (codes : Mp4Codes) (env : Mp4Env) (fuel : Nat) (bitstr : Bitstream)
    (box_header : Mp4Box) (track : Mp4Track) : Except Fault (Option (Walk Mp4Track)) :=
  treeWalk codes (mdiaDispatch codes env fuel) (some box_header) none (fun _ => true)
    box_header.offset_end fuel
    { retcode := SUCCESS, bitstr := bitstr, acc := track, resynced := [] }

/-- The function `parse_mdia(bitstr, box_header, track)`. -/
def parse_mdia (codes : Mp4Codes) (env : Mp4Env) (fuel : Nat) (bitstr : Bitstream)
    (box_header : Mp4Box) (track : Mp4Track) :
    Except Fault (Option (Int × Bitstream × Mp4Track)) :=
  walkResult (mdiaWalk codes env fuel bitstr box_header track)

/-- A track as `calloc` hands it to `parse_trak`: every field 0. -/
def zeroTrack (codes : Mp4Codes) : Mp4Track :=
  { emptyTrack with handlerType := codes.handlerOf 0 }

/-- A content parser applied to `mp4->tracks[track_id]`. -/
def onTrack (mp4 : Mp4) (track_id : Nat)
    (f : Mp4Track → Except Fault (Option (Int × Bitstream × Mp4Track))) :
    Except Fault (Option (Int × Bitstream × Mp4)) :=
  match mp4.tracks[track_id]? with
  | none => .error .outOfBounds
  | some track =>
    match f track with
    | .ok (some (retcode, bitstr, track)) =>
      .ok (some (retcode, bitstr, { mp4 with tracks := mp4.tracks.set track_id track }))
    | .ok none => .ok none
    | .error e => .error e

/-- The `switch` of `parse_trak`. -/
def trakDispatch (codes : Mp4Codes) (env : Mp4Env) (fuel : Nat) (track_id : Nat)
    (bitstr : Bitstream) (box : Mp4Box) (mp4 : Mp4) :
    Except Fault (Option (Int × Bitstream × Mp4)) :=
  if box.boxtype = codes.BOX_TKHD then
    onTrack mp4 track_id (fun track => returned (env.parse_tkhd bitstr box track))
  else if box.boxtype = codes.BOX_EDTS then
    onTrack mp4 track_id (fun track => env.parse_edts bitstr box track)
  else if box.boxtype = codes.BOX_MDIA then
    onTrack mp4 track_id (fun track => parse_mdia codes env fuel bitstr box track)
  else unknownBox bitstr box mp4

/-- The loop of `parse_trak`, with its final state: the track is allocated and
registered, or the return code is `FAILURE` before the loop. -/
def trakWalk (codes : Mp4Codes) (env : Mp4Env) (fuel : Nat) (bitstr : Bitstream)
    (box_header : Mp4Box) (mp4 : Mp4) : Except Fault (Option (Walk Mp4)) :=
  treeWalk codes (trakDispatch codes env fuel mp4.tracks.length) (some box_header) none
    (fun mp4 => mp4.run) box_header.offset_end fuel
    (if env.calloc_track bitstr then
      { retcode := SUCCESS, bitstr := bitstr,
        acc := { mp4 with tracks := mp4.tracks ++ [zeroTrack codes] }, resynced := [] }
    else { retcode := FAILURE, bitstr := bitstr, acc := mp4, resynced := [] })

/-- The function `parse_trak(bitstr, box_header, mp4)`. -/
def parse_trak (codes : Mp4Codes) (env : Mp4Env) (fuel : Nat) (bitstr : Bitstream)
    (box_header : Mp4Box) (mp4 : Mp4) : Except Fault (Option (Int × Bitstream × Mp4)) :=
  walkResult (trakWalk codes env fuel bitstr box_header mp4)

/-- The `switch` of `parse_moov`. -/
def moovDispatch (codes : Mp4Codes) (env : Mp4Env) (fuel : Nat) (bitstr : Bitstream)
    (box : Mp4Box) (mp4 : Mp4) : Except Fault (Option (Int × Bitstream × Mp4)) :=
  if box.boxtype = codes.BOX_MVHD then returned (env.parse_mvhd bitstr box mp4)
  else if box.boxtype = codes.BOX_IODS then
    match env.parse_iods bitstr box with
    | .ok (retcode, bitstr) => .ok (some (retcode, bitstr, mp4))
    | .error e => .error e
  else if box.boxtype = codes.BOX_TRAK then parse_trak codes env fuel bitstr box mp4
  else unknownBox bitstr box mp4

/-- The loop of `parse_moov`, with its final state. -/
def moovWalk (codes : Mp4Codes) (env : Mp4Env) (fuel : Nat) (bitstr : Bitstream)
    (box_header : Mp4Box) (mp4 : Mp4) : Except Fault (Option (Walk Mp4)) :=
  treeWalk codes (moovDispatch codes env fuel) (some box_header) none (fun mp4 => mp4.run)
    box_header.offset_end fuel
    { retcode := SUCCESS, bitstr := bitstr, acc := mp4, resynced := [] }

/-- The function `parse_moov(bitstr, box_header, mp4)`. -/
def parse_moov (codes : Mp4Codes) (env : Mp4Env) (fuel : Nat) (bitstr : Bitstream)
    (box_header : Mp4Box) (mp4 : Mp4) : Except Fault (Option (Int × Bitstream × Mp4)) :=
  walkResult (moovWalk codes env fuel bitstr box_header mp4)

/-- The `switch` of `mp4_fileParse`. -/
def fileDispatch (codes : Mp4Codes) (env : Mp4Env) (fuel : Nat) (bitstr : Bitstream)
    (box : Mp4Box) (mp4 : Mp4) : Except Fault (Option (Int × Bitstream × Mp4)) :=
  if box.boxtype = codes.BOX_FTYP then returned (env.parse_ftyp bitstr box mp4)
  else if box.boxtype = codes.BOX_PDIN then returned (env.parse_pdin bitstr box mp4)
  else if box.boxtype = codes.BOX_UDTA then unknownBox bitstr box mp4
  else if box.boxtype = codes.BOX_SIDX then unknownBox bitstr box mp4
  else if box.boxtype = codes.BOX_MOOV then parse_moov codes env fuel bitstr box mp4
  else if box.boxtype = codes.BOX_MOOF then unknownBox bitstr box mp4
  else if box.boxtype = codes.BOX_MDAT then
    .ok (some ((parse_mdat bitstr box).1, (parse_mdat bitstr box).2, mp4))
  else if box.boxtype = codes.BOX_FREE then unknownBox bitstr box mp4
  else if box.boxtype = codes.BOX_UUID then unknownBox bitstr box mp4
  else unknownBox bitstr box mp4

/-- The loop of `mp4_fileParse` over the boxes of the file, with its final state:
`mp4` starts zeroed with `run = true`, the bound is `media->file_size`. -/
def fileWalk (codes : Mp4Codes) (env : Mp4Env) (fuel : Nat) (bitstr : Bitstream)
    (media : MediaFile) : Except Fault (Option (Walk Mp4)) :=
  treeWalk codes (fileDispatch codes env fuel) none none (fun mp4 => mp4.run)
    media.file_size fuel
    { retcode := SUCCESS, bitstr := bitstr, acc := { run := true, tracks := [] },
      resynced := [] }

/-- The loop `for (i = 0; i < mp4.tracks_count; i++) convertTrack(media, &mp4,
mp4.tracks[i])` of `mp4_fileParse`; the value that `convertTrack` returns is dropped. -/
def convertTracks (init_bitstream_map : Nat → Option BitstreamMap) :
    List Mp4Track → MediaFile → Except Fault MediaFile
  | [], media => .ok media
  | track :: tracks, media =>
    match convertTrack_media init_bitstream_map (some media) (some track) with
    | .ok (_, some media) => convertTracks init_bitstream_map tracks media
    | .ok (_, none) => convertTracks init_bitstream_map tracks media
    | .error e => .error e

/-- The end of `mp4_fileParse`, behind the loop over the boxes: the return code of the
walk is not read, it is assigned in every branch. -/
def convertAll (init_bitstream_map : Nat → Option BitstreamMap) (mp4 : Mp4)
    (media : MediaFile) : Except Fault (Int × MediaFile) :=
  if mp4.tracks.length = 0 then .ok (FAILURE, media)
  else
    match convertTracks init_bitstream_map mp4.tracks media with
    | .ok media =>
      if media.tracks_video.length = 0 ∧ media.tracks_audio.length = 0 then
        .ok (FAILURE, media)
      else .ok (SUCCESS, media)
    | .error e => .error e

/-- The function `mp4_fileParse(media)`.  `bitstr` is what `init_bitstream(media, NULL)`
returns, a cursor on the first byte of the file or NULL (`init_bitstream` is not among
the sources).  The result is the return code and the registry.  The file metadata
(duration, creation and modification time) are not part of the embedding. -/
def mp4_fileParse (codes : Mp4Codes) (env : Mp4Env) (fuel : Nat) (bitstr : Option Bitstream)
    (media : MediaFile) : Except Fault (Option (Int × MediaFile)) :=
  match bitstr with
  | none => .ok (some (FAILURE, media))
  | some bitstr =>
    match fileWalk codes env fuel bitstr media with
    | .ok (some w) => returned (convertAll env.init_bitstream_map w.acc media)
    | .ok none => .ok none
    | .error e => .error e

/-! ## The WAVE demuxer -/

/-- The fields of a `RiffChunk_t` that `wave.c` uses (`riff_struct.h` is not among the
sources). -/
structure RiffChunk where
  offset_start : Int
  offset_end : Int
  dwFourCC : Nat
  dwSize : Nat
  deriving DecidableEq, Repr

/-- The fields of a `RiffList_t` that `wave.c` uses (`riff_struct.h` is not among the
sources). -/
structure RiffList where
  offset_start : Int
  offset_end : Int
  dwList : Nat
  dwSize : Nat
  dwFourCC : Nat
  deriving DecidableEq, Repr

/-- The fields of `wave->fmt` that `wave_indexer_initmap` reads (`wave_struct.h` is not
among the sources; the fields of the extensions, which `parse_fmt` reads from the file,
are not kept). -/
structure WaveFmt where
  wFormatTag : Nat
  nChannels : Nat
  nSamplesPerSec : Nat
  nAvgBytesPerSec : Nat
  nBlockAlign : Nat
  wBitsPerSample : Nat
  deriving DecidableEq, Repr

/-- The content of `wave->fact`. -/
structure WaveFact where
  dwSampleLength : Nat
  deriving DecidableEq, Repr

/-- The content of `wave->data`: where the payload of the data chunk starts, and the size
that the header of the chunk declares. -/
structure WaveData where
  datasOffset : Int
  datasSize : Nat
  deriving DecidableEq, Repr

/-- The structure `wave_t` as `wave.c` uses it. -/
structure Wave where
  run : Bool
  fmt : WaveFmt
  fact : WaveFact
  data : WaveData
  deriving DecidableEq, Repr

/-- What `wave.c` takes from outside: the chunk tags of `fourcc.h` and the format tags of
`wave_struct.h`, the byte-order flips, the RIFF reader of `riff.c` (`parse_list_header`,
`parse_chunk_header`, `skip_chunk`, `jumpy_riff`, each a function from the cursor and its
other arguments to its return code, the cursor and the header it fills), the allocator
`init_bitstream_map`, and `sample_type_1`, the sample kind whose value is 1.  None of
them is among the sources. -/
structure WaveEnv where
  fcc_RIFF : Nat
  fcc_WAVE : Nat
  fcc_fmt_ : Nat
  fcc_fact : Nat
  fcc_data : Nat
  fcc_cue_ : Nat
  WAVE_FORMAT_PCM : Nat
  WAVE_FORMAT_MP1 : Nat
  WAVE_FORMAT_MP3 : Nat
  WAVE_FORMAT_EXTENSIBLE : Nat
  endian_flip_16 : Nat → Nat
  endian_flip_32 : Nat → Nat
  parse_list_header : Bitstream → Except Fault (Int × Bitstream × RiffList)
  parse_chunk_header : Bitstream → Except Fault (Int × Bitstream × RiffChunk)
  skip_chunk : Bitstream → RiffList → RiffChunk → Except Fault (Int × Bitstream)
  jumpy_riff : Bitstream → RiffList → Int → Except Fault (Int × Bitstream)
  init_bitstream_map : Nat → Option BitstreamMap
  sample_type_1 : SampleType

/-- The first block of `parse_fmt`, for a chunk of 16 bytes or more: the six fields of the
format. -/
def fmtFields (env : WaveEnv) (bitstr : Bitstream) (wave : Wave) :
    Except Fault (Bitstream × Wave) := do
  let (wFormatTag, bitstr) ← read_bits bitstr 16
  let (nChannels, bitstr) ← read_bits bitstr 16
  let (nSamplesPerSec, bitstr) ← read_bits bitstr 32
  let (nAvgBytesPerSec, bitstr) ← read_bits bitstr 32
  let (nBlockAlign, bitstr) ← read_bits bitstr 16
  let (wBitsPerSample, bitstr) ← read_bits bitstr 16
  pure (bitstr,
    { wave with fmt :=
      { wFormatTag := env.endian_flip_16 wFormatTag
        nChannels := env.endian_flip_16 nChannels
        nSamplesPerSec := env.endian_flip_32 nSamplesPerSec
        nAvgBytesPerSec := env.endian_flip_32 nAvgBytesPerSec
        nBlockAlign := env.endian_flip_16 nBlockAlign
        wBitsPerSample := env.endian_flip_16 wBitsPerSample } })

/-- The second block of `parse_fmt`, for a chunk of 18 bytes or more: `cbSize`, then the
fields of the extension that the chain `if (WAVE_FORMAT_PCM) ... else if (WAVE_FORMAT_MP1)
...` selects; the conditions are the constants themselves, not a comparison with the
format tag.  The values are read and not kept. -/
def fmtExtension (env : WaveEnv) (bitstr : Bitstream) : Except Fault Bitstream := do
  let (_, bitstr) ← read_bits bitstr 16
  if env.WAVE_FORMAT_PCM ≠ 0 then
    let (_, bitstr) ← read_bits bitstr 16
    let (_, bitstr) ← read_bits bitstr 16
    let (_, bitstr) ← read_bits bitstr 32
    forLoop readByte 0 16 bitstr
  else if env.WAVE_FORMAT_MP1 ≠ 0 then
    let (_, bitstr) ← read_bits bitstr 16
    let (_, bitstr) ← read_bits bitstr 32
    let (_, bitstr) ← read_bits bitstr 16
    let (_, bitstr) ← read_bits bitstr 16
    let (_, bitstr) ← read_bits bitstr 16
    let (_, bitstr) ← read_bits bitstr 16
    let (_, bitstr) ← read_bits bitstr 32
    let (_, bitstr) ← read_bits bitstr 32
    pure bitstr
  else if env.WAVE_FORMAT_MP3 ≠ 0 then
    let (_, bitstr) ← read_bits bitstr 16
    let (_, bitstr) ← read_bits bitstr 32
    let (_, bitstr) ← read_bits bitstr 16
    let (_, bitstr) ← read_bits bitstr 16
    let (_, bitstr) ← read_bits bitstr 16
    pure bitstr
  else if env.WAVE_FORMAT_EXTENSIBLE ≠ 0 then
    let (_, bitstr) ← read_bits bitstr 16
    let (_, bitstr) ← read_bits bitstr 16
    let (_, bitstr) ← read_bits bitstr 16
    let (_, bitstr) ← read_bits bitstr 32
    forLoop readByte 0 16 bitstr
  else pure bitstr

/-- The function `parse_fmt(bitstr, fmt_header, wave)`; `fmt_header` is `none` for a NULL
pointer.  The result is the return code, the cursor and the structure. -/
def parse_fmt (env : WaveEnv) (bitstr : Bitstream) (fmt_header : Option RiffChunk)
    (wave : Wave) : Except Fault (Int × Bitstream × Wave) :=
  match fmt_header with
  | none => .ok (FAILURE, bitstr, wave)
  | some fmt_header => do
    let (bitstr, wave) ← (if fmt_header.dwSize ≥ 16 then fmtFields env bitstr wave
      else pure (bitstr, wave))
    let bitstr ← (if fmt_header.dwSize ≥ 18 then fmtExtension env bitstr else pure bitstr)
    pure (SUCCESS, bitstr, wave)

/-- The function `parse_fact(bitstr, fact_header, wave)`: `FAILURE` for a NULL header and
for a chunk of less than 4 bytes, the sample length otherwise. -/
def parse_fact (env : WaveEnv) (bitstr : Bitstream) (fact_header : Option RiffChunk)
    (wave : Wave) : Except Fault (Int × Bitstream × Wave) :=
  match fact_header with
  | none => .ok (FAILURE, bitstr, wave)
  | some fact_header =>
    if fact_header.dwSize < 4 then .ok (FAILURE, bitstr, wave)
    else do
      let (dwSampleLength, bitstr) ← read_bits bitstr 32
      pure (SUCCESS, bitstr,
        { wave with fact := { dwSampleLength := env.endian_flip_32 dwSampleLength } })

/-- The function `parse_cue(bitstr, data_header, wave)`: it reads nothing. -/
def parse_cue (bitstr : Bitstream) (data_header : Option RiffChunk) (wave : Wave) :
    Int × Bitstream × Wave :=
  match data_header with
  | none => (FAILURE, bitstr, wave)
  | some _ => (SUCCESS, bitstr, wave)

/-- The function `parse_data(bitstr, data_header, wave)`: it records the byte offset of
the cursor, which stands behind the header of the chunk, and the size that the header
declares. -/
def parse_data (bitstr : Bitstream) (data_header : Option RiffChunk) (wave : Wave) :
    Int × Bitstream × Wave :=
  match data_header with
  | none => (FAILURE, bitstr, wave)
  | some data_header =>
    (SUCCESS, bitstr,
      { wave with data := { datasOffset := bitstream_get_absolute_byte_offset bitstr
                            datasSize := data_header.dwSize } })

/-- The value of `track->stream_size` at the end of `wave_indexer_initmap`, from its value
in the freshly allocated map: the product of the `fact` branch (32-bit unsigned
arithmetic) for a PCM or extensible format with a sample length that is not 0, the size
of the data chunk for such a format without one, and the "backup computation", which
replaces a stream size of 0 by the size of the data chunk. -/
def waveStreamSize (env : WaveEnv) (wave : Wave) (stream_size : Nat) : Nat :=
  let computed :=
    if wave.fmt.wFormatTag = env.WAVE_FORMAT_PCM ∨
        wave.fmt.wFormatTag = env.WAVE_FORMAT_EXTENSIBLE then
      if wave.fact.dwSampleLength ≠ 0 then
        u32 (wave.fact.dwSampleLength * (wave.fmt.wBitsPerSample * 8) * wave.fmt.nChannels)
      else wave.data.datasSize
    else stream_size
  if computed = 0 then wave.data.datasSize else computed

/-- The function `wave_indexer_initmap(media, wave)`.  `init_bitstream_map` allocates a
map of one entry in `media->tracks_audio[0]`; the function then fills the map that
`media->tracks_audio[media->tracks_audio_count]` points to, which is that map when the
count is 0, and no map that the function has allocated otherwise (no result).  The codec,
the duration and the other scalar metadata of the map are not part of the embedding. -/
def wave_indexer_initmap (env : WaveEnv) (media : MediaFile) (wave : Wave) :
    Except Fault (Int × MediaFile) :=
  match env.init_bitstream_map 1 with
  | none => .ok (FAILURE, media)
  | some track =>
    if media.tracks_audio.length = 0 then do
      let types ← writeAt track.sample_type 0 env.sample_type_1
      let sizes ← writeAt track.sample_size 0 wave.data.datasSize
      let offsets ← writeAt track.sample_offset 0 wave.data.datasOffset
      let ptss ← writeAt track.sample_pts 0 0
      let dtss ← writeAt track.sample_dts 0 0
      pure (SUCCESS,
        { media with tracks_audio :=
          [{ sample_count := 1
             stream_size := waveStreamSize env wave track.stream_size
             sample_type := types
             sample_size := sizes
             sample_offset := offsets
             sample_pts := ptss
             sample_dts := dtss }] })
    else .error .outOfBounds

/-- The function `wave_indexer(bitstr, media, wave)`: the return code is that of
`wave_indexer_initmap` (the duration of the file is not part of the embedding). -/
def wave_indexer (env : WaveEnv) (_bitstr : Bitstream) (media : MediaFile) (wave : Wave) :
    Except Fault (Int × MediaFile) :=
  wave_indexer_initmap env media wave

/-- State of the chunk loop of `wave_fileParse`. -/
structure WaveWalk where
  retcode : Int
  bitstr : Bitstream
  wave : Wave
  deriving DecidableEq, Repr

/-- The `switch (chunk_header.dwFourCC)` of `wave_fileParse`.  The case `fcc_cue_` has no
`break`: the return code of `parse_cue` is replaced by that of `skip_chunk`. -/
def waveDispatch (env : WaveEnv) (RIFF_header : RiffList) (bitstr : Bitstream)
    (chunk_header : RiffChunk) (wave : Wave) : Except Fault (Int × Bitstream × Wave) :=
  if chunk_header.dwFourCC = env.fcc_fmt_ then parse_fmt env bitstr (some chunk_header) wave
  else if chunk_header.dwFourCC = env.fcc_fact then
    parse_fact env bitstr (some chunk_header) wave
  else if chunk_header.dwFourCC = env.fcc_data then
    .ok (parse_data bitstr (some chunk_header) wave)
  else if chunk_header.dwFourCC = env.fcc_cue_ then do
    let parsed := parse_cue bitstr (some chunk_header) wave
    let (retcode, bitstr) ← env.skip_chunk parsed.2.1 RIFF_header chunk_header
    pure (retcode, bitstr, parsed.2.2)
  else do
    let (retcode, bitstr) ← env.skip_chunk bitstr RIFF_header chunk_header
    pure (retcode, bitstr, wave)

/-- The body of the chunk loop of `wave_fileParse`: the header of the chunk, whose return
code every branch of the `switch` replaces, the `switch`, and `jumpy_riff`, whose return
code is dropped. -/
def waveChunk (env : WaveEnv) (RIFF_header : RiffList) (s : WaveWalk) :
    Except Fault (Option WaveWalk) := do
  let (_, bitstr, chunk_header) ← env.parse_chunk_header s.bitstr
  let (retcode, bitstr, wave) ← waveDispatch env RIFF_header bitstr chunk_header s.wave
  let (_, bitstr) ← env.jumpy_riff bitstr RIFF_header chunk_header.offset_end
  pure (some { retcode := retcode, bitstr := bitstr, wave := wave })

/-- A `wave_t` with every field 0, as `memset` leaves it. -/
def zeroWave : Wave :=
  { run := false
    fmt := { wFormatTag := 0, nChannels := 0, nSamplesPerSec := 0, nAvgBytesPerSec := 0,
             nBlockAlign := 0, wBitsPerSample := 0 }
    fact := { dwSampleLength := 0 }
    data := { datasOffset := 0, datasSize := 0 } }

/-- The part of `wave_fileParse` in front of the indexation: the RIFF header and, when
it is that of a WAVE file, the loop over the chunks, which runs while `wave.run`, the
return code is `SUCCESS` and the cursor is before `media->file_size - 8` (a subtraction
of `int64_t` values, evaluated when the first two conditions hold). -/
def waveWalk (env : WaveEnv) (fuel : Nat) (bitstr : Bitstream) (media : MediaFile) :
    Except Fault (Option WaveWalk) := do
  let (retcode, bitstr, RIFF_header) ← env.parse_list_header bitstr
  let start : WaveWalk :=
    { retcode := retcode, bitstr := bitstr, wave := { zeroWave with run := true } }
  if RIFF_header.dwList = env.fcc_RIFF ∧ RIFF_header.dwFourCC = env.fcc_WAVE then
    if retcode = SUCCESS ∧ ¬ inI64 (media.file_size - 8) then .error .overflow
    else
      whileLoop (fun s => s.wave.run && decide (s.retcode = SUCCESS) &&
          decide (bitstream_get_absolute_byte_offset s.bitstr < media.file_size - 8))
        (waveChunk env RIFF_header) fuel start
  else pure (some start)

/-- The function `wave_fileParse(media)`.  `bitstr` is what `init_bitstream(media, NULL)`
returns, a cursor on the first byte of the file or NULL.  The return code of the chunk
walk is replaced by that of `wave_indexer`.  The result is the return code and the
registry. -/
def wave_fileParse (env : WaveEnv) (fuel : Nat) (bitstr : Option Bitstream)
    (media : MediaFile) : Except Fault (Option (Int × MediaFile)) :=
  match bitstr with
  | none => .ok (some (FAILURE, media))
  | some bitstr =>
    match waveWalk env fuel bitstr media with
    | .ok (some s) => returned (wave_indexer env s.bitstr media s.wave)
    | .ok none => .ok none
    | .error e => .error e

/-! ## fourcc.c -/

/-- Codec identifier `CODEC_MPEG1` of `avcodecs.h`. -/
def CODEC_MPEG1 : Nat := 256
/-- Codec identifier `CODEC_MPEG2` of `avcodecs.h`. -/
def CODEC_MPEG2 : Nat := 258
/-- Codec identifier `CODEC_MSMPEG4` of `avcodecs.h`. -/
def CODEC_MSMPEG4 : Nat := 260
/-- Codec identifier `CODEC_WMSCR` of `avcodecs.h`. -/
def CODEC_WMSCR : Nat := 267
/-- Codec identifier `CODEC_WMV7` of `avcodecs.h`. -/
def CODEC_WMV7 : Nat := 264
/-- Codec identifier `CODEC_WMV8` of `avcodecs.h`. -/
def CODEC_WMV8 : Nat := 265
/-- Codec identifier `CODEC_WMV9` of `avcodecs.h`. -/
def CODEC_WMV9 : Nat := 266
/-- Codec identifier `CODEC_H263` of `avcodecs.h`. -/
def CODEC_H263 : Nat := 261
/-- Codec identifier `CODEC_VP3` of `avcodecs.h`. -/
def CODEC_VP3 : Nat := 269
/-- Codec identifier `CODEC_VP4` of `avcodecs.h`. -/
def CODEC_VP4 : Nat := 270
/-- Codec identifier `CODEC_VP5` of `avcodecs.h`. -/
def CODEC_VP5 : Nat := 271
/-- Codec identifier `CODEC_VP6` of `avcodecs.h`. -/
def CODEC_VP6 : Nat := 272
/-- Codec identifier `CODEC_VP7` of `avcodecs.h`. -/
def CODEC_VP7 : Nat := 273
/-- Codec identifier `CODEC_VP8` of `avcodecs.h`. -/
def CODEC_VP8 : Nat := 274
/-- Codec identifier `CODEC_VP9` of `avcodecs.h`. -/
def CODEC_VP9 : Nat := 275
/-- Codec identifier `CODEC_VC1` of `avcodecs.h`. -/
def CODEC_VC1 : Nat := 278
/-- Codec identifier `CODEC_VC2` of `avcodecs.h`. -/
def CODEC_VC2 : Nat := 279
/-- Codec identifier `CODEC_VC3` of `avcodecs.h`. -/
def CODEC_VC3 : Nat := 280
/-- Codec identifier `CODEC_PRORES_4444_XQ` of `avcodecs.h`. -/
def CODEC_PRORES_4444_XQ : Nat := 283
/-- Codec identifier `CODEC_PRORES_4444` of `avcodecs.h`. -/
def CODEC_PRORES_4444 : Nat := 282
/-- Codec identifier `CODEC_PRORES_422_HQ` of `avcodecs.h`. -/
def CODEC_PRORES_422_HQ : Nat := 284
/-- Codec identifier `CODEC_PRORES_422` of `avcodecs.h`. -/
def CODEC_PRORES_422 : Nat := 285
/-- Codec identifier `CODEC_PRORES_422_PROXY` of `avcodecs.h`. -/
def CODEC_PRORES_422_PROXY : Nat := 286
/-- Codec identifier `CODEC_PRORES_422_LT` of `avcodecs.h`. -/
def CODEC_PRORES_422_LT : Nat := 287
/-- Codec identifier `CODEC_SVQ1` of `avcodecs.h`. -/
def CODEC_SVQ1 : Nat := 289
/-- Codec identifier `CODEC_SVQ3` of `avcodecs.h`. -/
def CODEC_SVQ3 : Nat := 290
/-- Codec identifier `CODEC_CINEPAK` of `avcodecs.h`. -/
def CODEC_CINEPAK : Nat := 288
/-- Codec identifier `CODEC_icod` of `avcodecs.h`. -/
def CODEC_icod : Nat := 294
/-- Codec identifier `CODEC_rpza` of `avcodecs.h`. -/
def CODEC_rpza : Nat := 295
/-- Codec identifier `CODEC_ALAC` of `avcodecs.h`. -/
def CODEC_ALAC : Nat := 66

/-- The names of the constants of `fourcc.h` that are case labels of the `switch` of
`getCodecFromFourCC`. -/
inductive Fcc where
  | fcc_MPG1
  | fcc_mpg1
  | fcc_MPEG
  | fcc_mpeg
  | fcc_MPG2
  | fcc_mpg2
  | fcc_xvid
  | fcc_XVID
  | fcc_FMP4
  | fcc_MP4V
  | fcc_mp4v
  | fcc_mpg3
  | fcc_divx
  | fcc_DIVX
  | fcc_DX50
  | fcc_DX60
  | fcc_DIV1
  | fcc_DIV2
  | fcc_DIV4
  | fcc_DIV5
  | fcc_AVC1
  | fcc_avc1
  | fcc_AVCC
  | fcc_avcc
  | fcc_H264
  | fcc_h264
  | fcc_X264
  | fcc_x264
  | fcc_HVC1
  | fcc_hvc1
  | fcc_HEVC
  | fcc_hevc
  | fcc_HEV1
  | fcc_hev1
  | fcc_H265
  | fcc_h265
  | fcc_X265
  | fcc_x265
  | fcc_mpg4
  | fcc_MPG4
  | fcc_MP41
  | fcc_MP42
  | fcc_MP43
  | fcc_DIV3
  | fcc_AP41
  | fcc_COL1
  | fcc_MSS1
  | fcc_MSS2
  | fcc_MSA1
  | fcc_WMV1
  | fcc_WMV7
  | fcc_WMV2
  | fcc_WMV8
  | fcc_WMVA
  | fcc_D263
  | fcc_H263
  | fcc_L263
  | fcc_M263
  | fcc_S263
  | fcc_T263
  | fcc_U263
  | fcc_X263
  | fcc_VP30
  | fcc_VP31
  | fcc_VP32
  | fcc_VP40
  | fcc_VP50
  | fcc_VP60
  | fcc_VP61
  | fcc_VP62
  | fcc_VP6F
  | fcc_VP70
  | fcc_VP71
  | fcc_VP72
  | fcc_VP80
  | fcc_VP90
  | fcc_WMV3
  | fcc_WVC1
  | fcc_BBCD
  | fcc_AVdn
  | fcc_CFHD
  | fcc_cfhd
  | fcc_ap4x
  | fcc_ap4h
  | fcc_apch
  | fcc_apcn
  | fcc_apco
  | fcc_apcs
  | fcc_svq1
  | fcc_SVQ1
  | fcc_svqi
  | fcc_SVQ3
  | fcc_cvid
  | fcc_CVID
  | fcc_icod
  | fcc_rpza
  | fcc_azpr
  | fcc_MP4A
  | fcc_mp4a
  | fcc_AC3
  | fcc_ac3
  | fcc_AC4
  | fcc_ac4
  | fcc_alac
  | fcc_araw
  | fcc_sowt
  | fcc_tows
  | fcc_in24
  | fcc_in32
  | fcc_s8
  | fcc_u8
  | fcc_s16l
  | fcc_s16b
  | fcc_s24l
  | fcc_s24b
  | fcc_s32l
  | fcc_s32b
  | fcc_u16l
  | fcc_u16b
  | fcc_u24l
  | fcc_u24b
  | fcc_u32l
  | fcc_u32b
  | fcc_f32l
  | fcc_f64l
  | fcc_fl32
  | fcc_fl64
  | fcc_alaw
  | fcc_ulaw
  deriving DecidableEq, Repr

/-- The function `getCodecFromFourCC(fcc)`.  `fourcc` gives the value of each constant of
`fourcc.h`, which is not among the sources; the `switch` is the chain of its groups of
case labels in the order of the source, the `default` last. -/
def getCodecFromFourCC (fourcc : Fcc → Nat) (fcc : Nat) : Nat :=
  if fcc = fourcc Fcc.fcc_MPG1 ∨ fcc = fourcc Fcc.fcc_mpg1 then
    CODEC_MPEG1
  else if fcc = fourcc Fcc.fcc_MPEG ∨ fcc = fourcc Fcc.fcc_mpeg ∨
      fcc = fourcc Fcc.fcc_MPG2 ∨ fcc = fourcc Fcc.fcc_mpg2 then
    CODEC_MPEG2
  else if fcc = fourcc Fcc.fcc_xvid ∨ fcc = fourcc Fcc.fcc_XVID ∨
      fcc = fourcc Fcc.fcc_FMP4 ∨ fcc = fourcc Fcc.fcc_MP4V ∨
      fcc = fourcc Fcc.fcc_mp4v ∨ fcc = fourcc Fcc.fcc_mpg3 ∨
      fcc = fourcc Fcc.fcc_divx ∨ fcc = fourcc Fcc.fcc_DIVX ∨
      fcc = fourcc Fcc.fcc_DX50 ∨ fcc = fourcc Fcc.fcc_DX60 ∨
      fcc = fourcc Fcc.fcc_DIV1 ∨ fcc = fourcc Fcc.fcc_DIV2 ∨
      fcc = fourcc Fcc.fcc_DIV4 ∨ fcc = fourcc Fcc.fcc_DIV5 then
    CODEC_MPEG4_ASP
  else if fcc = fourcc Fcc.fcc_AVC1 ∨ fcc = fourcc Fcc.fcc_avc1 ∨
      fcc = fourcc Fcc.fcc_AVCC ∨ fcc = fourcc Fcc.fcc_avcc ∨
      fcc = fourcc Fcc.fcc_H264 ∨ fcc = fourcc Fcc.fcc_h264 ∨
      fcc = fourcc Fcc.fcc_X264 ∨ fcc = fourcc Fcc.fcc_x264 then
    CODEC_H264
  else if fcc = fourcc Fcc.fcc_HVC1 ∨ fcc = fourcc Fcc.fcc_hvc1 ∨
      fcc = fourcc Fcc.fcc_HEVC ∨ fcc = fourcc Fcc.fcc_hevc ∨
      fcc = fourcc Fcc.fcc_HEV1 ∨ fcc = fourcc Fcc.fcc_hev1 ∨
      fcc = fourcc Fcc.fcc_H265 ∨ fcc = fourcc Fcc.fcc_h265 ∨
      fcc = fourcc Fcc.fcc_X265 ∨ fcc = fourcc Fcc.fcc_x265 then
    CODEC_H265
  else if fcc = fourcc Fcc.fcc_mpg4 ∨ fcc = fourcc Fcc.fcc_MPG4 ∨
      fcc = fourcc Fcc.fcc_MP41 ∨ fcc = fourcc Fcc.fcc_MP42 ∨
      fcc = fourcc Fcc.fcc_MP43 ∨ fcc = fourcc Fcc.fcc_DIV3 ∨
      fcc = fourcc Fcc.fcc_AP41 ∨ fcc = fourcc Fcc.fcc_COL1 then
    CODEC_MSMPEG4
  else if fcc = fourcc Fcc.fcc_MSS1 ∨ fcc = fourcc Fcc.fcc_MSS2 ∨
      fcc = fourcc Fcc.fcc_MSA1 then
    CODEC_WMSCR
  else if fcc = fourcc Fcc.fcc_WMV1 ∨ fcc = fourcc Fcc.fcc_WMV7 then
    CODEC_WMV7
  else if fcc = fourcc Fcc.fcc_WMV2 ∨ fcc = fourcc Fcc.fcc_WMV8 then
    CODEC_WMV8
  else if fcc = fourcc Fcc.fcc_WMVA then
    CODEC_WMV9
  else if fcc = fourcc Fcc.fcc_D263 ∨ fcc = fourcc Fcc.fcc_H263 ∨
      fcc = fourcc Fcc.fcc_L263 ∨ fcc = fourcc Fcc.fcc_M263 ∨
      fcc = fourcc Fcc.fcc_S263 ∨ fcc = fourcc Fcc.fcc_T263 ∨
      fcc = fourcc Fcc.fcc_U263 ∨ fcc = fourcc Fcc.fcc_X263 then
    CODEC_H263
  else if fcc = fourcc Fcc.fcc_VP30 ∨ fcc = fourcc Fcc.fcc_VP31 ∨
      fcc = fourcc Fcc.fcc_VP32 then
    CODEC_VP3
  else if fcc = fourcc Fcc.fcc_VP40 then
    CODEC_VP4
  else if fcc = fourcc Fcc.fcc_VP50 then
    CODEC_VP5
  else if fcc = fourcc Fcc.fcc_VP60 ∨ fcc = fourcc Fcc.fcc_VP61 ∨
      fcc = fourcc Fcc.fcc_VP62 ∨ fcc = fourcc Fcc.fcc_VP6F then
    CODEC_VP6
  else if fcc = fourcc Fcc.fcc_VP70 ∨ fcc = fourcc Fcc.fcc_VP71 ∨
      fcc = fourcc Fcc.fcc_VP72 then
    CODEC_VP7
  else if fcc = fourcc Fcc.fcc_VP80 then
    CODEC_VP8
  else if fcc = fourcc Fcc.fcc_VP90 then
    CODEC_VP9
  else if fcc = fourcc Fcc.fcc_WMV3 ∨ fcc = fourcc Fcc.fcc_WVC1 then
    CODEC_VC1
  else if fcc = fourcc Fcc.fcc_BBCD then
    CODEC_VC2
  else if fcc = fourcc Fcc.fcc_AVdn then
    CODEC_VC3
  else if fcc = fourcc Fcc.fcc_CFHD ∨ fcc = fourcc Fcc.fcc_cfhd then
    CODEC_VC5
  else if fcc = fourcc Fcc.fcc_ap4x then
    CODEC_PRORES_4444_XQ
  else if fcc = fourcc Fcc.fcc_ap4h then
    CODEC_PRORES_4444
  else if fcc = fourcc Fcc.fcc_apch then
    CODEC_PRORES_422_HQ
  else if fcc = fourcc Fcc.fcc_apcn then
    CODEC_PRORES_422
  else if fcc = fourcc Fcc.fcc_apco then
    CODEC_PRORES_422_PROXY
  else if fcc = fourcc Fcc.fcc_apcs then
    CODEC_PRORES_422_LT
  else if fcc = fourcc Fcc.fcc_svq1 ∨ fcc = fourcc Fcc.fcc_SVQ1 ∨
      fcc = fourcc Fcc.fcc_svqi then
    CODEC_SVQ1
  else if fcc = fourcc Fcc.fcc_SVQ3 then
    CODEC_SVQ3
  else if fcc = fourcc Fcc.fcc_cvid ∨ fcc = fourcc Fcc.fcc_CVID then
    CODEC_CINEPAK
  else if fcc = fourcc Fcc.fcc_icod then
    CODEC_icod
  else if fcc = fourcc Fcc.fcc_rpza ∨ fcc = fourcc Fcc.fcc_azpr then
    CODEC_rpza
  else if fcc = fourcc Fcc.fcc_MP4A ∨ fcc = fourcc Fcc.fcc_mp4a then
    CODEC_AAC
  else if fcc = fourcc Fcc.fcc_AC3 ∨ fcc = fourcc Fcc.fcc_ac3 then
    CODEC_AC3
  else if fcc = fourcc Fcc.fcc_AC4 ∨ fcc = fourcc Fcc.fcc_ac4 then
    CODEC_AC4
  else if fcc = fourcc Fcc.fcc_alac then
    CODEC_ALAC
  else if fcc = fourcc Fcc.fcc_araw ∨ fcc = fourcc Fcc.fcc_sowt ∨
      fcc = fourcc Fcc.fcc_tows ∨ fcc = fourcc Fcc.fcc_in24 ∨
      fcc = fourcc Fcc.fcc_in32 ∨ fcc = fourcc Fcc.fcc_s8 ∨ fcc = fourcc Fcc.fcc_u8 ∨
      fcc = fourcc Fcc.fcc_s16l ∨ fcc = fourcc Fcc.fcc_s16b ∨
      fcc = fourcc Fcc.fcc_s24l ∨ fcc = fourcc Fcc.fcc_s24b ∨
      fcc = fourcc Fcc.fcc_s32l ∨ fcc = fourcc Fcc.fcc_s32b ∨
      fcc = fourcc Fcc.fcc_u16l ∨ fcc = fourcc Fcc.fcc_u16b ∨
      fcc = fourcc Fcc.fcc_u24l ∨ fcc = fourcc Fcc.fcc_u24b ∨
      fcc = fourcc Fcc.fcc_u32l ∨ fcc = fourcc Fcc.fcc_u32b ∨
      fcc = fourcc Fcc.fcc_f32l ∨ fcc = fourcc Fcc.fcc_f64l ∨
      fcc = fourcc Fcc.fcc_fl32 ∨ fcc = fourcc Fcc.fcc_fl64 then
    CODEC_LPCM
  else if fcc = fourcc Fcc.fcc_alaw ∨ fcc = fourcc Fcc.fcc_ulaw then
    CODEC_LogPCM
  else CODEC_UNKNOWN

/-- The function `getFccString_le(fcc_in, fcc_out)`.  `fcc_out` is the content of the
buffer, `none` for a NULL pointer; the result is the content of the buffer that the
function returns a pointer to, `none` for NULL.  A shift `x >> n` of an unsigned value is
`x / 2 ^ n` and the mask `& 0xFF` is `% 256`; the bytes stored are given as values of
`unsigned char`. -/
def getFccString_le (fcc_in : Nat) (fcc_out : Option (List Nat)) :
    Except Fault (Option (List Nat)) :=
  match fcc_out with
  | some fcc_out => do
    let fcc_out ← writeAt fcc_out 0 (u32 fcc_in / 2 ^ 24 % 256)
    let fcc_out ← writeAt fcc_out 1 (u32 fcc_in / 2 ^ 16 % 256)
    let fcc_out ← writeAt fcc_out 2 (u32 fcc_in / 2 ^ 8 % 256)
    let fcc_out ← writeAt fcc_out 3 (u32 fcc_in / 2 ^ 0 % 256)
    let fcc_out ← writeAt fcc_out 4 0
    pure (some fcc_out)
  | none => pure none

/-- The function `getFccString_be(fcc_in, fcc_out)`, with the conventions of
`getFccString_le`; for a NULL buffer it returns the string literal `"0000"`. -/
def getFccString_be (fcc_in : Nat) (fcc_out : Option (List Nat)) :
    Except Fault (Option (List Nat)) :=
  match fcc_out with
  | some fcc_out => do
    let fcc_out ← writeAt fcc_out 0 (u32 fcc_in / 2 ^ 0 % 256)
    let fcc_out ← writeAt fcc_out 1 (u32 fcc_in / 2 ^ 8 % 256)
    let fcc_out ← writeAt fcc_out 2 (u32 fcc_in / 2 ^ 16 % 256)
    let fcc_out ← writeAt fcc_out 3 (u32 fcc_in / 2 ^ 24 % 256)
    let fcc_out ← writeAt fcc_out 4 0
    pure (some fcc_out)
  | none => pure (some [48, 48, 48, 48, 0])

/-! ## The accesses of the decode-time pass -/

/-- An access of the "Compute DTS" loops of `convertTrack` to `map->sample_dts`. -/
inductive DtsAccess where
  | read (index : Nat)
  | write (index : Nat)
  deriving DecidableEq, Repr

/-- The body `dtsStep` of the inner loop of "Compute DTS" together with a ghost log of its
accesses to `sample_dts`: the read of `sample_dts[k - 1]`, then the write of
`sample_dts[k]`. -/
def dtsStepLogged (track : Mp4Track) (copyToPts : Bool) (i : Nat) (j : Nat)
    (s : TimeState × List DtsAccess) : Except Fault (TimeState × List DtsAccess) := do
  let t ← dtsStep track copyToPts i j s.1
  pure (t, s.2 ++ [DtsAccess.read (u32sub s.1.k 1), DtsAccess.write s.1.k])

/-- The body `dtsRun` of the outer loop of "Compute DTS" together with the ghost log: the
write of `sample_dts[k] = 0` when `k` is the index of the first real sample, and the
accesses of the inner loop. -/
def dtsRunLogged (track : Mp4Track) (copyToPts : Bool) (i : Nat)
    (s : TimeState × List DtsAccess) : Except Fault (TimeState × List DtsAccess) := do
  if s.1.k = firstSample track then
    let ptss ← (if copyToPts then writeAt s.1.map.sample_pts s.1.k 0
      else pure s.1.map.sample_pts)
    let dtss ← writeAt s.1.map.sample_dts s.1.k 0
    let s1 : TimeState :=
      { map := { s.1.map with sample_dts := dtss, sample_pts := ptss }, k := u32 (s.1.k + 1) }
    let count ← readAt track.stts_sample_count i
    forLoop (dtsStepLogged track copyToPts i) 1 (count - 1)
      (s1, s.2 ++ [DtsAccess.write s.1.k])
  else
    let count ← readAt track.stts_sample_count i
    forLoop (dtsStepLogged track copyToPts i) 0 count s

/-- The "Compute DTS" loop of `convertTrack` (either copy of it) with the ghost log of
its accesses to `sample_dts`. -/
def computeDtsLogged (track : Mp4Track) (copyToPts : Bool) (map : BitstreamMap) :
    Except Fault (TimeState × List DtsAccess) :=
  forLoop (dtsRunLogged track copyToPts) 0 track.stts_entry_count
    ({ map := map, k := firstSample track }, [])

/-! ## parse_box_header over any cursor implementation -/

/-- The two readers of `bitstream.c` as the C code of `parse_box_header` calls them:
`read_bits` and `read_bits_64` are C functions that hand a value back on every call and
have no way to report a failure to the caller.  `bitstream.c` is not among the sources, so
the readers are a parameter: a function from the cursor and the bit count to the value
and the cursor, whatever the state of the cursor is. -/
structure CursorReads where
  read_bits : Bitstream → Nat → Nat × Bitstream
  read_bits_64 : Bitstream → Nat → Nat × Bitstream

/-- The size of a box as `parse_box_header` settles it from the 32-bit size field, over
the readers `reads`: the rest of the file for 0, the 64-bit field that follows the type
for 1 (`(int64_t)read_bits_64(bitstr, 64)`), the field itself otherwise. -/
def boxSizeReads (reads : CursorReads) (bitstr : Bitstream) (offset_start : Int)
    (size : Nat) : Except Fault (Int × Bitstream) :=
  if size = 0 then do
    let rest ← subI64 (bitstr.bytes.length : Int) offset_start
    pure (rest, bitstr)
  else if size = 1 then
    pure (toI64 (u64 (reads.read_bits_64 bitstr 64).1), (reads.read_bits_64 bitstr 64).2)
  else pure ((size : Int), bitstr)

/-- The body of the loop over the 16 bytes of the extended type, over the readers
`reads`: `usertype[i] = (uint8_t)read_bits(bitstr, 8)`. -/
def readUsertypeReads (reads : CursorReads) (_i : Nat) (s : UsertypeState) :
    Except Fault UsertypeState :=
  pure { bitstr := (reads.read_bits s.bitstr 8).2,
         usertype := s.usertype ++ [(reads.read_bits s.bitstr 8).1 % 256] }

/-- The extended type of the box over the readers `reads`: read when the type is
`BOX_UUID`, left alone otherwise. -/
def boxUsertypeReads (reads : CursorReads) (BOX_UUID : Nat) (bitstr : Bitstream)
    (boxtype : Nat) (usertype : List Nat) : Except Fault UsertypeState :=
  if boxtype = BOX_UUID then
    forLoop (readUsertypeReads reads) 0 16 { bitstr := bitstr, usertype := [] }
  else pure { bitstr := bitstr, usertype := usertype }

/-- The function `parse_box_header(bitstr, box_header)` over the readers `reads`: the same
statements as `parse_box_header`, with the values of `read_bits` (an `unsigned int`) and
`read_bits_64` (a `uint64_t`) taken from `reads` instead of the cursor of the
specification.  The only executions without a result are those with a signed overflow in
`bitstream_size - offset_start` or in `offset_start + size`. -/
def parse_box_header_reads (reads : CursorReads) (BOX_UUID : Nat) (bitstr : Bitstream)
    (box_header : Option Mp4Box) : Except Fault (Int × Bitstream × Option Mp4Box) :=
  match box_header with
  | none => .ok (FAILURE, bitstr, none)
  | some box_header => do
    let offset_start := bitstream_get_absolute_byte_offset bitstr
    let size := u32 (reads.read_bits bitstr 32).1
    let bitstr := (reads.read_bits bitstr 32).2
    let boxtype := u32 (reads.read_bits bitstr 32).1
    let bitstr := (reads.read_bits bitstr 32).2
    let (size, bitstr) ← boxSizeReads reads bitstr offset_start size
    let offset_end ← addI64 offset_start size
    let s ← boxUsertypeReads reads BOX_UUID bitstr boxtype box_header.usertype
    pure (SUCCESS, s.bitstr,
      some { offset_start := offset_start, offset_end := offset_end, size := size,
             boxtype := boxtype, usertype := s.usertype, version := 0, flags := 0 })

/-! ## The sample-table parsers -/

/-- Modelled from the spec: `read_bit(bitstr)`, a read of one bit (`bitstream.c` is not
among the sources). -/
def read_bit (bitstr : Bitstream) : Except Fault (Nat × Bitstream) := read_bits bitstr 1

/-- The timescale and the cursor behind the four time fields of `parse_mdhd`: 64-bit
creation time, modification time and duration for version 1, 32-bit ones otherwise; the
timescale has 32 bits in both. -/
def mdhdTimes (version : Nat) (bitstr : Bitstream) : Except Fault (Nat × Bitstream) :=
  if version = 1 then do
    let (_, bitstr) ← read_bits_64 bitstr 64
    let (_, bitstr) ← read_bits_64 bitstr 64
    let (timescale, bitstr) ← read_bits bitstr 32
    let (_, bitstr) ← read_bits_64 bitstr 64
    pure (timescale, bitstr)
  else do
    let (_, bitstr) ← read_bits bitstr 32
    let (_, bitstr) ← read_bits bitstr 32
    let (timescale, bitstr) ← read_bits bitstr 32
    let (_, bitstr) ← read_bits bitstr 32
    pure (timescale, bitstr)

/-- The function `parse_mdhd(bitstr, box_header, track)`.  Of the fields it fills, the
embedding keeps the timescale; the times, the duration and the language code are read
and dropped.  The result is the return code, the cursor and the track. -/
def parse_mdhd (bitstr : Bitstream) (_box_header : Mp4Box) (track : Mp4Track) :
    Except Fault (Int × Bitstream × Mp4Track) := do
  let (version, bitstr) ← read_bits bitstr 8
  let (_, bitstr) ← read_bits bitstr 24
  let (timescale, bitstr) ← mdhdTimes (version % 256) bitstr
  let (_, bitstr) ← read_bit bitstr
  let (_, bitstr) ← read_bits bitstr 5
  let (_, bitstr) ← read_bits bitstr 5
  let (_, bitstr) ← read_bits bitstr 5
  let (_, bitstr) ← read_bits bitstr 16
  pure (SUCCESS, bitstr, { track with timescale := timescale })

/-- State of the entry loop of `parse_stts`: the cursor and the two arrays being filled. -/
structure SttsState where
  bitstr : Bitstream
  sample_count : List Nat
  sample_delta : List Nat
  deriving DecidableEq, Repr

/-- The body of the entry loop of `parse_stts` for entry `i`. -/
def parse_stts_entry (i : Nat) (s : SttsState) : Except Fault SttsState := do
  let (count, bitstr) ← read_bits s.bitstr 32
  let counts ← writeAt s.sample_count i count
  let (delta, bitstr) ← read_bits bitstr 32
  let deltas ← writeAt s.sample_delta i delta
  pure { bitstr := bitstr, sample_count := counts, sample_delta := deltas }

/-- The function `parse_stts`: version and flags of the FullBox, the entry count, the two
`calloc`ed arrays (`allocated` tells whether both allocations succeeded; the embedding
keeps neither array when they did not) and the entries.  The result is the return code,
the cursor and the track. -/
def parse_stts (allocated : Bool) (bitstr : Bitstream) (_box_header : Mp4Box)
    (track : Mp4Track) : Except Fault (Int × Bitstream × Mp4Track) := do
  let (_, bitstr) ← read_bits bitstr 8
  let (_, bitstr) ← read_bits bitstr 24
  let (entry_count, bitstr) ← read_bits bitstr 32
  if allocated then
    let s ← forLoop parse_stts_entry 0 entry_count
      { bitstr := bitstr, sample_count := List.replicate entry_count 0,
        sample_delta := List.replicate entry_count 0 }
    pure (SUCCESS, s.bitstr,
      { track with stts_entry_count := entry_count, stts_sample_count := s.sample_count,
                   stts_sample_delta := s.sample_delta })
  else
    pure (FAILURE, bitstr,
      { track with stts_entry_count := entry_count, stts_sample_count := [],
                   stts_sample_delta := [] })

/-- State of the entry loop of `parse_stsc`: the cursor and the two arrays that the
embedding keeps (`stsc_sample_description_index` is read and dropped). -/
structure StscState where
  bitstr : Bitstream
  first_chunk : List Nat
  samples_per_chunk : List Nat
  deriving DecidableEq, Repr

/-- The body of the entry loop of `parse_stsc` for entry `i`. -/
def parse_stsc_entry (i : Nat) (s : StscState) : Except Fault StscState := do
  let (first, bitstr) ← read_bits s.bitstr 32
  let firsts ← writeAt s.first_chunk i first
  let (samples, bitstr) ← read_bits bitstr 32
  let perChunk ← writeAt s.samples_per_chunk i samples
  let (_, bitstr) ← read_bits bitstr 32
  pure { bitstr := bitstr, first_chunk := firsts, samples_per_chunk := perChunk }

/-- The function `parse_stsc`: version and flags of the FullBox, the entry count, the
`calloc`ed arrays (`allocated` tells whether the three allocations succeeded) and the
entries. -/
def parse_stsc (allocated : Bool) (bitstr : Bitstream) (_box_header : Mp4Box)
    (track : Mp4Track) : Except Fault (Int × Bitstream × Mp4Track) := do
  let (_, bitstr) ← read_bits bitstr 8
  let (_, bitstr) ← read_bits bitstr 24
  let (entry_count, bitstr) ← read_bits bitstr 32
  if allocated then
    let s ← forLoop parse_stsc_entry 0 entry_count
      { bitstr := bitstr, first_chunk := List.replicate entry_count 0,
        samples_per_chunk := List.replicate entry_count 0 }
    pure (SUCCESS, s.bitstr,
      { track with stsc_entry_count := entry_count, stsc_first_chunk := s.first_chunk,
                   stsc_samples_per_chunk := s.samples_per_chunk })
  else
    pure (FAILURE, bitstr,
      { track with stsc_entry_count := entry_count, stsc_first_chunk := [],
                   stsc_samples_per_chunk := [] })

/-- State of the entry loop of `parse_stsz`: the cursor and the array being filled. -/
structure StszState where
  bitstr : Bitstream
  entry_size : List Nat
  deriving DecidableEq, Repr

/-- The body of the entry loop of `parse_stsz` for entry `i`:
`stsz_entry_size[i] = read_bits(bitstr, field_size)`. -/
def parse_stsz_entry (field_size : Nat) (i : Nat) (s : StszState) :
    Except Fault StszState := do
  let (size, bitstr) ← read_bits s.bitstr field_size
  let sizes ← writeAt s.entry_size i size
  pure { bitstr := bitstr, entry_size := sizes }

/-- The fields in front of the size table of `parse_stsz`: the constant sample size and
the sample count of a `stsz` box, with the field size 32; the field size and the sample
count of a `stz2` box, which leaves the constant sample size of the track as it is.  The
result is the field size, the constant sample size, the sample count and the cursor. -/
def stszHead (BOX_STSZ : Nat) (bitstr : Bitstream) (box_header : Mp4Box)
    (track : Mp4Track) : Except Fault (Nat × Nat × Nat × Bitstream) :=
  if box_header.boxtype = BOX_STSZ then do
    let (sample_size, bitstr) ← read_bits bitstr 32
    let (sample_count, bitstr) ← read_bits bitstr 32
    pure (32, sample_size, sample_count, bitstr)
  else do
    let (_, bitstr) ← read_bits bitstr 24
    let (field_size, bitstr) ← read_bits bitstr 8
    let (sample_count, bitstr) ← read_bits bitstr 32
    pure (field_size, track.stsz_sample_size, sample_count, bitstr)

/-- The function `parse_stsz` (for the boxes `stsz` and `stz2`): version and flags of the
FullBox, the fields in front of the table and, when the constant sample size is 0, the
`calloc`ed size table (`allocated` tells whether the allocation succeeded) and its
entries.  `BOX_STSZ` is the type code of `mp4_box.h`. -/
def parse_stsz (BOX_STSZ : Nat) (allocated : Bool) (bitstr : Bitstream)
    (box_header : Mp4Box) (track : Mp4Track) :
    Except Fault (Int × Bitstream × Mp4Track) := do
  let (_, bitstr) ← read_bits bitstr 8
  let (_, bitstr) ← read_bits bitstr 24
  let (field_size, sample_size, sample_count, bitstr) ←
    stszHead BOX_STSZ bitstr box_header track
  let track := { track with stsz_sample_size := sample_size,
                            stsz_sample_count := sample_count }
  if sample_size = 0 then
    if allocated then
      let s ← forLoop (parse_stsz_entry field_size) 0 sample_count
        { bitstr := bitstr, entry_size := List.replicate sample_count 0 }
      pure (SUCCESS, s.bitstr, { track with stsz_entry_size := some s.entry_size })
    else pure (FAILURE, bitstr, { track with stsz_entry_size := none })
  else pure (SUCCESS, bitstr, track)

/-- State of the entry loop of `parse_stco`: the cursor and the array being filled. -/
structure StcoState where
  bitstr : Bitstream
  chunk_offset : List Int
  deriving DecidableEq, Repr

/-- The body of the entry loop of `parse_stco` for entry `i`: a 64-bit offset in a `co64`
box, `(int64_t)read_bits_64(bitstr, 64)`, a 32-bit one otherwise. -/
def parse_stco_entry (large : Bool) (i : Nat) (s : StcoState) : Except Fault StcoState :=
  if large then do
    let (offset, bitstr) ← read_bits_64 s.bitstr 64
    let offsets ← writeAt s.chunk_offset i (toI64 offset)
    pure { bitstr := bitstr, chunk_offset := offsets }
  else do
    let (offset, bitstr) ← read_bits s.bitstr 32
    let offsets ← writeAt s.chunk_offset i (offset : Int)
    pure { bitstr := bitstr, chunk_offset := offsets }

/-- The function `parse_stco` (for the boxes `stco` and `co64`): version and flags of the
FullBox, the entry count, the `calloc`ed array (`allocated` tells whether the allocation
succeeded) and the entries.  `BOX_CO64` is the type code of `mp4_box.h`. -/
def parse_stco (BOX_CO64 : Nat) (allocated : Bool) (bitstr : Bitstream)
    (box_header : Mp4Box) (track : Mp4Track) :
    Except Fault (Int × Bitstream × Mp4Track) := do
  let (_, bitstr) ← read_bits bitstr 8
  let (_, bitstr) ← read_bits bitstr 24
  let (entry_count, bitstr) ← read_bits bitstr 32
  if allocated then
    let s ← forLoop (parse_stco_entry (decide (box_header.boxtype = BOX_CO64))) 0 entry_count
      { bitstr := bitstr, chunk_offset := List.replicate entry_count 0 }
    pure (SUCCESS, s.bitstr,
      { track with stco_entry_count := entry_count, stco_chunk_offset := s.chunk_offset })
  else
    pure (FAILURE, bitstr,
      { track with stco_entry_count := entry_count, stco_chunk_offset := [] })

/-! ## The chunk walk of wave_fileParse with a log -/

/-- One pass of the chunk loop of `wave_fileParse` as a ghost log keeps it: the header
that `parse_chunk_header` has filled, and the byte offset of the cursor behind that
header, where the payload of the chunk starts. -/
structure ChunkRecord where
  header : RiffChunk
  payload : Int
  deriving DecidableEq, Repr

/-- The body `waveChunk` of the chunk loop of `wave_fileParse` together with a ghost log
of the chunks: the state is that of `waveChunk`, the log gets the header of the chunk and
the position of the cursor behind it. -/
def waveChunkLogged (env : WaveEnv) (RIFF_header : RiffList)
    (s : WaveWalk × List ChunkRecord) : Except Fault (Option (WaveWalk × List ChunkRecord)) := do
  let (_, bitstr, chunk_header) ← env.parse_chunk_header s.1.bitstr
  let next ← waveChunk env RIFF_header s.1
  pure (next.map (fun t =>
    (t, s.2 ++ [{ header := chunk_header,
                  payload := bitstream_get_absolute_byte_offset bitstr }])))

/-- The part `waveWalk` of `wave_fileParse` in front of the indexation, together with the
ghost log of the chunks that the loop has gone through. -/
def waveWalkLogged (env : WaveEnv) (fuel : Nat) (bitstr : Bitstream) (media : MediaFile) :
    Except Fault (Option (WaveWalk × List ChunkRecord)) := do
  let (retcode, bitstr, RIFF_header) ← env.parse_list_header bitstr
  let start : WaveWalk :=
    { retcode := retcode, bitstr := bitstr, wave := { zeroWave with run := true } }
  if RIFF_header.dwList = env.fcc_RIFF ∧ RIFF_header.dwFourCC = env.fcc_WAVE then
    if retcode = SUCCESS ∧ ¬ inI64 (media.file_size - 8) then .error .overflow
    else
      whileLoop (fun s => s.1.wave.run && decide (s.1.retcode = SUCCESS) &&
          decide (bitstream_get_absolute_byte_offset s.1.bitstr < media.file_size - 8))
        (waveChunkLogged env RIFF_header) fuel (start, [])
  else pure (some (start, []))

/-! ## Vocabulary of the statements -/

/-- Entry `j` of the sync-sample table designates real sample `i`: the test
`i == stss_sample_number[j] - 1` of `convertTrack` succeeds. -/
def syncHit (track : Mp4Track) (i j : Nat) : Prop :=
  ∃ x, track.stss_sample_number[j]? = some x ∧ i = u32sub x 1

/-- The size that the size tables declare for real sample `i`: `stsz_entry_size[i]` when
the per-sample table is present, the value of `sample_size_cbr` otherwise. -/
def declaredSize (track : Mp4Track) (i : Nat) : Option Nat :=
  match track.stsz_entry_size with
  | some entry_size => entry_size[i]?
  | none => some (sampleSizeCbr track)

/-- The map index `sid` of real sample `i`. -/
def sampleId (track : Mp4Track) (i : Nat) : Nat := u32 (i + track.sps_count + track.pps_count)

/-- Number of samples in the runs that precede run `r` of a run-length table: the sum of
the first `r` run lengths.  Sample `x` (0-based) belongs to run `r` when
`samplesBefore counts r ≤ x < samplesBefore counts (r + 1)`. -/
def samplesBefore (counts : List Nat) (r : Nat) : Nat := (counts.take r).sum

/-- Properties that one run of "Compute DTS" establishes, relative to the state `s` it
starts from: the run writes the entries `lo .. hi - 1`. -/
def DtsRunResult (track : Mp4Track) (copy : Bool) (i : Nat) (s s' : TimeState)
    (lo hi : Nat) : Prop :=
  s'.k = hi ∧
  s'.map.sample_dts.length = s.map.sample_dts.length ∧
  s'.map.sample_pts.length = s.map.sample_pts.length ∧
  s'.map.sample_type = s.map.sample_type ∧ s'.map.sample_size = s.map.sample_size ∧
  s'.map.sample_offset = s.map.sample_offset ∧ s'.map.stream_size = s.map.stream_size ∧
  (∀ p, (p < lo ∨ hi ≤ p) →
    s'.map.sample_dts[p]? = s.map.sample_dts[p]? ∧
    s'.map.sample_pts[p]? = s.map.sample_pts[p]?) ∧
  (copy = false → s'.map.sample_pts = s.map.sample_pts) ∧
  (copy = true → ∀ p, lo ≤ p → p < hi → s'.map.sample_pts[p]? = s'.map.sample_dts[p]?) ∧
  (∀ p, lo ≤ p → p < hi → p ≠ firstSample track →
    ∃ a d, track.stts_sample_delta[i]? = some d ∧
      s'.map.sample_dts[p - 1]? = some a ∧ s'.map.sample_dts[p]? = some (a + (d : Int)))

/-- Properties that a stretch of "Then compute PTS" establishes, relative to the state
`s` it starts from: the stretch writes the entries `s.k .. hi - 1` of `sample_pts`. -/
def PtsResult (s s' : TimeState) (hi : Nat) : Prop :=
  s'.k = hi ∧
  s'.map.sample_pts.length = s.map.sample_pts.length ∧
  s'.map.sample_dts = s.map.sample_dts ∧
  s'.map.sample_type = s.map.sample_type ∧ s'.map.sample_size = s.map.sample_size ∧
  s'.map.sample_offset = s.map.sample_offset ∧ s'.map.stream_size = s.map.stream_size ∧
  (∀ p, (p < s.k ∨ hi ≤ p) → s'.map.sample_pts[p]? = s.map.sample_pts[p]?)

/-- The fields of the map that the timestamp loops never write. -/
def SameSamples (m m' : BitstreamMap) : Prop :=
  m'.sample_type = m.sample_type ∧ m'.sample_size = m.sample_size ∧
  m'.stream_size = m.stream_size

/-- The byte offsets of a walked chunk as the claim describes them: the first sample of
the chunk lies at `stco_chunk_offset[chunk]`, every later sample at the previous entry's
offset plus the previous entry's size. -/
def ChunkContiguous (track : Mp4Track) (map : BitstreamMap) (v : ChunkVisit) : Prop :=
  (0 < v.samples → ∃ o, track.stco_chunk_offset[v.chunk]? = some o ∧
    map.sample_offset[v.first]? = some o) ∧
  (∀ l, 0 < l → l < v.samples → ∃ o z, map.sample_offset[v.first + l - 1]? = some o ∧
    map.sample_size[v.first + l - 1]? = some z ∧
    map.sample_offset[v.first + l]? = some (o + (z : Int)))

/-- What every stretch of the chunk walk keeps true, relative to the map `m` that the
walk started from. -/
def WalkInvariant (track : Mp4Track) (m : BitstreamMap) (s : OffsetState) : Prop :=
  SameSamples m s.map ∧ s.map.sample_offset.length = m.sample_offset.length ∧
  (∀ v, v ∈ s.visited → v.first + v.samples ≤ s.index ∧ ChunkContiguous track s.map v)

/-- The synthetic video track of the spec's scenarios: `time_to_sample = [(3, 1000)]`,
timescale 3000, `sync_samples = [1, 3]`, three samples of sizes 100, 150 and 200 stored
in one chunk at byte 500, no parameter sets and no composition offsets. -/
def scenarioTrack : Mp4Track :=
  { emptyTrack with
    handlerType := HandlerType.HANDLER_VIDEO, timescale := 3000,
    stts_entry_count := 1, stts_sample_count := [3], stts_sample_delta := [1000],
    stss_entry_count := 2, stss_sample_number := [1, 3],
    stsc_entry_count := 1, stsc_first_chunk := [1], stsc_samples_per_chunk := [3],
    stsz_sample_count := 3, stsz_entry_size := some [100, 150, 200],
    stco_entry_count := 1, stco_chunk_offset := [500] }

/-- The scenario track without its sync-sample table. -/
def scenarioNoSync : Mp4Track :=
  { scenarioTrack with stss_entry_count := 0, stss_sample_number := [] }

/-- A PCM audio track with a declared constant sample size of 1, 2 channels and 16 bits
per sample: two samples in one chunk. -/
def scenarioPcm : Mp4Track :=
  { emptyTrack with
    handlerType := HandlerType.HANDLER_AUDIO, codec := CODEC_LPCM, timescale := 44100,
    channel_count := 2, sample_size_bits := 16,
    stts_entry_count := 1, stts_sample_count := [2], stts_sample_delta := [1],
    stsc_entry_count := 1, stsc_first_chunk := [1], stsc_samples_per_chunk := [2],
    stsz_sample_size := 1, stsz_sample_count := 2, stsz_entry_size := none,
    stco_entry_count := 1, stco_chunk_offset := [44] }

/-- The map that `convertTrack` builds for `scenarioTrack` from a zero-filled map. -/
def scenarioResult : BitstreamMap :=
  { sample_count := 0
    stream_size := 450
    sample_type := [SampleType.sample_VIDEO_SYNC, SampleType.sample_VIDEO,
      SampleType.sample_VIDEO_SYNC]
    sample_size := [100, 150, 200]
    sample_offset := [500, 600, 750]
    sample_pts := [0, 333333, 666666]
    sample_dts := [0, 333333, 666666] }

/-- The map that `convertTrack` builds for `scenarioPcm` from a zero-filled map. -/
def scenarioPcmResult : BitstreamMap :=
  { sample_count := 0
    stream_size := 8
    sample_type := [SampleType.sample_AUDIO, SampleType.sample_AUDIO]
    sample_size := [4, 4]
    sample_offset := [44, 48]
    sample_pts := [0, 22]
    sample_dts := [0, 22] }

/-- The scenario track with a composition-offset table `[(3, 500)]`. -/
def scenarioCtts : Mp4Track :=
  { scenarioTrack with
    ctts_entry_count := 1, ctts_sample_count := some [3], ctts_sample_offset := [500] }

/-- A track whose first `time_to_sample` run is empty: runs `[(0, 5), (2, 7), (2, 9)]`
over five samples. -/
def scenarioEmptyRun : Mp4Track :=
  { emptyTrack with
    timescale := 1000, stts_entry_count := 3, stts_sample_count := [0, 2, 2],
    stts_sample_delta := [5, 7, 9], stsz_sample_count := 5, stsz_sample_size := 10 }

/-- The chunk scenario of the spec: `sample_to_chunk = [(1, 2, 1)]`,
`chunk_offsets = [500, 900]`, sample sizes `[100, 150, 200, 120]` over 4 samples, no
parameter sets; timescale 1000 and `time_to_sample = [(4, 40)]`. -/
def scenarioChunks : Mp4Track :=
  { emptyTrack with
    timescale := 1000,
    stts_entry_count := 1, stts_sample_count := [4], stts_sample_delta := [40],
    stsc_entry_count := 1, stsc_first_chunk := [1], stsc_samples_per_chunk := [2],
    stsz_sample_count := 4, stsz_entry_size := some [100, 150, 200, 120],
    stco_entry_count := 2, stco_chunk_offset := [500, 900] }

/-- The map that `convertTrack` builds for `scenarioChunks` from a zero-filled map. -/
def scenarioChunksResult : BitstreamMap :=
  { sample_count := 0
    stream_size := 570
    sample_type := [SampleType.sample_VIDEO, SampleType.sample_VIDEO,
      SampleType.sample_VIDEO, SampleType.sample_VIDEO]
    sample_size := [100, 150, 200, 120]
    sample_offset := [500, 600, 900, 1100]
    sample_pts := [0, 40000, 80000, 120000]
    sample_dts := [0, 40000, 80000, 120000] }

/-- A map of four entries whose sizes are those of the chunk scenario. -/
def scenarioSizedMap : BitstreamMap :=
  { zeroMap 4 with sample_size := [100, 150, 200, 120] }

/-- The final state of the chunk walk of `scenarioChunks` over `scenarioSizedMap`. -/
def scenarioWalk : OffsetState :=
  { map := { scenarioSizedMap with sample_offset := [500, 600, 900, 1100] }
    index := 4
    chunkOffset := 2
    visited := [{ chunk := 0, first := 0, samples := 2 },
                { chunk := 1, first := 2, samples := 2 }] }

/-- The scenario track with a timescale of 0. -/
def scenarioZeroTimescale : Mp4Track :=
  { scenarioTrack with timescale := 0 }

/-- Entry `p` of the map is the pseudo-sample of a parameter set recorded at byte offset
`off` with size `sz`: kind `sample_VIDEO_PARAM`, that offset and size, and -1 as decode
and presentation time. -/
def IsParamEntry (map : BitstreamMap) (p : Nat) (off : Int) (sz : Nat) : Prop :=
  map.sample_type[p]? = some SampleType.sample_VIDEO_PARAM ∧
  map.sample_offset[p]? = some off ∧ map.sample_size[p]? = some sz ∧
  map.sample_pts[p]? = some (-1) ∧ map.sample_dts[p]? = some (-1)

/-- The maps `m` and `m'` hold the same entry at index `p`. -/
def SameEntry (m m' : BitstreamMap) (p : Nat) : Prop :=
  m'.sample_type[p]? = m.sample_type[p]? ∧ m'.sample_size[p]? = m.sample_size[p]? ∧
  m'.sample_offset[p]? = m.sample_offset[p]? ∧ m'.sample_pts[p]? = m.sample_pts[p]? ∧
  m'.sample_dts[p]? = m.sample_dts[p]?

/-- The maps `m` and `m'` have arrays of the same lengths and the same two counters. -/
def SameShape (m m' : BitstreamMap) : Prop :=
  m'.sample_type.length = m.sample_type.length ∧
  m'.sample_size.length = m.sample_size.length ∧
  m'.sample_offset.length = m.sample_offset.length ∧
  m'.sample_pts.length = m.sample_pts.length ∧
  m'.sample_dts.length = m.sample_dts.length ∧
  m'.sample_count = m.sample_count ∧ m'.stream_size = m.stream_size

/-- What the chunk walk has done to timestamps and offsets when it is in state `s`, having
started from the map `m`: the entries before the first real sample and from `index` on
are as in `m`, and every entry in between has had both timestamps replaced by
`value * 1000000 / timescale`. -/
def WalkTimes (track : Mp4Track) (m : BitstreamMap) (s : OffsetState) : Prop :=
  firstSample track ≤ s.index ∧
  s.map.sample_dts.length = m.sample_dts.length ∧
  s.map.sample_pts.length = m.sample_pts.length ∧
  s.map.sample_offset.length = m.sample_offset.length ∧
  (∀ p, (p < firstSample track ∨ s.index ≤ p) →
    s.map.sample_dts[p]? = m.sample_dts[p]? ∧ s.map.sample_pts[p]? = m.sample_pts[p]? ∧
    s.map.sample_offset[p]? = m.sample_offset[p]?) ∧
  (∀ p, firstSample track ≤ p → p < s.index →
    ∃ d q, m.sample_dts[p]? = some d ∧ m.sample_pts[p]? = some q ∧
      s.map.sample_dts[p]? = some (Int.tdiv (d * 1000000) (track.timescale : Int)) ∧
      s.map.sample_pts[p]? = some (Int.tdiv (q * 1000000) (track.timescale : Int)))

/-- The number of samples of the chunks in a log of the chunk walk. -/
def samplesWalked (visited : List ChunkVisit) : Nat :=
  (visited.map (fun v => v.samples)).sum

/-- The chunk scenario as an H.264 video track with one SPS (20 bytes at offset 300) and
one PPS (8 bytes at offset 330) in front of its four samples. -/
def scenarioH264 : Mp4Track :=
  { scenarioChunks with
    handlerType := HandlerType.HANDLER_VIDEO, codec := CODEC_H264,
    sps_count := 1, sps_sample_offset := [300], sps_sample_size := [20],
    pps_count := 1, pps_sample_offset := [330], pps_sample_size := [8] }

/-- The map that `convertTrack` builds for `scenarioH264` from a zero-filled map. -/
def scenarioH264Result : BitstreamMap :=
  { sample_count := 0
    stream_size := 570
    sample_type := [SampleType.sample_VIDEO_PARAM, SampleType.sample_VIDEO_PARAM,
      SampleType.sample_VIDEO, SampleType.sample_VIDEO, SampleType.sample_VIDEO,
      SampleType.sample_VIDEO]
    sample_size := [20, 8, 100, 150, 200, 120]
    sample_offset := [300, 330, 500, 600, 900, 1100]
    sample_pts := [-1, -1, 0, 40000, 80000, 120000]
    sample_dts := [-1, -1, 0, 40000, 80000, 120000] }

/-- An allocator that never fails and hands out zero-filled maps. -/
def zeroAllocator (n : Nat) : Option BitstreamMap := some (zeroMap n)

/-- A track whose `sample_to_chunk = [(1, 2, 1), (3, 2, 1)]` describes six samples in
three chunks, with a chunk-offset table of only two entries `[500, 900]`. -/
def scenarioShortTable : Mp4Track :=
  { emptyTrack with
    timescale := 1000,
    stts_entry_count := 1, stts_sample_count := [6], stts_sample_delta := [40],
    stsc_entry_count := 2, stsc_first_chunk := [1, 3], stsc_samples_per_chunk := [2, 2],
    stsz_sample_size := 10, stsz_sample_count := 6,
    stco_entry_count := 2, stco_chunk_offset := [500, 900] }

/-- The map that `convertTrack` builds for `scenarioShortTable`: the last two samples
have neither an offset nor adjusted timestamps. -/
def scenarioShortTableResult : BitstreamMap :=
  { sample_count := 6
    stream_size := 60
    sample_type := [SampleType.sample_VIDEO, SampleType.sample_VIDEO,
      SampleType.sample_VIDEO, SampleType.sample_VIDEO, SampleType.sample_VIDEO,
      SampleType.sample_VIDEO]
    sample_size := [10, 10, 10, 10, 10, 10]
    sample_offset := [500, 510, 900, 910, 0, 0]
    sample_pts := [0, 40000, 80000, 120000, 160, 200]
    sample_dts := [0, 40000, 80000, 120000, 160, 200] }

/-- A track whose `sample_to_chunk = [(1, 1, 1), (4, 1, 1)]` gives its first entry three
chunks, with a chunk-offset table of only two entries `[500, 900]`. -/
def scenarioOverrun : Mp4Track :=
  { emptyTrack with
    timescale := 1000,
    stts_entry_count := 1, stts_sample_count := [4], stts_sample_delta := [40],
    stsc_entry_count := 2, stsc_first_chunk := [1, 4], stsc_samples_per_chunk := [1, 1],
    stsz_sample_size := 10, stsz_sample_count := 4,
    stco_entry_count := 2, stco_chunk_offset := [500, 900] }

/-- A track whose two `sample_to_chunk` entries both start at chunk 1, so that the first
entry walks no chunk: `sample_to_chunk = [(1, 1, 1), (1, 1, 1)]` over three chunk offsets
`[100, 200, 300]` and three samples. -/
def scenarioRepeatedChunk : Mp4Track :=
  { emptyTrack with
    timescale := 1000,
    stts_entry_count := 1, stts_sample_count := [3], stts_sample_delta := [40],
    stsc_entry_count := 2, stsc_first_chunk := [1, 1], stsc_samples_per_chunk := [1, 1],
    stsz_sample_size := 10, stsz_sample_count := 3,
    stco_entry_count := 3, stco_chunk_offset := [100, 200, 300] }

/-- The state in which the offset loops of `convertTrack` start on `map`. -/
def walkStart (track : Mp4Track) (map : BitstreamMap) : OffsetState :=
  { map := map, index := firstSample track, chunkOffset := 0, visited := [] }

/-- Each of the five per-entry arrays of the map has `n` entries. -/
def HasEntries (map : BitstreamMap) (n : Nat) : Prop :=
  map.sample_type.length = n ∧ map.sample_size.length = n ∧
  map.sample_offset.length = n ∧ map.sample_pts.length = n ∧ map.sample_dts.length = n

/-- The final state of the offset loops of `convertTrack` for `scenarioH264`. -/
def scenarioH264Walk : OffsetState :=
  { map := scenarioH264Result
    index := 6
    chunkOffset := 2
    visited := [{ chunk := 0, first := 2, samples := 2 },
                { chunk := 1, first := 4, samples := 2 }] }

/-- The target `T` of `jumpy_mp4` in the words of the claim: the smaller of
`current.offset_end` and the parent's `offset_end` when there is a parent whose
`offset_end` lies within the file, the smaller of `current.offset_end` and the file size
otherwise. -/
def resyncTarget (parent : Option Mp4Box) (current : Mp4Box) (file_size : Int) : Int :=
  match parent with
  | some parent =>
    if parent.offset_end ≤ file_size then min current.offset_end parent.offset_end
    else min current.offset_end file_size
  | none => min current.offset_end file_size

/-- A file of 32 zero bytes with the cursor on its first bit. -/
def scenarioFile : Bitstream := { bytes := List.replicate 32 0, position := 0 }

/-- A file that consists of one `mdat` box whose size field is 0, followed by four bytes
of content, with the cursor on its first bit. -/
def scenarioMdat : Bitstream :=
  { bytes := [0, 0, 0, 0, 109, 100, 97, 116, 1, 2, 3, 4], position := 0 }

/-- The 32-bit number that `read_bits` gives for the four bytes of a type tag. -/
def tag (a b c d : Nat) : Nat := ((a * 256 + b) * 256 + c) * 256 + d

/-- The constants of the absent headers with the values of ISO/IEC 14496-12: each code is
the big-endian number of its four-character tag, and `handlerOf` knows the handler tags
`soun`, `vide`, `subt`, `sbtl`, `text`, `tmcd`, `meta` and `hint`. -/
def scenarioCodes : Mp4Codes :=
  { BOX_FTYP := tag 102 116 121 112
    BOX_PDIN := tag 112 100 105 110
    BOX_UDTA := tag 117 100 116 97
    BOX_SIDX := tag 115 105 100 120
    BOX_MOOV := tag 109 111 111 118
    BOX_MOOF := tag 109 111 111 102
    BOX_MDAT := tag 109 100 97 116
    BOX_FREE := tag 102 114 101 101
    BOX_UUID := tag 117 117 105 100
    BOX_MVHD := tag 109 118 104 100
    BOX_IODS := tag 105 111 100 115
    BOX_TRAK := tag 116 114 97 107
    BOX_TKHD := tag 116 107 104 100
    BOX_EDTS := tag 101 100 116 115
    BOX_MDIA := tag 109 100 105 97
    BOX_MDHD := tag 109 100 104 100
    BOX_HDLR := tag 104 100 108 114
    BOX_MINF := tag 109 105 110 102
    BOX_DINF := tag 100 105 110 102
    BOX_STBL := tag 115 116 98 108
    BOX_STSD := tag 115 116 115 100
    BOX_STTS := tag 115 116 116 115
    BOX_CTTS := tag 99 116 116 115
    BOX_STSS := tag 115 116 115 115
    BOX_STSC := tag 115 116 115 99
    BOX_STSZ := tag 115 116 115 122
    BOX_STZ2 := tag 115 116 122 50
    BOX_STCO := tag 115 116 99 111
    BOX_CO64 := tag 99 111 54 52
    BOX_AVCC := tag 97 118 99 67
    BOX_BTRT := tag 98 116 114 116
    BOX_CLAP := tag 99 108 97 112
    BOX_COLR := tag 99 111 108 114
    BOX_FIEL := tag 102 105 101 108
    BOX_GAMA := tag 103 97 109 97
    BOX_PASP := tag 112 97 115 112
    fcc_mp4a := tag 109 112 52 97
    fcc_AC3 := tag 65 67 45 51
    fcc_ac3 := tag 97 99 45 51
    fcc_AC4 := tag 65 67 45 52
    fcc_ac4 := tag 97 99 45 52
    fcc_sowt := tag 115 111 119 116
    fcc_avc1 := tag 97 118 99 49
    fcc_hvc1 := tag 104 118 99 49
    fcc_mp4v := tag 109 112 52 118
    fcc_CFHD := tag 67 70 72 68
    nclc := tag 110 99 108 99
    nclx := tag 110 99 108 120
    handlerOf := fun code =>
      if code = tag 115 111 117 110 then HandlerType.HANDLER_AUDIO
      else if code = tag 118 105 100 101 then HandlerType.HANDLER_VIDEO
      else if code = tag 115 117 98 116 then HandlerType.HANDLER_SUBT
      else if code = tag 115 98 116 108 then HandlerType.HANDLER_SBTL
      else if code = tag 116 101 120 116 then HandlerType.HANDLER_TEXT
      else if code = tag 116 109 99 100 then HandlerType.HANDLER_TMCD
      else if code = tag 109 101 116 97 then HandlerType.HANDLER_META
      else if code = tag 104 105 110 116 then HandlerType.HANDLER_HINT
      else HandlerType.HANDLER_OTHER }

/-- The value of the next `n` bits, the cursor staying where it is. -/
def peekBits (bitstr : Bitstream) (n : Nat) : Nat :=
  match read_bits bitstr n with
  | .ok (value, _) => value
  | .error _ => 0

/-- An environment in which `next_bits` peeks, every allocation succeeds apart from those
of `parse_ctts` when `ctts` is `false`, and the content parsers that the scenarios do not
reach have no result. -/
def scenarioEnv (ctts : Bool) : Mp4Env :=
  { next_bits := peekBits
    calloc_track := fun _ => true
    calloc_ctts := fun _ => ctts
    init_bitstream_map := zeroAllocator
    parse_ftyp := fun _ _ _ => .error .outOfBounds
    parse_pdin := fun _ _ _ => .error .outOfBounds
    parse_mvhd := fun _ _ _ => .error .outOfBounds
    parse_iods := fun _ _ => .error .outOfBounds
    parse_tkhd := fun _ _ _ => .error .outOfBounds
    parse_edts := fun _ _ _ => .error .outOfBounds
    parse_mdhd := fun _ _ _ => .error .outOfBounds
    parse_stts := fun _ _ _ => .error .outOfBounds
    parse_stss := fun _ _ _ => .error .outOfBounds
    parse_stsc := fun _ _ _ => .error .outOfBounds
    parse_stsz := fun _ _ _ => .error .outOfBounds
    parse_stco := fun _ _ _ => .error .outOfBounds }

/-- A file of 104 bytes: a `moov` box of 96 bytes that holds one `trak` with a `mdia`
box, in which a `hdlr` box of 32 bytes declares a video track and a `minf` box holds a
`stbl` box with one `ctts` box of 24 bytes (one entry); a `free` box of 8 bytes follows
the `moov` box. -/
def scenarioMovie : List Nat :=
  [0, 0, 0, 96, 109, 111, 111, 118,
   0, 0, 0, 88, 116, 114, 97, 107,
   0, 0, 0, 80, 109, 100, 105, 97,
   0, 0, 0, 32, 104, 100, 108, 114, 0, 0, 0, 0, 0, 0, 0, 0, 118, 105, 100, 101,
   0, 0, 0, 0, 0, 0, 0, 0, 0, 0, 0, 0,
   0, 0, 0, 40, 109, 105, 110, 102,
   0, 0, 0, 32, 115, 116, 98, 108,
   0, 0, 0, 24, 99, 116, 116, 115, 0, 0, 0, 0, 0, 0, 0, 1, 0, 0, 0, 1, 0, 0, 0, 0,
   0, 0, 0, 8, 102, 114, 101, 101]

/-- The header of the `stbl` box of `scenarioMovie`. -/
def scenarioStbl : Mp4Box :=
  { emptyBox with offset_start := 64, offset_end := 96, size := 32,
                  boxtype := tag 115 116 98 108 }

/-- The header of the `ctts` box of `scenarioMovie`. -/
def scenarioCttsBox : Mp4Box :=
  { emptyBox with offset_start := 72, offset_end := 96, size := 24,
                  boxtype := tag 99 116 116 115 }

/-- A file of 32 bytes that starts with a `free` box whose size field is 4. -/
def scenarioShortBox : Bitstream :=
  { bytes := [0, 0, 0, 4, 102, 114, 101, 101] ++ List.replicate 24 0, position := 0 }

/-- A cursor on a file of 4 bytes. -/
def scenarioTruncated : Bitstream := { bytes := [0, 0, 0, 8], position := 0 }

/-- A file of 48 bytes that starts with a `hdlr` box of 37 bytes for a video track, whose
name field is the length byte 4 and the four bytes `abcd`; the byte behind the box is
255.  The cursor stands behind the box header. -/
def scenarioHdlr : Bitstream :=
  { bytes := [0, 0, 0, 37, 104, 100, 108, 114, 0, 0, 0, 0, 0, 0, 0, 0, 118, 105, 100, 101,
              0, 0, 0, 0, 0, 0, 0, 0, 0, 0, 0, 0, 4, 97, 98, 99, 100, 255] ++
             List.replicate 10 0,
    position := 64 }

/-- The header of the `hdlr` box of `scenarioHdlr`. -/
def scenarioHdlrBox : Mp4Box :=
  { emptyBox with offset_start := 0, offset_end := 37, size := 37,
                  boxtype := tag 104 100 108 114 }

/-- The content of a `stsd` box, 112 bytes: the sample entry has the type tag `avc3`, its
end at byte 109, zeroed `VisualSampleEntry` fields and an `avcC` box of 15 bytes without
parameter sets. -/
def scenarioStsd : Bitstream :=
  { bytes := [0, 0, 0, 0, 0, 0, 0, 1, 0, 0, 0, 101, 97, 118, 99, 51, 0, 0, 0, 0, 0, 0, 0, 1] ++
             List.replicate 70 0 ++
             [0, 0, 0, 15, 97, 118, 99, 67, 1, 100, 0, 31, 255, 224, 0] ++ [0, 0, 0],
    position := 0 }

/-- The header of the `avcC` box of `scenarioStsd`. -/
def scenarioAvcC : Mp4Box :=
  { emptyBox with offset_start := 94, offset_end := 109, size := 15,
                  boxtype := tag 97 118 99 67 }

/-- The header of the box that `scenarioShortBox` starts with. -/
def scenarioShortBoxHeader : Mp4Box :=
  { emptyBox with offset_end := 4, size := 4, boxtype := tag 102 114 101 101 }

/-- The indices written according to a log of accesses, in order. -/
def writtenIndices (log : List DtsAccess) : List Nat :=
  log.filterMap (fun a => match a with
    | DtsAccess.write index => some index
    | DtsAccess.read _ => none)

/-- The indices read according to a log of accesses, in order. -/
def readIndices (log : List DtsAccess) : List Nat :=
  log.filterMap (fun a => match a with
    | DtsAccess.read index => some index
    | DtsAccess.write _ => none)

/-- A result that is not an access outside an array. -/
def InBounds {α : Type} (x : Except Fault α) : Prop := x ≠ .error Fault.outOfBounds

/-- Entry `i` of `stsc_first_chunk` (0 outside the array). -/
def firstChunk (track : Mp4Track) (i : Nat) : Nat := track.stsc_first_chunk.getD i 0

/-- Entry `i` of `stsc_samples_per_chunk` (0 outside the array). -/
def samplesPerChunk (track : Mp4Track) (i : Nat) : Nat :=
  track.stsc_samples_per_chunk.getD i 0

/-- The number of chunks that entry `i` of `sample_to_chunk` stands for: up to the first
chunk of the next entry, and up to the last chunk of the chunk-offset table for the last
entry. -/
def chunksOfEntry (track : Mp4Track) (i : Nat) : Nat :=
  if i + 1 = track.stsc_entry_count then track.stco_entry_count + 1 - firstChunk track i
  else firstChunk track (i + 1) - firstChunk track i

/-- The number of samples in the chunks of the entries `0 .. e - 1` of
`sample_to_chunk`. -/
def samplesInChunks (track : Mp4Track) : Nat → Nat
  | 0 => 0
  | e + 1 => samplesInChunks track e + chunksOfEntry track e * samplesPerChunk track e

/-- Well-formed chunk tables: the three arrays hold their declared numbers of entries,
`first_chunk` starts at 1, increases strictly and ends at a chunk of the chunk-offset
table, and the samples of all the chunks are the declared samples. -/
def WellFormedChunks (track : Mp4Track) : Prop :=
  1 ≤ track.stsc_entry_count ∧
  track.stsc_entry_count ≤ track.stsc_first_chunk.length ∧
  track.stsc_entry_count ≤ track.stsc_samples_per_chunk.length ∧
  track.stco_entry_count ≤ track.stco_chunk_offset.length ∧
  firstChunk track 0 = 1 ∧
  (∀ i, i + 1 < track.stsc_entry_count → firstChunk track i < firstChunk track (i + 1)) ∧
  firstChunk track (track.stsc_entry_count - 1) ≤ track.stco_entry_count ∧
  samplesInChunks track track.stsc_entry_count = track.stsz_sample_count

/-- The 32-bit number whose four bytes are those of `x` in reverse order. -/
def byteSwap32 (x : Nat) : Nat :=
  tag (x % 256) (x / 2 ^ 8 % 256) (x / 2 ^ 16 % 256) (x / 2 ^ 24 % 256)

/-- The ten type tags of `Mp4Codes` that `parse_stsd` compares the sample entry with are
the constants of `fourcc.h` of the same names. -/
def SameTags (codes : Mp4Codes) (fourcc : Fcc → Nat) : Prop :=
  codes.fcc_mp4a = fourcc Fcc.fcc_mp4a ∧ codes.fcc_AC3 = fourcc Fcc.fcc_AC3 ∧
  codes.fcc_ac3 = fourcc Fcc.fcc_ac3 ∧ codes.fcc_AC4 = fourcc Fcc.fcc_AC4 ∧
  codes.fcc_ac4 = fourcc Fcc.fcc_ac4 ∧ codes.fcc_sowt = fourcc Fcc.fcc_sowt ∧
  codes.fcc_avc1 = fourcc Fcc.fcc_avc1 ∧ codes.fcc_hvc1 = fourcc Fcc.fcc_hvc1 ∧
  codes.fcc_mp4v = fourcc Fcc.fcc_mp4v ∧ codes.fcc_CFHD = fourcc Fcc.fcc_CFHD

/-- Values for the constants of `fourcc.h`, one per name: 1000 more than the position of
the name in the `switch`. -/
def scenarioFourcc (name : Fcc) : Nat := 1000 + name.toCtorIdx

/-- The codes of the scenarios with the ten sample-entry tags of `scenarioFourcc`. -/
def scenarioTagCodes : Mp4Codes :=
  { scenarioCodes with
    fcc_mp4a := scenarioFourcc Fcc.fcc_mp4a, fcc_AC3 := scenarioFourcc Fcc.fcc_AC3,
    fcc_ac3 := scenarioFourcc Fcc.fcc_ac3, fcc_AC4 := scenarioFourcc Fcc.fcc_AC4,
    fcc_ac4 := scenarioFourcc Fcc.fcc_ac4, fcc_sowt := scenarioFourcc Fcc.fcc_sowt,
    fcc_avc1 := scenarioFourcc Fcc.fcc_avc1, fcc_hvc1 := scenarioFourcc Fcc.fcc_hvc1,
    fcc_mp4v := scenarioFourcc Fcc.fcc_mp4v, fcc_CFHD := scenarioFourcc Fcc.fcc_CFHD }

/-- The number stored in the opposite byte order, for 16 bits. -/
def flip16 (x : Nat) : Nat := x % 256 * 256 + x / 256 % 256

/-- The number stored in the opposite byte order, for 32 bits. -/
def flip32 (x : Nat) : Nat := byteSwap32 x

/-- A RIFF reader for the scenarios (`riff.c` is not among the sources): the header of a
list is the tag, the size in little-endian order and the type of the list. -/
def riffListHeader (bitstr : Bitstream) : Except Fault (Int × Bitstream × RiffList) := do
  let offset_start := bitstream_get_absolute_byte_offset bitstr
  let (dwList, bitstr) ← read_bits bitstr 32
  let (dwSize, bitstr) ← read_bits bitstr 32
  let (dwFourCC, bitstr) ← read_bits bitstr 32
  pure (SUCCESS, bitstr,
    { offset_start := offset_start, offset_end := offset_start + (flip32 dwSize : Nat) + 8,
      dwList := dwList, dwSize := flip32 dwSize, dwFourCC := dwFourCC })

/-- A RIFF reader for the scenarios: the header of a chunk is the tag and the size in
little-endian order. -/
def riffChunkHeader (bitstr : Bitstream) : Except Fault (Int × Bitstream × RiffChunk) := do
  let offset_start := bitstream_get_absolute_byte_offset bitstr
  let (dwFourCC, bitstr) ← read_bits bitstr 32
  let (dwSize, bitstr) ← read_bits bitstr 32
  pure (SUCCESS, bitstr,
    { offset_start := offset_start, offset_end := offset_start + (flip32 dwSize : Nat) + 8,
      dwFourCC := dwFourCC, dwSize := flip32 dwSize })

/-- A RIFF reader for the scenarios: the resynchronisation puts the cursor on the end of
the chunk, when that is a position of the file. -/
def riffJumpy (bitstr : Bitstream) (_list : RiffList) (offset_end : Int) :
    Except Fault (Int × Bitstream) :=
  .ok (bitstream_goto_offset bitstr offset_end)

/-- The environment of the WAVE scenarios: the tags `RIFF`, `WAVE`, `fmt `, `fact`, `data`
and `cue `, the format tags 1 (PCM), 0x50 (MP1), 0x55 (MP3) and 0xFFFE (extensible), a
zero-filled map from the allocator, and the sample kind `sample_AUDIO` for the value 1. -/
def scenarioWaveEnv : WaveEnv :=
  { fcc_RIFF := tag 82 73 70 70
    fcc_WAVE := tag 87 65 86 69
    fcc_fmt_ := tag 102 109 116 32
    fcc_fact := tag 102 97 99 116
    fcc_data := tag 100 97 116 97
    fcc_cue_ := tag 99 117 101 32
    WAVE_FORMAT_PCM := 1
    WAVE_FORMAT_MP1 := 80
    WAVE_FORMAT_MP3 := 85
    WAVE_FORMAT_EXTENSIBLE := 65534
    endian_flip_16 := flip16
    endian_flip_32 := flip32
    parse_list_header := riffListHeader
    parse_chunk_header := riffChunkHeader
    skip_chunk := fun bitstr _ _ => .ok (SUCCESS, bitstr)
    jumpy_riff := riffJumpy
    init_bitstream_map := zeroAllocator
    sample_type_1 := SampleType.sample_AUDIO }

/-- A WAVE file of 32 bytes: the RIFF header, a `fact` chunk that declares 0 bytes, and
a `data` chunk of 4 bytes. -/
def scenarioWaveShortFact : List Nat :=
  [82, 73, 70, 70, 24, 0, 0, 0, 87, 65, 86, 69,
   102, 97, 99, 116, 0, 0, 0, 0,
   100, 97, 116, 97, 4, 0, 0, 0, 1, 2, 3, 4]

/-- A WAVE file of 60 bytes: the RIFF header, a `fmt ` chunk of 16 bytes (PCM, 2
channels, 44100 Hz, 16 bits), a `fact` chunk with the sample length 1, and a `data`
chunk of 4 bytes, whose payload starts at byte 56. -/
def scenarioWave : List Nat :=
  [82, 73, 70, 70, 52, 0, 0, 0, 87, 65, 86, 69,
   102, 109, 116, 32, 16, 0, 0, 0, 1, 0, 2, 0, 68, 172, 0, 0, 16, 177, 2, 0, 4, 0, 16, 0,
   102, 97, 99, 116, 4, 0, 0, 0, 1, 0, 0, 0,
   100, 97, 116, 97, 4, 0, 0, 0, 1, 2, 3, 4]

/-- The state of `wave_t` after the chunks of `scenarioWave`. -/
def scenarioWaveState : Wave :=
  { run := true
    fmt := { wFormatTag := 1, nChannels := 2, nSamplesPerSec := 44100,
             nAvgBytesPerSec := 176400, nBlockAlign := 4, wBitsPerSample := 16 }
    fact := { dwSampleLength := 1 }
    data := { datasOffset := 56, datasSize := 4 } }

/-- The content of an `avcC` box of 23 bytes that holds one SPS of 4 bytes and one PPS of
2 bytes, followed by 5 more bytes of the file. -/
def scenarioAvcCContent : Bitstream :=
  { bytes := [1, 100, 0, 31, 255, 225, 0, 4, 103, 100, 0, 31, 1, 0, 2, 104, 235,
              0, 0, 0, 0, 0],
    position := 0 }

/-- The map indices of the samples of the chunks in a log of the chunk walk, in the order
of the walk: for each chunk the indices `first`, ..., `first + samples - 1` that the
sample loop assigns an offset to. -/
def visitedSamples : List ChunkVisit → List Nat
  | [] => []
  | v :: rest => List.range' v.first v.samples ++ visitedSamples rest

/-- A track whose `sample_to_chunk = [(1, 2, 1), (2, 1, 1)]` describes three samples of
sizes 100, 150 and 200 in two chunks at the bytes 500 and 900. -/
def scenarioTwoRuns : Mp4Track :=
  { emptyTrack with
    timescale := 1000,
    stts_entry_count := 1, stts_sample_count := [3], stts_sample_delta := [40],
    stsc_entry_count := 2, stsc_first_chunk := [1, 2], stsc_samples_per_chunk := [2, 1],
    stsz_sample_count := 3, stsz_entry_size := some [100, 150, 200],
    stco_entry_count := 2, stco_chunk_offset := [500, 900] }

/-- A map of three entries whose sizes are those of `scenarioTwoRuns`. -/
def scenarioTwoRunsMap : BitstreamMap :=
  { zeroMap 3 with sample_size := [100, 150, 200] }

/-- The final state of the offset loops of `convertTrack` for `scenarioTwoRuns`. -/
def scenarioTwoRunsWalk : OffsetState :=
  { map := { scenarioTwoRunsMap with sample_offset := [500, 600, 900] }
    index := 3
    chunkOffset := 2
    visited := [{ chunk := 0, first := 0, samples := 2 },
                { chunk := 1, first := 2, samples := 1 }] }
/-! ## Further scenarios and vocabulary -/

/-- Readers that give the bits of the file where the cursor can supply them, and the
value 0, with the cursor left where it is, where it cannot. -/
def scenarioReads : CursorReads :=
  { read_bits := fun bitstr n =>
      match read_bits bitstr n with
      | .ok r => r
      | .error _ => (0, bitstr)
    read_bits_64 := fun bitstr n =>
      match read_bits_64 bitstr n with
      | .ok r => r
      | .error _ => (0, bitstr) }

/-- An allocator that refuses a map without entries and hands out zero-filled maps
otherwise. -/
def strictAllocator (n : Nat) : Option BitstreamMap :=
  if n = 0 then none else some (zeroMap n)

/-- An environment for files with sample tables: `next_bits` peeks, `init_bitstream_map`
is `strictAllocator`, every `calloc` succeeds apart from those of `parse_ctts` when `ctts`
is `false`, the parsers of `mdhd` and of the sample tables are the functions of `mp4.c`,
and the content parsers that the scenarios do not reach have no result. -/
def scenarioTableEnv (ctts : Bool) : Mp4Env :=
  { next_bits := peekBits
    calloc_track := fun _ => true
    calloc_ctts := fun _ => ctts
    init_bitstream_map := strictAllocator
    parse_ftyp := fun _ _ _ => .error .outOfBounds
    parse_pdin := fun _ _ _ => .error .outOfBounds
    parse_mvhd := fun _ _ _ => .error .outOfBounds
    parse_iods := fun _ _ => .error .outOfBounds
    parse_tkhd := fun _ _ _ => .error .outOfBounds
    parse_edts := fun _ _ _ => .error .outOfBounds
    parse_mdhd := parse_mdhd
    parse_stts := parse_stts true
    parse_stss := fun _ _ _ => .error .outOfBounds
    parse_stsc := parse_stsc true
    parse_stsz := parse_stsz scenarioCodes.BOX_STSZ true
    parse_stco := parse_stco scenarioCodes.BOX_CO64 true }

/-- A file of 236 bytes with one track of one sample: a `moov` box of 224 bytes that
holds one `trak` with a `mdia` box, in which a `mdhd` box gives the timescale 1000, a
`hdlr` box gives the handler `handler` (four bytes), and a `minf` box holds a `stbl` box
with the tables `stts` (one run of one sample, delta 1000), `stsc` (one sample per
chunk), `stsz` (one sample of 4 bytes), `stco` (one chunk at byte 232) and `ctts` (one
entry); a `mdat` box of 12 bytes follows, whose payload of 4 bytes starts at byte 232. -/
def scenarioTableFile (handler : List Nat) : List Nat :=
  [0, 0, 0, 224, 109, 111, 111, 118,
   0, 0, 0, 216, 116, 114, 97, 107,
   0, 0, 0, 208, 109, 100, 105, 97,
   0, 0, 0, 32, 109, 100, 104, 100, 0, 0, 0, 0, 0, 0, 0, 0, 0, 0, 0, 0,
   0, 0, 3, 232, 0, 0, 3, 232, 85, 196, 0, 0,
   0, 0, 0, 32, 104, 100, 108, 114, 0, 0, 0, 0, 0, 0, 0, 0] ++ handler ++
  [0, 0, 0, 0, 0, 0, 0, 0, 0, 0, 0, 0,
   0, 0, 0, 136, 109, 105, 110, 102,
   0, 0, 0, 128, 115, 116, 98, 108,
   0, 0, 0, 24, 115, 116, 116, 115, 0, 0, 0, 0, 0, 0, 0, 1, 0, 0, 0, 1, 0, 0, 3, 232,
   0, 0, 0, 28, 115, 116, 115, 99, 0, 0, 0, 0, 0, 0, 0, 1, 0, 0, 0, 1, 0, 0, 0, 1,
   0, 0, 0, 1,
   0, 0, 0, 24, 115, 116, 115, 122, 0, 0, 0, 0, 0, 0, 0, 0, 0, 0, 0, 1, 0, 0, 0, 4,
   0, 0, 0, 20, 115, 116, 99, 111, 0, 0, 0, 0, 0, 0, 0, 1, 0, 0, 0, 232,
   0, 0, 0, 24, 99, 116, 116, 115, 0, 0, 0, 0, 0, 0, 0, 1, 0, 0, 0, 1, 0, 0, 0, 0,
   0, 0, 0, 12, 109, 100, 97, 116, 1, 2, 3, 4]

/-- The file `scenarioTableFile` with the handler `vide`. -/
def scenarioVideoFile : List Nat := scenarioTableFile [118, 105, 100, 101]

/-- The file `scenarioTableFile` with the handler `text`. -/
def scenarioTextFile : List Nat := scenarioTableFile [116, 101, 120, 116]

/-- The track of `scenarioVideoFile` when the allocation of `parse_ctts` fails: the
tables of the file, and of the `ctts` box only the entry count. -/
def scenarioVideoTrack : Mp4Track :=
  { zeroTrack scenarioCodes with
    handlerType := HandlerType.HANDLER_VIDEO, timescale := 1000,
    stts_entry_count := 1, stts_sample_count := [1], stts_sample_delta := [1000],
    ctts_entry_count := 1,
    stsc_entry_count := 1, stsc_first_chunk := [1], stsc_samples_per_chunk := [1],
    stsz_sample_count := 1, stsz_entry_size := some [4],
    stco_entry_count := 1, stco_chunk_offset := [232] }

/-- The track of `scenarioTextFile`: the tables of the file. -/
def scenarioTextTrack : Mp4Track :=
  { scenarioVideoTrack with
    handlerType := HandlerType.HANDLER_TEXT,
    ctts_sample_count := some [1], ctts_sample_offset := [0] }

/-- The map of a track with the one sample of `scenarioTableFile`, of kind `kind`: 4
bytes at byte 232, decode and presentation time 0. -/
def scenarioOneSample (kind : SampleType) : BitstreamMap :=
  { sample_count := 1, stream_size := 4, sample_type := [kind], sample_size := [4],
    sample_offset := [232], sample_pts := [0], sample_dts := [0] }

/-- The header of the `moov` box of `scenarioTableFile`. -/
def scenarioTableMoov : Mp4Box :=
  { emptyBox with offset_end := 224, size := 224, boxtype := tag 109 111 111 118 }

/-- The header of the `mdat` box of `scenarioTableFile`. -/
def scenarioTableMdat : Mp4Box :=
  { emptyBox with offset_start := 224, offset_end := 236, size := 12,
                  boxtype := tag 109 100 97 116 }

/-- The header of the `ctts` box of `scenarioTableFile`. -/
def scenarioTableCtts : Mp4Box :=
  { emptyBox with offset_start := 200, offset_end := 224, size := 24,
                  boxtype := tag 99 116 116 115 }

/-- The registry after `mp4_fileParse` on `scenarioVideoFile`: one video track with the
sample. -/
def scenarioVideoRegistry : MediaFile :=
  { emptyMedia with file_size := 236,
                    tracks_video := [scenarioOneSample SampleType.sample_VIDEO] }

/-- The registry after `mp4_fileParse` on `scenarioTextFile`: one track with the sample
in the subtitle slot. -/
def scenarioTextRegistry : MediaFile :=
  { emptyMedia with file_size := 236,
                    tracks_subt := [scenarioOneSample SampleType.sample_TEXT] }

/-- The data chunk that a log of the chunk walk of `wave_fileParse` records: the payload
offset and the declared size of the last chunk of the log whose tag is `fcc_data`, and 0
and 0, the content of `wave.data` after the `memset`, when the log holds no such chunk. -/
def recordedData (env : WaveEnv) (log : List ChunkRecord) : WaveData :=
  log.foldl (fun data r =>
    if r.header.dwFourCC = env.fcc_data then
      { datasOffset := r.payload, datasSize := r.header.dwSize }
    else data) zeroWave.data

/-! ## Theorems -/

open SampleType HandlerType

/-! ### Monadic plumbing and loops -/

theorem bind_ok_iff {α β : Type} (x : Except Fault α) (f : α → Except Fault β) (b : β) :
    (x >>= f) = .ok b ↔ ∃ a, x = .ok a ∧ f a = .ok b := by
  cases x <;> simp [bind, Except.bind]

theorem pure_ok_iff {α : Type} (a b : α) : (pure a : Except Fault α) = .ok b ↔ a = b := by
  simp [pure, Except.pure]

theorem readAt_ok_iff {α : Type} (a : List α) (i : Nat) (v : α) :
    readAt a i = .ok v ↔ a[i]? = some v := by
  unfold readAt
  cases h : a[i]? <;> simp

theorem writeAt_ok_iff {α : Type} (a b : List α) (i : Nat) (v : α) :
    writeAt a i v = .ok b ↔ i < a.length ∧ b = a.set i v := by
  unfold writeAt
  by_cases h : i < a.length <;> simp [h, eq_comm]

theorem forLoop_zero {σ : Type} (body : Nat → σ → Except Fault σ) (lo : Nat) (s : σ) :
    forLoop body lo 0 s = .ok s := rfl

theorem forLoop_succ_ok_iff {σ : Type} (body : Nat → σ → Except Fault σ) (lo n : Nat) (s s' : σ) :
    forLoop body lo (n + 1) s = .ok s' ↔
      ∃ s1, body lo s = .ok s1 ∧ forLoop body (lo + 1) n s1 = .ok s' := by
  rw [forLoop]
  cases h : body lo s <;> simp

/-- Invariant rule for `forLoop`. -/
theorem forLoop_invariant {σ : Type} (body : Nat → σ → Except Fault σ) (P : Nat → σ → Prop)
    (n : Nat) : ∀ (lo : Nat) (s s' : σ),
    (∀ i t t', lo ≤ i → i < lo + n → P i t → body i t = .ok t' → P (i + 1) t') →
    P lo s → forLoop body lo n s = .ok s' → P (lo + n) s' := by
  induction n with
  | zero =>
    intro lo s s' _ hP h
    simp [forLoop] at h
    subst h
    simpa using hP
  | succ n ih =>
    intro lo s s' hstep hP h
    rw [forLoop_succ_ok_iff] at h
    obtain ⟨s1, h1, h2⟩ := h
    have hP1 := hstep lo s s1 (Nat.le_refl _) (by omega) hP h1
    have := ih (lo + 1) s1 s' (fun i t t' hlo hhi => hstep i t t' (by omega) (by omega)) hP1 h2
    have e : lo + (n + 1) = lo + 1 + n := by omega
    rw [e]
    exact this

/-- Totality rule for `forLoop`. -/
theorem forLoop_total {σ : Type} (body : Nat → σ → Except Fault σ) (P : Nat → σ → Prop)
    (n : Nat) : ∀ (lo : Nat) (s : σ),
    (∀ i t, lo ≤ i → i < lo + n → P i t → ∃ t', body i t = .ok t' ∧ P (i + 1) t') →
    P lo s → ∃ s', forLoop body lo n s = .ok s' ∧ P (lo + n) s' := by
  induction n with
  | zero =>
    intro lo s _ hP
    exact ⟨s, rfl, by simpa using hP⟩
  | succ n ih =>
    intro lo s hstep hP
    obtain ⟨s1, h1, hP1⟩ := hstep lo s (Nat.le_refl _) (by omega) hP
    obtain ⟨s', h2, hP2⟩ := ih (lo + 1) s1 (fun i t hlo hhi => hstep i t (by omega) (by omega)) hP1
    refine ⟨s', ?_, ?_⟩
    · rw [forLoop_succ_ok_iff]
      exact ⟨s1, h1, h2⟩
    · have e : lo + (n + 1) = lo + 1 + n := by omega
      rw [e]
      exact hP2

/-! ### Sample types and sizes -/

theorem markSync_spec (track : Mp4Track) (i sid j : Nat) (ty ty' : List SampleType)
    (h : markSync track i sid j ty = .ok ty') :
    ty'.length = ty.length ∧ (∀ p, p ≠ sid → ty'[p]? = ty[p]?) ∧
    (syncHit track i j → ty'[sid]? = some SampleType.sample_VIDEO_SYNC) ∧
    (¬ syncHit track i j → ty' = ty) := by
  simp only [markSync, bind_ok_iff, readAt_ok_iff] at h
  obtain ⟨x, hx, h⟩ := h
  by_cases hit : i = u32sub x 1
  · rw [if_pos hit, writeAt_ok_iff] at h
    obtain ⟨hlt, rfl⟩ := h
    refine ⟨by simp, ?_, ?_, ?_⟩
    · intro p hp
      rw [List.getElem?_set_ne (Ne.symm hp)]
    · intro _
      rw [List.getElem?_set_self hlt]
    · intro hn
      exact absurd ⟨x, hx, hit⟩ hn
  · rw [if_neg hit, pure_ok_iff] at h
    subst h
    refine ⟨rfl, fun _ _ => rfl, ?_, fun _ => rfl⟩
    rintro ⟨y, hy, hiy⟩
    rw [hx] at hy
    cases hy
    exact absurd hiy hit

theorem markSync_loop_spec (track : Mp4Track) (i sid n : Nat) (ty ty' : List SampleType)
    (h : forLoop (fun j t => markSync track i sid j t) 0 n ty = .ok ty') :
    ty'.length = ty.length ∧ (∀ p, p ≠ sid → ty'[p]? = ty[p]?) ∧
    ((∃ j, j < n ∧ syncHit track i j) → ty'[sid]? = some SampleType.sample_VIDEO_SYNC) ∧
    ((¬ ∃ j, j < n ∧ syncHit track i j) → ty'[sid]? = ty[sid]?) := by
  have key := forLoop_invariant (fun j t => markSync track i sid j t)
    (fun m t => t.length = ty.length ∧ (∀ p, p ≠ sid → t[p]? = ty[p]?) ∧
      ((∃ j, j < m ∧ syncHit track i j) → t[sid]? = some SampleType.sample_VIDEO_SYNC) ∧
      ((¬ ∃ j, j < m ∧ syncHit track i j) → t[sid]? = ty[sid]?))
    n 0 ty ty' ?_ ?_ h
  · simpa using key
  · intro j t t' _ _ ⟨hl, hf, hs, hns⟩ hb
    obtain ⟨bl, bf, bs, bns⟩ := markSync_spec track i sid j t t' hb
    refine ⟨by omega, fun p hp => by rw [bf p hp, hf p hp], ?_, ?_⟩
    · rintro ⟨j', hj', hit⟩
      by_cases hj : syncHit track i j
      · exact bs hj
      · rw [bns hj]
        have : j' ≠ j := by
          rintro rfl
          exact hj hit
        exact hs ⟨j', by omega, hit⟩
    · intro hno
      have hj : ¬ syncHit track i j := fun hh => hno ⟨j, by omega, hh⟩
      rw [bns hj]
      exact hns (fun ⟨j', hj', hit⟩ => hno ⟨j', by omega, hit⟩)
  · refine ⟨rfl, fun _ _ => rfl, ?_, fun _ => rfl⟩
    rintro ⟨j, hj, _⟩
    omega

theorem setSampleType_frame (track : Mp4Track) (i sid : Nat) (ty ty' : List SampleType)
    (h : setSampleType track i sid ty = .ok ty') :
    ty'.length = ty.length ∧ sid < ty.length ∧ (∀ p, p ≠ sid → ty'[p]? = ty[p]?) := by
  unfold setSampleType at h
  have plain : ∀ v, writeAt ty sid v = .ok ty' →
      ty'.length = ty.length ∧ sid < ty.length ∧ (∀ p, p ≠ sid → ty'[p]? = ty[p]?) := by
    intro v hv
    rw [writeAt_ok_iff] at hv
    obtain ⟨hlt, rfl⟩ := hv
    exact ⟨by simp, hlt, fun p hp => by rw [List.getElem?_set_ne (Ne.symm hp)]⟩
  split at h
  · simp only [bind_ok_iff, writeAt_ok_iff] at h
    obtain ⟨t1, ⟨hlt, rfl⟩, hloop⟩ := h
    obtain ⟨hl, hf, _, _⟩ := markSync_loop_spec track i sid _ _ _ hloop
    refine ⟨by simpa using hl, hlt, fun p hp => ?_⟩
    rw [hf p hp, List.getElem?_set_ne (Ne.symm hp)]
  all_goals exact plain _ h

theorem setSampleType_video (track : Mp4Track) (i sid : Nat) (ty ty' : List SampleType)
    (hv : track.handlerType = HandlerType.HANDLER_VIDEO)
    (h : setSampleType track i sid ty = .ok ty') :
    ((∃ j, j < track.stss_entry_count ∧ syncHit track i j) →
      ty'[sid]? = some SampleType.sample_VIDEO_SYNC) ∧
    ((¬ ∃ j, j < track.stss_entry_count ∧ syncHit track i j) →
      ty'[sid]? = some SampleType.sample_VIDEO) := by
  unfold setSampleType at h
  rw [hv] at h
  simp only [bind_ok_iff, writeAt_ok_iff] at h
  obtain ⟨t1, ⟨hlt, rfl⟩, hloop⟩ := h
  obtain ⟨_, _, hs, hns⟩ := markSync_loop_spec track i sid _ _ _ hloop
  refine ⟨hs, fun hno => ?_⟩
  rw [hns hno, List.getElem?_set_self hlt]

theorem setSampleTypeSize_spec (track : Mp4Track) (i : Nat) (m m' : BitstreamMap)
    (h : setSampleTypeSize track i m = .ok m') :
    setSampleType track i (sampleId track i) m.sample_type = .ok m'.sample_type ∧
    (∃ v, declaredSize track i = some v ∧ sampleId track i < m.sample_size.length ∧
      m'.sample_size = m.sample_size.set (sampleId track i) v ∧
      m'.stream_size = u64 (m.stream_size + v)) ∧
    m'.sample_offset = m.sample_offset ∧ m'.sample_pts = m.sample_pts ∧
    m'.sample_dts = m.sample_dts := by
  simp only [setSampleTypeSize, bind_ok_iff, pure_ok_iff, writeAt_ok_iff, readAt_ok_iff] at h
  obtain ⟨ty, hty, v, hv, szs, ⟨hlt, rfl⟩, stored, hst, rfl⟩ := h
  rw [List.getElem?_set_self hlt] at hst
  cases hst
  refine ⟨hty, ⟨v, ?_, hlt, rfl, rfl⟩, rfl, rfl, rfl⟩
  unfold sampleSizeOf at hv
  unfold declaredSize
  cases hes : track.stsz_entry_size with
  | none =>
    rw [hes] at hv
    simp only [pure_ok_iff] at hv
    rw [hv]
  | some es =>
    rw [hes] at hv
    simpa only [readAt_ok_iff] using hv

theorem sampleId_injective (track : Mp4Track) (i j : Nat) (hi : i < 4294967296)
    (hj : j < 4294967296) (h : sampleId track i = sampleId track j) : i = j := by
  unfold sampleId u32 at h
  omega

/-- Result of the "Set sample type & size" loop. -/
theorem setTypesAndSizes_spec (track : Mp4Track) (m m' : BitstreamMap)
    (hcount : track.stsz_sample_count ≤ 4294967296)
    (h : setTypesAndSizes track m = .ok m') :
    m'.sample_offset = m.sample_offset ∧ m'.sample_pts = m.sample_pts ∧
    m'.sample_dts = m.sample_dts ∧
    m'.sample_type.length = m.sample_type.length ∧
    m'.sample_size.length = m.sample_size.length ∧
    (∀ p, (∀ i, i < track.stsz_sample_count → p ≠ sampleId track i) →
      m'.sample_type[p]? = m.sample_type[p]? ∧ m'.sample_size[p]? = m.sample_size[p]?) ∧
    (∀ i, i < track.stsz_sample_count →
      (∃ v, declaredSize track i = some v ∧ m'.sample_size[sampleId track i]? = some v) ∧
      (track.handlerType = HandlerType.HANDLER_VIDEO →
        ((∃ j, j < track.stss_entry_count ∧ syncHit track i j) →
          m'.sample_type[sampleId track i]? = some SampleType.sample_VIDEO_SYNC) ∧
        ((¬ ∃ j, j < track.stss_entry_count ∧ syncHit track i j) →
          m'.sample_type[sampleId track i]? = some SampleType.sample_VIDEO))) := by
  have key := forLoop_invariant (setSampleTypeSize track)
    (fun n t =>
      t.sample_offset = m.sample_offset ∧ t.sample_pts = m.sample_pts ∧
      t.sample_dts = m.sample_dts ∧
      t.sample_type.length = m.sample_type.length ∧
      t.sample_size.length = m.sample_size.length ∧
      (∀ p, (∀ i, i < n → p ≠ sampleId track i) →
        t.sample_type[p]? = m.sample_type[p]? ∧ t.sample_size[p]? = m.sample_size[p]?) ∧
      (∀ i, i < n →
        (∃ v, declaredSize track i = some v ∧ t.sample_size[sampleId track i]? = some v) ∧
        (track.handlerType = HandlerType.HANDLER_VIDEO →
          ((∃ j, j < track.stss_entry_count ∧ syncHit track i j) →
            t.sample_type[sampleId track i]? = some SampleType.sample_VIDEO_SYNC) ∧
          ((¬ ∃ j, j < track.stss_entry_count ∧ syncHit track i j) →
            t.sample_type[sampleId track i]? = some SampleType.sample_VIDEO))))
    track.stsz_sample_count 0 m m' ?_ ?_ h
  · simpa using key
  · intro n t t' _ hn ⟨ho, hp, hd, hlt, hls, hframe, hdone⟩ hb
    obtain ⟨hty, ⟨v, hv, hlt', hsz, _⟩, bo, bp, bd⟩ := setSampleTypeSize_spec track n t t' hb
    obtain ⟨tl, tlt, tf⟩ := setSampleType_frame track n _ _ _ hty
    have hne : ∀ i, i < n → sampleId track n ≠ sampleId track i := by
      intro i hi heq
      have := sampleId_injective track n i (by omega) (by omega) heq
      omega
    refine ⟨by rw [bo, ho], by rw [bp, hp], by rw [bd, hd], by rw [tl, hlt],
      by rw [hsz, List.length_set, hls], ?_, ?_⟩
    · intro p hpne
      have h1 := hframe p (fun i hi => hpne i (by omega))
      have h2 : p ≠ sampleId track n := hpne n (by omega)
      rw [tf p h2, hsz, List.getElem?_set_ne (Ne.symm h2)]
      exact h1
    · intro i hi
      by_cases hin : i = n
      · subst hin
        refine ⟨⟨v, hv, ?_⟩, fun hvid => setSampleType_video track i _ _ _ hvid hty⟩
        rw [hsz, List.getElem?_set_self hlt']
      · have hi' : i < n := by omega
        obtain ⟨⟨w, hw, hws⟩, htyp⟩ := hdone i hi'
        have hne' := hne i hi'
        refine ⟨⟨w, hw, ?_⟩, ?_⟩
        · rw [hsz, List.getElem?_set_ne hne']
          exact hws
        · intro hvid
          rw [tf _ (Ne.symm hne')]
          exact htyp hvid
  · exact ⟨rfl, rfl, rfl, rfl, rfl, fun _ _ => ⟨rfl, rfl⟩, fun i hi => absurd hi (by omega)⟩

/-! ### Frame properties of the timestamp and offset passes -/

theorem addI64_ok_iff (a b c : Int) : addI64 a b = .ok c ↔ inI64 (a + b) ∧ c = a + b := by
  unfold addI64
  by_cases h : inI64 (a + b) <;> simp [h, eq_comm]

theorem mulI64_ok_iff (a b c : Int) : mulI64 a b = .ok c ↔ inI64 (a * b) ∧ c = a * b := by
  unfold mulI64
  by_cases h : inI64 (a * b) <;> simp [h, eq_comm]

theorem divI64_ok_iff (a : Int) (b : Nat) (c : Int) :
    divI64 a b = .ok c ↔ b ≠ 0 ∧ c = Int.tdiv a (b : Int) := by
  unfold divI64
  by_cases h : b = 0 <;> simp [h, eq_comm]

theorem dtsStep_spec (track : Mp4Track) (copy : Bool) (i j : Nat) (s s' : TimeState)
    (h : dtsStep track copy i j s = .ok s') :
    ∃ a d, s.map.sample_dts[u32sub s.k 1]? = some a ∧ track.stts_sample_delta[i]? = some d ∧
      inI64 (a + (d : Int)) ∧ s.k < s.map.sample_dts.length ∧
      s'.k = u32 (s.k + 1) ∧
      s'.map.sample_dts = s.map.sample_dts.set s.k (a + (d : Int)) ∧
      (copy = true → s.k < s.map.sample_pts.length ∧
        s'.map.sample_pts = s.map.sample_pts.set s.k (a + (d : Int))) ∧
      (copy = false → s'.map.sample_pts = s.map.sample_pts) ∧
      s'.map.sample_type = s.map.sample_type ∧ s'.map.sample_size = s.map.sample_size ∧
      s'.map.sample_offset = s.map.sample_offset ∧ s'.map.stream_size = s.map.stream_size := by
  simp only [dtsStep, bind_ok_iff, pure_ok_iff, readAt_ok_iff, addI64_ok_iff,
    writeAt_ok_iff] at h
  obtain ⟨a, ha, d, hd, v, ⟨hin, rfl⟩, ptss, hp, dtss, ⟨hlt, rfl⟩, rfl⟩ := h
  refine ⟨a, d, ha, hd, hin, hlt, rfl, rfl, ?_, ?_, rfl, rfl, rfl, rfl⟩
  · intro hc
    subst hc
    simpa only [if_true, writeAt_ok_iff] using hp
  · intro hc
    subst hc
    simp only [Bool.false_eq_true, if_false, pure_ok_iff] at hp
    exact hp.symm

/-! ### Decode and presentation times -/

theorem samplesBefore_zero (counts : List Nat) : samplesBefore counts 0 = 0 := by
  simp [samplesBefore]

theorem samplesBefore_succ (counts : List Nat) (r c : Nat) (h : counts[r]? = some c) :
    samplesBefore counts (r + 1) = samplesBefore counts r + c := by
  unfold samplesBefore
  have hlt : r < counts.length := by
    by_contra hge
    rw [List.getElem?_eq_none (by omega)] at h
    cases h
  rw [List.sum_take_succ counts r hlt]
  rw [List.getElem?_eq_getElem hlt] at h
  cases h
  rfl

theorem samplesBefore_mono (counts : List Nat) (r : Nat) :
    samplesBefore counts r ≤ samplesBefore counts (r + 1) := by
  by_cases h : r < counts.length
  · rw [samplesBefore_succ counts r _ (List.getElem?_eq_getElem h)]
    omega
  · unfold samplesBefore
    rw [List.take_of_length_le (by omega), List.take_of_length_le (by omega)]

/-- The inner loop of "Compute DTS". -/
theorem dtsInner_spec (track : Mp4Track) (copy : Bool) (i : Nat) (n : Nat) (j0 : Nat)
    (s s' : TimeState)
    (hmap : s.map.sample_dts.length < 4294967296) (hk : 1 ≤ s.k)
    (h : forLoop (dtsStep track copy i) j0 n s = .ok s') :
    s'.k = s.k + n ∧
    s'.map.sample_dts.length = s.map.sample_dts.length ∧
    s'.map.sample_pts.length = s.map.sample_pts.length ∧
    s'.map.sample_type = s.map.sample_type ∧ s'.map.sample_size = s.map.sample_size ∧
    s'.map.sample_offset = s.map.sample_offset ∧ s'.map.stream_size = s.map.stream_size ∧
    (∀ p, (p < s.k ∨ s.k + n ≤ p) →
      s'.map.sample_dts[p]? = s.map.sample_dts[p]? ∧
      s'.map.sample_pts[p]? = s.map.sample_pts[p]?) ∧
    (copy = false → s'.map.sample_pts = s.map.sample_pts) ∧
    (∀ q, q < n → ∃ a d, track.stts_sample_delta[i]? = some d ∧
      s'.map.sample_dts[s.k + q - 1]? = some a ∧
      s'.map.sample_dts[s.k + q]? = some (a + (d : Int)) ∧
      (copy = true → s'.map.sample_pts[s.k + q]? = some (a + (d : Int)))) := by
  have key := forLoop_invariant (dtsStep track copy i)
    (fun idx t =>
      t.k = s.k + (idx - j0) ∧
      t.map.sample_dts.length = s.map.sample_dts.length ∧
      t.map.sample_pts.length = s.map.sample_pts.length ∧
      t.map.sample_type = s.map.sample_type ∧ t.map.sample_size = s.map.sample_size ∧
      t.map.sample_offset = s.map.sample_offset ∧ t.map.stream_size = s.map.stream_size ∧
      (∀ p, (p < s.k ∨ s.k + (idx - j0) ≤ p) →
        t.map.sample_dts[p]? = s.map.sample_dts[p]? ∧
        t.map.sample_pts[p]? = s.map.sample_pts[p]?) ∧
      (copy = false → t.map.sample_pts = s.map.sample_pts) ∧
      (∀ q, q < idx - j0 → ∃ a d, track.stts_sample_delta[i]? = some d ∧
        t.map.sample_dts[s.k + q - 1]? = some a ∧
        t.map.sample_dts[s.k + q]? = some (a + (d : Int)) ∧
        (copy = true → t.map.sample_pts[s.k + q]? = some (a + (d : Int)))))
    n j0 s s' ?_ ?_ h
  · simpa using key
  · intro idx t t' hlo hhi ⟨hk', hld, hlp, hty, hsz, hof, hst, hfr, hnc, hdone⟩ hb
    obtain ⟨a, d, ha, hd, _, hlt, bk, bd, bc, bnc, bty, bsz, bof, bst⟩ :=
      dtsStep_spec track copy i idx t t' hb
    have hklt : t.k < 4294967296 := by omega
    have hsub : u32sub t.k 1 = t.k - 1 := by
      unfold u32sub
      omega
    have hpl : t'.map.sample_pts.length = t.map.sample_pts.length := by
      cases copy
      · rw [bnc rfl]
      · rw [(bc rfl).2, List.length_set]
    have hptsne : ∀ p, p ≠ t.k → t'.map.sample_pts[p]? = t.map.sample_pts[p]? := by
      intro p hp
      cases copy
      · rw [bnc rfl]
      · rw [(bc rfl).2, List.getElem?_set_ne (Ne.symm hp)]
    have e1 : idx + 1 - j0 = (idx - j0) + 1 := by omega
    refine ⟨?_, by rw [bd, List.length_set, hld], by rw [hpl, hlp], by rw [bty, hty],
      by rw [bsz, hsz], by rw [bof, hof], by rw [bst, hst], ?_, ?_, ?_⟩
    · rw [bk]
      unfold u32
      omega
    · intro p hp
      have hpne : p ≠ t.k := by omega
      rw [bd, List.getElem?_set_ne (Ne.symm hpne), hptsne p hpne]
      exact hfr p (by omega)
    · intro hc
      rw [bnc hc, hnc hc]
    · intro q hq
      by_cases hqn : q = idx - j0
      · subst hqn
        refine ⟨a, d, hd, ?_, ?_, ?_⟩
        · rw [bd, List.getElem?_set_ne (by omega)]
          rw [hsub, hk'] at ha
          exact ha
        · rw [bd, ← hk', List.getElem?_set_self hlt]
        · intro hc
          rw [(bc hc).2, ← hk', List.getElem?_set_self (bc hc).1]
      · obtain ⟨a', d', hd', h1, h2, h3⟩ := hdone q (by omega)
        refine ⟨a', d', hd', ?_, ?_, ?_⟩
        · rw [bd, List.getElem?_set_ne (by omega)]
          exact h1
        · rw [bd, List.getElem?_set_ne (by omega)]
          exact h2
        · intro hc
          rw [hptsne _ (by omega)]
          exact h3 hc
  · refine ⟨by simp, rfl, rfl, rfl, rfl, rfl, rfl, fun _ _ => ⟨rfl, rfl⟩, fun _ => rfl, ?_⟩
    intro q hq
    omega

theorem samplesBefore_le (counts : List Nat) (r r' : Nat) (h : r ≤ r') :
    samplesBefore counts r ≤ samplesBefore counts r' := by
  induction r' with
  | zero =>
    have : r = 0 := by omega
    subst this
    exact Nat.le_refl _
  | succ n ih =>
    by_cases hr : r = n + 1
    · subst hr
      exact Nat.le_refl _
    · exact Nat.le_trans (ih (by omega)) (samplesBefore_mono counts n)

theorem firstSample_lt (track : Mp4Track) : firstSample track < 4294967296 := by
  unfold firstSample u32
  omega

/-- A run of "Compute DTS" that starts at the first real sample. -/
theorem dtsRun_first (track : Mp4Track) (copy : Bool) (i : Nat) (s s' : TimeState)
    (hmap : s.map.sample_dts.length < 4294967296) (hk : s.k = firstSample track)
    (h : dtsRun track copy i s = .ok s') :
    ∃ c, track.stts_sample_count[i]? = some c ∧
      s'.map.sample_dts[firstSample track]? = some 0 ∧
      DtsRunResult track copy i s s' s.k (s.k + 1 + (c - 1)) := by
  unfold dtsRun at h
  rw [if_pos hk] at h
  simp only [bind_ok_iff, writeAt_ok_iff, readAt_ok_iff] at h
  obtain ⟨ptss, hp, dtss, ⟨hlt, rfl⟩, c, hc, hloop⟩ := h
  have hk1 : u32 (s.k + 1) = s.k + 1 := by
    unfold u32
    omega
  rw [hk1] at hloop
  obtain ⟨ik, ild, ilp, ity, isz, iof, ist, ifr, inc, irec⟩ :=
    dtsInner_spec track copy i (c - 1) 1 _ s' (by simpa using hmap) (by simp) hloop
  simp only [List.length_set] at ild ifr
  have hF := (ifr s.k (Or.inl (by omega))).1
  rw [List.getElem?_set_self hlt] at hF
  have hpl : ptss.length = s.map.sample_pts.length := by
    cases copy
    · simp only [Bool.false_eq_true, if_false, pure_ok_iff] at hp
      rw [← hp]
    · simp only [if_true, writeAt_ok_iff] at hp
      rw [hp.2, List.length_set]
  have hpne : ∀ p, p ≠ s.k → ptss[p]? = s.map.sample_pts[p]? := by
    intro p hpk
    cases copy
    · simp only [Bool.false_eq_true, if_false, pure_ok_iff] at hp
      rw [← hp]
    · simp only [if_true, writeAt_ok_iff] at hp
      rw [hp.2, List.getElem?_set_ne (Ne.symm hpk)]
  refine ⟨c, hc, by rw [← hk]; exact hF, ik, ild, by rw [ilp, hpl], ity, isz, iof, ist,
    ?_, ?_, ?_, ?_⟩
  · intro p hp'
    have hpk : p ≠ s.k := by omega
    obtain ⟨f1, f2⟩ := ifr p (by omega)
    rw [f1, f2, List.getElem?_set_ne (Ne.symm hpk), hpne p hpk]
    exact ⟨rfl, rfl⟩
  · intro hcf
    rw [inc hcf]
    subst hcf
    simp only [Bool.false_eq_true, if_false, pure_ok_iff] at hp
    exact hp.symm
  · intro hct p hlo hhi
    by_cases hpk : p = s.k
    · rw [hpk, hF, (ifr s.k (Or.inl (by omega))).2]
      subst hct
      simp only [if_true, writeAt_ok_iff] at hp
      rw [hp.2, List.getElem?_set_self hp.1]
    · obtain ⟨a, d, _, _, h2, h3⟩ := irec (p - (s.k + 1)) (by omega)
      have e : s.k + 1 + (p - (s.k + 1)) = p := by omega
      rw [e] at h2 h3
      rw [h2, h3 hct]
  · intro p hlo hhi hpF
    obtain ⟨a, d, hd, h1, h2, _⟩ := irec (p - (s.k + 1)) (by omega)
    have e : s.k + 1 + (p - (s.k + 1)) = p := by omega
    have e1 : s.k + 1 + (p - (s.k + 1)) - 1 = p - 1 := by omega
    rw [e] at h2
    rw [e1] at h1
    exact ⟨a, d, hd, h1, h2⟩

/-- A run of "Compute DTS" that starts after the first real sample. -/
theorem dtsRun_next (track : Mp4Track) (copy : Bool) (i : Nat) (s s' : TimeState)
    (hmap : s.map.sample_dts.length < 4294967296) (hk : firstSample track < s.k)
    (h : dtsRun track copy i s = .ok s') :
    ∃ c, track.stts_sample_count[i]? = some c ∧
      DtsRunResult track copy i s s' s.k (s.k + c) := by
  unfold dtsRun at h
  rw [if_neg (by omega)] at h
  simp only [bind_ok_iff, readAt_ok_iff] at h
  obtain ⟨c, hc, hloop⟩ := h
  obtain ⟨ik, ild, ilp, ity, isz, iof, ist, ifr, inc, irec⟩ :=
    dtsInner_spec track copy i c 0 s s' hmap (by omega) hloop
  refine ⟨c, hc, ik, ild, ilp, ity, isz, iof, ist, ifr, inc, ?_, ?_⟩
  · intro hct p hlo hhi
    obtain ⟨a, d, _, _, h2, h3⟩ := irec (p - s.k) (by omega)
    have e : s.k + (p - s.k) = p := by omega
    rw [e] at h2 h3
    rw [h2, h3 hct]
  · intro p hlo hhi _
    obtain ⟨a, d, hd, h1, h2, _⟩ := irec (p - s.k) (by omega)
    have e : s.k + (p - s.k) = p := by omega
    have e1 : s.k + (p - s.k) - 1 = p - 1 := by omega
    rw [e] at h2
    rw [e1] at h1
    exact ⟨a, d, hd, h1, h2⟩

/-- The outer loop of "Compute DTS", for a table whose first run is not empty. -/
theorem computeDts_spec (track : Mp4Track) (copy : Bool) (n : Nat) (m : BitstreamMap)
    (s' : TimeState) (c0 : Nat)
    (hmap : m.sample_dts.length < 4294967296)
    (hfirst : track.stts_sample_count[0]? = some c0) (hc0 : 1 ≤ c0)
    (h : forLoop (dtsRun track copy) 0 n { map := m, k := firstSample track } = .ok s') :
    s'.k = firstSample track + samplesBefore track.stts_sample_count n ∧
    s'.map.sample_dts.length = m.sample_dts.length ∧
    s'.map.sample_pts.length = m.sample_pts.length ∧
    s'.map.sample_type = m.sample_type ∧ s'.map.sample_size = m.sample_size ∧
    s'.map.sample_offset = m.sample_offset ∧ s'.map.stream_size = m.stream_size ∧
    (∀ p, (p < firstSample track ∨
        firstSample track + samplesBefore track.stts_sample_count n ≤ p) →
      s'.map.sample_dts[p]? = m.sample_dts[p]? ∧ s'.map.sample_pts[p]? = m.sample_pts[p]?) ∧
    (copy = false → s'.map.sample_pts = m.sample_pts) ∧
    (copy = true → ∀ p, firstSample track ≤ p →
      p < firstSample track + samplesBefore track.stts_sample_count n →
      s'.map.sample_pts[p]? = s'.map.sample_dts[p]?) ∧
    (1 ≤ n → s'.map.sample_dts[firstSample track]? = some 0) ∧
    (∀ r x, r < n → 1 ≤ x → samplesBefore track.stts_sample_count r ≤ x →
      x < samplesBefore track.stts_sample_count (r + 1) →
      ∃ a d, track.stts_sample_delta[r]? = some d ∧
        s'.map.sample_dts[firstSample track + x - 1]? = some a ∧
        s'.map.sample_dts[firstSample track + x]? = some (a + (d : Int))) := by
  have hB1 : samplesBefore track.stts_sample_count 1 = c0 := by
    rw [samplesBefore_succ _ 0 c0 hfirst, samplesBefore_zero]
    omega
  have key := forLoop_invariant (dtsRun track copy)
    (fun i t =>
      t.k = firstSample track + samplesBefore track.stts_sample_count i ∧
      t.map.sample_dts.length = m.sample_dts.length ∧
      t.map.sample_pts.length = m.sample_pts.length ∧
      t.map.sample_type = m.sample_type ∧ t.map.sample_size = m.sample_size ∧
      t.map.sample_offset = m.sample_offset ∧ t.map.stream_size = m.stream_size ∧
      (∀ p, (p < firstSample track ∨
          firstSample track + samplesBefore track.stts_sample_count i ≤ p) →
        t.map.sample_dts[p]? = m.sample_dts[p]? ∧ t.map.sample_pts[p]? = m.sample_pts[p]?) ∧
      (copy = false → t.map.sample_pts = m.sample_pts) ∧
      (copy = true → ∀ p, firstSample track ≤ p →
        p < firstSample track + samplesBefore track.stts_sample_count i →
        t.map.sample_pts[p]? = t.map.sample_dts[p]?) ∧
      (1 ≤ i → t.map.sample_dts[firstSample track]? = some 0) ∧
      (∀ r x, r < i → 1 ≤ x → samplesBefore track.stts_sample_count r ≤ x →
        x < samplesBefore track.stts_sample_count (r + 1) →
        ∃ a d, track.stts_sample_delta[r]? = some d ∧
          t.map.sample_dts[firstSample track + x - 1]? = some a ∧
          t.map.sample_dts[firstSample track + x]? = some (a + (d : Int))))
    n 0 { map := m, k := firstSample track } s' ?_ ?_ h
  · simpa using key
  · intro i t t' _ _ ⟨hk, hld, hlp, hty, hsz, hof, hst, hfr, hnc, hcp, hz, hrec⟩ hb
    have hmapt : t.map.sample_dts.length < 4294967296 := by omega
    -- the run writes the entries `t.k .. hi - 1`
    have run : ∃ c, track.stts_sample_count[i]? = some c ∧
        t'.map.sample_dts[firstSample track]? = some 0 ∧
        DtsRunResult track copy i t t' t.k
          (firstSample track + samplesBefore track.stts_sample_count (i + 1)) := by
      by_cases hi : i = 0
      · subst hi
        rw [samplesBefore_zero] at hk
        obtain ⟨c, hc, hF, hres⟩ := dtsRun_first track copy 0 t t' hmapt (by omega) hb
        rw [hfirst] at hc
        cases hc
        refine ⟨c0, hfirst, hF, ?_⟩
        have e : t.k + 1 + (c0 - 1) = firstSample track + samplesBefore track.stts_sample_count (0 + 1) := by
          rw [hB1]
          omega
        rw [← e]
        exact hres
      · have hge := samplesBefore_le track.stts_sample_count 1 i (by omega)
        obtain ⟨c, hc, hres⟩ := dtsRun_next track copy i t t' hmapt (by omega) hb
        have e : t.k + c = firstSample track + samplesBefore track.stts_sample_count (i + 1) := by
          rw [samplesBefore_succ _ i c hc]
          omega
        rw [e] at hres
        refine ⟨c, hc, ?_, hres⟩
        obtain ⟨_, _, _, _, _, _, _, rfr, _⟩ := hres
        rw [(rfr (firstSample track) (Or.inl (by omega))).1]
        exact hz (by omega)
    obtain ⟨c, hc, hF, rk, rld, rlp, rty, rsz, rof, rst, rfr, rnc, rcp, rrec⟩ := run
    have hBi := samplesBefore_succ _ i c hc
    refine ⟨rk, by rw [rld, hld], by rw [rlp, hlp], by rw [rty, hty], by rw [rsz, hsz],
      by rw [rof, hof], by rw [rst, hst], ?_, ?_, ?_, fun _ => hF, ?_⟩
    · intro p hp
      obtain ⟨f1, f2⟩ := rfr p (by omega)
      rw [f1, f2]
      exact hfr p (by omega)
    · intro hcf
      rw [rnc hcf, hnc hcf]
    · intro hct p hlo hhi
      by_cases hp : p < t.k
      · obtain ⟨f1, f2⟩ := rfr p (Or.inl hp)
        rw [f1, f2]
        exact hcp hct p hlo (by omega)
      · exact rcp hct p (by omega) hhi
    · intro r x hr hx hlo hhi
      by_cases hri : r = i
      · subst hri
        have hne : firstSample track + x ≠ firstSample track := by omega
        exact rrec (firstSample track + x) (by omega) (by omega) hne
      · have hr' : r < i := by omega
        have hle := samplesBefore_le track.stts_sample_count (r + 1) i (by omega)
        obtain ⟨a, d, hd, h1, h2⟩ := hrec r x hr' hx hlo hhi
        refine ⟨a, d, hd, ?_, ?_⟩
        · rw [(rfr _ (Or.inl (by omega))).1]
          exact h1
        · rw [(rfr _ (Or.inl (by omega))).1]
          exact h2
  · refine ⟨by simp [samplesBefore_zero], rfl, rfl, rfl, rfl, rfl, rfl, fun _ _ => ⟨rfl, rfl⟩,
      fun _ => rfl, ?_, ?_, ?_⟩
    · intro _ p hlo hhi
      rw [samplesBefore_zero] at hhi
      omega
    · intro h0
      omega
    · intro r x hr
      omega

theorem ptsStep_spec (track : Mp4Track) (i j : Nat) (s s' : TimeState)
    (h : ptsStep track i j s = .ok s') :
    ∃ a o, s.map.sample_dts[s.k]? = some a ∧ track.ctts_sample_offset[i]? = some o ∧
      s.k < s.map.sample_pts.length ∧ s'.k = u32 (s.k + 1) ∧
      s'.map.sample_pts = s.map.sample_pts.set s.k (a + o) ∧
      s'.map.sample_dts = s.map.sample_dts ∧
      s'.map.sample_type = s.map.sample_type ∧ s'.map.sample_size = s.map.sample_size ∧
      s'.map.sample_offset = s.map.sample_offset ∧ s'.map.stream_size = s.map.stream_size := by
  simp only [ptsStep, bind_ok_iff, pure_ok_iff, readAt_ok_iff, addI64_ok_iff,
    writeAt_ok_iff] at h
  obtain ⟨a, ha, o, ho, sum, ⟨_, rfl⟩, pts, ⟨_, rfl⟩, ptss, ⟨hlt, rfl⟩, rfl⟩ := h
  exact ⟨a, o, ha, ho, hlt, rfl, by simp, rfl, rfl, rfl, rfl, rfl⟩

/-- One run of "Then compute PTS". -/
theorem ptsRun_spec (track : Mp4Track) (counts : List Nat) (i : Nat) (s s' : TimeState)
    (hmap : s.map.sample_pts.length < 4294967296)
    (h : ptsRun track counts i s = .ok s') :
    ∃ c, counts[i]? = some c ∧ PtsResult s s' (s.k + c) ∧
      (∀ p, s.k ≤ p → p < s.k + c →
        ∃ a o, track.ctts_sample_offset[i]? = some o ∧ s.map.sample_dts[p]? = some a ∧
          s'.map.sample_pts[p]? = some (a + o)) := by
  simp only [ptsRun, bind_ok_iff, readAt_ok_iff] at h
  obtain ⟨c, hc, hloop⟩ := h
  refine ⟨c, hc, ?_⟩
  have key := forLoop_invariant (ptsStep track i)
    (fun j t => PtsResult s t (s.k + j) ∧
      (∀ p, s.k ≤ p → p < s.k + j →
        ∃ a o, track.ctts_sample_offset[i]? = some o ∧ s.map.sample_dts[p]? = some a ∧
          t.map.sample_pts[p]? = some (a + o)))
    c 0 s s' ?_ ?_ hloop
  · simpa using key
  · intro j t t' _ _ ⟨⟨hk, hlp, hd, hty, hsz, hof, hst, hfr⟩, hrec⟩ hb
    obtain ⟨a, o, ha, ho, hlt, bk, bp, bd, bty, bsz, bof, bst⟩ := ptsStep_spec track i j t t' hb
    refine ⟨⟨?_, by rw [bp, List.length_set, hlp], by rw [bd, hd], by rw [bty, hty],
      by rw [bsz, hsz], by rw [bof, hof], by rw [bst, hst], ?_⟩, ?_⟩
    · rw [bk]
      unfold u32
      omega
    · intro p hp
      rw [bp, List.getElem?_set_ne (by omega)]
      exact hfr p (by omega)
    · intro p hlo hhi
      by_cases hpk : p = t.k
      · refine ⟨a, o, ho, ?_, ?_⟩
        · rw [hpk, ← hd]
          exact ha
        · rw [bp, hpk, List.getElem?_set_self hlt]
      · obtain ⟨a', o', ho', h1, h2⟩ := hrec p hlo (by omega)
        refine ⟨a', o', ho', h1, ?_⟩
        rw [bp, List.getElem?_set_ne (Ne.symm hpk)]
        exact h2
  · refine ⟨⟨by simp, rfl, rfl, rfl, rfl, rfl, rfl, fun _ _ => rfl⟩, ?_⟩
    intro p hlo hhi
    omega

/-- The outer loop of "Then compute PTS". -/
theorem computePts_spec (track : Mp4Track) (counts : List Nat) (n : Nat) (m : BitstreamMap)
    (s' : TimeState) (hmap : m.sample_pts.length < 4294967296)
    (h : forLoop (ptsRun track counts) 0 n { map := m, k := firstSample track } = .ok s') :
    PtsResult { map := m, k := firstSample track } s'
      (firstSample track + samplesBefore counts n) ∧
    (∀ r x, r < n → samplesBefore counts r ≤ x → x < samplesBefore counts (r + 1) →
      ∃ a o, track.ctts_sample_offset[r]? = some o ∧
        m.sample_dts[firstSample track + x]? = some a ∧
        s'.map.sample_pts[firstSample track + x]? = some (a + o)) := by
  have key := forLoop_invariant (ptsRun track counts)
    (fun i t => PtsResult { map := m, k := firstSample track } t
        (firstSample track + samplesBefore counts i) ∧
      (∀ r x, r < i → samplesBefore counts r ≤ x → x < samplesBefore counts (r + 1) →
        ∃ a o, track.ctts_sample_offset[r]? = some o ∧
          m.sample_dts[firstSample track + x]? = some a ∧
          t.map.sample_pts[firstSample track + x]? = some (a + o)))
    n 0 { map := m, k := firstSample track } s' ?_ ?_ h
  · simpa using key
  · intro i t t' _ _ ⟨⟨hk, hlp, hd, hty, hsz, hof, hst, hfr⟩, hrec⟩ hb
    simp only at hlp hd hty hsz hof hst hfr
    obtain ⟨c, hc, ⟨rk, rlp, rd, rty, rsz, rof, rst, rfr⟩, rrec⟩ :=
      ptsRun_spec track counts i t t' (by omega) hb
    have hBi := samplesBefore_succ counts i c hc
    refine ⟨⟨?_, ?_, ?_, ?_, ?_, ?_, ?_, ?_⟩, ?_⟩
    · rw [rk, hk, hBi]
      omega
    · simp only
      rw [rlp, hlp]
    · simp only
      rw [rd, hd]
    · simp only
      rw [rty, hty]
    · simp only
      rw [rsz, hsz]
    · simp only
      rw [rof, hof]
    · simp only
      rw [rst, hst]
    · intro p hp
      simp only at hp ⊢
      rw [rfr p (by omega)]
      exact hfr p (by omega)
    · intro r x hr hlo hhi
      by_cases hri : r = i
      · subst hri
        obtain ⟨a, o, ho, h1, h2⟩ := rrec (firstSample track + x) (by omega) (by omega)
        rw [hd] at h1
        exact ⟨a, o, ho, h1, h2⟩
      · have hle := samplesBefore_le counts (r + 1) i (by omega)
        obtain ⟨a, o, ho, h1, h2⟩ := hrec r x (by omega) hlo hhi
        refine ⟨a, o, ho, h1, ?_⟩
        rw [rfr _ (Or.inl (by omega))]
        exact h2
  · refine ⟨⟨by simp [samplesBefore_zero], rfl, rfl, rfl, rfl, rfl, rfl, fun _ _ => rfl⟩, ?_⟩
    intro r x hr
    omega

/-- A property of the state that every iteration keeps is kept by the loop. -/
theorem forLoop_preserves {σ : Type} (body : Nat → σ → Except Fault σ) (Q : σ → Prop)
    (hstep : ∀ i t t', Q t → body i t = .ok t' → Q t') (lo n : Nat) (s s' : σ)
    (hQ : Q s) (h : forLoop body lo n s = .ok s') : Q s' :=
  forLoop_invariant body (fun _ t => Q t) n lo s s'
    (fun i t t' _ _ hq hb => hstep i t t' hq hb) hQ h

theorem dtsRun_frame (track : Mp4Track) (copy : Bool) (i : Nat) (s s' : TimeState)
    (h : dtsRun track copy i s = .ok s') :
    SameSamples s.map s'.map ∧ s'.map.sample_offset = s.map.sample_offset := by
  have inner : ∀ lo n (t t' : TimeState), forLoop (dtsStep track copy i) lo n t = .ok t' →
      SameSamples t.map t'.map ∧ t'.map.sample_offset = t.map.sample_offset := by
    intro lo n t t' hl
    refine forLoop_preserves (dtsStep track copy i)
      (fun u => SameSamples t.map u.map ∧ u.map.sample_offset = t.map.sample_offset)
      ?_ lo n t t' ⟨⟨rfl, rfl, rfl⟩, rfl⟩ hl
    intro j u u' ⟨⟨q1, q2, q3⟩, q4⟩ hb
    obtain ⟨_, _, _, _, _, _, _, _, _, _, bty, bsz, bof, bst⟩ :=
      dtsStep_spec track copy i j u u' hb
    exact ⟨⟨by rw [bty, q1], by rw [bsz, q2], by rw [bst, q3]⟩, by rw [bof, q4]⟩
  unfold dtsRun at h
  split at h
  · simp only [bind_ok_iff, readAt_ok_iff] at h
    obtain ⟨ptss, _, dtss, _, c, _, hloop⟩ := h
    simpa [SameSamples] using inner _ _ _ _ hloop
  · simp only [bind_ok_iff, readAt_ok_iff] at h
    obtain ⟨c, _, hloop⟩ := h
    exact inner _ _ _ _ hloop

theorem ptsRun_frame (track : Mp4Track) (counts : List Nat) (i : Nat) (s s' : TimeState)
    (h : ptsRun track counts i s = .ok s') :
    SameSamples s.map s'.map ∧ s'.map.sample_offset = s.map.sample_offset := by
  simp only [ptsRun, bind_ok_iff, readAt_ok_iff] at h
  obtain ⟨c, _, hloop⟩ := h
  refine forLoop_preserves (ptsStep track i)
    (fun u => SameSamples s.map u.map ∧ u.map.sample_offset = s.map.sample_offset)
    ?_ 0 c s s' ⟨⟨rfl, rfl, rfl⟩, rfl⟩ hloop
  intro j u u' ⟨⟨q1, q2, q3⟩, q4⟩ hb
  obtain ⟨_, _, _, _, _, _, _, _, bty, bsz, bof, bst⟩ := ptsStep_spec track i j u u' hb
  exact ⟨⟨by rw [bty, q1], by rw [bsz, q2], by rw [bst, q3]⟩, by rw [bof, q4]⟩

/-- The timestamp block writes neither kinds, sizes, offsets nor the stream size. -/
theorem setTimecodes_frame (track : Mp4Track) (m m' : BitstreamMap)
    (h : setTimecodes track m = .ok m') :
    SameSamples m m' ∧ m'.sample_offset = m.sample_offset := by
  have dts : ∀ copy n (t t' : TimeState), forLoop (dtsRun track copy) 0 n t = .ok t' →
      SameSamples t.map t'.map ∧ t'.map.sample_offset = t.map.sample_offset := by
    intro copy n t t' hl
    refine forLoop_preserves (dtsRun track copy)
      (fun u => SameSamples t.map u.map ∧ u.map.sample_offset = t.map.sample_offset)
      ?_ 0 n t t' ⟨⟨rfl, rfl, rfl⟩, rfl⟩ hl
    intro j u u' ⟨⟨q1, q2, q3⟩, q4⟩ hb
    obtain ⟨⟨b1, b2, b3⟩, b4⟩ := dtsRun_frame track copy j u u' hb
    exact ⟨⟨by rw [b1, q1], by rw [b2, q2], by rw [b3, q3]⟩, by rw [b4, q4]⟩
  unfold setTimecodes at h
  split at h
  · rename_i counts _
    simp only [bind_ok_iff, pure_ok_iff] at h
    obtain ⟨s1, h1, s2, h2, rfl⟩ := h
    obtain ⟨⟨a1, a2, a3⟩, a4⟩ := dts false _ _ _ h1
    have hp := forLoop_preserves (ptsRun track counts)
      (fun u => SameSamples s1.map u.map ∧ u.map.sample_offset = s1.map.sample_offset)
      (by
        intro j u u' ⟨⟨q1, q2, q3⟩, q4⟩ hb
        obtain ⟨⟨b1, b2, b3⟩, b4⟩ := ptsRun_frame track counts j u u' hb
        exact ⟨⟨by rw [b1, q1], by rw [b2, q2], by rw [b3, q3]⟩, by rw [b4, q4]⟩)
      0 _ { map := s1.map, k := firstSample track } s2 ⟨⟨rfl, rfl, rfl⟩, rfl⟩ h2
    obtain ⟨⟨c1, c2, c3⟩, c4⟩ := hp
    exact ⟨⟨by rw [c1, a1], by rw [c2, a2], by rw [c3, a3]⟩, by rw [c4, a4]⟩
  · simp only [bind_ok_iff, pure_ok_iff] at h
    obtain ⟨s1, h1, rfl⟩ := h
    exact dts true _ _ _ h1

/-! ### Byte offsets and unit adjustment -/

theorem scaleAt_spec (track : Mp4Track) (times times' : List Int) (index : Nat) (value : Int)
    (h : scaleAt track times index value = .ok times') :
    track.timescale ≠ 0 ∧ inI64 (value * 1000000) ∧ index < times.length ∧
    times' = times.set index (Int.tdiv (value * 1000000) (track.timescale : Int)) := by
  simp only [scaleAt, bind_ok_iff, mulI64_ok_iff, divI64_ok_iff, writeAt_ok_iff] at h
  obtain ⟨prod, ⟨hin, rfl⟩, q, ⟨hts, rfl⟩, hlt, rfl⟩ := h
  exact ⟨hts, hin, hlt, rfl⟩

/-- The unit adjustment of one entry: both timestamps of the entry are replaced by
`value * 1000000 / timescale`, nothing else changes. -/
theorem adjustUnit_spec (track : Mp4Track) (index : Nat) (m m' : BitstreamMap)
    (h : adjustUnit track index m = .ok m') :
    SameSamples m m' ∧ m'.sample_offset = m.sample_offset ∧
    track.timescale ≠ 0 ∧
    ∃ d p, m.sample_dts[index]? = some d ∧ m.sample_pts[index]? = some p ∧
      m'.sample_dts = m.sample_dts.set index (Int.tdiv (d * 1000000) (track.timescale : Int)) ∧
      m'.sample_pts = m.sample_pts.set index (Int.tdiv (p * 1000000) (track.timescale : Int)) := by
  simp only [adjustUnit, bind_ok_iff, pure_ok_iff, readAt_ok_iff] at h
  obtain ⟨d, hd, dtss, hdts, p, hp, ptss, hpts, rfl⟩ := h
  obtain ⟨hts, _, _, rfl⟩ := scaleAt_spec track _ _ _ _ hpts
  refine ⟨⟨rfl, rfl, rfl⟩, rfl, hts, d, p, hd, hp, ?_, rfl⟩
  by_cases hz : d = 0
  · subst hz
    simp only [ne_eq, not_true_eq_false, if_false, pure_ok_iff] at hdts
    subst hdts
    simp only [zero_mul, Int.zero_tdiv]
    apply List.ext_getElem?
    intro q
    by_cases hq : q = index
    · subst hq
      rw [hd, List.getElem?_set]
      simp only [if_true]
      split
      · rfl
      · rename_i hge
        rw [List.getElem?_eq_none (by omega)] at hd
        cases hd
    · rw [List.getElem?_set_ne (Ne.symm hq)]
  · simp only [ne_eq, hz, not_false_eq_true, if_true] at hdts
    exact (scaleAt_spec track _ _ _ _ hdts).2.2.2

theorem offsetStep_spec (track : Mp4Track) (l : Nat) (s s' : OffsetState)
    (h : offsetStep track l s = .ok s') :
    s'.index = u32 (s.index + 1) ∧ s'.chunkOffset = s.chunkOffset ∧
    s'.visited = s.visited ∧ SameSamples s.map s'.map ∧
    s.index < s.map.sample_offset.length ∧
    ∃ off, s'.map.sample_offset = s.map.sample_offset.set s.index off ∧
      (l = 0 → track.stco_chunk_offset[s.chunkOffset]? = some off) ∧
      (l ≠ 0 → ∃ o z, s.map.sample_offset[u32sub s.index 1]? = some o ∧
        s.map.sample_size[u32sub s.index 1]? = some z ∧ off = o + (z : Int)) := by
  simp only [offsetStep, bind_ok_iff, pure_ok_iff, writeAt_ok_iff] at h
  obtain ⟨m1, hadj, off, hoff, offs, ⟨hlt, rfl⟩, rfl⟩ := h
  obtain ⟨⟨a1, a2, a3⟩, a4, _, _⟩ := adjustUnit_spec track s.index s.map m1 hadj
  rw [a4] at hlt
  refine ⟨rfl, rfl, rfl, ⟨a1, a2, a3⟩, hlt, off, by simp only [a4], ?_, ?_⟩
  · intro hl
    rw [if_pos hl] at hoff
    simpa only [readAt_ok_iff] using hoff
  · intro hl
    rw [if_neg hl] at hoff
    simp only [bind_ok_iff, readAt_ok_iff, addI64_ok_iff] at hoff
    obtain ⟨o, ho, z, hz, _, rfl⟩ := hoff
    rw [a4] at ho
    rw [a2] at hz
    exact ⟨o, z, ho, hz, rfl⟩

/-- The sample loop of one chunk. -/
theorem chunkSamples_spec (track : Mp4Track) (n : Nat) (s s' : OffsetState)
    (hmap : s.map.sample_offset.length < 4294967296)
    (h : forLoop (offsetStep track) 0 n s = .ok s') :
    s'.index = s.index + n ∧ s'.chunkOffset = s.chunkOffset ∧ s'.visited = s.visited ∧
    SameSamples s.map s'.map ∧
    s'.map.sample_offset.length = s.map.sample_offset.length ∧
    (∀ p, (p < s.index ∨ s.index + n ≤ p) →
      s'.map.sample_offset[p]? = s.map.sample_offset[p]?) ∧
    ChunkContiguous track s'.map
      { chunk := s.chunkOffset, first := s.index, samples := n } := by
  have key := forLoop_invariant (offsetStep track)
    (fun l t =>
      t.index = s.index + l ∧ t.chunkOffset = s.chunkOffset ∧ t.visited = s.visited ∧
      SameSamples s.map t.map ∧
      t.map.sample_offset.length = s.map.sample_offset.length ∧
      (∀ p, (p < s.index ∨ s.index + l ≤ p) →
        t.map.sample_offset[p]? = s.map.sample_offset[p]?) ∧
      ChunkContiguous track t.map
        { chunk := s.chunkOffset, first := s.index, samples := l })
    n 0 s s' ?_ ?_ h
  · simpa using key
  · intro l t t' _ _ ⟨hi, hc, hv, ⟨q1, q2, q3⟩, hlen, hfr, hfirst, hrec⟩ hb
    obtain ⟨bi, bc, bv, ⟨b1, b2, b3⟩, hlt, off, boff, b0, bn⟩ := offsetStep_spec track l t t' hb
    refine ⟨?_, by rw [bc, hc], by rw [bv, hv], ⟨by rw [b1, q1], by rw [b2, q2], by rw [b3, q3]⟩,
      by rw [boff, List.length_set, hlen], ?_, ?_, ?_⟩
    · rw [bi]
      unfold u32
      omega
    · intro p hp
      rw [boff, List.getElem?_set_ne (by omega)]
      exact hfr p (by omega)
    · intro _
      by_cases hl : l = 0
      · subst hl
        refine ⟨off, ?_, ?_⟩
        · rw [← hc]
          exact b0 rfl
        · have e : s.index = t.index := by omega
          simp only
          rw [boff, e, List.getElem?_set_self hlt]
      · obtain ⟨o, h1, h2⟩ := hfirst (by simp only; omega)
        refine ⟨o, h1, ?_⟩
        simp only at h2 ⊢
        rw [boff, List.getElem?_set_ne (by omega)]
        exact h2
    · intro l' hl' hlt'
      simp only at hlt' ⊢
      by_cases hll : l' = l
      · subst hll
        obtain ⟨o, z, ho, hz, rfl⟩ := bn (by omega)
        have hsub : u32sub t.index 1 = t.index - 1 := by
          unfold u32sub
          omega
        rw [hsub, hi] at ho hz
        refine ⟨o, z, ?_, ?_, ?_⟩
        · rw [boff, List.getElem?_set_ne (by omega)]
          exact ho
        · rw [b2]
          exact hz
        · rw [boff, ← hi, List.getElem?_set_self hlt]
      · obtain ⟨o, z, ho, hz, hn⟩ := hrec l' hl' (by simp only; omega)
        simp only at ho hz hn
        refine ⟨o, z, ?_, ?_, ?_⟩
        · rw [boff, List.getElem?_set_ne (by omega)]
          exact ho
        · rw [b2]
          exact hz
        · rw [boff, List.getElem?_set_ne (by omega)]
          exact hn
  · refine ⟨by simp, rfl, rfl, ⟨rfl, rfl, rfl⟩, rfl, fun _ _ => rfl, ?_, ?_⟩
    · intro h0
      simp only at h0
      omega
    · intro l hl hlt
      simp only at hlt
      omega

/-- A walked chunk keeps its offsets when later steps only write entries at or after
the end of the chunk. -/
theorem ChunkContiguous_stable (track : Mp4Track) (m m' : BitstreamMap) (v : ChunkVisit)
    (bound : Nat) (hv : v.first + v.samples ≤ bound)
    (hsize : m'.sample_size = m.sample_size)
    (hfr : ∀ p, p < bound → m'.sample_offset[p]? = m.sample_offset[p]?)
    (h : ChunkContiguous track m v) : ChunkContiguous track m' v := by
  obtain ⟨h1, h2⟩ := h
  refine ⟨?_, ?_⟩
  · intro hpos
    obtain ⟨o, ho, hf⟩ := h1 hpos
    exact ⟨o, ho, by rw [hfr _ (by omega)]; exact hf⟩
  · intro l hl hlt
    obtain ⟨o, z, ho, hz, hn⟩ := h2 l hl hlt
    exact ⟨o, z, by rw [hfr _ (by omega)]; exact ho, by rw [hsize]; exact hz,
      by rw [hfr _ (by omega)]; exact hn⟩

theorem offsetChunk_invariant (track : Mp4Track) (m : BitstreamMap) (i k : Nat)
    (s s' : OffsetState) (hmap : m.sample_offset.length < 4294967296)
    (hinv : WalkInvariant track m s) (h : offsetChunk track i k s = .ok s') :
    WalkInvariant track m s' := by
  obtain ⟨⟨q1, q2, q3⟩, hlen, hvis⟩ := hinv
  simp only [offsetChunk, bind_ok_iff, pure_ok_iff, readAt_ok_iff] at h
  obtain ⟨n, _, s1, hloop, rfl⟩ := h
  obtain ⟨ci, cc, cv, ⟨c1, c2, c3⟩, clen, cfr, ccont⟩ :=
    chunkSamples_spec track n s s1 (by omega) hloop
  refine ⟨⟨by simp only; rw [c1, q1], by simp only; rw [c2, q2], by simp only; rw [c3, q3]⟩,
    by simp only; rw [clen, hlen], ?_⟩
  intro v hv
  simp only [List.mem_append, List.mem_singleton] at hv
  simp only
  rcases hv with hold | hnew
  · rw [cv] at hold
    obtain ⟨hb, hc⟩ := hvis v hold
    refine ⟨by omega, ?_⟩
    exact ChunkContiguous_stable track s.map s1.map v s.index hb c2
      (fun p hp => cfr p (Or.inl hp)) hc
  · subst hnew
    exact ⟨by simp only; omega, ccont⟩

theorem offsetEntry_invariant (track : Mp4Track) (m : BitstreamMap) (i : Nat)
    (s s' : OffsetState) (hmap : m.sample_offset.length < 4294967296)
    (hinv : WalkInvariant track m s) (h : offsetEntry track i s = .ok s') :
    WalkInvariant track m s' := by
  unfold offsetEntry at h
  split at h
  · simp only [bind_ok_iff] at h
    obtain ⟨n, _, hloop⟩ := h
    exact forLoop_preserves (offsetChunk track i) (WalkInvariant track m)
      (fun k t t' ht hb => offsetChunk_invariant track m i k t t' hmap ht hb) 0 n s s' hinv hloop
  · simp only [pure_ok_iff] at h
    subst h
    exact hinv

/-- The chunk walk as a whole: every chunk of the log has the offsets of
`ChunkContiguous` in the final map, and kinds, sizes and the stream size are untouched. -/
theorem walkChunks_invariant (track : Mp4Track) (m : BitstreamMap) (s : OffsetState)
    (hmap : m.sample_offset.length < 4294967296) (h : walkChunks track m = .ok s) :
    WalkInvariant track m s := by
  unfold walkChunks at h
  refine forLoop_preserves (offsetEntry track) (WalkInvariant track m)
    (fun i t t' ht hb => offsetEntry_invariant track m i t t' hmap ht hb) 0 _ _ s ?_ h
  refine ⟨⟨rfl, rfl, rfl⟩, rfl, ?_⟩
  intro v hv
  simp at hv

/-- The chunk walk writes neither kinds, sizes nor the stream size. -/
theorem walkChunks_frame (track : Mp4Track) (m : BitstreamMap) (s : OffsetState)
    (h : walkChunks track m = .ok s) : SameSamples m s.map := by
  have step : ∀ l (t t' : OffsetState), SameSamples m t.map →
      offsetStep track l t = .ok t' → SameSamples m t'.map := by
    intro l t t' ⟨q1, q2, q3⟩ hb
    obtain ⟨_, _, _, ⟨b1, b2, b3⟩, _⟩ := offsetStep_spec track l t t' hb
    exact ⟨by rw [b1, q1], by rw [b2, q2], by rw [b3, q3]⟩
  have chunk : ∀ i k (t t' : OffsetState), SameSamples m t.map →
      offsetChunk track i k t = .ok t' → SameSamples m t'.map := by
    intro i k t t' hq hb
    simp only [offsetChunk, bind_ok_iff, pure_ok_iff, readAt_ok_iff] at hb
    obtain ⟨n, _, s1, hloop, rfl⟩ := hb
    exact forLoop_preserves (offsetStep track) (fun u => SameSamples m u.map) step 0 n t s1
      hq hloop
  have entry : ∀ i (t t' : OffsetState), SameSamples m t.map →
      offsetEntry track i t = .ok t' → SameSamples m t'.map := by
    intro i t t' hq hb
    unfold offsetEntry at hb
    split at hb
    · simp only [bind_ok_iff] at hb
      obtain ⟨n, _, hloop⟩ := hb
      exact forLoop_preserves (offsetChunk track i) (fun u => SameSamples m u.map)
        (chunk i) 0 n t t' hq hloop
    · simp only [pure_ok_iff] at hb
      subst hb
      exact hq
  unfold walkChunks at h
  exact forLoop_preserves (offsetEntry track) (fun u => SameSamples m u.map) entry 0 _ _ s
    ⟨rfl, rfl, rfl⟩ h

/-- The passes of `convertTrack`, one after the other. -/
theorem convertTrack_ok_iff (track : Mp4Track) (m0 mf : BitstreamMap) :
    convertTrack track m0 = .ok mf ↔
      ∃ m1 m2 m3 s, setParameterSets track m0 = .ok m1 ∧ setTypesAndSizes track m1 = .ok m2 ∧
        setTimecodes track m2 = .ok m3 ∧ walkChunks track m3 = .ok s ∧ s.map = mf := by
  simp only [convertTrack, setOffsets, bind_ok_iff, pure_ok_iff]
  constructor
  · rintro ⟨m1, h1, m2, h2, m3, h3, s, h4, h5⟩
    exact ⟨m1, m2, m3, s, h1, h2, h3, h4, h5⟩
  · rintro ⟨m1, m2, m3, s, h1, h2, h3, h4, h5⟩
    exact ⟨m1, h1, m2, h2, m3, h3, s, h4, h5⟩

/-- Kinds and sizes in the final map are those that the "Set sample type & size" loop
stored. -/
theorem convertTrack_types_sizes (track : Mp4Track) (m0 mf : BitstreamMap)
    (h : convertTrack track m0 = .ok mf) :
    ∃ m1 m2, setParameterSets track m0 = .ok m1 ∧ setTypesAndSizes track m1 = .ok m2 ∧
      mf.sample_type = m2.sample_type ∧ mf.sample_size = m2.sample_size ∧
      mf.stream_size = m2.stream_size := by
  rw [convertTrack_ok_iff] at h
  obtain ⟨m1, m2, m3, s, h1, h2, h3, h4, rfl⟩ := h
  obtain ⟨⟨a1, a2, a3⟩, _⟩ := setTimecodes_frame track m2 m3 h3
  obtain ⟨b1, b2, b3⟩ := walkChunks_frame track m3 s h4
  exact ⟨m1, m2, h1, h2, by rw [b1, a1], by rw [b2, a2], by rw [b3, a3]⟩

/-- The test `i == stss_sample_number[j] - 1` succeeds for some entry of the table
exactly when `i + 1` occurs in it. -/
theorem syncHit_iff_mem (track : Mp4Track) (i : Nat)
    (hlen : track.stss_sample_number.length = track.stss_entry_count)
    (hnum : ∀ x, x ∈ track.stss_sample_number → x < 4294967296)
    (hi : i + 1 < 4294967296) :
    (∃ j, j < track.stss_entry_count ∧ syncHit track i j) ↔
      (i + 1) ∈ track.stss_sample_number := by
  constructor
  · rintro ⟨j, hj, x, hx, hix⟩
    have hmem : x ∈ track.stss_sample_number := List.getElem?_mem hx
    have hxlt := hnum x hmem
    have : x = i + 1 := by
      unfold u32sub at hix
      omega
    rw [← this]
    exact hmem
  · intro hmem
    obtain ⟨j, hj, hx⟩ := List.getElem_of_mem hmem
    refine ⟨j, by omega, i + 1, ?_, ?_⟩
    · rw [List.getElem?_eq_getElem hj, hx]
    · unfold u32sub
      omega

/-! ### Claims on sample kinds and sizes -/

/-- C8: for a video track, `convertTrack` gives real sample `i` (stored at
`sampleId track i`) the kind `sample_VIDEO_SYNC` if and only if `i + 1` occurs in
`stss_sample_number`, and `sample_VIDEO` otherwise. -/
theorem convertTrack_sync_kinds (track : Mp4Track) (m0 mf : BitstreamMap)
    (hvideo : track.handlerType = HANDLER_VIDEO)
    (hcount : track.stsz_sample_count < 4294967296)
    (hlen : track.stss_sample_number.length = track.stss_entry_count)
    (hnum : ∀ x, x ∈ track.stss_sample_number → x < 4294967296)
    (h : convertTrack track m0 = .ok mf) (i : Nat) (hi : i < track.stsz_sample_count) :
    mf.sample_type[sampleId track i]? =
      some (if (i + 1) ∈ track.stss_sample_number then sample_VIDEO_SYNC else sample_VIDEO) := by
  obtain ⟨m1, m2, _, h2, hty, _, _⟩ := convertTrack_types_sizes track m0 mf h
  obtain ⟨_, _, _, _, _, _, hdone⟩ := setTypesAndSizes_spec track m1 m2 (by omega) h2
  obtain ⟨hs, hns⟩ := (hdone i hi).2 hvideo
  have hiff := syncHit_iff_mem track i hlen hnum (by omega)
  rw [hty]
  by_cases hmem : (i + 1) ∈ track.stss_sample_number
  · rw [if_pos hmem]
    exact hs (hiff.2 hmem)
  · rw [if_neg hmem]
    exact hns (fun hh => hmem (hiff.1 hh))

/-- Witness of C8: the scenario `sync_samples = [1, 3]` over three video samples yields
the kinds `[sample_VIDEO_SYNC, sample_VIDEO, sample_VIDEO_SYNC]`. -/
theorem convertTrack_sync_kinds_witness :
    convertTrack scenarioTrack (zeroMap 3) = .ok scenarioResult ∧
    scenarioResult.sample_type = [sample_VIDEO_SYNC, sample_VIDEO, sample_VIDEO_SYNC] ∧
    scenarioResult.sample_type[sampleId scenarioTrack 0]? = some sample_VIDEO_SYNC ∧
    scenarioResult.sample_type[sampleId scenarioTrack 1]? = some sample_VIDEO ∧
    scenarioResult.sample_type[sampleId scenarioTrack 2]? = some sample_VIDEO_SYNC :=
  ⟨rfl, rfl,
   convertTrack_sync_kinds scenarioTrack (zeroMap 3) scenarioResult rfl (by decide) rfl
     (by decide) rfl 0 (by decide),
   convertTrack_sync_kinds scenarioTrack (zeroMap 3) scenarioResult rfl (by decide) rfl
     (by decide) rfl 1 (by decide),
   convertTrack_sync_kinds scenarioTrack (zeroMap 3) scenarioResult rfl (by decide) rfl
     (by decide) rfl 2 (by decide)⟩

/-- Counterexample to C9 as stated: a video track without sync-sample table whose three
real samples are all stored as `sample_VIDEO`, none as `sample_VIDEO_SYNC`. -/
theorem absent_sync_table_counterexample :
    ¬ (∀ (track : Mp4Track) (m0 mf : BitstreamMap),
        track.handlerType = HANDLER_VIDEO → track.stss_entry_count = 0 →
        convertTrack track m0 = .ok mf → ∀ i, i < track.stsz_sample_count →
        mf.sample_type[sampleId track i]? = some sample_VIDEO_SYNC) := by
  intro hall
  have h := hall scenarioNoSync (zeroMap 3)
    { scenarioResult with sample_type := [sample_VIDEO, sample_VIDEO, sample_VIDEO] }
    rfl rfl rfl 0 (by decide)
  revert h
  decide

/-- C9 (amended): for a video track whose sync-sample table is absent or empty
(`stss_entry_count = 0`), `convertTrack` stores every real sample as `sample_VIDEO`. -/
theorem convertTrack_no_sync_table (track : Mp4Track) (m0 mf : BitstreamMap)
    (hvideo : track.handlerType = HANDLER_VIDEO)
    (hcount : track.stsz_sample_count < 4294967296)
    (hnone : track.stss_entry_count = 0)
    (h : convertTrack track m0 = .ok mf) (i : Nat) (hi : i < track.stsz_sample_count) :
    mf.sample_type[sampleId track i]? = some sample_VIDEO := by
  obtain ⟨m1, m2, _, h2, hty, _, _⟩ := convertTrack_types_sizes track m0 mf h
  obtain ⟨_, _, _, _, _, _, hdone⟩ := setTypesAndSizes_spec track m1 m2 (by omega) h2
  obtain ⟨_, hns⟩ := (hdone i hi).2 hvideo
  rw [hty]
  apply hns
  rintro ⟨j, hj, _⟩
  omega

/-- Witness of the amended C9 on the scenario track without sync-sample table. -/
theorem convertTrack_no_sync_table_witness :
    convertTrack scenarioNoSync (zeroMap 3) =
      .ok { scenarioResult with sample_type := [sample_VIDEO, sample_VIDEO, sample_VIDEO] } ∧
    ({ scenarioResult with sample_type := [sample_VIDEO, sample_VIDEO, sample_VIDEO] } :
      BitstreamMap).sample_type[sampleId scenarioNoSync 0]? = some sample_VIDEO :=
  ⟨rfl, convertTrack_no_sync_table scenarioNoSync (zeroMap 3) _ rfl (by decide) rfl rfl 0
    (by decide)⟩

/-- C10: sample sizes stored by `convertTrack`.  Without per-sample table, a declared
constant size of 1 and a PCM-family codec give every real sample the size
`channel_count * (sample_size_bits / 8)`; every other track without per-sample table
gives the declared constant `stsz_sample_size`; with a per-sample table real sample `i`
gets `stsz_entry_size[i]`.  (`channel_count` and `sample_size_bits` are 16-bit fields of
the sample description.) -/
theorem convertTrack_sample_sizes (track : Mp4Track) (m0 mf : BitstreamMap)
    (hcount : track.stsz_sample_count < 4294967296)
    (hchannels : track.channel_count < 65536) (hbits : track.sample_size_bits < 65536)
    (h : convertTrack track m0 = .ok mf) (i : Nat) (hi : i < track.stsz_sample_count) :
    (track.stsz_entry_size = none → track.stsz_sample_size = 1 →
      (track.codec = CODEC_LPCM ∨ track.codec = CODEC_LogPCM ∨
        track.codec = CODEC_DPCM ∨ track.codec = CODEC_ADPCM) →
      mf.sample_size[sampleId track i]? =
        some (track.channel_count * (track.sample_size_bits / 8))) ∧
    (track.stsz_entry_size = none →
      ¬ (track.stsz_sample_size = 1 ∧
        (track.codec = CODEC_LPCM ∨ track.codec = CODEC_LogPCM ∨
          track.codec = CODEC_DPCM ∨ track.codec = CODEC_ADPCM)) →
      mf.sample_size[sampleId track i]? = some track.stsz_sample_size) ∧
    (∀ entry_size, track.stsz_entry_size = some entry_size →
      ∃ v, entry_size[i]? = some v ∧ mf.sample_size[sampleId track i]? = some v) := by
  obtain ⟨m1, m2, _, h2, _, hsz, _⟩ := convertTrack_types_sizes track m0 mf h
  obtain ⟨_, _, _, _, _, _, hdone⟩ := setTypesAndSizes_spec track m1 m2 (by omega) h2
  obtain ⟨v, hv, hstored⟩ := (hdone i hi).1
  rw [hsz, hstored]
  unfold declaredSize at hv
  refine ⟨?_, ?_, ?_⟩
  · intro hnone hone hpcm
    rw [hnone] at hv
    simp only [sampleSizeCbr, hnone, hone, hpcm, and_self, if_true, Option.some.injEq] at hv
    rw [← hv]
    have hprod : track.channel_count * (track.sample_size_bits / 8) < 4294967296 := by
      have h8 : track.sample_size_bits / 8 < 65536 := by omega
      calc track.channel_count * (track.sample_size_bits / 8)
          ≤ 65535 * 65535 := Nat.mul_le_mul (by omega) (by omega)
        _ < 4294967296 := by decide
    unfold u32
    rw [Nat.mod_eq_of_lt hprod]
  · intro hnone hnot
    rw [hnone] at hv
    simp only [sampleSizeCbr, hnone, hnot, if_false, Option.some.injEq] at hv
    rw [hv]
  · intro es hes
    rw [hes] at hv
    exact ⟨v, hv, rfl⟩

/-- Witness of C10: a PCM-family track with declared constant sample size 1, 2 channels
and 16 bits per sample gets the reconstructed sample size 4, not 1. -/
theorem convertTrack_sample_sizes_witness :
    convertTrack scenarioPcm (zeroMap 2) = .ok scenarioPcmResult ∧
    scenarioPcmResult.sample_size[sampleId scenarioPcm 0]? = some (2 * (16 / 8)) ∧
    scenarioPcmResult.sample_size = [4, 4] :=
  ⟨rfl,
   (convertTrack_sample_sizes scenarioPcm (zeroMap 2) scenarioPcmResult (by decide) (by decide)
     (by decide) rfl 0 (by decide)).1 rfl rfl (Or.inl rfl),
   rfl⟩

/-! ### Claims on decode and presentation times -/

/-- The outer loop of "Compute DTS" for an arbitrary table: the entries written are those
from the first real sample up to the final `k`, they cover at least the samples of the
runs, and in the copying variant each of them has equal decode and presentation time. -/
theorem computeDts_general (track : Mp4Track) (copy : Bool) (n : Nat) (m : BitstreamMap)
    (s' : TimeState) (hmap : m.sample_dts.length < 4294967296)
    (h : forLoop (dtsRun track copy) 0 n { map := m, k := firstSample track } = .ok s') :
    firstSample track + samplesBefore track.stts_sample_count n ≤ s'.k ∧
    s'.map.sample_dts.length = m.sample_dts.length ∧
    (∀ p, (p < firstSample track ∨ s'.k ≤ p) →
      s'.map.sample_dts[p]? = m.sample_dts[p]? ∧ s'.map.sample_pts[p]? = m.sample_pts[p]?) ∧
    (copy = false → s'.map.sample_pts = m.sample_pts) ∧
    (copy = true → ∀ p, firstSample track ≤ p → p < s'.k →
      s'.map.sample_pts[p]? = s'.map.sample_dts[p]?) := by
  have key := forLoop_invariant (dtsRun track copy)
    (fun i t =>
      ((i = 0 ∧ t.k = firstSample track) ∨ firstSample track < t.k) ∧
      firstSample track + samplesBefore track.stts_sample_count i ≤ t.k ∧
      t.map.sample_dts.length = m.sample_dts.length ∧
      (∀ p, (p < firstSample track ∨ t.k ≤ p) →
        t.map.sample_dts[p]? = m.sample_dts[p]? ∧ t.map.sample_pts[p]? = m.sample_pts[p]?) ∧
      (copy = false → t.map.sample_pts = m.sample_pts) ∧
      (copy = true → ∀ p, firstSample track ≤ p → p < t.k →
        t.map.sample_pts[p]? = t.map.sample_dts[p]?))
    n 0 { map := m, k := firstSample track } s' ?_ ?_ h
  · obtain ⟨_, k2, k3, k4, k5, k6⟩ := key
    exact ⟨by simpa using k2, k3, k4, k5, k6⟩
  · intro i t t' _ _ ⟨hcase, hk, hld, hfr, hnc, hcp⟩ hb
    have hmapt : t.map.sample_dts.length < 4294967296 := by omega
    have run : ∃ c hi, track.stts_sample_count[i]? = some c ∧ t.k + c ≤ hi ∧
        firstSample track < hi ∧ DtsRunResult track copy i t t' t.k hi := by
      by_cases hF : t.k = firstSample track
      · obtain ⟨c, hc, _, hres⟩ := dtsRun_first track copy i t t' hmapt hF hb
        exact ⟨c, _, hc, by omega, by omega, hres⟩
      · have hlt : firstSample track < t.k := by
          rcases hcase with ⟨_, h0⟩ | h1
          · exact absurd h0 hF
          · exact h1
        obtain ⟨c, hc, hres⟩ := dtsRun_next track copy i t t' hmapt hlt hb
        exact ⟨c, _, hc, by omega, by omega, hres⟩
    obtain ⟨c, hi, hc, hhi, hFhi, rk, rld, _, _, _, _, _, rfr, rnc, rcp, _⟩ := run
    have hBi := samplesBefore_succ _ i c hc
    have hFk : firstSample track ≤ t.k := by omega
    refine ⟨Or.inr (by omega), by omega, by rw [rld, hld], ?_, ?_, ?_⟩
    · intro p hp
      obtain ⟨f1, f2⟩ := rfr p (by omega)
      rw [f1, f2]
      exact hfr p (by omega)
    · intro hcf
      rw [rnc hcf, hnc hcf]
    · intro hct p hlo hhip
      by_cases hp : p < t.k
      · obtain ⟨f1, f2⟩ := rfr p (Or.inl hp)
        rw [f1, f2]
        exact hcp hct p hlo hp
      · exact rcp hct p (by omega) (by omega)
  · refine ⟨Or.inl ⟨rfl, rfl⟩, by simp [samplesBefore_zero], rfl, fun _ _ => ⟨rfl, rfl⟩,
      fun _ => rfl, ?_⟩
    intro _ p hlo hhi
    simp only at hhi
    omega

theorem ptsLoop_dts (track : Mp4Track) (counts : List Nat) (n : Nat) (t t' : TimeState)
    (h : forLoop (ptsRun track counts) 0 n t = .ok t') :
    t'.map.sample_dts = t.map.sample_dts := by
  refine forLoop_preserves (ptsRun track counts)
    (fun u => u.map.sample_dts = t.map.sample_dts) ?_ 0 n t t' rfl h
  intro i u u' hq hb
  simp only [ptsRun, bind_ok_iff, readAt_ok_iff] at hb
  obtain ⟨c, _, hloop⟩ := hb
  refine forLoop_preserves (ptsStep track i)
    (fun w => w.map.sample_dts = t.map.sample_dts) ?_ 0 c u u' hq hloop
  intro j w w' hw hs
  obtain ⟨_, _, _, _, _, _, _, bd, _⟩ := ptsStep_spec track i j w w' hs
  rw [bd, hw]

/-- The decode times after the timestamp block are those of the "Compute DTS" loop. -/
theorem setTimecodes_dts_loop (track : Mp4Track) (m m' : BitstreamMap)
    (h : setTimecodes track m = .ok m') :
    ∃ copy s, forLoop (dtsRun track copy) 0 track.stts_entry_count
        { map := m, k := firstSample track } = .ok s ∧
      m'.sample_dts = s.map.sample_dts := by
  unfold setTimecodes at h
  split at h
  · simp only [bind_ok_iff, pure_ok_iff] at h
    obtain ⟨s1, h1, s2, h2, rfl⟩ := h
    exact ⟨false, s1, h1,
      ptsLoop_dts track _ _ { map := s1.map, k := firstSample track } s2 h2⟩
  · simp only [bind_ok_iff, pure_ok_iff] at h
    obtain ⟨s1, h1, rfl⟩ := h
    exact ⟨true, s1, h1, rfl⟩

/-- Counterexample to C3 as stated: with the runs `[(0, 5), (2, 7), (2, 9)]` the decode
times are `[0, 7, 14, 23, 32]`; sample 2 belongs to the run of delta 9 but its decode
time is the previous one plus 7. -/
theorem decode_times_counterexample :
    ¬ (∀ (track : Mp4Track) (m m' : BitstreamMap), setTimecodes track m = .ok m' →
        ∀ r x a d, r < track.stts_entry_count → 1 ≤ x →
          samplesBefore track.stts_sample_count r ≤ x →
          x < samplesBefore track.stts_sample_count (r + 1) →
          track.stts_sample_delta[r]? = some d →
          m'.sample_dts[firstSample track + x - 1]? = some a →
          m'.sample_dts[firstSample track + x]? = some (a + (d : Int))) := by
  intro hall
  have h := hall scenarioEmptyRun (zeroMap 5)
    { zeroMap 5 with sample_dts := [0, 7, 14, 23, 32], sample_pts := [0, 7, 14, 23, 32] }
    rfl 2 2 7 9 (by decide) (by decide) (by decide) (by decide) rfl rfl
  revert h
  decide

/-- C3 (amended): before normalization, provided the first `time_to_sample` run is not
empty, the first real sample has decode time 0 and every later sample covered by the
runs has the previous sample's decode time plus the delta of the run it belongs to; for
a single run `(c0, d)` the decode times are `0, d, 2d, ..., (c0 - 1) d`.  The statement
does not depend on whether a composition-offset table is present. -/
theorem setTimecodes_decode_times (track : Mp4Track) (m m' : BitstreamMap) (c0 : Nat)
    (hmap : m.sample_dts.length < 4294967296)
    (hruns : 1 ≤ track.stts_entry_count)
    (hfirst : track.stts_sample_count[0]? = some c0) (hc0 : 1 ≤ c0)
    (h : setTimecodes track m = .ok m') :
    m'.sample_dts[firstSample track]? = some 0 ∧
    (∀ r x, r < track.stts_entry_count → 1 ≤ x →
      samplesBefore track.stts_sample_count r ≤ x →
      x < samplesBefore track.stts_sample_count (r + 1) →
      ∃ a d, track.stts_sample_delta[r]? = some d ∧
        m'.sample_dts[firstSample track + x - 1]? = some a ∧
        m'.sample_dts[firstSample track + x]? = some (a + (d : Int))) ∧
    (track.stts_entry_count = 1 → ∀ d : Nat, track.stts_sample_delta[0]? = some d →
      ∀ x, x < c0 → m'.sample_dts[firstSample track + x]? = some ((x : Int) * (d : Int))) := by
  obtain ⟨copy, s, hloop, hd⟩ := setTimecodes_dts_loop track m m' h
  obtain ⟨_, _, _, _, _, _, _, _, _, _, hz, hrec⟩ :=
    computeDts_spec track copy _ m s c0 hmap hfirst hc0 hloop
  rw [hd]
  refine ⟨hz hruns, hrec, ?_⟩
  intro hone d hdelta x
  have hB1 : samplesBefore track.stts_sample_count 1 = c0 := by
    rw [samplesBefore_succ _ 0 c0 hfirst, samplesBefore_zero]
    omega
  induction x with
  | zero =>
    intro _
    simpa using hz hruns
  | succ x ih =>
    intro hx
    obtain ⟨a, d', hd', h1, h2⟩ := hrec 0 (x + 1) (by omega) (by omega)
      (by rw [samplesBefore_zero]; omega) (by rw [hB1]; exact hx)
    rw [hdelta] at hd'
    cases hd'
    have e : firstSample track + (x + 1) - 1 = firstSample track + x := by omega
    rw [e, ih (by omega)] at h1
    cases h1
    rw [h2]
    congr 1
    push_cast
    ring

/-- Witness of the amended C3: `time_to_sample = [(3, 1000)]` gives the decode times
`[0, 1000, 2000]`, with and without a composition-offset table. -/
theorem setTimecodes_decode_times_witness :
    (setTimecodes scenarioTrack (zeroMap 3) =
        .ok { zeroMap 3 with sample_dts := [0, 1000, 2000], sample_pts := [0, 1000, 2000] } ∧
      setTimecodes scenarioCtts (zeroMap 3) =
        .ok { zeroMap 3 with sample_dts := [0, 1000, 2000], sample_pts := [500, 1500, 2500] }) ∧
    ({ zeroMap 3 with sample_dts := [0, 1000, 2000], sample_pts := [0, 1000, 2000] } :
      BitstreamMap).sample_dts[firstSample scenarioTrack + 2]? = some ((2 : Int) * (1000 : Nat)) ∧
    ({ zeroMap 3 with sample_dts := [0, 1000, 2000], sample_pts := [500, 1500, 2500] } :
      BitstreamMap).sample_dts[firstSample scenarioCtts + 2]? = some ((2 : Int) * (1000 : Nat)) :=
  ⟨⟨rfl, rfl⟩,
   (setTimecodes_decode_times scenarioTrack (zeroMap 3) _ 3 (by decide) (by decide) rfl
     (by decide) rfl).2.2 rfl 1000 rfl 2 (by decide),
   (setTimecodes_decode_times scenarioCtts (zeroMap 3) _ 3 (by decide) (by decide) rfl
     (by decide) rfl).2.2 rfl 1000 rfl 2 (by decide)⟩

/-- C6: before normalization, when a composition-offset table is present
(`ctts_sample_count` is not NULL) every real sample that falls in run `r` of the table
has presentation time = decode time + `ctts_sample_offset[r]`; when no table is present
every real sample covered by the `time_to_sample` runs (and every other one whose two
timestamps were equal in the freshly allocated map) has presentation time = decode
time. -/
theorem setTimecodes_presentation_times (track : Mp4Track) (m m' : BitstreamMap)
    (hdts : m.sample_dts.length < 4294967296) (hpts : m.sample_pts.length < 4294967296)
    (h : setTimecodes track m = .ok m') :
    (∀ counts, track.ctts_sample_count = some counts →
      ∀ r x, r < track.ctts_entry_count → samplesBefore counts r ≤ x →
        x < samplesBefore counts (r + 1) →
        ∃ a o, track.ctts_sample_offset[r]? = some o ∧
          m'.sample_dts[firstSample track + x]? = some a ∧
          m'.sample_pts[firstSample track + x]? = some (a + o)) ∧
    (track.ctts_sample_count = none →
      ∀ p, firstSample track ≤ p →
        (p < firstSample track + samplesBefore track.stts_sample_count track.stts_entry_count ∨
          m.sample_pts[p]? = m.sample_dts[p]?) →
        m'.sample_pts[p]? = m'.sample_dts[p]?) := by
  unfold setTimecodes at h
  refine ⟨?_, ?_⟩
  · intro counts hc r x hr hlo hhi
    rw [hc] at h
    simp only [bind_ok_iff, pure_ok_iff] at h
    obtain ⟨s1, h1, s2, h2, rfl⟩ := h
    obtain ⟨_, _, _, hnc, _⟩ := computeDts_general track false _ m s1 hdts h1
    have hp1 : s1.map.sample_pts.length < 4294967296 := by
      rw [hnc rfl]
      exact hpts
    obtain ⟨⟨_, _, hd, _⟩, hrec⟩ := computePts_spec track counts _ s1.map s2 hp1 h2
    obtain ⟨a, o, ho, ha, hp⟩ := hrec r x hr hlo hhi
    simp only at hd
    exact ⟨a, o, ho, by rw [hd]; exact ha, hp⟩
  · intro hc p hlo hcov
    rw [hc] at h
    simp only [bind_ok_iff, pure_ok_iff] at h
    obtain ⟨s1, h1, rfl⟩ := h
    obtain ⟨hk, _, hfr, _, hcp⟩ := computeDts_general track true _ m s1 hdts h1
    by_cases hp : p < s1.k
    · exact hcp rfl p hlo hp
    · obtain ⟨f1, f2⟩ := hfr p (Or.inr (by omega))
      rw [f1, f2]
      rcases hcov with hlt | heq
      · omega
      · exact heq

/-- Witness of C6: with the composition offsets `[(3, 500)]` the scenario track gets the
presentation times `[500, 1500, 2500]` over the decode times `[0, 1000, 2000]`; without
composition offsets the presentation times are the decode times. -/
theorem setTimecodes_presentation_times_witness :
    (setTimecodes scenarioCtts (zeroMap 3) =
        .ok { zeroMap 3 with sample_dts := [0, 1000, 2000], sample_pts := [500, 1500, 2500] } ∧
      setTimecodes scenarioTrack (zeroMap 3) =
        .ok { zeroMap 3 with sample_dts := [0, 1000, 2000], sample_pts := [0, 1000, 2000] }) ∧
    (∃ a o, scenarioCtts.ctts_sample_offset[0]? = some o ∧
      ({ zeroMap 3 with sample_dts := [0, 1000, 2000], sample_pts := [500, 1500, 2500] } :
        BitstreamMap).sample_dts[firstSample scenarioCtts + 1]? = some a ∧
      ({ zeroMap 3 with sample_dts := [0, 1000, 2000], sample_pts := [500, 1500, 2500] } :
        BitstreamMap).sample_pts[firstSample scenarioCtts + 1]? = some (a + o)) ∧
    ({ zeroMap 3 with sample_dts := [0, 1000, 2000], sample_pts := [0, 1000, 2000] } :
      BitstreamMap).sample_pts[2]? =
    ({ zeroMap 3 with sample_dts := [0, 1000, 2000], sample_pts := [0, 1000, 2000] } :
      BitstreamMap).sample_dts[2]? :=
  ⟨⟨rfl, rfl⟩,
   (setTimecodes_presentation_times scenarioCtts (zeroMap 3) _ (by decide) (by decide) rfl).1
     [3] rfl 0 1 (by decide) (by decide) (by decide),
   (setTimecodes_presentation_times scenarioTrack (zeroMap 3) _ (by decide) (by decide) rfl).2
     rfl 2 (by decide) (Or.inl (by decide))⟩

/-! ### Claims on byte offsets and unit adjustment -/


/-- One chunk of the walk: the samples taken, the new loop variables, and the offsets
written for the chunk. -/
theorem offsetChunk_spec (track : Mp4Track) (i k : Nat) (s s' : OffsetState)
    (hmap : s.map.sample_offset.length < 4294967296)
    (h : offsetChunk track i k s = .ok s') :
    ∃ n, track.stsc_samples_per_chunk[i]? = some n ∧
      s'.index = s.index + n ∧ s'.chunkOffset = u32 (s.chunkOffset + 1) ∧
      s'.visited = s.visited ++ [{ chunk := s.chunkOffset, first := s.index, samples := n }] ∧
      SameSamples s.map s'.map ∧
      s'.map.sample_offset.length = s.map.sample_offset.length ∧
      (∀ p, (p < s.index ∨ s.index + n ≤ p) →
        s'.map.sample_offset[p]? = s.map.sample_offset[p]?) ∧
      ChunkContiguous track s'.map
        { chunk := s.chunkOffset, first := s.index, samples := n } := by
  simp only [offsetChunk, bind_ok_iff, pure_ok_iff, readAt_ok_iff] at h
  obtain ⟨n, hn, s1, hloop, rfl⟩ := h
  obtain ⟨ci, cc, cv, csame, clen, cfr, ccont⟩ := chunkSamples_spec track n s s1 hmap hloop
  exact ⟨n, hn, ci, by simp only; rw [cc], by simp only; rw [cv], csame, clen, cfr, ccont⟩

/-- C1: in the byte-offset pass of `convertTrack`, for every chunk visited (every entry
`v` of the log of chunk-loop bodies), the first sample of the chunk gets the byte offset
`stco_chunk_offset[v.chunk]` and every later sample of the chunk gets the previous
entry's offset plus the previous entry's size; hence the entries of a chunk are
contiguous and their offsets non-decreasing. -/
theorem walkChunks_offsets (track : Mp4Track) (m : BitstreamMap) (s : OffsetState)
    (hmap : m.sample_offset.length < 4294967296) (h : walkChunks track m = .ok s)
    (v : ChunkVisit) (hv : v ∈ s.visited) :
    (0 < v.samples → ∃ o, track.stco_chunk_offset[v.chunk]? = some o ∧
      s.map.sample_offset[v.first]? = some o) ∧
    (∀ l, 0 < l → l < v.samples → ∃ o z, s.map.sample_offset[v.first + l - 1]? = some o ∧
      s.map.sample_size[v.first + l - 1]? = some z ∧
      s.map.sample_offset[v.first + l]? = some (o + (z : Int)) ∧ o ≤ o + (z : Int)) := by
  obtain ⟨_, _, hvis⟩ := walkChunks_invariant track m s hmap h
  obtain ⟨_, hfirst, hrec⟩ := hvis v hv
  refine ⟨hfirst, ?_⟩
  intro l hl hlt
  obtain ⟨o, z, h1, h2, h3⟩ := hrec l hl hlt
  exact ⟨o, z, h1, h2, h3, by omega⟩

/-- Witness of C1 on the chunk scenario: the walk visits chunk 0 (two samples from
index 0) and chunk 1 (two samples from index 2); the first sample of chunk 1 lies at
`stco_chunk_offset[1] = 900`, the second one at 900 + 200. -/
theorem walkChunks_offsets_witness :
    walkChunks scenarioChunks scenarioSizedMap = .ok scenarioWalk ∧
    ((0 < 2 → ∃ o, scenarioChunks.stco_chunk_offset[1]? = some o ∧
      scenarioWalk.map.sample_offset[2]? = some o) ∧
    (∀ l, 0 < l → l < 2 → ∃ (o : Int) (z : Nat),
      scenarioWalk.map.sample_offset[2 + l - 1]? = some o ∧
      scenarioWalk.map.sample_size[2 + l - 1]? = some z ∧
      scenarioWalk.map.sample_offset[2 + l]? = some (o + (z : Int)) ∧ o ≤ o + (z : Int))) :=
  ⟨rfl,
   walkChunks_offsets scenarioChunks scenarioSizedMap scenarioWalk (by decide) rfl
     { chunk := 1, first := 2, samples := 2 } (by decide)⟩

/-- Counterexample to C2 as stated: on the chunk scenario `convertTrack` produces the
byte offsets `[500, 600, 900, 1100]`, not `[500, 600, 900, 1050]`. -/
theorem chunk_scenario_counterexample :
    convertTrack scenarioChunks (zeroMap 4) = .ok scenarioChunksResult ∧
    scenarioChunksResult.sample_offset = [500, 600, 900, 1100] ∧
    scenarioChunksResult.sample_offset ≠ [500, 600, 900, 1050] :=
  ⟨rfl, rfl, by decide⟩

theorem setParameterSets_none (track : Mp4Track) (m m' : BitstreamMap)
    (hsps : track.sps_count = 0) (hpps : track.pps_count = 0)
    (h : setParameterSets track m = .ok m') : m' = m := by
  unfold setParameterSets at h
  rw [hsps, hpps] at h
  split at h
  · simp only [forLoop, bind_ok_iff, Except.ok.injEq] at h
    obtain ⟨a, ha, h⟩ := h
    rw [← h, ← ha]
  · simp only [Except.ok.injEq] at h
    exact h.symm

/-- C2 (amended): for a track without parameter sets, with
`sample_to_chunk = [(1, 2, 1)]`, `chunk_offsets = [500, 900]`, per-sample sizes
`[100, 150, 200, 120]` and 4 declared samples, `convertTrack` produces the byte offsets
`[500, 600, 900, 1100]`: the last sample lies at 900 + 200. -/
theorem convertTrack_chunk_scenario (track : Mp4Track) (m0 mf : BitstreamMap)
    (hmap : m0.sample_offset.length < 4294967296)
    (hsps : track.sps_count = 0) (hpps : track.pps_count = 0)
    (hstsc : track.stsc_entry_count = 1) (_hfirst : track.stsc_first_chunk = [1])
    (hper : track.stsc_samples_per_chunk = [2])
    (hstco : track.stco_entry_count = 2) (hoff : track.stco_chunk_offset = [500, 900])
    (hsizes : track.stsz_entry_size = some [100, 150, 200, 120])
    (hcount : track.stsz_sample_count = 4)
    (h : convertTrack track m0 = .ok mf) :
    mf.sample_offset[0]? = some 500 ∧ mf.sample_offset[1]? = some 600 ∧
    mf.sample_offset[2]? = some 900 ∧ mf.sample_offset[3]? = some 1100 := by
  rw [convertTrack_ok_iff] at h
  obtain ⟨m1, m2, m3, s, h1, h2, h3, h4, rfl⟩ := h
  have e1 := setParameterSets_none track m0 m1 hsps hpps h1
  subst e1
  obtain ⟨o2, _, _, _, _, _, hdone⟩ := setTypesAndSizes_spec track m1 m2 (by omega) h2
  obtain ⟨⟨_, t2, _⟩, o3⟩ := setTimecodes_frame track m2 m3 h3
  have hid : ∀ i, i < 4 → sampleId track i = i := by
    intro i hi
    unfold sampleId u32
    rw [hsps, hpps]
    omega
  have size : ∀ i, i < 4 → m3.sample_size[i]? = [100, 150, 200, 120][i]? := by
    intro i hi
    obtain ⟨v, hv, hst⟩ := (hdone i (by omega)).1
    rw [hid i hi] at hst
    unfold declaredSize at hv
    rw [hsizes] at hv
    rw [t2, hst, ← hv]
  have hlen3 : m3.sample_offset.length < 4294967296 := by
    rw [o3, o2]
    exact hmap
  -- the walk: one `sample_to_chunk` entry, two chunks
  unfold walkChunks at h4
  rw [hstsc] at h4
  rw [forLoop_succ_ok_iff] at h4
  obtain ⟨s', hentry, hz⟩ := h4
  rw [forLoop_zero, Except.ok.injEq] at hz
  subst hz
  have hF : firstSample track = 0 := by
    unfold firstSample u32
    rw [hsps, hpps]
  rw [hF] at hentry
  unfold offsetEntry at hentry
  simp only [hstco, Nat.lt_add_one, Nat.zero_lt_succ, if_true, chunkRunLength, hstsc,
    zero_add, gt_iff_lt, Nat.lt_irrefl, false_and, if_false, bind_ok_iff, pure_ok_iff] at hentry
  obtain ⟨n, hn, hloop⟩ := hentry
  have hn2 : n = 2 := by
    rw [← hn]
    decide
  subst hn2
  rw [forLoop_succ_ok_iff] at hloop
  obtain ⟨sa, ha, hloop⟩ := hloop
  rw [forLoop_succ_ok_iff] at hloop
  obtain ⟨sb, hb, hz⟩ := hloop
  rw [forLoop_zero, Except.ok.injEq] at hz
  subst hz
  obtain ⟨na, hna, ia, ca, _, ⟨_, za, _⟩, la, _, conta⟩ :=
    offsetChunk_spec track 0 0 _ sa hlen3 ha
  obtain ⟨nb, hnb, ib, cb, _, ⟨_, zb, _⟩, lb, frb, contb⟩ :=
    offsetChunk_spec track 0 1 sa sb (by rw [la]; exact hlen3) hb
  rw [hper] at hna hnb
  simp only [List.getElem?_cons_zero, Option.some.injEq] at hna hnb
  subst hna
  subst hnb
  simp only [zero_add] at ia ca conta la
  have hca : sa.chunkOffset = 1 := by
    rw [ca]
    decide
  rw [ia, hca] at contb
  rw [ia] at frb
  obtain ⟨a0, arec⟩ := conta
  obtain ⟨b0, brec⟩ := contb
  simp only [hoff] at a0 b0
  obtain ⟨oa, hoa, hfa⟩ := a0 (by decide)
  obtain ⟨ob, hob, hfb⟩ := b0 (by decide)
  simp only [List.getElem?_cons_zero, List.getElem?_cons_succ, Option.some.injEq] at hoa hob
  subst hoa
  subst hob
  obtain ⟨pa, za', hpa, hza, hna⟩ := arec 1 (by decide) (by decide)
  obtain ⟨pb, zb', hpb, hzb, hnb⟩ := brec 1 (by decide) (by decide)
  simp only [zero_add, Nat.sub_self, Nat.add_sub_cancel] at hpa hza hna hpb hzb hnb
  rw [hfa] at hpa
  cases hpa
  rw [hfb] at hpb
  cases hpb
  rw [za, size 0 (by decide)] at hza
  rw [zb, za, size 2 (by decide)] at hzb
  simp only [List.getElem?_cons_zero, List.getElem?_cons_succ, Option.some.injEq] at hza hzb
  subst hza
  subst hzb
  refine ⟨?_, ?_, hfb, hnb⟩
  · rw [(frb 0 (Or.inl (by decide)))]
    exact hfa
  · rw [(frb 1 (Or.inl (by decide)))]
    exact hna

/-- Witness of the amended C2 on the chunk scenario. -/
theorem convertTrack_chunk_scenario_witness :
    convertTrack scenarioChunks (zeroMap 4) = .ok scenarioChunksResult ∧
    (scenarioChunksResult.sample_offset[0]? = some 500 ∧
     scenarioChunksResult.sample_offset[1]? = some 600 ∧
     scenarioChunksResult.sample_offset[2]? = some 900 ∧
     scenarioChunksResult.sample_offset[3]? = some 1100) :=
  ⟨rfl, convertTrack_chunk_scenario scenarioChunks (zeroMap 4) scenarioChunksResult (by decide)
    rfl rfl rfl rfl rfl rfl rfl rfl rfl rfl⟩

/-- C4 (the code at the claim's scenario): for one video track with timescale 3000 and
raw decode times `[0, 1000, 2000]`, every sample being covered by the chunk tables,
`convertTrack` multiplies by `1000000LL` and divides by the timescale: the final decode
times are `[0, 333333, 666666]`, not the nanosecond values `[0, 333333333, 666666666]`. -/
theorem normalization_scenario :
    convertTrack scenarioTrack (zeroMap 3) = .ok scenarioResult ∧
    scenarioResult.sample_dts = [0, 333333, 666666] ∧
    scenarioResult.sample_dts ≠ [0, 333333333, 666666666] :=
  ⟨rfl, rfl, by decide⟩

/-- C5 (the code at the failing input): with a timescale of 0 the unit adjustment of the
first sample that the chunk walk visits divides by the timescale; `convertTrack` does
not complete, it stops in a division by zero. -/
theorem zero_timescale_division :
    scenarioZeroTimescale.timescale = 0 ∧
    convertTrack scenarioZeroTimescale (zeroMap 3) = .error Fault.divByZero :=
  ⟨rfl, rfl⟩

/-! ### Claim on parse_ctts -/

/-- C7 (the code at the failing input): `parse_ctts` treats the offset field of a
version 1 box exactly as that of a version 0 box; the 32-bit pattern `0xFFFFFFFF` is
stored as 4294967295 in both versions, never as -1. -/
theorem parse_ctts_offset_unsigned :
    (∀ i s, parse_ctts_entry 1 i s = parse_ctts_entry 0 i s) ∧
    (parse_ctts true (cttsContent 1) emptyBox emptyTrack).map
        (fun r => (r.1, r.2.2.1.version, r.2.2.2.ctts_sample_offset)) =
      .ok (SUCCESS, 1, [4294967295]) ∧
    (parse_ctts true (cttsContent 0) emptyBox emptyTrack).map
        (fun r => (r.1, r.2.2.1.version, r.2.2.2.ctts_sample_offset)) =
      .ok (SUCCESS, 0, [4294967295]) :=
  ⟨fun _ _ => rfl, rfl, rfl⟩

/-! ### Parameter sets -/

theorem SameEntry_refl (m : BitstreamMap) (p : Nat) : SameEntry m m p :=
  ⟨rfl, rfl, rfl, rfl, rfl⟩

theorem SameEntry_trans {m1 m2 m3 : BitstreamMap} {p : Nat}
    (h12 : SameEntry m1 m2 p) (h23 : SameEntry m2 m3 p) : SameEntry m1 m3 p := by
  obtain ⟨a1, a2, a3, a4, a5⟩ := h12
  obtain ⟨b1, b2, b3, b4, b5⟩ := h23
  exact ⟨by rw [b1, a1], by rw [b2, a2], by rw [b3, a3], by rw [b4, a4], by rw [b5, a5]⟩

theorem SameShape_refl (m : BitstreamMap) : SameShape m m :=
  ⟨rfl, rfl, rfl, rfl, rfl, rfl, rfl⟩

theorem SameShape_trans {m1 m2 m3 : BitstreamMap}
    (h12 : SameShape m1 m2) (h23 : SameShape m2 m3) : SameShape m1 m3 := by
  obtain ⟨a1, a2, a3, a4, a5, a6, a7⟩ := h12
  obtain ⟨b1, b2, b3, b4, b5, b6, b7⟩ := h23
  exact ⟨by rw [b1, a1], by rw [b2, a2], by rw [b3, a3], by rw [b4, a4], by rw [b5, a5],
    by rw [b6, a6], by rw [b7, a7]⟩

theorem IsParamEntry_of_same {m m' : BitstreamMap} {p : Nat} {off : Int} {sz : Nat}
    (hs : SameEntry m m' p) (h : IsParamEntry m p off sz) : IsParamEntry m' p off sz := by
  obtain ⟨a1, a2, a3, a4, a5⟩ := hs
  obtain ⟨b1, b2, b3, b4, b5⟩ := h
  exact ⟨by rw [a1, b1], by rw [a3, b2], by rw [a2, b3], by rw [a4, b4], by rw [a5, b5]⟩

theorem setParamSample_spec (offsets : List Int) (sizes : List Nat) (i p : Nat)
    (m m' : BitstreamMap) (h : setParamSample offsets sizes i p m = .ok m') :
    SameShape m m' ∧ (∀ q, q ≠ p → SameEntry m m' q) ∧
    ∃ off sz, offsets[i]? = some off ∧ sizes[i]? = some sz ∧ IsParamEntry m' p off sz := by
  simp only [setParamSample, bind_ok_iff, pure_ok_iff, readAt_ok_iff, writeAt_ok_iff] at h
  obtain ⟨ty, ⟨l1, rfl⟩, off, hoff, offs, ⟨l2, rfl⟩, sz, hsz, szs, ⟨l3, rfl⟩,
    pts, ⟨l4, rfl⟩, dts, ⟨l5, rfl⟩, rfl⟩ := h
  refine ⟨⟨by simp, by simp, by simp, by simp, by simp, rfl, rfl⟩, ?_, off, sz, hoff, hsz, ?_⟩
  · intro q hq
    have hq' : p ≠ q := Ne.symm hq
    exact ⟨by simp only [List.getElem?_set_ne hq'], by simp only [List.getElem?_set_ne hq'],
      by simp only [List.getElem?_set_ne hq'], by simp only [List.getElem?_set_ne hq'],
      by simp only [List.getElem?_set_ne hq']⟩
  · exact ⟨by simp only [List.getElem?_set_self l1], by simp only [List.getElem?_set_self l2],
      by simp only [List.getElem?_set_self l3], by simp only [List.getElem?_set_self l4],
      by simp only [List.getElem?_set_self l5]⟩

/-- A loop over parameter sets that stores set `i` at index `base + i`. -/
theorem paramLoop_spec (offsets : List Int) (sizes : List Nat) (pos : Nat → Nat)
    (base n : Nat) (m m' : BitstreamMap) (hpos : ∀ i, i < n → pos i = base + i)
    (h : forLoop (fun i t => setParamSample offsets sizes i (pos i) t) 0 n m = .ok m') :
    SameShape m m' ∧ (∀ q, (q < base ∨ base + n ≤ q) → SameEntry m m' q) ∧
    (∀ i, i < n → ∃ off sz, offsets[i]? = some off ∧ sizes[i]? = some sz ∧
      IsParamEntry m' (base + i) off sz) := by
  have key := forLoop_invariant (fun i t => setParamSample offsets sizes i (pos i) t)
    (fun k t => SameShape m t ∧ (∀ q, (q < base ∨ base + k ≤ q) → SameEntry m t q) ∧
      (∀ i, i < k → ∃ off sz, offsets[i]? = some off ∧ sizes[i]? = some sz ∧
        IsParamEntry t (base + i) off sz))
    n 0 m m' ?_ ?_ h
  · simpa using key
  · intro k t t' _ hk ⟨hshape, hfr, hdone⟩ hb
    obtain ⟨bshape, bfr, off, sz, hoff, hsz, hentry⟩ :=
      setParamSample_spec offsets sizes k (pos k) t t' hb
    rw [hpos k (by omega)] at bfr hentry
    refine ⟨SameShape_trans hshape bshape, ?_, ?_⟩
    · intro q hq
      exact SameEntry_trans (hfr q (by omega)) (bfr q (by omega))
    · intro i hi
      by_cases hik : i = k
      · subst hik
        exact ⟨off, sz, hoff, hsz, hentry⟩
      · obtain ⟨off', sz', ho', hs', he'⟩ := hdone i (by omega)
        exact ⟨off', sz', ho', hs', IsParamEntry_of_same (bfr _ (by omega)) he'⟩
  · exact ⟨SameShape_refl m, fun q _ => SameEntry_refl m q, fun i hi => absurd hi (by omega)⟩

/-- The "Codec specific metadata" block: for an H.264 / H.265 video track entry `i` is
SPS `i` and entry `sps_count + i` is PPS `i`; every other entry, the array lengths and
the counters are untouched.  Any other track is left as it is. -/
theorem setParameterSets_spec (track : Mp4Track) (m m' : BitstreamMap)
    (hcount : track.sps_count + track.pps_count ≤ 4294967296)
    (h : setParameterSets track m = .ok m') :
    SameShape m m' ∧
    (∀ q, track.sps_count + track.pps_count ≤ q → SameEntry m m' q) ∧
    ((track.handlerType = HANDLER_VIDEO ∧
        (track.codec = CODEC_H264 ∨ track.codec = CODEC_H265)) →
      (∀ i, i < track.sps_count → ∃ off sz, track.sps_sample_offset[i]? = some off ∧
        track.sps_sample_size[i]? = some sz ∧ IsParamEntry m' i off sz) ∧
      (∀ i, i < track.pps_count → ∃ off sz, track.pps_sample_offset[i]? = some off ∧
        track.pps_sample_size[i]? = some sz ∧
        IsParamEntry m' (track.sps_count + i) off sz)) ∧
    (¬ (track.handlerType = HANDLER_VIDEO ∧
        (track.codec = CODEC_H264 ∨ track.codec = CODEC_H265)) → m' = m) := by
  unfold setParameterSets at h
  by_cases hv : track.handlerType = HANDLER_VIDEO ∧
      (track.codec = CODEC_H264 ∨ track.codec = CODEC_H265)
  · rw [if_pos hv] at h
    simp only [bind_ok_iff] at h
    obtain ⟨m1, h1, h2⟩ := h
    obtain ⟨s1, f1, d1⟩ := paramLoop_spec track.sps_sample_offset track.sps_sample_size
      (fun i => i) 0 track.sps_count m m1 (fun i _ => by dsimp only; omega) h1
    obtain ⟨s2, f2, d2⟩ := paramLoop_spec track.pps_sample_offset track.pps_sample_size
      (fun i => u32 (i + track.sps_count)) track.sps_count track.pps_count m1 m'
      (fun i hi => by dsimp only; unfold u32; omega) h2
    refine ⟨SameShape_trans s1 s2, ?_, fun _ => ⟨?_, d2⟩, fun hn => absurd hv hn⟩
    · intro q hq
      exact SameEntry_trans (f1 q (Or.inr (by omega))) (f2 q (Or.inr (by omega)))
    · intro i hi
      obtain ⟨off, sz, ho, hs, he⟩ := d1 i hi
      refine ⟨off, sz, ho, hs, ?_⟩
      have he' : IsParamEntry m1 i off sz := by simpa using he
      exact IsParamEntry_of_same (f2 i (Or.inl hi)) he'
  · rw [if_neg hv] at h
    simp only [Except.ok.injEq] at h
    subst h
    exact ⟨SameShape_refl m, fun q _ => SameEntry_refl m q, fun hh => absurd hh hv, fun _ => rfl⟩

/-! ### Stream size and kinds of the real samples -/

theorem setSampleTypeSize_count (track : Mp4Track) (i : Nat) (m m' : BitstreamMap)
    (h : setSampleTypeSize track i m = .ok m') : m'.sample_count = m.sample_count := by
  simp only [setSampleTypeSize, bind_ok_iff, pure_ok_iff] at h
  obtain ⟨_, _, _, _, _, _, _, _, rfl⟩ := h
  rfl

/-- The kind stored for a real sample is never `sample_VIDEO_PARAM`. -/
theorem setSampleType_kind (track : Mp4Track) (i sid : Nat) (ty ty' : List SampleType)
    (h : setSampleType track i sid ty = .ok ty') :
    ∃ k, ty'[sid]? = some k ∧ k ≠ sample_VIDEO_PARAM := by
  by_cases hv : track.handlerType = HANDLER_VIDEO
  · obtain ⟨hs, hns⟩ := setSampleType_video track i sid ty ty' hv h
    by_cases hit : ∃ j, j < track.stss_entry_count ∧ syncHit track i j
    · exact ⟨_, hs hit, by decide⟩
    · exact ⟨_, hns hit, by decide⟩
  · unfold setSampleType at h
    have plain : ∀ v, v ≠ sample_VIDEO_PARAM → writeAt ty sid v = .ok ty' →
        ∃ k, ty'[sid]? = some k ∧ k ≠ sample_VIDEO_PARAM := by
      intro v hvne hw
      rw [writeAt_ok_iff] at hw
      obtain ⟨hlt, rfl⟩ := hw
      exact ⟨v, List.getElem?_set_self hlt, hvne⟩
    split at h
    · rename_i heq
      exact absurd heq hv
    all_goals exact plain _ (by decide) h

/-- The sum of the sizes declared for the real samples `0 .. n - 1`. -/
theorem declaredTotal_succ (track : Mp4Track) (n : Nat) :
    ((List.range (n + 1)).map (fun j => (declaredSize track j).getD 0)).sum =
      ((List.range n).map (fun j => (declaredSize track j).getD 0)).sum +
        (declaredSize track n).getD 0 :=
  List.sum_range_succ _ n

/-- The counters after the "Set sample type & size" loop: `stream_size` has grown by the
sizes declared for the real samples (modulo 2^64), `sample_count` is untouched, and no
real sample has the kind `sample_VIDEO_PARAM`. -/
theorem setTypesAndSizes_counters (track : Mp4Track) (m m' : BitstreamMap)
    (hcount : track.stsz_sample_count ≤ 4294967296)
    (hsize : m.stream_size < 18446744073709551616)
    (h : setTypesAndSizes track m = .ok m') :
    m'.sample_count = m.sample_count ∧
    m'.stream_size = u64 (m.stream_size +
      ((List.range track.stsz_sample_count).map
        (fun j => (declaredSize track j).getD 0)).sum) ∧
    (∀ i, i < track.stsz_sample_count →
      ∃ k, m'.sample_type[sampleId track i]? = some k ∧ k ≠ sample_VIDEO_PARAM) := by
  have key := forLoop_invariant (setSampleTypeSize track)
    (fun n t =>
      t.sample_count = m.sample_count ∧
      t.stream_size = u64 (m.stream_size +
        ((List.range n).map (fun j => (declaredSize track j).getD 0)).sum) ∧
      (∀ i, i < n →
        ∃ k, t.sample_type[sampleId track i]? = some k ∧ k ≠ sample_VIDEO_PARAM))
    track.stsz_sample_count 0 m m' ?_ ?_ h
  · simpa using key
  · intro n t t' _ hn ⟨hc, hs, hk⟩ hb
    obtain ⟨hty, ⟨v, hv, _, _, hst⟩, _⟩ := setSampleTypeSize_spec track n t t' hb
    obtain ⟨_, _, tf⟩ := setSampleType_frame track n _ _ _ hty
    refine ⟨by rw [setSampleTypeSize_count track n t t' hb, hc], ?_, ?_⟩
    · rw [hst, hs, declaredTotal_succ, hv]
      simp only [Option.getD_some]
      unfold u64
      omega
    · intro i hi
      by_cases hin : i = n
      · subst hin
        exact setSampleType_kind track i _ _ _ hty
      · obtain ⟨k, hk1, hk2⟩ := hk i (by omega)
        refine ⟨k, ?_, hk2⟩
        have hne : sampleId track i ≠ sampleId track n := by
          intro heq
          have := sampleId_injective track i n (by omega) (by omega) heq
          omega
        rw [tf _ hne]
        exact hk1
  · refine ⟨rfl, ?_, fun i hi => absurd hi (by omega)⟩
    simp only [List.range_zero, List.map_nil, List.sum_nil, Nat.add_zero]
    unfold u64
    omega

/-! ### The entry count is written by no pass -/

theorem dtsStep_count (track : Mp4Track) (copy : Bool) (i j : Nat) (s s' : TimeState)
    (h : dtsStep track copy i j s = .ok s') : s'.map.sample_count = s.map.sample_count := by
  simp only [dtsStep, bind_ok_iff, pure_ok_iff] at h
  obtain ⟨_, _, _, _, _, _, _, _, _, _, rfl⟩ := h
  rfl

theorem dtsRun_count (track : Mp4Track) (copy : Bool) (i : Nat) (s s' : TimeState)
    (h : dtsRun track copy i s = .ok s') : s'.map.sample_count = s.map.sample_count := by
  have inner : ∀ lo n (t t' : TimeState), forLoop (dtsStep track copy i) lo n t = .ok t' →
      t'.map.sample_count = t.map.sample_count := by
    intro lo n t t' hl
    refine forLoop_preserves (dtsStep track copy i)
      (fun u => u.map.sample_count = t.map.sample_count) ?_ lo n t t' rfl hl
    intro j u u' hq hb
    rw [dtsStep_count track copy i j u u' hb, hq]
  unfold dtsRun at h
  split at h
  · simp only [bind_ok_iff, readAt_ok_iff] at h
    obtain ⟨ptss, _, dtss, _, c, _, hloop⟩ := h
    simpa using inner _ _ _ _ hloop
  · simp only [bind_ok_iff, readAt_ok_iff] at h
    obtain ⟨c, _, hloop⟩ := h
    exact inner _ _ _ _ hloop

theorem ptsRun_count (track : Mp4Track) (counts : List Nat) (i : Nat) (s s' : TimeState)
    (h : ptsRun track counts i s = .ok s') : s'.map.sample_count = s.map.sample_count := by
  simp only [ptsRun, bind_ok_iff, readAt_ok_iff] at h
  obtain ⟨c, _, hloop⟩ := h
  refine forLoop_preserves (ptsStep track i)
    (fun u => u.map.sample_count = s.map.sample_count) ?_ 0 c s s' rfl hloop
  intro j u u' hq hb
  simp only [ptsStep, bind_ok_iff, pure_ok_iff] at hb
  obtain ⟨_, _, _, _, _, _, _, _, _, _, rfl⟩ := hb
  exact hq

theorem setTimecodes_count (track : Mp4Track) (m m' : BitstreamMap)
    (h : setTimecodes track m = .ok m') : m'.sample_count = m.sample_count := by
  have dts : ∀ copy n (t t' : TimeState), forLoop (dtsRun track copy) 0 n t = .ok t' →
      t'.map.sample_count = t.map.sample_count := by
    intro copy n t t' hl
    refine forLoop_preserves (dtsRun track copy)
      (fun u => u.map.sample_count = t.map.sample_count) ?_ 0 n t t' rfl hl
    intro j u u' hq hb
    rw [dtsRun_count track copy j u u' hb, hq]
  unfold setTimecodes at h
  split at h
  · rename_i counts _
    simp only [bind_ok_iff, pure_ok_iff] at h
    obtain ⟨s1, h1, s2, h2, rfl⟩ := h
    have a := dts false _ _ _ h1
    have b := forLoop_preserves (ptsRun track counts)
      (fun u => u.map.sample_count = s1.map.sample_count)
      (by
        intro j u u' hq hb
        rw [ptsRun_count track counts j u u' hb, hq])
      0 _ { map := s1.map, k := firstSample track } s2 rfl h2
    rw [b, a]
  · simp only [bind_ok_iff, pure_ok_iff] at h
    obtain ⟨s1, h1, rfl⟩ := h
    exact dts true _ _ _ h1

theorem offsetStep_count (track : Mp4Track) (l : Nat) (s s' : OffsetState)
    (h : offsetStep track l s = .ok s') : s'.map.sample_count = s.map.sample_count := by
  simp only [offsetStep, bind_ok_iff, pure_ok_iff] at h
  obtain ⟨m1, hadj, _, _, _, _, rfl⟩ := h
  simp only [adjustUnit, bind_ok_iff, pure_ok_iff] at hadj
  obtain ⟨_, _, _, _, _, _, _, _, rfl⟩ := hadj
  rfl

theorem walkChunks_count (track : Mp4Track) (m : BitstreamMap) (s : OffsetState)
    (h : walkChunks track m = .ok s) : s.map.sample_count = m.sample_count := by
  have chunk : ∀ i k (t t' : OffsetState), t.map.sample_count = m.sample_count →
      offsetChunk track i k t = .ok t' → t'.map.sample_count = m.sample_count := by
    intro i k t t' hq hb
    simp only [offsetChunk, bind_ok_iff, pure_ok_iff, readAt_ok_iff] at hb
    obtain ⟨n, _, s1, hloop, rfl⟩ := hb
    exact forLoop_preserves (offsetStep track) (fun u => u.map.sample_count = m.sample_count)
      (fun l u u' hu hs => (offsetStep_count track l u u' hs).trans hu) 0 n t s1 hq hloop
  have entry : ∀ i (t t' : OffsetState), t.map.sample_count = m.sample_count →
      offsetEntry track i t = .ok t' → t'.map.sample_count = m.sample_count := by
    intro i t t' hq hb
    unfold offsetEntry at hb
    split at hb
    · simp only [bind_ok_iff] at hb
      obtain ⟨n, _, hloop⟩ := hb
      exact forLoop_preserves (offsetChunk track i) (fun u => u.map.sample_count = m.sample_count)
        (chunk i) 0 n t t' hq hloop
    · simp only [pure_ok_iff] at hb
      subst hb
      exact hq
  unfold walkChunks at h
  exact forLoop_preserves (offsetEntry track) (fun u => u.map.sample_count = m.sample_count)
    entry 0 _ _ s rfl h

/-! ### Unit adjustment along the chunk walk -/

/-- One sample of the walk, in full: the entry at `index` gets adjusted timestamps and
its offset, and `index` moves on. -/
theorem offsetStep_times (track : Mp4Track) (l : Nat) (s s' : OffsetState)
    (h : offsetStep track l s = .ok s') :
    s'.index = u32 (s.index + 1) ∧ s.index < s.map.sample_offset.length ∧
    ∃ d q off, s.map.sample_dts[s.index]? = some d ∧ s.map.sample_pts[s.index]? = some q ∧
      s'.map.sample_dts =
        s.map.sample_dts.set s.index (Int.tdiv (d * 1000000) (track.timescale : Int)) ∧
      s'.map.sample_pts =
        s.map.sample_pts.set s.index (Int.tdiv (q * 1000000) (track.timescale : Int)) ∧
      s'.map.sample_offset = s.map.sample_offset.set s.index off := by
  simp only [offsetStep, bind_ok_iff, pure_ok_iff, writeAt_ok_iff] at h
  obtain ⟨m1, hadj, off, _, offs, ⟨hlt, rfl⟩, rfl⟩ := h
  obtain ⟨_, a4, _, d, q, hd, hq, hdts, hpts⟩ := adjustUnit_spec track s.index s.map m1 hadj
  rw [a4] at hlt
  exact ⟨rfl, hlt, d, q, off, hd, hq, hdts, hpts, by simp only [a4]⟩

theorem offsetStep_walkTimes (track : Mp4Track) (m : BitstreamMap) (l : Nat)
    (s s' : OffsetState) (hmap : m.sample_offset.length < 4294967296)
    (hinv : WalkTimes track m s) (h : offsetStep track l s = .ok s') :
    WalkTimes track m s' := by
  obtain ⟨hF, ld, lp, lo, hfr, hdone⟩ := hinv
  obtain ⟨hi, hlt, d, q, off, hd, hq, hdts, hpts, hoff⟩ := offsetStep_times track l s s' h
  have hidx : s'.index = s.index + 1 := by
    rw [hi]
    unfold u32
    omega
  have hdl : s.index < s.map.sample_dts.length := by
    by_contra hge
    rw [List.getElem?_eq_none (by omega)] at hd
    cases hd
  have hpl : s.index < s.map.sample_pts.length := by
    by_contra hge
    rw [List.getElem?_eq_none (by omega)] at hq
    cases hq
  refine ⟨by omega, by rw [hdts, List.length_set, ld], by rw [hpts, List.length_set, lp],
    by rw [hoff, List.length_set, lo], ?_, ?_⟩
  · intro p hp
    have hne : s.index ≠ p := by omega
    rw [hdts, hpts, hoff, List.getElem?_set_ne hne, List.getElem?_set_ne hne,
      List.getElem?_set_ne hne]
    exact hfr p (by omega)
  · intro p hlo hhi
    by_cases hp : p = s.index
    · subst hp
      obtain ⟨f1, f2, _⟩ := hfr s.index (Or.inr (Nat.le_refl _))
      refine ⟨d, q, by rw [← f1]; exact hd, by rw [← f2]; exact hq, ?_, ?_⟩
      · rw [hdts, List.getElem?_set_self hdl]
      · rw [hpts, List.getElem?_set_self hpl]
    · obtain ⟨d', q', h1, h2, h3, h4⟩ := hdone p hlo (by omega)
      have hne : s.index ≠ p := fun e => hp e.symm
      refine ⟨d', q', h1, h2, ?_, ?_⟩
      · rw [hdts, List.getElem?_set_ne hne]
        exact h3
      · rw [hpts, List.getElem?_set_ne hne]
        exact h4

theorem offsetChunk_walkTimes (track : Mp4Track) (m : BitstreamMap) (i k : Nat)
    (s s' : OffsetState) (hmap : m.sample_offset.length < 4294967296)
    (hinv : WalkTimes track m s ∧ s.index = firstSample track + samplesWalked s.visited)
    (h : offsetChunk track i k s = .ok s') :
    WalkTimes track m s' ∧ s'.index = firstSample track + samplesWalked s'.visited := by
  obtain ⟨hw, hidx⟩ := hinv
  have hlen : s.map.sample_offset.length < 4294967296 := by
    rw [hw.2.2.2.1]
    exact hmap
  obtain ⟨n, _, ci, _, cv, _⟩ := offsetChunk_spec track i k s s' hlen h
  simp only [offsetChunk, bind_ok_iff, pure_ok_iff, readAt_ok_iff] at h
  obtain ⟨n', _, s1, hloop, rfl⟩ := h
  have hw1 : WalkTimes track m s1 :=
    forLoop_preserves (offsetStep track) (WalkTimes track m)
      (fun l t t' ht hb => offsetStep_walkTimes track m l t t' hmap ht hb) 0 n' s s1 hw hloop
  refine ⟨hw1, ?_⟩
  rw [ci, cv, hidx]
  simp only [samplesWalked, List.map_append, List.sum_append, List.map_cons, List.map_nil,
    List.sum_cons, List.sum_nil]
  omega

/-- The chunk walk as a whole: timestamps and offsets of the entries outside the walked
range are untouched, the walked entries have adjusted timestamps, and `index` has
advanced by the number of samples of the chunks walked. -/
theorem walkChunks_times (track : Mp4Track) (m : BitstreamMap) (s : OffsetState)
    (hmap : m.sample_offset.length < 4294967296) (h : walkChunks track m = .ok s) :
    WalkTimes track m s ∧ s.index = firstSample track + samplesWalked s.visited := by
  have entry : ∀ i (t t' : OffsetState),
      (WalkTimes track m t ∧ t.index = firstSample track + samplesWalked t.visited) →
      offsetEntry track i t = .ok t' →
      (WalkTimes track m t' ∧ t'.index = firstSample track + samplesWalked t'.visited) := by
    intro i t t' hq hb
    unfold offsetEntry at hb
    split at hb
    · simp only [bind_ok_iff] at hb
      obtain ⟨n, _, hloop⟩ := hb
      exact forLoop_preserves (offsetChunk track i)
        (fun u => WalkTimes track m u ∧ u.index = firstSample track + samplesWalked u.visited)
        (fun k u u' hu hs => offsetChunk_walkTimes track m i k u u' hmap hu hs) 0 n t t' hq hloop
    · simp only [pure_ok_iff] at hb
      subst hb
      exact hq
  unfold walkChunks at h
  refine forLoop_preserves (offsetEntry track)
    (fun u => WalkTimes track m u ∧ u.index = firstSample track + samplesWalked u.visited)
    entry 0 _ _ s ?_ h
  refine ⟨⟨Nat.le_refl _, rfl, rfl, rfl, fun _ _ => ⟨rfl, rfl, rfl⟩, ?_⟩, ?_⟩
  · intro p hlo hhi
    simp only at hhi
    omega
  · simp [samplesWalked]

/-! ### Claims on the stream size -/

theorem sum_window (l : List Nat) (base n : Nat) (f : Nat → Nat)
    (h : ∀ j, j < n → l[base + j]? = some (f j)) :
    ((l.drop base).take n).sum = ((List.range n).map f).sum := by
  have e : (l.drop base).take n = (List.range n).map f := by
    apply List.ext_getElem?
    intro q
    rw [List.getElem?_take, List.getElem?_map]
    by_cases hq : q < n
    · rw [if_pos hq, List.getElem?_drop, h q hq, List.getElem?_range hq]
      rfl
    · rw [if_neg hq, List.getElem?_eq_none (by simpa using hq)]
      rfl
  rw [e]

theorem sum_range_bound (f : Nat → Nat) (bound : Nat) (n : Nat)
    (h : ∀ j, j < n → f j ≤ bound) : ((List.range n).map f).sum ≤ n * bound := by
  induction n with
  | zero => simp
  | succ n ih =>
    rw [List.sum_range_succ]
    have h1 := ih (fun j hj => h j (by omega))
    have h2 := h n (by omega)
    rw [Nat.succ_mul]
    omega

theorem sampleSizeCbr_lt (track : Mp4Track) (hconst : track.stsz_sample_size < 4294967296) :
    sampleSizeCbr track < 4294967296 := by
  unfold sampleSizeCbr
  split
  · decide
  · split
    · unfold u32
      omega
    · exact hconst

theorem declaredSize_lt (track : Mp4Track) (j : Nat)
    (hconst : track.stsz_sample_size < 4294967296)
    (hentries : ∀ es, track.stsz_entry_size = some es → ∀ x, x ∈ es → x < 4294967296) :
    (declaredSize track j).getD 0 ≤ 4294967295 := by
  unfold declaredSize
  cases hes : track.stsz_entry_size with
  | none =>
    have := sampleSizeCbr_lt track hconst
    simp only [Option.getD_some]
    omega
  | some es =>
    simp only
    cases hv : es[j]? with
    | none => simp
    | some v =>
      have := hentries es hes v (List.getElem?_mem hv)
      simp only [Option.getD_some]
      omega

/-- The stream size and the sizes of the real samples in the final map of
`convertTrack`. -/
theorem convertTrack_stream_size (track : Mp4Track) (m0 mf : BitstreamMap)
    (hentries_count :
      track.sps_count + track.pps_count + track.stsz_sample_count < 4294967296)
    (hconst : track.stsz_sample_size < 4294967296)
    (hentries : ∀ es, track.stsz_entry_size = some es → ∀ x, x ∈ es → x < 4294967296)
    (hzero : m0.stream_size = 0)
    (h : convertTrack track m0 = .ok mf) :
    mf.stream_size =
      ((mf.sample_size.drop (track.sps_count + track.pps_count)).take
        track.stsz_sample_count).sum := by
  obtain ⟨m1, m2, h1, h2, _, hsz, hst⟩ := convertTrack_types_sizes track m0 mf h
  obtain ⟨⟨_, _, _, _, _, _, s1⟩, _⟩ := setParameterSets_spec track m0 m1 (by omega) h1
  obtain ⟨_, hsum, _⟩ := setTypesAndSizes_counters track m1 m2 (by omega)
    (by rw [s1, hzero]; decide) h2
  obtain ⟨_, _, _, _, _, _, hdone⟩ := setTypesAndSizes_spec track m1 m2 (by omega) h2
  have hwin := sum_window m2.sample_size (track.sps_count + track.pps_count)
    track.stsz_sample_count (fun j => (declaredSize track j).getD 0) (by
      intro j hj
      obtain ⟨v, hv, hstored⟩ := (hdone j hj).1
      have hid : sampleId track j = track.sps_count + track.pps_count + j := by
        unfold sampleId u32
        omega
      rw [hid] at hstored
      rw [hstored]
      simp only [hv, Option.getD_some])
  have hbound := sum_range_bound (fun j => (declaredSize track j).getD 0) 4294967295
    track.stsz_sample_count (fun j _ => declaredSize_lt track j hconst hentries)
  have hlt : ((List.range track.stsz_sample_count).map
      (fun j => (declaredSize track j).getD 0)).sum < 18446744073709551616 := by
    have : track.stsz_sample_count * 4294967295 ≤ 4294967295 * 4294967295 :=
      Nat.mul_le_mul_right _ (by omega)
    have : (4294967295 : Nat) * 4294967295 < 18446744073709551616 := by decide
    omega
  rw [hst, hsum, s1, hzero, hsz, hwin]
  unfold u64
  omega

/-- C11: after `convertTrack`, when `stream_size` started at 0, the reported
`stream_size` equals the sum of the sizes of the non-parameter-set entries: the
`stsz_sample_count` entries from index `sps_count + pps_count` on, which are all the
entries up to the end of a map that holds `sps_count + pps_count + stsz_sample_count`
entries.  (Sample sizes are 32-bit values, the entry count fits 32 bits.) -/
theorem stream_size_is_sum_of_real_samples (track : Mp4Track) (m0 mf : BitstreamMap)
    (hentries_count :
      track.sps_count + track.pps_count + track.stsz_sample_count < 4294967296)
    (hconst : track.stsz_sample_size < 4294967296)
    (hentries : ∀ es, track.stsz_entry_size = some es → ∀ x, x ∈ es → x < 4294967296)
    (hzero : m0.stream_size = 0)
    (h : convertTrack track m0 = .ok mf) :
    mf.stream_size =
      ((mf.sample_size.drop (track.sps_count + track.pps_count)).take
        track.stsz_sample_count).sum ∧
    (mf.sample_size.length =
        track.sps_count + track.pps_count + track.stsz_sample_count →
      mf.stream_size = (mf.sample_size.drop (track.sps_count + track.pps_count)).sum) := by
  have key := convertTrack_stream_size track m0 mf hentries_count hconst hentries hzero h
  refine ⟨key, fun hlen => ?_⟩
  rw [key, List.take_of_length_le]
  rw [List.length_drop]
  omega

theorem stream_size_is_sum_of_real_samples_witness :
    convertTrack scenarioH264 (zeroMap 6) = .ok scenarioH264Result ∧
    scenarioH264Result.stream_size =
      ((scenarioH264Result.sample_size.drop (1 + 1)).take 4).sum ∧
    (scenarioH264Result.sample_size.length = 1 + 1 + 4 →
      scenarioH264Result.stream_size = (scenarioH264Result.sample_size.drop (1 + 1)).sum) :=
  ⟨rfl, stream_size_is_sum_of_real_samples scenarioH264 (zeroMap 6) scenarioH264Result
    (by decide) (by decide)
    (by
      intro es he x hx
      have he2 : some [100, 150, 200, 120] = some es := he
      cases he2
      revert x
      decide)
    rfl rfl⟩

/-- The parameter-set pseudo-samples have a size of their own, which `stream_size` does
not count: for the H.264 scenario the sizes of all entries add up to 598, the reported
stream size is 570. -/
theorem sum_of_all_sizes_counterexample :
    convertTrack scenarioH264 (zeroMap 6) = .ok scenarioH264Result ∧
    scenarioH264Result.sample_size.sum = 598 ∧
    scenarioH264Result.stream_size = 570 ∧
    scenarioH264Result.sample_size.sum ≠ scenarioH264Result.stream_size :=
  ⟨rfl, rfl, rfl, by decide⟩

/-- C12 (amended): for a track built by `convertTrack` into a map of
`sps_count + pps_count + stsz_sample_count` entries whose `stream_size` started at 0, the
sum of the byte sizes of all entries equals the reported `stream_size` plus the sizes of
the first `sps_count + pps_count` entries (the slots of the parameter-set
pseudo-samples); the two are equal when the track has no parameter sets. -/
theorem sum_of_all_sizes (track : Mp4Track) (m0 mf : BitstreamMap)
    (hentries_count :
      track.sps_count + track.pps_count + track.stsz_sample_count < 4294967296)
    (hconst : track.stsz_sample_size < 4294967296)
    (hentries : ∀ es, track.stsz_entry_size = some es → ∀ x, x ∈ es → x < 4294967296)
    (hzero : m0.stream_size = 0)
    (hlen : mf.sample_size.length =
      track.sps_count + track.pps_count + track.stsz_sample_count)
    (h : convertTrack track m0 = .ok mf) :
    mf.sample_size.sum =
      mf.stream_size + (mf.sample_size.take (track.sps_count + track.pps_count)).sum ∧
    (track.sps_count + track.pps_count = 0 → mf.sample_size.sum = mf.stream_size) := by
  have key := convertTrack_stream_size track m0 mf hentries_count hconst hentries hzero h
  have hall : ((mf.sample_size.drop (track.sps_count + track.pps_count)).take
      track.stsz_sample_count) = mf.sample_size.drop (track.sps_count + track.pps_count) := by
    rw [List.take_of_length_le]
    rw [List.length_drop]
    omega
  rw [hall] at key
  have split := List.sum_take_add_sum_drop mf.sample_size (track.sps_count + track.pps_count)
  refine ⟨by omega, fun hnone => ?_⟩
  rw [hnone] at split key
  simp only [List.take_zero, List.sum_nil, List.drop_zero] at split key
  omega

theorem sum_of_all_sizes_witness :
    convertTrack scenarioH264 (zeroMap 6) = .ok scenarioH264Result ∧
    scenarioH264Result.sample_size.sum =
      scenarioH264Result.stream_size + (scenarioH264Result.sample_size.take (1 + 1)).sum ∧
    (1 + 1 = 0 → scenarioH264Result.sample_size.sum = scenarioH264Result.stream_size) :=
  ⟨rfl, sum_of_all_sizes scenarioH264 (zeroMap 6) scenarioH264Result
    (by decide) (by decide)
    (by
      intro es he x hx
      have he2 : some [100, 150, 200, 120] = some es := he
      cases he2
      revert x
      decide)
    rfl rfl rfl⟩

/-! ### The entries in front of the first real sample -/

theorem dtsStep_lengths (track : Mp4Track) (copy : Bool) (i j : Nat) (s s' : TimeState)
    (h : dtsStep track copy i j s = .ok s') :
    s'.map.sample_dts.length = s.map.sample_dts.length ∧
    s'.map.sample_pts.length = s.map.sample_pts.length := by
  obtain ⟨a, d, _, _, _, _, _, hd, hc, hnc, _⟩ := dtsStep_spec track copy i j s s' h
  refine ⟨by rw [hd, List.length_set], ?_⟩
  cases copy with
  | true => rw [(hc rfl).2, List.length_set]
  | false => rw [hnc rfl]

theorem dtsRun_lengths (track : Mp4Track) (copy : Bool) (i : Nat) (s s' : TimeState)
    (h : dtsRun track copy i s = .ok s') :
    s'.map.sample_dts.length = s.map.sample_dts.length ∧
    s'.map.sample_pts.length = s.map.sample_pts.length := by
  have inner : ∀ lo n (t t' : TimeState), forLoop (dtsStep track copy i) lo n t = .ok t' →
      t'.map.sample_dts.length = t.map.sample_dts.length ∧
      t'.map.sample_pts.length = t.map.sample_pts.length := by
    intro lo n t t' hl
    refine forLoop_preserves (dtsStep track copy i)
      (fun u => u.map.sample_dts.length = t.map.sample_dts.length ∧
        u.map.sample_pts.length = t.map.sample_pts.length) ?_ lo n t t' ⟨rfl, rfl⟩ hl
    intro j u u' hq hb
    obtain ⟨e1, e2⟩ := dtsStep_lengths track copy i j u u' hb
    exact ⟨e1.trans hq.1, e2.trans hq.2⟩
  unfold dtsRun at h
  split at h
  · simp only [bind_ok_iff, writeAt_ok_iff] at h
    obtain ⟨ptss, hp, dtss, ⟨_, rfl⟩, c, _, hloop⟩ := h
    obtain ⟨e1, e2⟩ := inner _ _ _ _ hloop
    refine ⟨by rw [e1]; simp only [List.length_set], ?_⟩
    rw [e2]
    cases copy with
    | true =>
      simp only [if_true, writeAt_ok_iff] at hp
      obtain ⟨_, rfl⟩ := hp
      simp only [List.length_set]
    | false =>
      simp only [Bool.false_eq_true, if_false, pure_ok_iff] at hp
      rw [← hp]
  · simp only [bind_ok_iff] at h
    obtain ⟨c, _, hloop⟩ := h
    exact inner _ _ _ _ hloop

theorem setTimecodes_lengths (track : Mp4Track) (m m' : BitstreamMap)
    (h : setTimecodes track m = .ok m') :
    m'.sample_dts.length = m.sample_dts.length ∧
    m'.sample_pts.length = m.sample_pts.length := by
  have dts : ∀ copy n (t t' : TimeState), forLoop (dtsRun track copy) 0 n t = .ok t' →
      t'.map.sample_dts.length = t.map.sample_dts.length ∧
      t'.map.sample_pts.length = t.map.sample_pts.length := by
    intro copy n t t' hl
    refine forLoop_preserves (dtsRun track copy)
      (fun u => u.map.sample_dts.length = t.map.sample_dts.length ∧
        u.map.sample_pts.length = t.map.sample_pts.length) ?_ 0 n t t' ⟨rfl, rfl⟩ hl
    intro j u u' hq hb
    obtain ⟨e1, e2⟩ := dtsRun_lengths track copy j u u' hb
    exact ⟨e1.trans hq.1, e2.trans hq.2⟩
  unfold setTimecodes at h
  split at h
  · rename_i counts _
    simp only [bind_ok_iff, pure_ok_iff] at h
    obtain ⟨s1, h1, s2, h2, rfl⟩ := h
    obtain ⟨a1, a2⟩ := dts false _ _ _ h1
    have b := forLoop_preserves (ptsRun track counts)
      (fun u => u.map.sample_dts.length = s1.map.sample_dts.length ∧
        u.map.sample_pts.length = s1.map.sample_pts.length)
      (by
        intro j u u' hq hb
        simp only [ptsRun, bind_ok_iff] at hb
        obtain ⟨c, _, hloop⟩ := hb
        refine forLoop_preserves (ptsStep track j)
          (fun w => w.map.sample_dts.length = s1.map.sample_dts.length ∧
            w.map.sample_pts.length = s1.map.sample_pts.length) ?_ 0 c u u' hq hloop
        intro l w w' hw hs
        obtain ⟨_, _, _, _, _, _, hp, hd, _⟩ := ptsStep_spec track j l w w' hs
        exact ⟨by rw [hd]; exact hw.1, by rw [hp, List.length_set]; exact hw.2⟩)
      0 _ { map := s1.map, k := firstSample track } s2 ⟨rfl, rfl⟩ h2
    exact ⟨b.1.trans a1, b.2.trans a2⟩
  · simp only [bind_ok_iff, pure_ok_iff] at h
    obtain ⟨s1, h1, rfl⟩ := h
    exact dts true _ _ _ h1

/-- The timestamp block leaves the timestamps in front of the first real sample alone. -/
theorem setTimecodes_low (track : Mp4Track) (m m' : BitstreamMap)
    (hdts : m.sample_dts.length < 4294967296) (hpts : m.sample_pts.length < 4294967296)
    (h : setTimecodes track m = .ok m') :
    ∀ p, p < firstSample track →
      m'.sample_dts[p]? = m.sample_dts[p]? ∧ m'.sample_pts[p]? = m.sample_pts[p]? := by
  intro p hp
  unfold setTimecodes at h
  split at h
  · rename_i counts _
    simp only [bind_ok_iff, pure_ok_iff] at h
    obtain ⟨s1, h1, s2, h2, rfl⟩ := h
    obtain ⟨_, _, fr, hnc, _⟩ := computeDts_general track false _ m s1 hdts h1
    have hp1 : s1.map.sample_pts.length < 4294967296 := by
      rw [hnc rfl]
      exact hpts
    obtain ⟨⟨_, _, hd, _, _, _, _, hfr⟩, _⟩ :=
      computePts_spec track counts _ s1.map s2 hp1 h2
    refine ⟨by rw [hd]; exact (fr p (Or.inl hp)).1, ?_⟩
    rw [hfr p (Or.inl hp), hnc rfl]
  · simp only [bind_ok_iff, pure_ok_iff] at h
    obtain ⟨s1, h1, rfl⟩ := h
    obtain ⟨_, _, fr, _⟩ := computeDts_general track true _ m s1 hdts h1
    exact fr p (Or.inl hp)

theorem setTypesAndSizes_count (track : Mp4Track) (m m' : BitstreamMap)
    (h : setTypesAndSizes track m = .ok m') : m'.sample_count = m.sample_count := by
  unfold setTypesAndSizes at h
  exact forLoop_preserves (setSampleTypeSize track) (fun u => u.sample_count = m.sample_count)
    (fun i u u' hu hs => (setSampleTypeSize_count track i u u' hs).trans hu) 0 _ m m' rfl h

/-- The shape of the map is the same after `convertTrack`. -/
theorem convertTrack_shape (track : Mp4Track) (m0 mf : BitstreamMap) (n : Nat)
    (hn : n < 4294967296)
    (hcount : track.sps_count + track.pps_count + track.stsz_sample_count < 4294967296)
    (hm : HasEntries m0 n) (h : convertTrack track m0 = .ok mf) :
    HasEntries mf n ∧ mf.sample_count = m0.sample_count := by
  obtain ⟨m1, m2, m3, s, h1, h2, h3, h4, rfl⟩ := (convertTrack_ok_iff track m0 mf).1 h
  obtain ⟨l1, l2, l3, l4, l5⟩ := hm
  obtain ⟨⟨a1, a2, a3, a4, a5, a6, _⟩, _⟩ := setParameterSets_spec track m0 m1 (by omega) h1
  obtain ⟨b3, b4, b5, b1, b2, _⟩ := setTypesAndSizes_spec track m1 m2 (by omega) h2
  have b6 := setTypesAndSizes_count track m1 m2 h2
  obtain ⟨⟨c1, c2, _⟩, c3⟩ := setTimecodes_frame track m2 m3 h3
  obtain ⟨c5, c4⟩ := setTimecodes_lengths track m2 m3 h3
  have c6 := setTimecodes_count track m2 m3 h3
  obtain ⟨d1, d2, _⟩ := walkChunks_frame track m3 s h4
  have d6 := walkChunks_count track m3 s h4
  have hoff : m3.sample_offset.length < 4294967296 := by
    rw [c3, b3, a3, l3]
    exact hn
  obtain ⟨⟨_, d5, d4, d3, _⟩, _⟩ := walkChunks_times track m3 s hoff h4
  refine ⟨⟨?_, ?_, ?_, ?_, ?_⟩, ?_⟩
  · rw [d1, c1, b1, a1, l1]
  · rw [d2, c2, b2, a2, l2]
  · rw [d3, c3, b3, a3, l3]
  · rw [d4, c4, b4, a4, l4]
  · rw [d5, c5, b5, a5, l5]
  · rw [d6, c6, b6, a6]

/-- The entries in front of the first real sample are, after `convertTrack`, as the
parameter-set block left them. -/
theorem convertTrack_low (track : Mp4Track) (m0 mf : BitstreamMap) (n : Nat)
    (hn : n < 4294967296)
    (hcount : track.sps_count + track.pps_count + track.stsz_sample_count < 4294967296)
    (hm : HasEntries m0 n) (h : convertTrack track m0 = .ok mf) :
    ∃ m1, setParameterSets track m0 = .ok m1 ∧
      ∀ p, p < track.sps_count + track.pps_count → SameEntry m1 mf p := by
  obtain ⟨m1, m2, m3, s, h1, h2, h3, h4, rfl⟩ := (convertTrack_ok_iff track m0 mf).1 h
  refine ⟨m1, h1, fun p hp => ?_⟩
  have hF : firstSample track = track.sps_count + track.pps_count := by
    unfold firstSample u32
    omega
  obtain ⟨l1, l2, l3, l4, l5⟩ := hm
  obtain ⟨⟨a1, a2, a3, a4, a5, a6, _⟩, _⟩ := setParameterSets_spec track m0 m1 (by omega) h1
  obtain ⟨b3, b4, b5, b1, b2, bfr, _⟩ := setTypesAndSizes_spec track m1 m2 (by omega) h2
  obtain ⟨⟨c1, c2, _⟩, c3⟩ := setTimecodes_frame track m2 m3 h3
  obtain ⟨d1, d2, _⟩ := walkChunks_frame track m3 s h4
  obtain ⟨f1, f2⟩ := bfr p (by
    intro i _
    unfold sampleId u32
    omega)
  obtain ⟨g5, g4⟩ := setTimecodes_low track m2 m3 (by rw [b5, a5, l5]; exact hn)
    (by rw [b4, a4, l4]; exact hn) h3 p (by omega)
  have hoff : m3.sample_offset.length < 4294967296 := by
    rw [c3, b3, a3, l3]
    exact hn
  obtain ⟨⟨_, _, _, _, wfr, _⟩, _⟩ := walkChunks_times track m3 s hoff h4
  obtain ⟨w5, w4, w3⟩ := wfr p (Or.inl (by omega))
  refine ⟨?_, ?_, ?_, ?_, ?_⟩
  · rw [d1, c1, f1]
  · rw [d2, c2, f2]
  · rw [w3, c3, b3]
  · rw [w4, g4, b4]
  · rw [w5, g5, b5]

/-- The kinds of the real samples after `convertTrack`. -/
theorem convertTrack_kinds (track : Mp4Track) (m0 mf : BitstreamMap)
    (hcount : track.sps_count + track.pps_count + track.stsz_sample_count < 4294967296)
    (h : convertTrack track m0 = .ok mf) :
    ∀ i, i < track.stsz_sample_count →
      ∃ k, mf.sample_type[track.sps_count + track.pps_count + i]? = some k ∧
        k ≠ sample_VIDEO_PARAM := by
  intro i hi
  obtain ⟨m1, m2, h1, h2, e1, _, _⟩ := convertTrack_types_sizes track m0 mf h
  have key := forLoop_invariant (setSampleTypeSize track)
    (fun n t => ∀ j, j < n →
        ∃ k, t.sample_type[sampleId track j]? = some k ∧ k ≠ sample_VIDEO_PARAM)
    track.stsz_sample_count 0 m1 m2 ?_ ?_ h2
  · obtain ⟨k, hk, hne⟩ := key i (by omega)
    refine ⟨k, ?_, hne⟩
    have hid : sampleId track i = track.sps_count + track.pps_count + i := by
      unfold sampleId u32
      omega
    rw [e1, ← hid]
    exact hk
  · intro n t t' _ hn hk hb
    obtain ⟨hty, _, _⟩ := setSampleTypeSize_spec track n t t' hb
    obtain ⟨_, _, tf⟩ := setSampleType_frame track n _ _ _ hty
    intro j hj
    by_cases hjn : j = n
    · subst hjn
      exact setSampleType_kind track j _ _ _ hty
    · obtain ⟨k, hk1, hk2⟩ := hk j (by omega)
      refine ⟨k, ?_, hk2⟩
      have hne : sampleId track j ≠ sampleId track n := by
        intro heq
        have := sampleId_injective track j n (by omega) (by omega) heq
        omega
      rw [tf _ hne]
      exact hk1
  · intro j hj
    omega

/-! ### Claim on the parameter-set entries -/

/-- What `convertTrack_media` returns when the allocation succeeds. -/
theorem convertTrack_media_ok (init_bitstream_map : Nat → Option BitstreamMap)
    (media : MediaFile) (track : Mp4Track) (m0 : BitstreamMap) (rc : Int)
    (media' : Option MediaFile)
    (hinit : init_bitstream_map (mapEntries track) = some m0)
    (h : convertTrack_media init_bitstream_map (some media) (some track) = .ok (rc, media')) :
    rc = SUCCESS ∧ ∃ mf, buildBitstreamMap track m0 = .ok mf ∧
      media' = some (storeMap track media mf) := by
  simp only [convertTrack_media, hinit] at h
  cases hb : buildBitstreamMap track m0 with
  | error e =>
    rw [hb] at h
    cases h
  | ok mf =>
    rw [hb] at h
    simp only [Except.ok.injEq, Prod.mk.injEq] at h
    exact ⟨h.1.symm, mf, rfl, h.2.symm⟩

/-- C13: for an H.264/H.265 video track, `convertTrack` returns `SUCCESS` and stores in the
video slot a map of `sps_count + pps_count + stsz_sample_count` entries (`sample_count`
and, the allocator having given that many, every array) in which entry `i < sps_count` is
the pseudo-sample of SPS `i` and entry `sps_count + i`, `i < pps_count`, that of PPS `i`
(kind `sample_VIDEO_PARAM`, the recorded offset and size, decode and presentation time
-1), and in which real sample `i` is at index `sps_count + pps_count + i` with a kind
other than `sample_VIDEO_PARAM`. -/
theorem convertTrack_parameter_sets (init_bitstream_map : Nat → Option BitstreamMap)
    (media : MediaFile) (track : Mp4Track) (m0 : BitstreamMap) (rc : Int)
    (media' : Option MediaFile)
    (hvideo : track.handlerType = HANDLER_VIDEO)
    (hcodec : track.codec = CODEC_H264 ∨ track.codec = CODEC_H265)
    (hcount : track.sps_count + track.pps_count + track.stsz_sample_count < 4294967296)
    (hinit : init_bitstream_map (mapEntries track) = some m0)
    (hm : HasEntries m0 (mapEntries track))
    (h : convertTrack_media init_bitstream_map (some media) (some track) = .ok (rc, media')) :
    ∃ mf, rc = SUCCESS ∧
      media' = some { media with tracks_video := media.tracks_video ++ [mf] } ∧
      mf.sample_count = track.sps_count + track.pps_count + track.stsz_sample_count ∧
      HasEntries mf (track.sps_count + track.pps_count + track.stsz_sample_count) ∧
      (∀ i, i < track.sps_count → ∃ off sz, track.sps_sample_offset[i]? = some off ∧
        track.sps_sample_size[i]? = some sz ∧ IsParamEntry mf i off sz) ∧
      (∀ i, i < track.pps_count → ∃ off sz, track.pps_sample_offset[i]? = some off ∧
        track.pps_sample_size[i]? = some sz ∧
        IsParamEntry mf (track.sps_count + i) off sz) ∧
      (∀ i, i < track.stsz_sample_count →
        ∃ k, mf.sample_type[track.sps_count + track.pps_count + i]? = some k ∧
          k ≠ sample_VIDEO_PARAM) := by
  obtain ⟨hrc, mf, hb, hmedia⟩ :=
    convertTrack_media_ok init_bitstream_map media track m0 rc media' hinit h
  have hentries : mapEntries track =
      track.sps_count + track.pps_count + track.stsz_sample_count := by
    unfold mapEntries u32
    rw [hvideo]
    simp only
    omega
  rw [hentries] at hm
  unfold buildBitstreamMap at hb
  have hu : u32 (track.stsz_sample_count + track.sps_count + track.pps_count) =
      track.sps_count + track.pps_count + track.stsz_sample_count := by
    unfold u32
    omega
  obtain ⟨hshape, hsc⟩ := convertTrack_shape track _ mf _ hcount hcount (by exact hm) hb
  obtain ⟨m1, h1, hlow⟩ := convertTrack_low track _ mf _ hcount hcount (by exact hm) hb
  obtain ⟨_, _, hparams, _⟩ := setParameterSets_spec track _ m1 (by omega) h1
  obtain ⟨hsps, hpps⟩ := hparams ⟨hvideo, hcodec⟩
  refine ⟨mf, hrc, ?_, ?_, hshape, ?_, ?_, convertTrack_kinds track _ mf hcount hb⟩
  · rw [hmedia]
    unfold storeMap
    rw [hvideo]
  · rw [hsc]
    exact hu
  · intro i hi
    obtain ⟨off, sz, e1, e2, e3⟩ := hsps i hi
    exact ⟨off, sz, e1, e2, IsParamEntry_of_same (hlow i (by omega)) e3⟩
  · intro i hi
    obtain ⟨off, sz, e1, e2, e3⟩ := hpps i hi
    exact ⟨off, sz, e1, e2, IsParamEntry_of_same (hlow (track.sps_count + i) (by omega)) e3⟩

theorem convertTrack_parameter_sets_witness :
    ∃ mf, (1 : Int) = SUCCESS ∧
      some { emptyMedia with tracks_video := [{ scenarioH264Result with sample_count := 6 }] } =
        some { emptyMedia with tracks_video := emptyMedia.tracks_video ++ [mf] } ∧
      mf.sample_count = 1 + 1 + 4 ∧
      HasEntries mf (1 + 1 + 4) ∧
      (∀ i, i < 1 → ∃ off sz, scenarioH264.sps_sample_offset[i]? = some off ∧
        scenarioH264.sps_sample_size[i]? = some sz ∧ IsParamEntry mf i off sz) ∧
      (∀ i, i < 1 → ∃ off sz, scenarioH264.pps_sample_offset[i]? = some off ∧
        scenarioH264.pps_sample_size[i]? = some sz ∧ IsParamEntry mf (1 + i) off sz) ∧
      (∀ i, i < 4 →
        ∃ k, mf.sample_type[1 + 1 + i]? = some k ∧ k ≠ sample_VIDEO_PARAM) :=
  convertTrack_parameter_sets zeroAllocator emptyMedia scenarioH264 (zeroMap 6) 1
    (some { emptyMedia with tracks_video := [{ scenarioH264Result with sample_count := 6 }] })
    rfl (Or.inl rfl) (by decide) rfl
    ⟨rfl, rfl, rfl, rfl, rfl⟩ rfl

/-! ### Chunks walked per entry of sample_to_chunk -/

theorem offsetStep_log (track : Mp4Track) (l : Nat) (s s' : OffsetState)
    (h : offsetStep track l s = .ok s') :
    s'.visited = s.visited ∧ s'.chunkOffset = s.chunkOffset := by
  simp only [offsetStep, bind_ok_iff, pure_ok_iff] at h
  obtain ⟨_, _, _, _, _, _, rfl⟩ := h
  exact ⟨rfl, rfl⟩

/-- One body of the chunk loop logs one visit, of the chunk at `chunkOffset`. -/
theorem offsetChunk_log (track : Mp4Track) (i k : Nat) (s s' : OffsetState)
    (h : offsetChunk track i k s = .ok s') :
    ∃ v, v.chunk = s.chunkOffset ∧ s'.visited = s.visited ++ [v] := by
  simp only [offsetChunk, bind_ok_iff, pure_ok_iff] at h
  obtain ⟨n, _, s1, hloop, rfl⟩ := h
  have hlog := forLoop_preserves (offsetStep track)
    (fun u => u.visited = s.visited ∧ u.chunkOffset = s.chunkOffset)
    (fun l u u' hu hs => by
      obtain ⟨e1, e2⟩ := offsetStep_log track l u u' hs
      exact ⟨e1.trans hu.1, e2.trans hu.2⟩) 0 n s s1 ⟨rfl, rfl⟩ hloop
  exact ⟨_, rfl, by rw [hlog.1]⟩

/-- The chunk loop `for (k = 0; k < n; k++)` logs exactly `n` visits, the first of them
of the chunk at the `chunkOffset` it started with. -/
theorem chunkLoop_log (track : Mp4Track) (i : Nat) (n : Nat) :
    ∀ (lo : Nat) (s s' : OffsetState), forLoop (offsetChunk track i) lo n s = .ok s' →
      ∃ rest, s'.visited = s.visited ++ rest ∧ rest.length = n ∧
        ∀ v, rest.head? = some v → v.chunk = s.chunkOffset := by
  induction n with
  | zero =>
    intro lo s s' h
    rw [forLoop_zero] at h
    cases h
    exact ⟨[], by simp, rfl, by simp⟩
  | succ n ih =>
    intro lo s s' h
    rw [forLoop_succ_ok_iff] at h
    obtain ⟨s1, hb, hrest⟩ := h
    obtain ⟨v, hv, hlog⟩ := offsetChunk_log track i lo s s1 hb
    obtain ⟨rest, hr, hlen, _⟩ := ih (lo + 1) s1 s' hrest
    refine ⟨v :: rest, ?_, by simp [hlen], ?_⟩
    · rw [hr, hlog]
      simp
    · intro w hw
      simp only [List.head?_cons, Option.some.injEq] at hw
      rw [← hw]
      exact hv

theorem forLoop_fixed {σ : Type} (body : Nat → σ → Except Fault σ) (s : σ)
    (hfix : ∀ i, body i s = .ok s) (n : Nat) : ∀ lo, forLoop body lo n s = .ok s := by
  induction n with
  | zero =>
    intro lo
    rfl
  | succ n ih =>
    intro lo
    rw [forLoop_succ_ok_iff]
    exact ⟨s, hfix lo, ih (lo + 1)⟩

/-- The visits logged for one entry of `sample_to_chunk`. -/
theorem offsetEntry_log (track : Mp4Track) (i : Nat) (s s' : OffsetState)
    (h : offsetEntry track i s = .ok s') :
    (s.chunkOffset < track.stco_entry_count →
      ∃ n rest, chunkRunLength track i s.chunkOffset = .ok n ∧
        s'.visited = s.visited ++ rest ∧ rest.length = n ∧
        ∀ v, rest.head? = some v → v.chunk = s.chunkOffset) ∧
    (¬ s.chunkOffset < track.stco_entry_count → s' = s) := by
  unfold offsetEntry at h
  constructor
  · intro hlt
    rw [if_pos hlt] at h
    simp only [bind_ok_iff] at h
    obtain ⟨n, hn, hloop⟩ := h
    obtain ⟨rest, e1, e2, e3⟩ := chunkLoop_log track i n 0 s s' hloop
    exact ⟨n, rest, hn, e1, e2, e3⟩
  · intro hge
    rw [if_neg hge] at h
    simp only [pure_ok_iff] at h
    exact h.symm

/-! ### Claims on the chunk-offset table -/

/-- The chunk-offset table of `scenarioShortTable` has two entries where
`sample_to_chunk` implies three chunks: `convertTrack` returns `SUCCESS`, not `FAILURE`,
and stores a map whose last two samples have no offset.  For `scenarioOverrun`, whose
first `sample_to_chunk` entry alone spans three chunks, the chunk loop reads
`stco_chunk_offset[2]` although `stco_entry_count` is 2. -/
theorem short_chunk_table_counterexample :
    convertTrack_media zeroAllocator (some emptyMedia) (some scenarioShortTable) =
      .ok (SUCCESS, some { emptyMedia with tracks_video := [scenarioShortTableResult] }) ∧
    SUCCESS ≠ FAILURE ∧
    scenarioShortTableResult.sample_offset = [500, 510, 900, 910, 0, 0] ∧
    convertTrack_media zeroAllocator (some emptyMedia) (some scenarioOverrun) =
      .error Fault.outOfBounds ∧
    scenarioOverrun.stco_chunk_offset[2]? = none :=
  ⟨rfl, by decide, rfl, rfl, rfl⟩

/-- C14 (amended): whatever the chunk-offset table, when the allocation has succeeded
and `convertTrack` completes it returns `SUCCESS` and stores the map it has built; there
is no failure report.  The byte-offset pass stops building the index at the first
`sample_to_chunk` entry that finds `chunkOffset` at or beyond `stco_entry_count`: the
rest of the loop leaves the state as it is; and the first chunk walked for an entry is
always a chunk below `stco_entry_count`. -/
theorem convertTrack_short_chunk_table (init_bitstream_map : Nat → Option BitstreamMap)
    (media : MediaFile) (track : Mp4Track) (m0 : BitstreamMap) (rc : Int)
    (media' : Option MediaFile)
    (hinit : init_bitstream_map (mapEntries track) = some m0)
    (h : convertTrack_media init_bitstream_map (some media) (some track) = .ok (rc, media')) :
    rc = SUCCESS ∧
    (∃ mf, buildBitstreamMap track m0 = .ok mf ∧ media' = some (storeMap track media mf)) ∧
    (∀ lo n s, track.stco_entry_count ≤ s.chunkOffset →
      forLoop (offsetEntry track) lo n s = .ok s) ∧
    (∀ i s s', offsetEntry track i s = .ok s' →
      ∃ rest, s'.visited = s.visited ++ rest ∧
        ∀ v, rest.head? = some v → v.chunk < track.stco_entry_count) := by
  obtain ⟨hrc, hmf⟩ :=
    convertTrack_media_ok init_bitstream_map media track m0 rc media' hinit h
  refine ⟨hrc, hmf, ?_, ?_⟩
  · intro lo n s hge
    refine forLoop_fixed (offsetEntry track) s (fun i => ?_) n lo
    unfold offsetEntry
    rw [if_neg (by omega)]
    rfl
  · intro i s s' hs
    obtain ⟨hin, hout⟩ := offsetEntry_log track i s s' hs
    by_cases hlt : s.chunkOffset < track.stco_entry_count
    · obtain ⟨n, rest, _, e1, _, e3⟩ := hin hlt
      refine ⟨rest, e1, fun v hv => ?_⟩
      rw [e3 v hv]
      exact hlt
    · refine ⟨[], by rw [hout hlt]; simp, fun v hv => ?_⟩
      simp at hv

theorem convertTrack_short_chunk_table_witness :
    (1 : Int) = SUCCESS ∧
    (∃ mf, buildBitstreamMap scenarioShortTable (zeroMap 6) = .ok mf ∧
      some { emptyMedia with tracks_video := [scenarioShortTableResult] } =
        some (storeMap scenarioShortTable emptyMedia mf)) ∧
    (∀ lo n s, scenarioShortTable.stco_entry_count ≤ s.chunkOffset →
      forLoop (offsetEntry scenarioShortTable) lo n s = .ok s) ∧
    (∀ i s s', offsetEntry scenarioShortTable i s = .ok s' →
      ∃ rest, s'.visited = s.visited ++ rest ∧
        ∀ v, rest.head? = some v → v.chunk < scenarioShortTable.stco_entry_count) :=
  convertTrack_short_chunk_table zeroAllocator emptyMedia scenarioShortTable (zeroMap 6) 1
    (some { emptyMedia with tracks_video := [scenarioShortTableResult] }) rfl rfl

/-- The two `sample_to_chunk` entries of `scenarioRepeatedChunk` start at the same chunk:
the first entry walks no chunk, and the last entry, reached with no chunk consumed, walks
one chunk where `stco_entry_count` minus the chunks consumed is 3. -/
theorem last_entry_counterexample :
    chunkRunLength scenarioRepeatedChunk 0 0 = .ok 0 ∧
    chunkRunLength scenarioRepeatedChunk 1 0 = .ok 1 ∧
    scenarioRepeatedChunk.stco_entry_count - 0 = 3 ∧
    (∃ s, convertTrackWalk scenarioRepeatedChunk (zeroMap 3) = .ok s ∧
      s.visited = [{ chunk := 0, first := 0, samples := 1 }] ∧
      s.visited.length ≠ scenarioRepeatedChunk.stco_entry_count - 0) :=
  ⟨rfl, rfl, rfl,
   ⟨{ map := { zeroMap 3 with
        stream_size := 30
        sample_type := [sample_VIDEO, sample_VIDEO, sample_VIDEO]
        sample_size := [10, 10, 10]
        sample_offset := [100, 0, 0]
        sample_pts := [0, 40, 80]
        sample_dts := [0, 40, 80] },
      index := 1, chunkOffset := 1,
      visited := [{ chunk := 0, first := 0, samples := 1 }] }, rfl, rfl, by decide⟩⟩

/-- C15 (amended): in the byte-offset pass, the last `sample_to_chunk` entry, when it
is reached with `chunkOffset < stco_entry_count` chunks consumed, walks one chunk if the
table has several entries and no chunk has been consumed yet, and
`stco_entry_count - chunkOffset` chunks otherwise; reached with the chunk offsets used
up it walks none. -/
theorem last_entry_chunks (track : Mp4Track) (i : Nat) (s s' : OffsetState)
    (hlast : i + 1 = track.stsc_entry_count)
    (hstco : track.stco_entry_count < 4294967296)
    (h : offsetEntry track i s = .ok s') :
    ∃ rest, s'.visited = s.visited ++ rest ∧
      rest.length =
        (if s.chunkOffset < track.stco_entry_count then
          (if 1 < track.stsc_entry_count ∧ s.chunkOffset = 0 then 1
            else track.stco_entry_count - s.chunkOffset)
          else 0) := by
  obtain ⟨hin, hout⟩ := offsetEntry_log track i s s' h
  by_cases hlt : s.chunkOffset < track.stco_entry_count
  · obtain ⟨n, rest, hn, e1, e2, _⟩ := hin hlt
    refine ⟨rest, e1, ?_⟩
    rw [e2, if_pos hlt]
    unfold chunkRunLength at hn
    rw [if_pos hlast] at hn
    by_cases hsp : 1 < track.stsc_entry_count ∧ s.chunkOffset = 0
    · rw [if_pos hsp]
      rw [if_pos (show track.stsc_entry_count > 1 ∧ s.chunkOffset = 0 from hsp)] at hn
      simp only [pure_ok_iff] at hn
      exact hn.symm
    · rw [if_neg hsp]
      rw [if_neg (show ¬ (track.stsc_entry_count > 1 ∧ s.chunkOffset = 0) from hsp)] at hn
      simp only [pure_ok_iff] at hn
      rw [← hn]
      unfold u32sub
      omega
  · refine ⟨[], by rw [hout hlt]; simp, ?_⟩
    rw [if_neg hlt]
    rfl

theorem last_entry_chunks_witness :
    ∃ rest, scenarioWalk.visited = (walkStart scenarioChunks scenarioSizedMap).visited ++ rest ∧
      rest.length =
        (if (walkStart scenarioChunks scenarioSizedMap).chunkOffset <
            scenarioChunks.stco_entry_count then
          (if 1 < scenarioChunks.stsc_entry_count ∧
              (walkStart scenarioChunks scenarioSizedMap).chunkOffset = 0 then 1
            else scenarioChunks.stco_entry_count -
              (walkStart scenarioChunks scenarioSizedMap).chunkOffset)
          else 0) :=
  last_entry_chunks scenarioChunks 0 (walkStart scenarioChunks scenarioSizedMap) scenarioWalk
    rfl (by decide) rfl

/-! ### Order of the final decode times -/

theorem convertTrackWalk_ok_iff (track : Mp4Track) (m0 : BitstreamMap) (s : OffsetState) :
    convertTrackWalk track m0 = .ok s ↔
      ∃ m1 m2 m3, setParameterSets track m0 = .ok m1 ∧ setTypesAndSizes track m1 = .ok m2 ∧
        setTimecodes track m2 = .ok m3 ∧ walkChunks track m3 = .ok s := by
  simp only [convertTrackWalk, bind_ok_iff]
  constructor
  · rintro ⟨m1, h1, m2, h2, m3, h3, h4⟩
    exact ⟨m1, m2, m3, h1, h2, h3, h4⟩
  · rintro ⟨m1, m2, m3, h1, h2, h3, h4⟩
    exact ⟨m1, h1, m2, h2, m3, h3, h4⟩

/-- The function `convertTrack` produces the map of the final state of its offset loops. -/
theorem convertTrack_of_walk (track : Mp4Track) (m0 : BitstreamMap) (s : OffsetState)
    (h : convertTrackWalk track m0 = .ok s) : convertTrack track m0 = .ok s.map := by
  obtain ⟨m1, m2, m3, h1, h2, h3, h4⟩ := (convertTrackWalk_ok_iff track m0 s).1 h
  exact (convertTrack_ok_iff track m0 s.map).2 ⟨m1, m2, m3, s, h1, h2, h3, h4, rfl⟩

/-- Every sample covered by the runs of `time_to_sample` lies in one of them. -/
theorem samplesBefore_run (counts : List Nat) (n : Nat) :
    ∀ x, x < samplesBefore counts n →
      ∃ r, r < n ∧ samplesBefore counts r ≤ x ∧ x < samplesBefore counts (r + 1) := by
  induction n with
  | zero =>
    intro x hx
    rw [samplesBefore_zero] at hx
    omega
  | succ n ih =>
    intro x hx
    by_cases hlt : x < samplesBefore counts n
    · obtain ⟨r, hr, h1, h2⟩ := ih x hlt
      exact ⟨r, by omega, h1, h2⟩
    · exact ⟨n, by omega, by omega, hx⟩

/-- Before the unit adjustment the decode times of the real samples covered by the runs
of `time_to_sample` are non-negative and non-decreasing. -/
theorem rawDts_sorted (track : Mp4Track) (m m' : BitstreamMap) (c0 : Nat)
    (hmap : m.sample_dts.length < 4294967296)
    (hfirst : track.stts_sample_count[0]? = some c0) (hc0 : 1 ≤ c0)
    (h : setTimecodes track m = .ok m') :
    ∀ x, x < samplesBefore track.stts_sample_count track.stts_entry_count →
      ∃ a, m'.sample_dts[firstSample track + x]? = some a ∧ 0 ≤ a ∧
        ∀ y, y ≤ x → ∃ b, m'.sample_dts[firstSample track + y]? = some b ∧ 0 ≤ b ∧ b ≤ a := by
  obtain ⟨copy, t, hloop, hdts⟩ := setTimecodes_dts_loop track m m' h
  obtain ⟨_, _, _, _, _, _, _, _, _, _, hzero, hrec⟩ :=
    computeDts_spec track copy track.stts_entry_count m t c0 hmap hfirst hc0 hloop
  intro x
  induction x with
  | zero =>
    intro hx
    have hn : 1 ≤ track.stts_entry_count := by
      by_contra hlt
      have h0 : track.stts_entry_count = 0 := by omega
      rw [h0, samplesBefore_zero] at hx
      omega
    have e : m'.sample_dts[firstSample track + 0]? = some 0 := by
      rw [hdts, Nat.add_zero]
      exact hzero hn
    refine ⟨0, e, Int.le_refl 0, fun y hy => ?_⟩
    have hy0 : y = 0 := by omega
    rw [hy0]
    exact ⟨0, e, Int.le_refl 0, Int.le_refl 0⟩
  | succ x ih =>
    intro hx
    obtain ⟨a, ha, ha0, hbelow⟩ := ih (by omega)
    obtain ⟨r, hr, h1, h2⟩ :=
      samplesBefore_run track.stts_sample_count track.stts_entry_count (x + 1) hx
    obtain ⟨a', d, _, hprev, hcur⟩ := hrec r (x + 1) hr (by omega) h1 h2
    have hidx : firstSample track + (x + 1) - 1 = firstSample track + x := by omega
    rw [hidx, ← hdts, ha] at hprev
    have haa : a' = a := by
      cases hprev
      rfl
    rw [haa, ← hdts] at hcur
    have hd : (0 : Int) ≤ (d : Int) := Int.ofNat_nonneg d
    refine ⟨a + (d : Int), hcur, by omega, fun y hy => ?_⟩
    by_cases hyx : y = x + 1
    · rw [hyx]
      exact ⟨a + (d : Int), hcur, by omega, Int.le_refl _⟩
    · obtain ⟨b, hb, hb0, hba⟩ := hbelow y (by omega)
      exact ⟨b, hb, hb0, by omega⟩

/-- The unit adjustment keeps the order of non-negative timestamps. -/
theorem scaled_le (timescale : Nat) (a b : Int) (hts : 0 < timescale) (ha : 0 ≤ a)
    (hab : a ≤ b) :
    0 ≤ Int.tdiv (a * 1000000) (timescale : Int) ∧
    Int.tdiv (a * 1000000) (timescale : Int) ≤ Int.tdiv (b * 1000000) (timescale : Int) := by
  have hpos : (0 : Int) < (timescale : Int) := by exact_mod_cast hts
  have h1 : 0 ≤ a * 1000000 := by omega
  have h2 : 0 ≤ b * 1000000 := by omega
  rw [Int.tdiv_eq_ediv h1 (Int.le_of_lt hpos), Int.tdiv_eq_ediv h2 (Int.le_of_lt hpos)]
  exact ⟨Int.ediv_nonneg h1 (Int.le_of_lt hpos), Int.ediv_le_ediv hpos (by omega)⟩

/-- C16: for a well-formed track (timescale > 0; the run lengths of `time_to_sample` add
up to the sample count and the first run is not empty; the chunks walked by the
byte-offset pass hold exactly the `stsz_sample_count` samples; no fault, hence no 64-bit
overflow, on the way; the slots of the parameter sets filled, or left zero by the
allocator) the final `sample_dts` of `convertTrack` is non-decreasing in index order
over all the `sps_count + pps_count + stsz_sample_count` entries. -/
theorem convertTrack_dts_sorted (track : Mp4Track) (m0 : BitstreamMap) (s : OffsetState)
    (n c0 : Nat)
    (hts : 0 < track.timescale)
    (hcount : track.sps_count + track.pps_count + track.stsz_sample_count < 4294967296)
    (hn : n < 4294967296) (hm : HasEntries m0 n)
    (hparams : (track.handlerType = HANDLER_VIDEO ∧
        (track.codec = CODEC_H264 ∨ track.codec = CODEC_H265)) ∨
      ∀ p, p < track.sps_count + track.pps_count → m0.sample_dts[p]? = some 0)
    (hfirst : track.stts_sample_count[0]? = some c0) (hc0 : 1 ≤ c0)
    (hruns : samplesBefore track.stts_sample_count track.stts_entry_count =
      track.stsz_sample_count)
    (hcover : samplesWalked s.visited = track.stsz_sample_count)
    (h : convertTrackWalk track m0 = .ok s) :
    convertTrack track m0 = .ok s.map ∧
    ∀ p q, p ≤ q → q < track.sps_count + track.pps_count + track.stsz_sample_count →
      ∃ a b, s.map.sample_dts[p]? = some a ∧ s.map.sample_dts[q]? = some b ∧ a ≤ b := by
  have hconv := convertTrack_of_walk track m0 s h
  refine ⟨hconv, ?_⟩
  obtain ⟨m1, m2, m3, h1, h2, h3, h4⟩ := (convertTrackWalk_ok_iff track m0 s).1 h
  have hF : firstSample track = track.sps_count + track.pps_count := by
    unfold firstSample u32
    omega
  obtain ⟨l1, l2, l3, l4, l5⟩ := hm
  obtain ⟨⟨a1, a2, a3, a4, a5, _, _⟩, alow, aparams, anone⟩ :=
    setParameterSets_spec track m0 m1 (by omega) h1
  obtain ⟨b3, b4, b5, _⟩ := setTypesAndSizes_spec track m1 m2 (by omega) h2
  obtain ⟨_, c3⟩ := setTimecodes_frame track m2 m3 h3
  have hdl : m2.sample_dts.length < 4294967296 := by
    rw [b5, a5, l5]
    exact hn
  have hoff : m3.sample_offset.length < 4294967296 := by
    rw [c3, b3, a3, l3]
    exact hn
  obtain ⟨⟨_, _, _, _, _, wdone⟩, widx⟩ := walkChunks_times track m3 s hoff h4
  have hraw := rawDts_sorted track m2 m3 c0 hdl hfirst hc0 h3
  rw [hruns] at hraw
  rw [hcover, hF] at widx
  rw [hF] at wdone hraw
  -- the entries of the parameter sets all hold the same value, which is not positive
  obtain ⟨m1', h1', hlow⟩ :=
    convertTrack_low track m0 s.map n hn hcount ⟨l1, l2, l3, l4, l5⟩ hconv
  have hm1 : m1' = m1 := by
    rw [h1] at h1'
    cases h1'
    rfl
  rw [hm1] at hlow
  have hfront : ∃ c : Int, c ≤ 0 ∧
      ∀ p, p < track.sps_count + track.pps_count → s.map.sample_dts[p]? = some c := by
    by_cases hv : track.handlerType = HANDLER_VIDEO ∧
        (track.codec = CODEC_H264 ∨ track.codec = CODEC_H265)
    · obtain ⟨hsps, hpps⟩ := aparams hv
      refine ⟨-1, by omega, fun p hp => ?_⟩
      obtain ⟨_, _, _, _, e5⟩ := hlow p hp
      rw [e5]
      by_cases hps : p < track.sps_count
      · obtain ⟨_, _, _, _, _, _, _, _, e⟩ := hsps p hps
        exact e
      · obtain ⟨_, _, _, _, _, _, _, _, e⟩ := hpps (p - track.sps_count) (by omega)
        rw [show track.sps_count + (p - track.sps_count) = p by omega] at e
        exact e
    · have hz : ∀ p, p < track.sps_count + track.pps_count → m0.sample_dts[p]? = some 0 := by
        cases hparams with
        | inl hv' => exact absurd hv' hv
        | inr hz => exact hz
      refine ⟨0, Int.le_refl 0, fun p hp => ?_⟩
      obtain ⟨_, _, _, _, e5⟩ := hlow p hp
      rw [e5, anone hv]
      exact hz p hp
  obtain ⟨c, hc, hfr⟩ := hfront
  -- the entries of the real samples
  have hreal : ∀ x, x < track.stsz_sample_count →
      ∃ a, s.map.sample_dts[track.sps_count + track.pps_count + x]? = some a ∧ 0 ≤ a ∧
        ∀ y, y ≤ x → ∃ b, s.map.sample_dts[track.sps_count + track.pps_count + y]? = some b ∧
          0 ≤ b ∧ b ≤ a := by
    intro x hx
    obtain ⟨a, ha, ha0, hbelow⟩ := hraw x hx
    obtain ⟨d, _, hd, _, hfin, _⟩ :=
      wdone (track.sps_count + track.pps_count + x) (by omega) (by omega)
    rw [ha] at hd
    cases hd
    refine ⟨_, hfin, (scaled_le track.timescale a a hts ha0 (Int.le_refl a)).1, fun y hy => ?_⟩
    obtain ⟨b, hb, hb0, hba⟩ := hbelow y hy
    obtain ⟨d', _, hd', _, hfin', _⟩ :=
      wdone (track.sps_count + track.pps_count + y) (by omega) (by omega)
    rw [hb] at hd'
    cases hd'
    obtain ⟨e1, e2⟩ := scaled_le track.timescale b a hts hb0 hba
    exact ⟨_, hfin', e1, e2⟩
  intro p q hpq hq
  by_cases hqf : q < track.sps_count + track.pps_count
  · exact ⟨c, c, hfr p (by omega), hfr q hqf, Int.le_refl c⟩
  · obtain ⟨a, ha, ha0, hbelow⟩ := hreal (q - (track.sps_count + track.pps_count)) (by omega)
    rw [show track.sps_count + track.pps_count + (q - (track.sps_count + track.pps_count)) = q
      by omega] at ha
    by_cases hpf : p < track.sps_count + track.pps_count
    · exact ⟨c, a, hfr p hpf, ha, by omega⟩
    · obtain ⟨b, hb, _, hba⟩ := hbelow (p - (track.sps_count + track.pps_count)) (by omega)
      rw [show track.sps_count + track.pps_count + (p - (track.sps_count + track.pps_count)) = p
        by omega] at hb
      exact ⟨b, a, hb, ha, hba⟩

theorem convertTrack_dts_sorted_witness :
    convertTrackWalk scenarioH264 (zeroMap 6) = .ok scenarioH264Walk ∧
    (convertTrack scenarioH264 (zeroMap 6) = .ok scenarioH264Walk.map ∧
      ∀ p q, p ≤ q → q < 1 + 1 + 4 →
        ∃ a b, scenarioH264Walk.map.sample_dts[p]? = some a ∧
          scenarioH264Walk.map.sample_dts[q]? = some b ∧ a ≤ b) ∧
    scenarioH264Walk.map.sample_dts = [-1, -1, 0, 40000, 80000, 120000] :=
  ⟨rfl,
   convertTrack_dts_sorted scenarioH264 (zeroMap 6) scenarioH264Walk 6 4 (by decide)
     (by decide) (by decide) ⟨rfl, rfl, rfl, rfl, rfl⟩ (Or.inl ⟨rfl, Or.inl rfl⟩) rfl
     (by decide) rfl rfl rfl,
   rfl⟩

/-! ### jumpy_mp4 -/

theorem subI64_ok_iff (a b v : Int) : subI64 a b = .ok v ↔ inI64 (a - b) ∧ v = a - b := by
  unfold subI64
  split
  · rename_i h
    simp only [Except.ok.injEq]
    exact ⟨fun e => ⟨h, e.symm⟩, fun e => e.2.symm⟩
  · rename_i h
    simp only [reduceCtorEq, false_iff]
    exact fun e => h e.1

/-- The clamping of `jumpy_mp4` computes the target of the claim. -/
theorem jumpTarget_eq_resyncTarget (parent : Option Mp4Box) (current : Mp4Box)
    (file_size : Int) :
    jumpTarget parent current file_size = resyncTarget parent current file_size := by
  unfold jumpTarget resyncTarget
  cases parent with
  | none =>
    simp only
    split <;> omega
  | some p =>
    simp only
    split <;> split <;> split <;> omega

/-- The branch of `jumpy_mp4` for a target at or beyond the end of the file. -/
theorem jumpy_mp4_at_end (bitstr : Bitstream) (parent : Option Mp4Box) (current : Mp4Box)
    (hpos : bitstream_get_absolute_byte_offset bitstr ≠ current.offset_end)
    (htarget : jumpTarget parent current (bitstream_get_full_size bitstr) ≥
      bitstream_get_full_size bitstr) :
    jumpy_mp4 bitstr parent current =
      .ok (SUCCESS, { bitstr with position := 8 * bitstr.bytes.length }, []) := by
  unfold jumpy_mp4
  simp only [ne_eq, hpos, not_false_eq_true, if_true, htarget]
  rfl

theorem subI64_ok (a b : Int) (h : inI64 (a - b)) : subI64 a b = .ok (a - b) :=
  (subI64_ok_iff a b _).2 ⟨h, rfl⟩

theorem mulI64_ok (a b : Int) (h : inI64 (a * b)) : mulI64 a b = .ok (a * b) :=
  (mulI64_ok_iff a b _).2 ⟨h, rfl⟩

theorem ok_bind {α β : Type} (a : α) (f : α → Except Fault β) :
    ((Except.ok a : Except Fault α) >>= f) = f a := rfl

/-- The cursor of `jumpy_mp4` when the target lies inside the file and is not behind the
cursor by more than `UINT_MAX / 8` bytes. -/
theorem jumpy_mp4_inside (bitstr : Bitstream) (parent : Option Mp4Box) (current : Mp4Box)
    (hsize : bitstr.bytes.length < 9223372036854775808)
    (hcur : bitstr.position ≤ 8 * bitstr.bytes.length)
    (hpos : bitstream_get_absolute_byte_offset bitstr ≠ current.offset_end)
    (hin : jumpTarget parent current (bitstream_get_full_size bitstr) <
      bitstream_get_full_size bitstr)
    (hT : 0 ≤ jumpTarget parent current (bitstream_get_full_size bitstr))
    (hnear : bitstream_get_absolute_byte_offset bitstr -
      jumpTarget parent current (bitstream_get_full_size bitstr) ≤ 536870911) :
    ∃ rc moved calls, jumpy_mp4 bitstr parent current = .ok (rc, moved, calls) ∧
      bitstream_get_absolute_byte_offset moved =
        jumpTarget parent current (bitstream_get_full_size bitstr) ∧
      moved.bytes = bitstr.bytes := by
  generalize hTdef : jumpTarget parent current (bitstream_get_full_size bitstr) = T at *
  unfold jumpy_mp4
  simp only [ne_eq, hpos, not_false_eq_true, if_true, hTdef, ge_iff_le, Int.not_le.2 hin,
    if_false]
  unfold bitstream_get_absolute_byte_offset bitstream_get_full_size at *
  by_cases hfwd : ((bitstr.position / 8 : Nat) : Int) < T
  · simp only [hfwd, if_true]
    rw [subI64_ok _ _ (by unfold inI64; omega), ok_bind]
    by_cases hsmall : T - ((bitstr.position / 8 : Nat) : Int) < ((UINT_MAX / 8 : Nat) : Int)
    · simp only [hsmall, if_true]
      have hU : ((UINT_MAX / 8 : Nat) : Int) = 536870911 := by decide
      rw [hU] at hsmall
      rw [mulI64_ok _ _ (by unfold inI64; omega), ok_bind]
      have hbits : toU32 ((T - ((bitstr.position / 8 : Nat) : Int)) * 8) =
          8 * (T.toNat - bitstr.position / 8) := by
        unfold toU32
        omega
      rw [hbits]
      unfold skip_bits
      rw [if_pos (by omega)]
      refine ⟨_, _, _, rfl, ?_, rfl⟩
      simp only
      omega
    · simp only [hsmall, if_false]
      unfold bitstream_goto_offset
      rw [if_pos ⟨hT, by omega⟩]
      refine ⟨_, _, _, rfl, ?_, rfl⟩
      simp only
      omega
  · simp only [hfwd, if_false]
    rw [subI64_ok _ _ (by unfold inI64; omega), ok_bind]
    by_cases hback : ((bitstr.position / 8 : Nat) : Int) - T > 0
    · have hU : ((UINT_MAX / 8 : Nat) : Int) = 536870911 := by decide
      have hnot : ¬ (((bitstr.position / 8 : Nat) : Int) - T > ((UINT_MAX / 8 : Nat) : Int)) := by
        rw [hU]
        omega
      simp only [hback, if_true, hnot, if_false]
      unfold bitstream_goto_offset
      rw [if_pos ⟨hT, by omega⟩]
      refine ⟨_, _, _, rfl, ?_, rfl⟩
      simp only
      omega
    · simp only [hback, if_false]
      refine ⟨_, _, _, rfl, ?_, rfl⟩
      omega

/-- The cursor stands on the end of `current` and the parent ends before it: `jumpy_mp4`
does not move the cursor, which stays at byte 16 while the target is byte 8. -/
theorem jumpy_mp4_target_counterexample :
    jumpy_mp4 { scenarioFile with position := 128 } (some { emptyBox with offset_end := 8 })
        { emptyBox with offset_end := 16 } =
      .ok (FAILURE, { scenarioFile with position := 128 }, []) ∧
    bitstream_get_absolute_byte_offset { scenarioFile with position := 128 } = 16 ∧
    resyncTarget (some { emptyBox with offset_end := 8 }) { emptyBox with offset_end := 16 }
      (bitstream_get_full_size { scenarioFile with position := 128 }) = 8 :=
  ⟨rfl, rfl, by decide⟩

/-- C17 (amended): after `jumpy_mp4(bitstr, parent, current)` the cursor's absolute byte
offset equals the target `T` (the smaller of `current.offset_end` and the parent's end
when a parent exists whose end lies within the file, the smaller of `current.offset_end`
and the file size otherwise), provided that the cursor does not already stand on
`current.offset_end` unless that is `T`, that `T` is not negative, and that the cursor is
not more than `UINT_MAX / 8` bytes past `T`; the cursor may start before or after `T`. -/
theorem jumpy_mp4_lands_on_target (bitstr : Bitstream) (parent : Option Mp4Box)
    (current : Mp4Box)
    (hsize : bitstr.bytes.length < 9223372036854775808)
    (hcur : bitstr.position ≤ 8 * bitstr.bytes.length)
    (hguard : bitstream_get_absolute_byte_offset bitstr ≠ current.offset_end ∨
      resyncTarget parent current (bitstream_get_full_size bitstr) = current.offset_end)
    (hT : 0 ≤ resyncTarget parent current (bitstream_get_full_size bitstr))
    (hnear : bitstream_get_absolute_byte_offset bitstr -
      resyncTarget parent current (bitstream_get_full_size bitstr) ≤ 536870911) :
    ∃ rc moved calls, jumpy_mp4 bitstr parent current = .ok (rc, moved, calls) ∧
      bitstream_get_absolute_byte_offset moved =
        resyncTarget parent current (bitstream_get_full_size bitstr) ∧
      moved.bytes = bitstr.bytes := by
  rw [← jumpTarget_eq_resyncTarget] at hguard hT hnear ⊢
  by_cases hpos : bitstream_get_absolute_byte_offset bitstr = current.offset_end
  · have hsame : jumpTarget parent current (bitstream_get_full_size bitstr) =
        current.offset_end := by
      cases hguard with
      | inl hne => exact absurd hpos hne
      | inr he => exact he
    refine ⟨FAILURE, bitstr, [], ?_, by rw [hsame, hpos], rfl⟩
    unfold jumpy_mp4
    simp only [ne_eq, hpos, not_true_eq_false, if_false]
  · by_cases hin : jumpTarget parent current (bitstream_get_full_size bitstr) <
        bitstream_get_full_size bitstr
    · exact jumpy_mp4_inside bitstr parent current hsize hcur hpos hin hT hnear
    · refine ⟨_, _, _, jumpy_mp4_at_end bitstr parent current hpos (by omega), ?_, rfl⟩
      have hle : jumpTarget parent current (bitstream_get_full_size bitstr) ≤
          bitstream_get_full_size bitstr := by
        rw [jumpTarget_eq_resyncTarget]
        unfold resyncTarget
        cases parent with
        | none =>
          simp only
          omega
        | some p =>
          simp only
          split <;> omega
      unfold bitstream_get_absolute_byte_offset
      unfold bitstream_get_full_size at hin hle ⊢
      simp only
      omega

theorem jumpy_mp4_lands_on_target_witness :
    ∃ rc moved calls,
      jumpy_mp4 { scenarioFile with position := 200 } (some { emptyBox with offset_end := 8 })
        { emptyBox with offset_end := 16 } = .ok (rc, moved, calls) ∧
      bitstream_get_absolute_byte_offset moved =
        resyncTarget (some { emptyBox with offset_end := 8 }) { emptyBox with offset_end := 16 }
          (bitstream_get_full_size { scenarioFile with position := 200 }) ∧
      moved.bytes = ({ scenarioFile with position := 200 } : Bitstream).bytes :=
  jumpy_mp4_lands_on_target { scenarioFile with position := 200 }
    (some { emptyBox with offset_end := 8 }) { emptyBox with offset_end := 16 }
    (by decide) (by decide) (Or.inl (by decide)) (by decide) (by decide)

/-- C18: whenever the cursor is not already at `current.offset_end` and the clamped
target of `jumpy_mp4` is at or beyond the file's total size, `jumpy_mp4` returns
`SUCCESS` with the cursor exactly on the file size, and calls none of `skip_bits`,
`rewind_bits` and `bitstream_goto_offset`. -/
theorem jumpy_mp4_past_end (bitstr : Bitstream) (parent : Option Mp4Box) (current : Mp4Box)
    (hpos : bitstream_get_absolute_byte_offset bitstr ≠ current.offset_end)
    (htarget : jumpTarget parent current (bitstream_get_full_size bitstr) ≥
      bitstream_get_full_size bitstr) :
    ∃ moved, jumpy_mp4 bitstr parent current = .ok (SUCCESS, moved, []) ∧
      moved.bytes = bitstr.bytes ∧ moved.position = 8 * bitstr.bytes.length ∧
      bitstream_get_absolute_byte_offset moved = bitstream_get_full_size bitstr := by
  refine ⟨_, jumpy_mp4_at_end bitstr parent current hpos htarget, rfl, rfl, ?_⟩
  unfold bitstream_get_absolute_byte_offset bitstream_get_full_size
  simp only
  omega

theorem jumpy_mp4_past_end_witness :
    ∃ moved, jumpy_mp4 { scenarioFile with position := 67 } none
        { emptyBox with offset_end := 40 } = .ok (SUCCESS, moved, []) ∧
      moved.bytes = ({ scenarioFile with position := 67 } : Bitstream).bytes ∧
      moved.position = 8 * ({ scenarioFile with position := 67 } : Bitstream).bytes.length ∧
      bitstream_get_absolute_byte_offset moved =
        bitstream_get_full_size { scenarioFile with position := 67 } :=
  jumpy_mp4_past_end { scenarioFile with position := 67 } none
    { emptyBox with offset_end := 40 } (by decide) (by decide)

/-- Where a call of `jumpy_mp4` leaves the cursor: where it was, on the end of the file,
or at a whole number of 2^29 bytes behind the target (none, but for the rewinds whose bit
count does not fit an `unsigned int`). -/
theorem jumpy_mp4_result (bitstr : Bitstream) (parent : Option Mp4Box) (current : Mp4Box)
    (rc : Int) (moved : Bitstream) (calls : List CursorCall)
    (h : jumpy_mp4 bitstr parent current = .ok (rc, moved, calls)) :
    moved = bitstr ∨
    (bitstream_get_absolute_byte_offset bitstr ≠ current.offset_end ∧
      jumpTarget parent current (bitstream_get_full_size bitstr) ≥
        bitstream_get_full_size bitstr ∧
      moved = { bitstr with position := 8 * bitstr.bytes.length }) ∨
    (moved.bytes = bitstr.bytes ∧
      jumpTarget parent current (bitstream_get_full_size bitstr) <
        bitstream_get_full_size bitstr ∧
      jumpTarget parent current (bitstream_get_full_size bitstr) ≤
        bitstream_get_absolute_byte_offset moved ∧
      (bitstream_get_absolute_byte_offset moved -
        jumpTarget parent current (bitstream_get_full_size bitstr)) % 536870912 = 0 ∧
      inI64 ((bitstream_get_absolute_byte_offset moved -
        jumpTarget parent current (bitstream_get_full_size bitstr)) * 8)) := by
  have hU : ((UINT_MAX / 8 : Nat) : Int) = 536870911 := by decide
  by_cases hpos : bitstream_get_absolute_byte_offset bitstr = current.offset_end
  · left
    unfold jumpy_mp4 at h
    simp only [ne_eq, hpos, not_true_eq_false, if_false, Except.ok.injEq, Prod.mk.injEq] at h
    exact h.2.1.symm
  by_cases hend : jumpTarget parent current (bitstream_get_full_size bitstr) ≥
      bitstream_get_full_size bitstr
  · right
    left
    refine ⟨hpos, hend, ?_⟩
    rw [jumpy_mp4_at_end bitstr parent current hpos hend] at h
    simp only [Except.ok.injEq, Prod.mk.injEq] at h
    exact h.2.1.symm
  generalize hTdef : jumpTarget parent current (bitstream_get_full_size bitstr) = T at *
  unfold jumpy_mp4 at h
  simp only [ne_eq, hpos, not_false_eq_true, if_true, hTdef, hend, if_false] at h
  unfold bitstream_get_absolute_byte_offset bitstream_get_full_size at *
  by_cases hfwd : ((bitstr.position / 8 : Nat) : Int) < T
  · simp only [hfwd, if_true, bind_ok_iff, subI64_ok_iff] at h
    obtain ⟨jump, ⟨_, rfl⟩, h⟩ := h
    by_cases hsmall : T - ((bitstr.position / 8 : Nat) : Int) < ((UINT_MAX / 8 : Nat) : Int)
    · simp only [hsmall, if_true, bind_ok_iff, mulI64_ok_iff, pure_ok_iff, Prod.mk.injEq] at h
      obtain ⟨bits, ⟨_, rfl⟩, _, hmoved, _⟩ := h
      rw [hU] at hsmall
      have hbits : toU32 ((T - ((bitstr.position / 8 : Nat) : Int)) * 8) =
          8 * (T.toNat - bitstr.position / 8) := by
        unfold toU32
        omega
      rw [hbits] at hmoved
      unfold skip_bits at hmoved
      split at hmoved
      · right
        right
        rw [← hmoved]
        refine ⟨rfl, by omega, ?_, ?_, ?_⟩
        · simp only
          omega
        · simp only
          omega
        · unfold inI64
          simp only
          omega
      · left
        exact hmoved.symm
    · simp only [hsmall, if_false, pure_ok_iff, Prod.mk.injEq] at h
      obtain ⟨_, hmoved, _⟩ := h
      unfold bitstream_goto_offset at hmoved
      split at hmoved
      · rename_i hok
        right
        right
        rw [← hmoved]
        refine ⟨rfl, by omega, ?_, ?_, ?_⟩
        · simp only
          omega
        · simp only
          omega
        · unfold inI64
          simp only
          omega
      · left
        exact hmoved.symm
  · simp only [hfwd, if_false, bind_ok_iff, subI64_ok_iff] at h
    obtain ⟨rewind, ⟨_, rfl⟩, h⟩ := h
    by_cases hback : ((bitstr.position / 8 : Nat) : Int) - T > 0
    · by_cases hlarge : ((bitstr.position / 8 : Nat) : Int) - T > ((UINT_MAX / 8 : Nat) : Int)
      · simp only [hback, hlarge, if_true, bind_ok_iff, mulI64_ok_iff, pure_ok_iff,
          Prod.mk.injEq] at h
        obtain ⟨bits, ⟨hrange, rfl⟩, _, hmoved, _⟩ := h
        unfold rewind_bits at hmoved
        split at hmoved
        · rename_i hok
          right
          right
          rw [← hmoved]
          unfold toU32 at hok ⊢
          unfold inI64 at hrange ⊢
          refine ⟨rfl, by omega, ?_, ?_, ?_⟩
          · simp only
            omega
          · simp only
            omega
          · simp only
            omega
        · left
          exact hmoved.symm
      · simp only [hback, hlarge, if_true, if_false, pure_ok_iff, Prod.mk.injEq] at h
        obtain ⟨_, hmoved, _⟩ := h
        unfold bitstream_goto_offset at hmoved
        split at hmoved
        · rename_i hok
          right
          right
          rw [← hmoved]
          refine ⟨rfl, by omega, ?_, ?_, ?_⟩
          · simp only
            omega
          · simp only
            omega
          · unfold inI64
            simp only
            omega
        · left
          exact hmoved.symm
    · left
      simp only [hback, if_false, pure_ok_iff, Prod.mk.injEq] at h
      exact h.2.1.symm

/-- A cursor that stands a whole number of 2^29 bytes behind a target inside the file is
left where it is by `jumpy_mp4`. -/
theorem jumpy_mp4_settled (bitstr : Bitstream) (parent : Option Mp4Box) (current : Mp4Box)
    (hin : jumpTarget parent current (bitstream_get_full_size bitstr) <
      bitstream_get_full_size bitstr)
    (hge : jumpTarget parent current (bitstream_get_full_size bitstr) ≤
      bitstream_get_absolute_byte_offset bitstr)
    (hdiv : (bitstream_get_absolute_byte_offset bitstr -
      jumpTarget parent current (bitstream_get_full_size bitstr)) % 536870912 = 0)
    (hrange : inI64 ((bitstream_get_absolute_byte_offset bitstr -
      jumpTarget parent current (bitstream_get_full_size bitstr)) * 8)) :
    ∃ rc calls, jumpy_mp4 bitstr parent current = .ok (rc, bitstr, calls) := by
  have hU : ((UINT_MAX / 8 : Nat) : Int) = 536870911 := by decide
  by_cases hpos : bitstream_get_absolute_byte_offset bitstr = current.offset_end
  · refine ⟨FAILURE, [], ?_⟩
    unfold jumpy_mp4
    simp only [ne_eq, hpos, not_true_eq_false, if_false]
  generalize hTdef : jumpTarget parent current (bitstream_get_full_size bitstr) = T at *
  unfold jumpy_mp4
  simp only [ne_eq, hpos, not_false_eq_true, if_true, hTdef, ge_iff_le, Int.not_le.2 hin,
    if_false, Int.not_lt.2 hge]
  unfold inI64 at hrange
  rw [subI64_ok _ _ (by unfold inI64; omega), ok_bind]
  by_cases hback : bitstream_get_absolute_byte_offset bitstr - T > 0
  · have hlarge : bitstream_get_absolute_byte_offset bitstr - T >
        ((UINT_MAX / 8 : Nat) : Int) := by
      rw [hU]
      omega
    simp only [hback, hlarge, if_true]
    rw [mulI64_ok _ _ (by unfold inI64; omega), ok_bind]
    have hbits : toU32 ((bitstream_get_absolute_byte_offset bitstr - T) * 8) = 0 := by
      unfold toU32
      omega
    rw [hbits]
    unfold rewind_bits
    rw [if_pos (Nat.zero_le _)]
    exact ⟨SUCCESS, [CursorCall.rewind 0], rfl⟩
  · simp only [hback, if_false]
    exact ⟨FAILURE, [], rfl⟩

/-- C19: when a call of `jumpy_mp4` has returned, a second call with the same parent and
current headers, on the cursor as the first call left it, returns as well and leaves the
cursor exactly where it was after the first call. -/
theorem jumpy_mp4_twice (bitstr : Bitstream) (parent : Option Mp4Box) (current : Mp4Box)
    (rc : Int) (moved : Bitstream) (calls : List CursorCall)
    (h : jumpy_mp4 bitstr parent current = .ok (rc, moved, calls)) :
    ∃ rc2 calls2, jumpy_mp4 moved parent current = .ok (rc2, moved, calls2) := by
  rcases jumpy_mp4_result bitstr parent current rc moved calls h with
    hsame | ⟨_, hend, hmoved⟩ | ⟨hbytes, hin, hge, hdiv, hrange⟩
  · rw [hsame]
    rw [hsame] at h
    exact ⟨rc, calls, h⟩
  · by_cases hpos : bitstream_get_absolute_byte_offset moved = current.offset_end
    · refine ⟨FAILURE, [], ?_⟩
      unfold jumpy_mp4
      simp only [ne_eq, hpos, not_true_eq_false, if_false]
    · have hfs : bitstream_get_full_size moved = bitstream_get_full_size bitstr := by
        rw [hmoved]
        rfl
      have hstep := jumpy_mp4_at_end moved parent current hpos (by rw [hfs]; exact hend)
      refine ⟨SUCCESS, [], ?_⟩
      rw [hstep, hmoved]
  · have hfs : bitstream_get_full_size moved = bitstream_get_full_size bitstr := by
      unfold bitstream_get_full_size
      rw [hbytes]
    exact jumpy_mp4_settled moved parent current (by rw [hfs]; exact hin)
      (by rw [hfs]; exact hge) (by rw [hfs]; exact hdiv) (by rw [hfs]; exact hrange)

theorem jumpy_mp4_twice_witness :
    jumpy_mp4 scenarioFile none { emptyBox with offset_end := 16 } =
      .ok (SUCCESS, { scenarioFile with position := 128 }, [CursorCall.skip 128]) ∧
    ∃ rc2 calls2, jumpy_mp4 { scenarioFile with position := 128 } none
      { emptyBox with offset_end := 16 } =
        .ok (rc2, { scenarioFile with position := 128 }, calls2) :=
  ⟨rfl, jumpy_mp4_twice scenarioFile none { emptyBox with offset_end := 16 } SUCCESS
    { scenarioFile with position := 128 } [CursorCall.skip 128] rfl⟩

/-! ### parse_box_header -/

theorem read_bits_bytes (bitstr rest : Bitstream) (n v : Nat)
    (h : read_bits bitstr n = .ok (v, rest)) : rest.bytes = bitstr.bytes := by
  unfold read_bits at h
  split at h
  · simp only [Except.ok.injEq, Prod.mk.injEq] at h
    rw [← h.2]
  · cases h

/-- C20: for a box whose 32-bit size field is 0, `parse_box_header` sets `offset_end` to
the file's total size, and `jumpy_mp4` with no parent, called on that header with the
cursor anywhere over the same file, returns with the cursor on exactly the file's total
size, having called none of `skip_bits`, `rewind_bits` and `bitstream_goto_offset`. -/
theorem size_zero_box_resync (BOX_UUID : Nat) (bitstr rest parsed after : Bitstream)
    (box_header box : Mp4Box) (rc : Int)
    (hfield : read_bits bitstr 32 = .ok (0, rest))
    (h : parse_box_header BOX_UUID bitstr (some box_header) = .ok (rc, parsed, some box))
    (hafter : after.bytes = bitstr.bytes) :
    rc = SUCCESS ∧ box.offset_end = bitstream_get_full_size bitstr ∧
    ∃ rc2 moved, jumpy_mp4 after none box = .ok (rc2, moved, []) ∧
      bitstream_get_absolute_byte_offset moved = bitstream_get_full_size bitstr ∧
      moved.bytes = bitstr.bytes := by
  simp only [parse_box_header, hfield, bind_ok_iff, ok_bind, pure_ok_iff, Prod.mk.injEq,
    Option.some.injEq, addI64_ok_iff] at h
  obtain ⟨⟨boxtype, b2⟩, hr2, ⟨size, b3⟩, hsz, offset_end, ⟨_, rfl⟩, s, _, hrc, _, hbox⟩ := h
  simp only [boxSize, if_true, bind_ok_iff, subI64_ok_iff, pure_ok_iff, Prod.mk.injEq] at hsz
  obtain ⟨_, ⟨_, rfl⟩, hsize, _⟩ := hsz
  have hb1 := read_bits_bytes bitstr rest 32 0 hfield
  have hb2 := read_bits_bytes rest b2 32 boxtype hr2
  have hend : box.offset_end = bitstream_get_full_size bitstr := by
    rw [← hbox, ← hsize]
    unfold bitstream_get_full_size
    simp only
    rw [hb2, hb1]
    omega
  have hfs : bitstream_get_full_size after = bitstream_get_full_size bitstr := by
    unfold bitstream_get_full_size
    rw [hafter]
  refine ⟨hrc.symm, hend, ?_⟩
  by_cases hpos : bitstream_get_absolute_byte_offset after = box.offset_end
  · refine ⟨FAILURE, after, ?_, by rw [hpos, hend], hafter⟩
    unfold jumpy_mp4
    simp only [ne_eq, hpos, not_true_eq_false, if_false]
  · have htarget : jumpTarget none box (bitstream_get_full_size after) ≥
        bitstream_get_full_size after := by
      unfold jumpTarget
      simp only
      rw [hfs, hend]
      split <;> omega
    refine ⟨SUCCESS, _, jumpy_mp4_at_end after none box hpos htarget, ?_, hafter⟩
    rw [← hfs]
    unfold bitstream_get_absolute_byte_offset bitstream_get_full_size
    simp only
    omega

theorem size_zero_box_resync_witness :
    (1 : Int) = SUCCESS ∧
    ({ emptyBox with offset_end := 12, size := 12, boxtype := 1835295092 } : Mp4Box).offset_end =
      bitstream_get_full_size scenarioMdat ∧
    ∃ rc2 moved,
      jumpy_mp4 { scenarioMdat with position := 64 } none
        { emptyBox with offset_end := 12, size := 12, boxtype := 1835295092 } =
          .ok (rc2, moved, []) ∧
      bitstream_get_absolute_byte_offset moved = bitstream_get_full_size scenarioMdat ∧
      moved.bytes = scenarioMdat.bytes :=
  size_zero_box_resync 1970628964 scenarioMdat { scenarioMdat with position := 32 }
    { scenarioMdat with position := 64 } { scenarioMdat with position := 64 } emptyBox
    { emptyBox with offset_end := 12, size := 12, boxtype := 1835295092 } 1 rfl rfl rfl

/-! ### The box header -/

theorem read_bits_spec (bitstr rest : Bitstream) (n v : Nat)
    (h : read_bits bitstr n = .ok (v, rest)) :
    bitstr.position + n ≤ 8 * bitstr.bytes.length ∧
      rest = { bitstr with position := bitstr.position + n } := by
  unfold read_bits at h
  split at h
  · rename_i hle
    simp only [Except.ok.injEq, Prod.mk.injEq] at h
    exact ⟨hle, h.2.symm⟩
  · cases h

theorem readUsertype_loop (b3 : Bitstream) (s : UsertypeState)
    (h : forLoop readUsertype 0 16 { bitstr := b3, usertype := [] } = .ok s) :
    s.bitstr = { b3 with position := b3.position + 128 } ∧ s.usertype.length = 16 ∧
    ∀ j, j < 16 → ∃ v rest,
      read_bits { b3 with position := b3.position + 8 * j } 8 = .ok (v, rest) ∧
      s.usertype[j]? = some (v % 256) := by
  have key := forLoop_invariant readUsertype
    (fun i t => t.bitstr = { b3 with position := b3.position + 8 * i } ∧
      t.usertype.length = i ∧
      ∀ j, j < i → ∃ v rest,
        read_bits { b3 with position := b3.position + 8 * j } 8 = .ok (v, rest) ∧
        t.usertype[j]? = some (v % 256))
    16 0 { bitstr := b3, usertype := [] } s ?_ ?_ h
  · simpa using key
  · intro i t t' _ _ hP hb
    obtain ⟨hbit, hlen, hprev⟩ := hP
    simp only [readUsertype, bind_ok_iff, pure_ok_iff] at hb
    obtain ⟨⟨byte, b⟩, hr, rfl⟩ := hb
    rw [hbit] at hr
    obtain ⟨_, hb'⟩ := read_bits_spec _ _ _ _ hr
    refine ⟨?_, ?_, ?_⟩
    · simp only
      rw [hb']
      simp only [Bitstream.mk.injEq, true_and]
      omega
    · simp only [List.length_append, hlen, List.length_singleton]
    · intro j hj
      by_cases hji : j < i
      · obtain ⟨v, rest, hv, hu⟩ := hprev j hji
        refine ⟨v, rest, hv, ?_⟩
        simp only
        rw [List.getElem?_append_left (by omega)]
        exact hu
      · have e : j = i := by omega
        subst e
        refine ⟨byte, b, hr, ?_⟩
        simp only
        rw [List.getElem?_append_right (by omega)]
        simp [hlen]
  · simp

/-- What `parse_box_header` has done when it returns for a header that is not NULL. -/
theorem parse_box_header_ok (BOX_UUID : Nat) (bitstr parsed : Bitstream)
    (box_header : Mp4Box) (rc : Int) (result : Option Mp4Box)
    (h : parse_box_header BOX_UUID bitstr (some box_header) = .ok (rc, parsed, result)) :
    rc = SUCCESS ∧ ∃ size32 b1 boxtype b2 size b3 s,
      read_bits bitstr 32 = .ok (size32, b1) ∧ read_bits b1 32 = .ok (boxtype, b2) ∧
      boxSize b2 (bitstream_get_absolute_byte_offset bitstr) size32 = .ok (size, b3) ∧
      inI64 (bitstream_get_absolute_byte_offset bitstr + size) ∧
      boxUsertype BOX_UUID b3 boxtype box_header.usertype = .ok s ∧ parsed = s.bitstr ∧
      result = some
        { offset_start := bitstream_get_absolute_byte_offset bitstr,
          offset_end := bitstream_get_absolute_byte_offset bitstr + size, size := size,
          boxtype := boxtype, usertype := s.usertype, version := 0, flags := 0 } := by
  simp only [parse_box_header, bind_ok_iff, pure_ok_iff, Prod.mk.injEq, addI64_ok_iff] at h
  obtain ⟨⟨size32, b1⟩, hr1, ⟨boxtype, b2⟩, hr2, ⟨size, b3⟩, hsz, offset_end,
    ⟨hin, rfl⟩, s, hs, hrc, hparsed, hres⟩ := h
  exact ⟨hrc.symm, size32, b1, boxtype, b2, size, b3, s, hr1, hr2, hsz, hin, hs,
    hparsed.symm, hres.symm⟩

theorem jumpTarget_le (parent : Option Mp4Box) (current : Mp4Box) (file_size : Int) :
    jumpTarget parent current file_size ≤ current.offset_end := by
  unfold jumpTarget
  split
  · split <;> split <;> omega
  · split <;> omega

/-- A call of `jumpy_mp4` on a cursor inside a file of less than 2^60 bytes returns, and
when the target lies beyond an offset `start` inside the file, so does the cursor. -/
theorem jumpy_mp4_progress (bitstr : Bitstream) (parent : Option Mp4Box) (current : Mp4Box)
    (start : Int) (hlen : bitstr.bytes.length < 1152921504606846976)
    (hpos : bitstr.position ≤ 8 * bitstr.bytes.length)
    (hstart0 : 0 ≤ start) (hstart : start < bitstream_get_full_size bitstr)
    (htarget : start < jumpTarget parent current (bitstream_get_full_size bitstr)) :
    ∃ rc moved calls, jumpy_mp4 bitstr parent current = .ok (rc, moved, calls) ∧
      moved.bytes = bitstr.bytes ∧ start < bitstream_get_absolute_byte_offset moved := by
  have hU : ((UINT_MAX / 8 : Nat) : Int) = 536870911 := by decide
  have hle := jumpTarget_le parent current (bitstream_get_full_size bitstr)
  by_cases hcur : bitstream_get_absolute_byte_offset bitstr = current.offset_end
  · refine ⟨FAILURE, bitstr, [], ?_, rfl, by omega⟩
    unfold jumpy_mp4
    simp only [ne_eq, hcur, not_true_eq_false, if_false]
  by_cases hend : jumpTarget parent current (bitstream_get_full_size bitstr) ≥
      bitstream_get_full_size bitstr
  · refine ⟨SUCCESS, _, [], jumpy_mp4_at_end bitstr parent current hcur hend, rfl, ?_⟩
    unfold bitstream_get_absolute_byte_offset bitstream_get_full_size at *
    simp only
    omega
  generalize hTdef : jumpTarget parent current (bitstream_get_full_size bitstr) = T at *
  unfold jumpy_mp4
  simp only [ne_eq, hcur, not_false_eq_true, if_true, hTdef, hend, if_false]
  unfold bitstream_get_absolute_byte_offset bitstream_get_full_size at *
  by_cases hfwd : ((bitstr.position / 8 : Nat) : Int) < T
  · simp only [hfwd, if_true]
    rw [subI64_ok _ _ (by unfold inI64; omega), ok_bind]
    by_cases hsmall : T - ((bitstr.position / 8 : Nat) : Int) < ((UINT_MAX / 8 : Nat) : Int)
    · simp only [hsmall, if_true]
      rw [hU] at hsmall
      rw [mulI64_ok _ _ (by unfold inI64; omega), ok_bind]
      have hbits : toU32 ((T - ((bitstr.position / 8 : Nat) : Int)) * 8) =
          8 * (T.toNat - bitstr.position / 8) := by
        unfold toU32
        omega
      rw [hbits]
      unfold skip_bits
      rw [if_pos (by omega)]
      refine ⟨_, _, _, rfl, rfl, ?_⟩
      simp only
      omega
    · simp only [hsmall, if_false]
      unfold bitstream_goto_offset
      rw [if_pos (by omega)]
      refine ⟨_, _, _, rfl, rfl, ?_⟩
      simp only
      omega
  · simp only [hfwd, if_false]
    rw [subI64_ok _ _ (by unfold inI64; omega), ok_bind]
    by_cases hback : ((bitstr.position / 8 : Nat) : Int) - T > 0
    · by_cases hlarge : ((bitstr.position / 8 : Nat) : Int) - T > ((UINT_MAX / 8 : Nat) : Int)
      · simp only [hback, hlarge, if_true]
        rw [mulI64_ok _ _ (by unfold inI64; omega), ok_bind]
        unfold rewind_bits toU32
        rw [if_pos (by omega)]
        refine ⟨_, _, _, rfl, rfl, ?_⟩
        simp only
        omega
      · simp only [hback, hlarge, if_true, if_false]
        unfold bitstream_goto_offset
        rw [if_pos (by omega)]
        refine ⟨_, _, _, rfl, rfl, ?_⟩
        simp only
        omega
    · simp only [hback, if_false]
      refine ⟨_, _, _, rfl, rfl, ?_⟩
      omega

/-! ### Claims on the box header -/

/-- C21 (counterexample): the file starts with a box whose size field is 4.  Its target,
4, exceeds its start offset 0; `parse_box_header` leaves the cursor on byte 8, the end of
the header, `parse_unknown_box` leaves it there, and `jumpy_mp4` seeks back to byte 4,
inside the header bytes. -/
theorem forward_progress_counterexample :
    parse_box_header scenarioCodes.BOX_UUID scenarioShortBox (some emptyBox) =
      .ok (SUCCESS, { scenarioShortBox with position := 64 }, some scenarioShortBoxHeader) ∧
    scenarioShortBoxHeader.offset_start <
      jumpTarget none scenarioShortBoxHeader (bitstream_get_full_size scenarioShortBox) ∧
    parse_unknown_box { scenarioShortBox with position := 64 } scenarioShortBoxHeader =
      (SUCCESS, { scenarioShortBox with position := 64 }) ∧
    jumpy_mp4 { scenarioShortBox with position := 64 } none scenarioShortBoxHeader =
      .ok (SUCCESS, { scenarioShortBox with position := 32 }, [CursorCall.seek 4]) ∧
    bitstream_get_absolute_byte_offset { scenarioShortBox with position := 32 } <
      bitstream_get_absolute_byte_offset { scenarioShortBox with position := 64 } := by
  refine ⟨rfl, by decide, rfl, rfl, by decide⟩

/-- C21 (amended): in a file of less than 2^60 bytes, for every box whose target (the
end offset as `jumpy_mp4` clamps it) strictly exceeds the start offset that
`parse_box_header` recorded, `jumpy_mp4`, called with the cursor wherever the content
parser left it inside the file, returns with the cursor strictly beyond the start offset
of the box: the next header read starts behind the start of this box. -/
theorem forward_progress (BOX_UUID : Nat) (bitstr parsed after : Bitstream)
    (parent : Option Mp4Box) (box_header box : Mp4Box) (rc : Int)
    (hlen : bitstr.bytes.length < 1152921504606846976)
    (h : parse_box_header BOX_UUID bitstr (some box_header) = .ok (rc, parsed, some box))
    (hbytes : after.bytes = bitstr.bytes)
    (hwithin : after.position ≤ 8 * after.bytes.length)
    (htarget : box.offset_start <
      jumpTarget parent box (bitstream_get_full_size bitstr)) :
    box.offset_start = bitstream_get_absolute_byte_offset bitstr ∧
    ∃ rc2 moved calls, jumpy_mp4 after parent box = .ok (rc2, moved, calls) ∧
      moved.bytes = bitstr.bytes ∧
      bitstream_get_absolute_byte_offset bitstr <
        bitstream_get_absolute_byte_offset moved := by
  obtain ⟨_, size32, b1, boxtype, b2, size, b3, s, hr1, _, _, _, _, _, hres⟩ :=
    parse_box_header_ok BOX_UUID bitstr parsed box_header rc (some box) h
  obtain ⟨hle, _⟩ := read_bits_spec _ _ _ _ hr1
  simp only [Option.some.injEq] at hres
  have hstart : box.offset_start = bitstream_get_absolute_byte_offset bitstr := by
    rw [hres]
  have hfs : bitstream_get_full_size after = bitstream_get_full_size bitstr := by
    unfold bitstream_get_full_size
    rw [hbytes]
  refine ⟨hstart, ?_⟩
  rw [hstart] at htarget
  obtain ⟨rc2, moved, calls, hj, hb, hgt⟩ := jumpy_mp4_progress after parent box
    (bitstream_get_absolute_byte_offset bitstr) (by rw [hbytes]; exact hlen) hwithin
    (by unfold bitstream_get_absolute_byte_offset; omega)
    (by
      rw [hfs]
      unfold bitstream_get_absolute_byte_offset bitstream_get_full_size
      omega)
    (by rw [hfs]; exact htarget)
  exact ⟨rc2, moved, calls, hj, by rw [hb, hbytes], hgt⟩

theorem forward_progress_witness :
    scenarioShortBoxHeader.offset_start = bitstream_get_absolute_byte_offset scenarioShortBox ∧
    ∃ rc2 moved calls,
      jumpy_mp4 { scenarioShortBox with position := 64 } none scenarioShortBoxHeader =
        .ok (rc2, moved, calls) ∧
      moved.bytes = scenarioShortBox.bytes ∧
      bitstream_get_absolute_byte_offset scenarioShortBox <
        bitstream_get_absolute_byte_offset moved :=
  forward_progress scenarioCodes.BOX_UUID scenarioShortBox
    { scenarioShortBox with position := 64 } { scenarioShortBox with position := 64 } none
    emptyBox scenarioShortBoxHeader SUCCESS (by decide) rfl rfl (by decide) (by decide)

/-- C22: when `parse_box_header` returns for a header that is not NULL, it has read a
32-bit size and then a 32-bit type; `offset_start` is the byte offset of the cursor before
the header; the size of the box is the size of the file less `offset_start` if the size
field is 0, the 64-bit value read right behind the type if it is 1, and the size field
itself otherwise; `offset_end` is `offset_start + size`, unclamped; when the type is
`BOX_UUID` the 16 bytes that follow are the extended type and the cursor stands behind
them, otherwise the cursor stands behind the size and the extended type is untouched;
`version` and `flags` are 0. -/
theorem parse_box_header_fields (BOX_UUID : Nat) (bitstr parsed : Bitstream)
    (box_header box : Mp4Box) (rc : Int)
    (h : parse_box_header BOX_UUID bitstr (some box_header) = .ok (rc, parsed, some box)) :
    ∃ size32 b1 b2 b3,
      read_bits bitstr 32 = .ok (size32, b1) ∧ read_bits b1 32 = .ok (box.boxtype, b2) ∧
      box.offset_start = bitstream_get_absolute_byte_offset bitstr ∧
      (size32 = 0 → b3 = b2 ∧
        box.size = bitstream_get_full_size bitstr - box.offset_start) ∧
      (size32 = 1 → ∃ large, read_bits_64 b2 64 = .ok (large, b3) ∧ box.size = toI64 large) ∧
      (size32 ≠ 0 → size32 ≠ 1 → b3 = b2 ∧ box.size = (size32 : Int)) ∧
      box.offset_end = box.offset_start + box.size ∧
      (box.boxtype = BOX_UUID →
        parsed = { b3 with position := b3.position + 128 } ∧ box.usertype.length = 16 ∧
        ∀ j, j < 16 → ∃ v rest,
          read_bits { b3 with position := b3.position + 8 * j } 8 = .ok (v, rest) ∧
          box.usertype[j]? = some (v % 256)) ∧
      (box.boxtype ≠ BOX_UUID → parsed = b3 ∧ box.usertype = box_header.usertype) ∧
      box.version = 0 ∧ box.flags = 0 := by
  obtain ⟨_, size32, b1, boxtype, b2, size, b3, s, hr1, hr2, hsz, _, hs, hparsed, hres⟩ :=
    parse_box_header_ok BOX_UUID bitstr parsed box_header rc (some box) h
  simp only [Option.some.injEq] at hres
  subst hres
  have hb1 := read_bits_bytes bitstr b1 32 size32 hr1
  have hb2 := read_bits_bytes b1 b2 32 boxtype hr2
  refine ⟨size32, b1, b2, b3, hr1, hr2, rfl, ?_, ?_, ?_, rfl, ?_, ?_, rfl, rfl⟩
  · intro h0
    simp only [boxSize, h0, if_true, bind_ok_iff, subI64_ok_iff, pure_ok_iff,
      Prod.mk.injEq] at hsz
    obtain ⟨_, ⟨_, rfl⟩, hsize, hb⟩ := hsz
    refine ⟨hb.symm, ?_⟩
    simp only
    rw [← hsize]
    unfold bitstream_get_full_size
    rw [hb2, hb1]
  · intro h1
    rw [h1] at hsz
    unfold boxSize at hsz
    rw [if_neg (by decide), if_pos rfl] at hsz
    simp only [bind_ok_iff, pure_ok_iff, Prod.mk.injEq] at hsz
    obtain ⟨⟨large, b⟩, hr, hsize, hb⟩ := hsz
    simp only at hb hsize
    subst hb
    exact ⟨large, hr, hsize.symm⟩
  · intro h0 h1
    simp only [boxSize, h0, h1, if_false, pure_ok_iff, Prod.mk.injEq] at hsz
    exact ⟨hsz.2.symm, hsz.1.symm⟩
  · intro hu
    simp only at hu
    simp only [boxUsertype, hu, if_true] at hs
    obtain ⟨e1, e2, e3⟩ := readUsertype_loop b3 s hs
    exact ⟨by rw [hparsed, e1], e2, e3⟩
  · intro hu
    simp only at hu
    simp only [boxUsertype, hu, if_false, pure_ok_iff] at hs
    rw [hparsed, ← hs]
    exact ⟨rfl, rfl⟩

theorem parse_box_header_fields_witness :
    ∃ size32 b1 b2 b3,
      read_bits scenarioMdat 32 = .ok (size32, b1) ∧
      read_bits b1 32 =
        .ok (({ emptyBox with offset_end := 12, size := 12, boxtype := 1835295092 } :
          Mp4Box).boxtype, b2) ∧
      ({ emptyBox with offset_end := 12, size := 12, boxtype := 1835295092 } :
        Mp4Box).offset_start = bitstream_get_absolute_byte_offset scenarioMdat ∧
      (size32 = 0 → b3 = b2 ∧
        ({ emptyBox with offset_end := 12, size := 12, boxtype := 1835295092 } :
          Mp4Box).size = bitstream_get_full_size scenarioMdat -
            ({ emptyBox with offset_end := 12, size := 12, boxtype := 1835295092 } :
              Mp4Box).offset_start) ∧
      (size32 = 1 → ∃ large, read_bits_64 b2 64 = .ok (large, b3) ∧
        ({ emptyBox with offset_end := 12, size := 12, boxtype := 1835295092 } :
          Mp4Box).size = toI64 large) ∧
      (size32 ≠ 0 → size32 ≠ 1 → b3 = b2 ∧
        ({ emptyBox with offset_end := 12, size := 12, boxtype := 1835295092 } :
          Mp4Box).size = (size32 : Int)) ∧
      ({ emptyBox with offset_end := 12, size := 12, boxtype := 1835295092 } :
        Mp4Box).offset_end =
        ({ emptyBox with offset_end := 12, size := 12, boxtype := 1835295092 } :
          Mp4Box).offset_start +
        ({ emptyBox with offset_end := 12, size := 12, boxtype := 1835295092 } :
          Mp4Box).size ∧
      (({ emptyBox with offset_end := 12, size := 12, boxtype := 1835295092 } :
          Mp4Box).boxtype = 1970628964 →
        { scenarioMdat with position := 64 } = { b3 with position := b3.position + 128 } ∧
        ({ emptyBox with offset_end := 12, size := 12, boxtype := 1835295092 } :
          Mp4Box).usertype.length = 16 ∧
        ∀ j, j < 16 → ∃ v rest,
          read_bits { b3 with position := b3.position + 8 * j } 8 = .ok (v, rest) ∧
          ({ emptyBox with offset_end := 12, size := 12, boxtype := 1835295092 } :
            Mp4Box).usertype[j]? = some (v % 256)) ∧
      (({ emptyBox with offset_end := 12, size := 12, boxtype := 1835295092 } :
          Mp4Box).boxtype ≠ 1970628964 →
        { scenarioMdat with position := 64 } = b3 ∧
        ({ emptyBox with offset_end := 12, size := 12, boxtype := 1835295092 } :
          Mp4Box).usertype = emptyBox.usertype) ∧
      ({ emptyBox with offset_end := 12, size := 12, boxtype := 1835295092 } :
        Mp4Box).version = 0 ∧
      ({ emptyBox with offset_end := 12, size := 12, boxtype := 1835295092 } :
        Mp4Box).flags = 0 :=
  parse_box_header_fields 1970628964 scenarioMdat { scenarioMdat with position := 64 }
    emptyBox { emptyBox with offset_end := 12, size := 12, boxtype := 1835295092 } 1 rfl

/-! ### parse_hdlr -/

theorem hdlrNameByte_loop (b : Bitstream) (n : Nat) (s : NameState)
    (h : forLoop hdlrNameByte 0 n { bitstr := b, name := [] } = .ok s) :
    s.bitstr = { b with position := b.position + 8 * n } ∧ s.name.length = n ∧
    ∀ j, j < n → ∃ v rest,
      read_bits { b with position := b.position + 8 * j } 8 = .ok (v, rest) ∧
      s.name[j]? = some v := by
  have key := forLoop_invariant hdlrNameByte
    (fun i t => t.bitstr = { b with position := b.position + 8 * i } ∧
      t.name.length = i ∧
      ∀ j, j < i → ∃ v rest,
        read_bits { b with position := b.position + 8 * j } 8 = .ok (v, rest) ∧
        t.name[j]? = some v)
    n 0 { bitstr := b, name := [] } s ?_ ?_ h
  · simpa using key
  · intro i t t' _ _ hP hb
    obtain ⟨hbit, hlen, hprev⟩ := hP
    simp only [hdlrNameByte, bind_ok_iff, pure_ok_iff] at hb
    obtain ⟨⟨byte, b1⟩, hr, rfl⟩ := hb
    rw [hbit] at hr
    obtain ⟨_, hb'⟩ := read_bits_spec _ _ _ _ hr
    refine ⟨?_, ?_, ?_⟩
    · simp only
      rw [hb']
      simp only [Bitstream.mk.injEq, true_and]
      omega
    · simp only [List.length_append, hlen, List.length_singleton]
    · intro j hj
      by_cases hji : j < i
      · obtain ⟨v, rest, hv, hu⟩ := hprev j hji
        refine ⟨v, rest, hv, ?_⟩
        simp only
        rw [List.getElem?_append_left (by omega)]
        exact hu
      · have e : j = i := by omega
        subst e
        refine ⟨byte, b1, hr, ?_⟩
        simp only
        rw [List.getElem?_append_right (by omega)]
        simp [hlen]
  · simp

/-- What the name block of `parse_hdlr` stores: nothing when `bytes_left` is not
positive, and otherwise the `min bytes_left 128` bytes that follow the cursor, which
stands behind the first byte of the field when that byte is `bytes_left - 1`. -/
theorem hdlrName_spec (next_bits : Bitstream → Nat → Nat) (bitstr parsed : Bitstream)
    (bytes_left : Int) (track track' : Mp4Track)
    (h : hdlrName next_bits bitstr bytes_left track = .ok (parsed, track')) :
    (bytes_left ≤ 0 → parsed = bitstr ∧ track' = track) ∧
    (0 < bytes_left → ∃ first,
      (bytes_left = toI32 (next_bits bitstr 8 : Nat) + 1 → first = (skip_bits bitstr 8).2) ∧
      (bytes_left ≠ toI32 (next_bits bitstr 8 : Nat) + 1 → first = bitstr) ∧
      parsed = { first with position := first.position + 8 * min bytes_left.toNat 128 } ∧
      track' = { track with name := track'.name } ∧
      track'.name.length = min bytes_left.toNat 128 ∧
      ∀ j, j < min bytes_left.toNat 128 → ∃ v rest,
        read_bits { first with position := first.position + 8 * j } 8 = .ok (v, rest) ∧
        track'.name[j]? = some v) := by
  unfold hdlrName at h
  by_cases hpos : bytes_left > 0
  · rw [if_pos hpos] at h
    simp only at h
    refine ⟨fun hle => absurd hpos (by omega), fun _ => ?_⟩
    have hn : (if bytes_left > 128 then (128 : Int) else bytes_left).toNat =
        min bytes_left.toNat 128 := by
      split <;> omega
    rw [hn] at h
    split at h
    · rename_i s hs
      simp only [Except.ok.injEq, Prod.mk.injEq] at h
      obtain ⟨e1, e2, e3⟩ := hdlrNameByte_loop _ _ s hs
      refine ⟨(if bytes_left = toI32 (next_bits bitstr 8 : Nat) + 1 then
        (skip_bits bitstr 8).2 else bitstr), fun he => ?_, fun hne => ?_, ?_, ?_, ?_, ?_⟩
      · rw [if_pos he]
      · rw [if_neg hne]
      · rw [← h.1, e1]
      · rw [← h.2]
      · rw [← h.2]
        exact e2
      · rw [← h.2]
        exact e3
    · cases h
  · rw [if_neg hpos] at h
    simp only [Except.ok.injEq, Prod.mk.injEq] at h
    exact ⟨fun _ => ⟨h.1.symm, h.2.symm⟩, fun hlt => absurd hlt hpos⟩

/-- What `parse_hdlr` has done when it returns: six reads of 24 bytes in all, then the
name block with `bytes_left = (int)(size - 32)`. -/
theorem parse_hdlr_ok (codes : Mp4Codes) (next_bits : Bitstream → Nat → Nat)
    (bitstr parsed : Bitstream) (box box' : Mp4Box) (track track' : Mp4Track) (rc : Int)
    (h : parse_hdlr codes next_bits bitstr box track = .ok (rc, parsed, box', track')) :
    rc = SUCCESS ∧ bitstr.position + 192 ≤ 8 * bitstr.bytes.length ∧
    ∃ handlerType, hdlrName next_bits { bitstr with position := bitstr.position + 192 }
      (toI32 (box.size - 32)) { track with handlerType := codes.handlerOf handlerType } =
        .ok (parsed, track') := by
  simp only [parse_hdlr, bind_ok_iff, pure_ok_iff, Prod.mk.injEq, subI64_ok_iff] at h
  obtain ⟨⟨v1, b1⟩, h1, ⟨v2, b2⟩, h2, ⟨v3, b3⟩, h3, ⟨v4, b4⟩, h4, ⟨v5, b5⟩, h5,
    ⟨v6, b6⟩, h6, ⟨v7, b7⟩, h7, difference, ⟨_, rfl⟩, ⟨b8, t8⟩, hname, hrc, hb, _, ht⟩ := h
  obtain ⟨_, e1⟩ := read_bits_spec _ _ _ _ h1
  obtain ⟨_, e2⟩ := read_bits_spec _ _ _ _ h2
  obtain ⟨_, e3⟩ := read_bits_spec _ _ _ _ h3
  obtain ⟨_, e4⟩ := read_bits_spec _ _ _ _ h4
  obtain ⟨_, e5⟩ := read_bits_spec _ _ _ _ h5
  obtain ⟨_, e6⟩ := read_bits_spec _ _ _ _ h6
  obtain ⟨l7, e7⟩ := read_bits_spec _ _ _ _ h7
  subst e1 e2 e3 e4 e5 e6
  simp only at l7 e7 hname hb ht
  have e : b7 = { bitstr with position := bitstr.position + 192 } := by
    rw [e7]
  rw [e] at hname
  refine ⟨hrc.symm, by omega, v4, ?_⟩
  rw [hname, hb, ht]

/-! ### Claims on parse_hdlr -/

/-- C28: whatever the size of the box and the first byte of the name field,
`parse_hdlr`, when it returns, has stored `min bytes_left 128` bytes in the name of the
track, where `bytes_left = (int)(size - 32)`, and none when that number is not positive:
never more than 128 bytes. -/
theorem parse_hdlr_name_bound (codes : Mp4Codes) (next_bits : Bitstream → Nat → Nat)
    (bitstr parsed : Bitstream) (box box' : Mp4Box) (track track' : Mp4Track) (rc : Int)
    (h : parse_hdlr codes next_bits bitstr box track = .ok (rc, parsed, box', track')) :
    (toI32 (box.size - 32) ≤ 0 → track'.name = track.name) ∧
    (0 < toI32 (box.size - 32) →
      track'.name.length = min (toI32 (box.size - 32)).toNat 128 ∧
      track'.name.length ≤ 128) := by
  obtain ⟨_, _, handlerType, hname⟩ :=
    parse_hdlr_ok codes next_bits bitstr parsed box box' track track' rc h
  obtain ⟨hnone, hsome⟩ := hdlrName_spec _ _ _ _ _ _ hname
  refine ⟨fun hle => ?_, fun hlt => ?_⟩
  · rw [(hnone hle).2]
  · obtain ⟨_, _, _, _, _, hlen, _⟩ := hsome hlt
    exact ⟨hlen, by omega⟩

theorem parse_hdlr_name_bound_witness :
    (toI32 (scenarioHdlrBox.size - 32) ≤ 0 →
      ({ emptyTrack with name := [97, 98, 99, 100, 255] } : Mp4Track).name = emptyTrack.name) ∧
    (0 < toI32 (scenarioHdlrBox.size - 32) →
      ({ emptyTrack with name := [97, 98, 99, 100, 255] } : Mp4Track).name.length =
        min (toI32 (scenarioHdlrBox.size - 32)).toNat 128 ∧
      ({ emptyTrack with name := [97, 98, 99, 100, 255] } : Mp4Track).name.length ≤ 128) :=
  parse_hdlr_name_bound scenarioCodes peekBits scenarioHdlr
    { scenarioHdlr with position := 304 } scenarioHdlrBox scenarioHdlrBox emptyTrack
    { emptyTrack with name := [97, 98, 99, 100, 255] } SUCCESS rfl

/-- C29 (what the code does): when the first byte `L` of the name field agrees with the
size of the box (`size = 32 + L + 1`, less than 128), `parse_hdlr` skips that byte and then
stores `L + 1` bytes, not `L`: the `L` bytes of the name and the byte that follows them,
so that the cursor ends `size - 7` bytes behind the start of the content, one byte
beyond where a box of `size` bytes with a header of 8 bytes ends. -/
theorem parse_hdlr_length_byte (codes : Mp4Codes) (next_bits : Bitstream → Nat → Nat)
    (bitstr parsed : Bitstream) (box box' : Mp4Box) (track track' : Mp4Track) (rc : Int)
    (L : Nat) (hL : L + 1 ≤ 128) (hsize : box.size = 32 + (L : Int) + 1)
    (hpeek : next_bits { bitstr with position := bitstr.position + 192 } 8 = L)
    (h : parse_hdlr codes next_bits bitstr box track = .ok (rc, parsed, box', track')) :
    track'.name.length = L + 1 ∧
    parsed.position = bitstr.position + 8 * (box.size.toNat - 8) + 8 ∧
    ∀ j, j < L + 1 → ∃ v rest,
      read_bits { bitstr with position := bitstr.position + 8 * (24 + 1 + j) } 8 =
        .ok (v, rest) ∧
      track'.name[j]? = some v := by
  obtain ⟨_, _, handlerType, hname⟩ :=
    parse_hdlr_ok codes next_bits bitstr parsed box box' track track' rc h
  have hleft : toI32 (box.size - 32) = (L : Int) + 1 := by
    rw [hsize]
    unfold toI32
    omega
  rw [hleft] at hname
  obtain ⟨_, hsome⟩ := hdlrName_spec _ _ _ _ _ _ hname
  obtain ⟨first, hskip, _, hparsed, _, hlen, hbytes⟩ := hsome (by omega)
  have hmin : min ((L : Int) + 1).toNat 128 = L + 1 := by omega
  rw [hmin] at hparsed hlen hbytes
  have hfirst := hskip (by
    rw [hpeek]
    unfold toI32
    omega)
  obtain ⟨v0, rest0, hr0, _⟩ := hbytes 0 (by omega)
  obtain ⟨hle0, _⟩ := read_bits_spec _ _ _ _ hr0
  have hskipped : first = { bitstr with position := bitstr.position + 200 } := by
    rw [hfirst]
    unfold skip_bits
    by_cases hok : ({ bitstr with position := bitstr.position + 192 } : Bitstream).position + 8 ≤
        8 * ({ bitstr with position := bitstr.position + 192 } : Bitstream).bytes.length
    · rw [if_pos hok]
    · exfalso
      rw [hfirst] at hle0
      unfold skip_bits at hle0
      rw [if_neg hok] at hle0
      simp only at hle0 hok
      omega
  subst hskipped
  refine ⟨hlen, ?_, ?_⟩
  · rw [hparsed, hsize]
    simp only
    omega
  · intro j hj
    obtain ⟨v, rest, hr, hn⟩ := hbytes j hj
    refine ⟨v, rest, ?_, hn⟩
    have e : bitstr.position + 8 * (24 + 1 + j) = bitstr.position + 200 + 8 * j := by omega
    rw [e]
    exact hr

theorem parse_hdlr_length_byte_witness :
    ({ emptyTrack with name := [97, 98, 99, 100, 255] } : Mp4Track).name.length = 4 + 1 ∧
    ({ scenarioHdlr with position := 304 } : Bitstream).position =
      scenarioHdlr.position + 8 * (scenarioHdlrBox.size.toNat - 8) + 8 ∧
    ∀ j, j < 4 + 1 → ∃ v rest,
      read_bits { scenarioHdlr with position := scenarioHdlr.position + 8 * (24 + 1 + j) } 8 =
        .ok (v, rest) ∧
      ({ emptyTrack with name := [97, 98, 99, 100, 255] } : Mp4Track).name[j]? = some v :=
  parse_hdlr_length_byte scenarioCodes peekBits scenarioHdlr
    { scenarioHdlr with position := 304 } scenarioHdlrBox scenarioHdlrBox emptyTrack
    { emptyTrack with name := [97, 98, 99, 100, 255] } SUCCESS 4 (by decide) rfl rfl rfl

/-! ### The tree-walk loops -/

theorem whileLoop_stop {σ : Type} (cond : σ → Bool) (body : σ → Except Fault (Option σ))
    (fuel : Nat) (s : σ) (h : cond s = false) : whileLoop cond body fuel s = .ok (some s) := by
  cases fuel <;> simp [whileLoop, h]

theorem whileLoop_step {σ : Type} (cond : σ → Bool) (body : σ → Except Fault (Option σ))
    (fuel : Nat) (s s' : σ) (hc : cond s = true) (hb : body s = .ok (some s')) :
    whileLoop cond body (fuel + 1) s = whileLoop cond body fuel s' := by
  simp [whileLoop, hc, hb]

/-- Invariant rule for `whileLoop`: what holds before the loop and is kept by the body
holds when the loop has ended, together with the negation of the condition. -/
theorem whileLoop_invariant {σ : Type} (cond : σ → Bool) (body : σ → Except Fault (Option σ))
    (P : σ → Prop) (hstep : ∀ s s', cond s = true → P s → body s = .ok (some s') → P s') :
    ∀ (fuel : Nat) (s s' : σ), P s → whileLoop cond body fuel s = .ok (some s') →
      P s' ∧ cond s' = false := by
  intro fuel
  induction fuel with
  | zero =>
    intro s s' hP h
    unfold whileLoop at h
    by_cases hc : cond s = true
    · rw [if_pos hc] at h
      cases h
    · rw [if_neg hc] at h
      simp only [Except.ok.injEq, Option.some.injEq] at h
      subst h
      exact ⟨hP, by simpa using hc⟩
  | succ n ih =>
    intro s s' hP h
    unfold whileLoop at h
    by_cases hc : cond s = true
    · rw [if_pos hc] at h
      cases hb : body s with
      | error e =>
        rw [hb] at h
        cases h
      | ok r =>
        rw [hb] at h
        cases r with
        | none => cases h
        | some s1 => exact ih s1 s' (hstep s s1 hc hP hb) h
    · rw [if_neg hc] at h
      simp only [Except.ok.injEq, Option.some.injEq] at h
      subst h
      exact ⟨hP, by simpa using hc⟩

/-- The body of a tree-walk loop, forwards: the header, the second test of the cursor
where the loop has one, the content parser, and `jumpy_mp4` on the cursor as the content
parser leaves it. -/
theorem walkStep_dispatch {σ : Type} (codes : Mp4Codes)
    (dispatch : Bitstream → Mp4Box → σ → Except Fault (Option (Int × Bitstream × σ)))
    (parent : Option Mp4Box) (guard : Option Int) (w : Walk σ) (rc rcd rcj : Int)
    (b1 b2 moved : Bitstream) (box : Mp4Box) (acc : σ) (calls : List CursorCall)
    (hhead : parse_box_header codes.BOX_UUID w.bitstr (some emptyBox) = .ok (rc, b1, some box))
    (hguard : insideGuard guard b1 = true)
    (hparse : dispatch b1 box w.acc = .ok (some (rcd, b2, acc)))
    (hjump : jumpy_mp4 b2 parent box = .ok (rcj, moved, calls)) :
    walkStep codes dispatch parent guard w =
      .ok (some { retcode := rcd, bitstr := moved, acc := acc,
                  resynced := w.resynced ++ [box] }) := by
  obtain ⟨hrc, _⟩ := parse_box_header_ok _ _ _ _ _ _ hhead
  unfold walkStep
  rw [hhead, ok_bind]
  simp only [hrc, hguard, and_self, if_true, hparse, hjump, ok_bind]
  rfl

/-- The body of a tree-walk loop, backwards. -/
theorem walkStep_ok {σ : Type} (codes : Mp4Codes)
    (dispatch : Bitstream → Mp4Box → σ → Except Fault (Option (Int × Bitstream × σ)))
    (parent : Option Mp4Box) (guard : Option Int) (w w' : Walk σ)
    (h : walkStep codes dispatch parent guard w = .ok (some w')) :
    ∃ b1 box, parse_box_header codes.BOX_UUID w.bitstr (some emptyBox) =
        .ok (SUCCESS, b1, some box) ∧
      ((insideGuard guard b1 = true ∧ ∃ rcd b2 acc rcj moved calls,
          dispatch b1 box w.acc = .ok (some (rcd, b2, acc)) ∧
          jumpy_mp4 b2 parent box = .ok (rcj, moved, calls) ∧
          w' = { retcode := rcd, bitstr := moved, acc := acc,
                 resynced := w.resynced ++ [box] }) ∨
       (insideGuard guard b1 = false ∧ w' = { w with retcode := SUCCESS, bitstr := b1 })) := by
  unfold walkStep at h
  rw [bind_ok_iff] at h
  obtain ⟨⟨rc, b1, header⟩, hhead, h⟩ := h
  obtain ⟨hrc, _, _, _, _, _, _, _, _, _, _, _, _, _, hres⟩ :=
    parse_box_header_ok _ _ _ _ _ _ hhead
  subst hrc
  refine ⟨b1, _, by rw [hhead, hres], ?_⟩
  rw [hres] at h
  simp only [true_and] at h
  by_cases hg : insideGuard guard b1 = true
  · left
    refine ⟨hg, ?_⟩
    rw [if_pos hg] at h
    split at h
    · rename_i rcd b2 acc hd
      rw [bind_ok_iff] at h
      obtain ⟨⟨rcj, moved, calls⟩, hj, h⟩ := h
      rw [pure_ok_iff] at h
      simp only [Option.some.injEq] at h
      exact ⟨rcd, b2, acc, rcj, moved, calls, hd, hj, h.symm⟩
    · cases h
    · cases h
  · right
    rw [if_neg hg] at h
    rw [pure_ok_iff] at h
    simp only [Option.some.injEq] at h
    exact ⟨by simpa using hg, h.symm⟩

/-! ### Claims on the tree-walk loops -/

/-- C24 (counterexample): in the `stbl` box of `scenarioMovie` the allocation of
`parse_ctts` fails: `parse_ctts` returns `FAILURE` with the cursor on byte 88, and the loop
of `parse_stbl` ends with the return code `FAILURE`, the `ctts` box in the log of the boxes
that `jumpy_mp4` was invoked for, and the cursor on byte 96, the end of the box, where
`jumpy_mp4` has moved it with `skip_bits`. -/
theorem failed_parser_resync_counterexample :
    parse_ctts ((scenarioEnv false).calloc_ctts { bytes := scenarioMovie, position := 640 })
      { bytes := scenarioMovie, position := 640 } scenarioCttsBox (zeroTrack scenarioCodes) =
      .ok (FAILURE, { bytes := scenarioMovie, position := 704 }, scenarioCttsBox,
        { zeroTrack scenarioCodes with ctts_entry_count := 1 }) ∧
    jumpy_mp4 { bytes := scenarioMovie, position := 704 } (some scenarioStbl) scenarioCttsBox =
      .ok (SUCCESS, { bytes := scenarioMovie, position := 768 }, [CursorCall.skip 64]) ∧
    stblWalk scenarioCodes (scenarioEnv false) 4 { bytes := scenarioMovie, position := 576 }
      scenarioStbl (zeroTrack scenarioCodes) =
      .ok (some { retcode := FAILURE, bitstr := { bytes := scenarioMovie, position := 768 },
                  acc := { zeroTrack scenarioCodes with ctts_entry_count := 1 },
                  resynced := [scenarioCttsBox] }) := by
  refine ⟨rfl, rfl, rfl⟩

/-- C24 (amended): in a tree-walk loop (each of the loops of `mp4_fileParse`,
`parse_moov`, `parse_trak`, `parse_mdia`, `parse_minf`, `parse_stbl` and `parse_stsd` is
`treeWalk` with its own `switch`), when the content parser of a box returns a code other
than `SUCCESS`, `jumpy_mp4` is invoked for that box all the same, on the cursor as the
content parser left it, and when it has returned the loop stops: the loop ends in the
state with the return code of the content parser in `retcode`, the cursor where
`jumpy_mp4` put it, and the box in the log.  (What the function returns is settled behind
its loop.) -/
theorem failed_parser_stops_walk {σ : Type} (codes : Mp4Codes)
    (dispatch : Bitstream → Mp4Box → σ → Except Fault (Option (Int × Bitstream × σ)))
    (parent : Option Mp4Box) (guard : Option Int) (running : σ → Bool) (bound : Int)
    (fuel : Nat) (w : Walk σ) (rc rcd rcj : Int) (b1 b2 moved : Bitstream) (box : Mp4Box)
    (acc : σ) (calls : List CursorCall)
    (hcond : walkCond running bound w = true)
    (hhead : parse_box_header codes.BOX_UUID w.bitstr (some emptyBox) = .ok (rc, b1, some box))
    (hguard : insideGuard guard b1 = true)
    (hparse : dispatch b1 box w.acc = .ok (some (rcd, b2, acc)))
    (hfail : rcd ≠ SUCCESS)
    (hjump : jumpy_mp4 b2 parent box = .ok (rcj, moved, calls)) :
    treeWalk codes dispatch parent guard running bound (fuel + 1) w =
      .ok (some { retcode := rcd, bitstr := moved, acc := acc,
                  resynced := w.resynced ++ [box] }) := by
  unfold treeWalk
  rw [whileLoop_step _ _ fuel w _ hcond
    (walkStep_dispatch codes dispatch parent guard w rc rcd rcj b1 b2 moved box acc calls
      hhead hguard hparse hjump)]
  apply whileLoop_stop
  unfold walkCond
  simp [hfail]

theorem failed_parser_stops_walk_witness :
    treeWalk scenarioCodes (stblDispatch scenarioCodes (scenarioEnv false) 4)
      (some scenarioStbl) none (fun _ => true) 96 (3 + 1)
      { retcode := SUCCESS, bitstr := { bytes := scenarioMovie, position := 576 },
        acc := zeroTrack scenarioCodes, resynced := [] } =
      .ok (some { retcode := FAILURE, bitstr := { bytes := scenarioMovie, position := 768 },
                  acc := { zeroTrack scenarioCodes with ctts_entry_count := 1 },
                  resynced := [] ++ [scenarioCttsBox] }) :=
  failed_parser_stops_walk scenarioCodes (stblDispatch scenarioCodes (scenarioEnv false) 4)
    (some scenarioStbl) none (fun _ => true) 96 3
    { retcode := SUCCESS, bitstr := { bytes := scenarioMovie, position := 576 },
      acc := zeroTrack scenarioCodes, resynced := [] }
    SUCCESS FAILURE SUCCESS { bytes := scenarioMovie, position := 640 }
    { bytes := scenarioMovie, position := 704 } { bytes := scenarioMovie, position := 768 }
    scenarioCttsBox { zeroTrack scenarioCodes with ctts_entry_count := 1 }
    [CursorCall.skip 64] rfl rfl rfl rfl (by decide) rfl

/-! ### Claims on mp4_fileParse -/

/-- C25 (amended): the return code with which the loop of `mp4_fileParse` ends, `FAILURE`
after a content parser has failed, is not what `mp4_fileParse` returns.  If the loop has
registered no track, `mp4_fileParse` returns `FAILURE` and leaves the registry as it was;
otherwise it converts every track registered up to the failure, and returns `FAILURE`
when the registry then holds no video and no audio track, `SUCCESS` when it holds one. -/
theorem mp4_fileParse_after_walk (codes : Mp4Codes) (env : Mp4Env) (fuel : Nat)
    (bitstr : Bitstream) (media : MediaFile) (w : Walk Mp4)
    (hwalk : fileWalk codes env fuel bitstr media = .ok (some w)) :
    (w.acc.tracks = [] →
      mp4_fileParse codes env fuel (some bitstr) media = .ok (some (FAILURE, media))) ∧
    (w.acc.tracks ≠ [] → ∀ media',
      convertTracks env.init_bitstream_map w.acc.tracks media = .ok media' →
      (media'.tracks_video = [] ∧ media'.tracks_audio = [] →
        mp4_fileParse codes env fuel (some bitstr) media = .ok (some (FAILURE, media'))) ∧
      (¬ (media'.tracks_video = [] ∧ media'.tracks_audio = []) →
        mp4_fileParse codes env fuel (some bitstr) media = .ok (some (SUCCESS, media')))) := by
  unfold mp4_fileParse
  simp only [hwalk]
  unfold convertAll returned
  refine ⟨fun hnil => ?_, fun hne media' hconv => ⟨fun hno => ?_, fun hsome => ?_⟩⟩
  · simp [hnil]
  · have hlen : ¬ w.acc.tracks.length = 0 := by simpa using hne
    simp only [hlen, if_false, hconv]
    simp [hno.1, hno.2]
  · have hlen : ¬ w.acc.tracks.length = 0 := by simpa using hne
    simp only [hlen, if_false, hconv]
    have hc : ¬ (media'.tracks_video.length = 0 ∧ media'.tracks_audio.length = 0) := by
      simpa using hsome
    simp only [hc, if_false]

/-- C26 (amended): when `mp4_fileParse` returns for a cursor that is not NULL, the
return code is `SUCCESS` or `FAILURE`, and it is `FAILURE` exactly when the loop has
registered no track or the registry, after the conversion of the registered tracks,
holds no video and no audio track: tracks in the subtitle slot and in the slot of the
other tracks do not count.  The registry is untouched when no track was registered. -/
theorem mp4_fileParse_return_code (codes : Mp4Codes) (env : Mp4Env) (fuel : Nat)
    (bitstr : Bitstream) (media media' : MediaFile) (rc : Int)
    (h : mp4_fileParse codes env fuel (some bitstr) media = .ok (some (rc, media'))) :
    ∃ w, fileWalk codes env fuel bitstr media = .ok (some w) ∧
      (rc = SUCCESS ∨ rc = FAILURE) ∧
      (rc = FAILURE ↔
        (w.acc.tracks = [] ∨ (media'.tracks_video = [] ∧ media'.tracks_audio = []))) ∧
      (w.acc.tracks = [] → media' = media) ∧
      (w.acc.tracks ≠ [] →
        convertTracks env.init_bitstream_map w.acc.tracks media = .ok media') := by
  unfold mp4_fileParse at h
  simp only at h
  split at h
  · rename_i w hw
    refine ⟨w, hw, ?_⟩
    unfold convertAll returned at h
    by_cases hnil : w.acc.tracks = []
    · simp only [hnil, List.length_nil, if_true, Except.ok.injEq, Option.some.injEq,
        Prod.mk.injEq] at h
      refine ⟨Or.inr h.1.symm, ?_, fun _ => h.2.symm, fun hne => absurd hnil hne⟩
      rw [← h.1]
      simp [hnil]
    · have hlen : ¬ w.acc.tracks.length = 0 := by simpa using hnil
      simp only [hlen, if_false] at h
      cases hconv : convertTracks env.init_bitstream_map w.acc.tracks media with
      | error e =>
        rw [hconv] at h
        cases h
      | ok m =>
        rw [hconv] at h
        simp only at h
        by_cases hc : m.tracks_video.length = 0 ∧ m.tracks_audio.length = 0
        · rw [if_pos hc] at h
          simp only [Except.ok.injEq, Option.some.injEq, Prod.mk.injEq] at h
          obtain ⟨hrc, hm⟩ := h
          subst hm
          refine ⟨Or.inr hrc.symm, ?_, fun hn => absurd hn hnil, fun _ => rfl⟩
          rw [← hrc]
          simp only [true_iff]
          right
          simpa using hc
        · rw [if_neg hc] at h
          simp only [Except.ok.injEq, Option.some.injEq, Prod.mk.injEq] at h
          obtain ⟨hrc, hm⟩ := h
          subst hm
          refine ⟨Or.inl hrc.symm, ?_, fun hn => absurd hn hnil, fun _ => rfl⟩
          rw [← hrc]
          have hne : SUCCESS ≠ FAILURE := by decide
          simp only [hne, false_iff, not_or]
          refine ⟨hnil, ?_⟩
          simpa using hc
  · cases h
  · cases h

/-- C27: `parse_unknown_box` returns `SUCCESS` for every header and leaves the cursor
where it is (it is given no track and no table); and for every box whose type is none of
`BOX_FTYP`, `BOX_PDIN`, `BOX_MOOV` and `BOX_MDAT`, the `switch` of `mp4_fileParse` is a call
of `parse_unknown_box`, so that the body of the loop gives the return code `SUCCESS`,
leaves the movie untouched and runs `jumpy_mp4`, without a parent, on the cursor as the
header left it. -/
theorem unknown_box_is_skipped (codes : Mp4Codes) (env : Mp4Env) (fuel : Nat) (w : Walk Mp4)
    (rc rcj : Int) (b1 moved : Bitstream) (box : Mp4Box) (calls : List CursorCall)
    (hhead : parse_box_header codes.BOX_UUID w.bitstr (some emptyBox) = .ok (rc, b1, some box))
    (hftyp : box.boxtype ≠ codes.BOX_FTYP) (hpdin : box.boxtype ≠ codes.BOX_PDIN)
    (hmoov : box.boxtype ≠ codes.BOX_MOOV) (hmdat : box.boxtype ≠ codes.BOX_MDAT)
    (hjump : jumpy_mp4 b1 none box = .ok (rcj, moved, calls)) :
    (∀ bitstr header, parse_unknown_box bitstr header = (SUCCESS, bitstr)) ∧
    fileDispatch codes env fuel b1 box w.acc =
      .ok (some ((parse_unknown_box b1 box).1, (parse_unknown_box b1 box).2, w.acc)) ∧
    walkStep codes (fileDispatch codes env fuel) none none w =
      .ok (some { retcode := SUCCESS, bitstr := moved, acc := w.acc,
                  resynced := w.resynced ++ [box] }) := by
  have hd : fileDispatch codes env fuel b1 box w.acc =
      .ok (some ((parse_unknown_box b1 box).1, (parse_unknown_box b1 box).2, w.acc)) := by
    unfold fileDispatch unknownBox
    simp only [hftyp, hpdin, hmoov, hmdat, if_false, ite_self]
  refine ⟨fun _ _ => rfl, hd, ?_⟩
  exact walkStep_dispatch codes (fileDispatch codes env fuel) none none w rc SUCCESS rcj b1 b1
    moved box w.acc calls hhead rfl hd hjump

theorem unknown_box_is_skipped_witness :
    (∀ bitstr header, parse_unknown_box bitstr header = (SUCCESS, bitstr)) ∧
    fileDispatch scenarioCodes (scenarioEnv true) 4 { scenarioShortBox with position := 64 }
      scenarioShortBoxHeader
      ({ retcode := SUCCESS, bitstr := scenarioShortBox, acc := { run := true, tracks := [] },
         resynced := [] } : Walk Mp4).acc =
      .ok (some ((parse_unknown_box { scenarioShortBox with position := 64 }
          scenarioShortBoxHeader).1,
        (parse_unknown_box { scenarioShortBox with position := 64 } scenarioShortBoxHeader).2,
        ({ retcode := SUCCESS, bitstr := scenarioShortBox, acc := { run := true, tracks := [] },
           resynced := [] } : Walk Mp4).acc)) ∧
    walkStep scenarioCodes (fileDispatch scenarioCodes (scenarioEnv true) 4) none none
      { retcode := SUCCESS, bitstr := scenarioShortBox, acc := { run := true, tracks := [] },
        resynced := [] } =
      .ok (some { retcode := SUCCESS, bitstr := { scenarioShortBox with position := 32 },
                  acc := ({ retcode := SUCCESS, bitstr := scenarioShortBox,
                            acc := { run := true, tracks := [] },
                            resynced := [] } : Walk Mp4).acc,
                  resynced := ({ retcode := SUCCESS, bitstr := scenarioShortBox,
                                 acc := { run := true, tracks := [] },
                                 resynced := [] } : Walk Mp4).resynced ++
                    [scenarioShortBoxHeader] }) :=
  unknown_box_is_skipped scenarioCodes (scenarioEnv true) 4
    { retcode := SUCCESS, bitstr := scenarioShortBox, acc := { run := true, tracks := [] },
      resynced := [] }
    SUCCESS SUCCESS { scenarioShortBox with position := 64 }
    { scenarioShortBox with position := 32 } scenarioShortBoxHeader [CursorCall.seek 4]
    rfl (by decide) (by decide) (by decide) (by decide) rfl

/-! ### parse_stsd -/

theorem readByte_loop (n : Nat) (b b' : Bitstream) (h : forLoop readByte 0 n b = .ok b') :
    b' = { b with position := b.position + 8 * n } := by
  have key := forLoop_invariant readByte
    (fun i t => t = { b with position := b.position + 8 * i }) n 0 b b' ?_ ?_ h
  · simpa using key
  · intro i t t' _ _ hP hb
    simp only [readByte, bind_ok_iff, pure_ok_iff] at hb
    obtain ⟨⟨v, b1⟩, hr, rfl⟩ := hb
    obtain ⟨_, e⟩ := read_bits_spec _ _ _ _ hr
    simp only
    rw [e, hP]
    simp only [Bitstream.mk.injEq, true_and]
    omega
  · simp

/-- The part of `parse_stsd` in front of the `switch`: the return code is that of
`parse_box_header`, `SUCCESS`, and `fcc` is the type of the sample entry, the 32 bits that
stand 12 bytes into the content of the box. -/
theorem stsdHead_ok (codes : Mp4Codes) (bitstr b : Bitstream) (box box' sub : Mp4Box)
    (track t : Mp4Track) (rc : Int)
    (h : stsdHead codes bitstr box track = .ok (rc, b, box', sub, t)) :
    rc = SUCCESS ∧ t = { track with fcc := sub.boxtype } ∧
    ∃ rest, read_bits { bitstr with position := bitstr.position + 96 } 32 =
      .ok (sub.boxtype, rest) := by
  simp only [stsdHead, bind_ok_iff, pure_ok_iff, Prod.mk.injEq] at h
  obtain ⟨b1, hloop, ⟨v2, b2⟩, h2, ⟨rc0, b3, header⟩, hhead, ⟨v4, b4⟩, _, ⟨v5, b5⟩, _,
    ⟨v6, b6⟩, _, hrc, _, _, hsub, ht⟩ := h
  have e1 := readByte_loop 6 bitstr b1 hloop
  obtain ⟨_, e2⟩ := read_bits_spec _ _ _ _ h2
  simp only at e2 hhead hrc hsub ht
  obtain ⟨hrc0, size32, c1, boxtype, c2, size, c3, u, hr1, hr2, _, _, _, _, hres⟩ :=
    parse_box_header_ok _ _ _ _ _ _ hhead
  obtain ⟨_, f1⟩ := read_bits_spec _ _ _ _ hr1
  have hbt : sub.boxtype = boxtype := by
    rw [← hsub, hres]
    rfl
  refine ⟨by rw [← hrc, hrc0], ?_, c2, ?_⟩
  · rw [← ht, hsub]
  · rw [hbt, ← hr2, f1, e2, e1]

theorem stsdAudioEntry_ok (codes : Mp4Codes) (bitstr b : Bitstream) (sub : Mp4Box)
    (track t : Mp4Track) (h : stsdAudioEntry codes bitstr sub track = .ok (b, t)) :
    t.codec = stsdAudioCodec codes sub.boxtype ∧ t.fcc = track.fcc := by
  simp only [stsdAudioEntry, bind_ok_iff, pure_ok_iff, Prod.mk.injEq] at h
  obtain ⟨_, _, _, _, _, _, _, _, _, _, _, _, _, _, _, ht⟩ := h
  rw [← ht]
  exact ⟨rfl, rfl⟩

theorem stsdVideoEntry_ok (codes : Mp4Codes) (bitstr b : Bitstream) (sub : Mp4Box)
    (track t : Mp4Track) (h : stsdVideoEntry codes bitstr sub track = .ok (b, t)) :
    t = { track with codec := stsdVideoCodec codes sub.boxtype } := by
  simp only [stsdVideoEntry, bind_ok_iff, pure_ok_iff, Prod.mk.injEq] at h
  obtain ⟨_, _, _, _, _, _, _, _, _, _, _, _, _, _, _, _, _, _, _, _, _, _, _, _, _, _, _, _,
    _, _, _, ht⟩ := h
  exact ht.symm

theorem parse_avcC_ok (bitstr b : Bitstream) (box : Mp4Box) (track t : Mp4Track) (rc : Int)
    (h : parse_avcC bitstr box track = .ok (rc, b, t)) :
    rc = SUCCESS ∧ t.codec = CODEC_H264 ∧ t.fcc = track.fcc := by
  simp only [parse_avcC, bind_ok_iff, pure_ok_iff, Prod.mk.injEq] at h
  obtain ⟨_, _, _, _, _, _, _, _, _, _, _, _, _, _, _, _, _, _, _, _, _, _, hrc, _, ht⟩ := h
  rw [← ht]
  exact ⟨hrc.symm, rfl, rfl⟩

theorem parse_btrt_ok (bitstr b : Bitstream) (box : Mp4Box) (track t : Mp4Track) (rc : Int)
    (h : parse_btrt bitstr box track = .ok (rc, b, t)) : rc = SUCCESS ∧ t = track := by
  simp only [parse_btrt, bind_ok_iff, pure_ok_iff, Prod.mk.injEq] at h
  obtain ⟨_, _, _, _, _, _, hrc, _, ht⟩ := h
  exact ⟨hrc.symm, ht.symm⟩

theorem parse_clap_ok (bitstr b : Bitstream) (box : Mp4Box) (track t : Mp4Track) (rc : Int)
    (h : parse_clap bitstr box track = .ok (rc, b, t)) : rc = SUCCESS ∧ t = track := by
  simp only [parse_clap, bind_ok_iff, pure_ok_iff, Prod.mk.injEq] at h
  obtain ⟨_, _, _, _, _, _, _, _, _, _, _, _, _, _, _, _, hrc, _, ht⟩ := h
  exact ⟨hrc.symm, ht.symm⟩

theorem parse_colr_ok (codes : Mp4Codes) (bitstr b : Bitstream) (box : Mp4Box)
    (track t : Mp4Track) (rc : Int)
    (h : parse_colr codes bitstr box track = .ok (rc, b, t)) : rc = SUCCESS ∧ t = track := by
  simp only [parse_colr, bind_ok_iff] at h
  obtain ⟨⟨colour_type, b1⟩, _, h⟩ := h
  simp only at h
  split at h
  · simp only [bind_ok_iff, pure_ok_iff, Prod.mk.injEq] at h
    obtain ⟨_, _, _, _, _, _, _, _, hrc, _, ht⟩ := h
    exact ⟨hrc.symm, ht.symm⟩
  · simp only [pure_ok_iff, Prod.mk.injEq] at h
    exact ⟨h.1.symm, h.2.2.symm⟩

theorem parse_pasp_ok (bitstr b : Bitstream) (box : Mp4Box) (track t : Mp4Track) (rc : Int)
    (h : parse_pasp bitstr box track = .ok (rc, b, t)) : rc = SUCCESS ∧ t = track := by
  simp only [parse_pasp, bind_ok_iff, pure_ok_iff, Prod.mk.injEq] at h
  obtain ⟨_, _, _, _, hrc, _, ht⟩ := h
  exact ⟨hrc.symm, ht.symm⟩

theorem returned_ok {α : Type} (x : Except Fault α) (a : α) (h : returned x = .ok (some a)) :
    x = .ok a := by
  unfold returned at h
  split at h
  · simp only [Except.ok.injEq, Option.some.injEq] at h
    rw [h]
  · cases h

/-- The `switch` of `parse_stsd` never fails; an `avcC` box sets the codec to H.264, every
other box leaves the codec alone. -/
theorem stsdDispatch_ok (codes : Mp4Codes) (bitstr b : Bitstream) (box : Mp4Box)
    (track t : Mp4Track) (rc : Int)
    (h : stsdDispatch codes bitstr box track = .ok (some (rc, b, t))) :
    rc = SUCCESS ∧ t.fcc = track.fcc ∧
    (box.boxtype = codes.BOX_AVCC → t.codec = CODEC_H264) ∧
    (box.boxtype ≠ codes.BOX_AVCC → t.codec = track.codec) := by
  unfold stsdDispatch at h
  by_cases h1 : box.boxtype = codes.BOX_AVCC
  · rw [if_pos h1] at h
    obtain ⟨e1, e2, e3⟩ := parse_avcC_ok _ _ _ _ _ _ (returned_ok _ _ h)
    exact ⟨e1, e3, fun _ => e2, fun hne => absurd h1 hne⟩
  rw [if_neg h1] at h
  have same : rc = SUCCESS ∧ t = track →
      rc = SUCCESS ∧ t.fcc = track.fcc ∧
      (box.boxtype = codes.BOX_AVCC → t.codec = CODEC_H264) ∧
      (box.boxtype ≠ codes.BOX_AVCC → t.codec = track.codec) := by
    rintro ⟨e1, e2⟩
    rw [e2]
    exact ⟨e1, rfl, fun he => absurd he h1, fun _ => rfl⟩
  apply same
  by_cases h2 : box.boxtype = codes.BOX_BTRT
  · rw [if_pos h2] at h
    exact parse_btrt_ok _ _ _ _ _ _ (returned_ok _ _ h)
  rw [if_neg h2] at h
  by_cases h3 : box.boxtype = codes.BOX_CLAP
  · rw [if_pos h3] at h
    exact parse_clap_ok _ _ _ _ _ _ (returned_ok _ _ h)
  rw [if_neg h3] at h
  by_cases h4 : box.boxtype = codes.BOX_COLR
  · rw [if_pos h4] at h
    exact parse_colr_ok _ _ _ _ _ _ _ (returned_ok _ _ h)
  rw [if_neg h4] at h
  by_cases h5 : box.boxtype = codes.BOX_FIEL
  · rw [if_pos h5] at h
    have := returned_ok _ _ h
    simp only [parse_fiel, pure_ok_iff, Prod.mk.injEq] at this
    exact ⟨this.1.symm, this.2.2.symm⟩
  rw [if_neg h5] at h
  by_cases h6 : box.boxtype = codes.BOX_GAMA
  · rw [if_pos h6] at h
    have := returned_ok _ _ h
    simp only [parse_gama, pure_ok_iff, Prod.mk.injEq] at this
    exact ⟨this.1.symm, this.2.2.symm⟩
  rw [if_neg h6] at h
  by_cases h7 : box.boxtype = codes.BOX_PASP
  · rw [if_pos h7] at h
    exact parse_pasp_ok _ _ _ _ _ _ (returned_ok _ _ h)
  rw [if_neg h7] at h
  simp only [unknownBox, parse_unknown_box, Except.ok.injEq, Option.some.injEq,
    Prod.mk.injEq] at h
  exact ⟨h.1.symm, h.2.2.symm⟩

/-- The loop of `parse_stsd` over the boxes inside a sample entry: it ends with the return
code `SUCCESS`, and the codec is H.264 when an `avcC` box has been walked and the codec of
the start otherwise. -/
theorem stsdWalk_codec (codes : Mp4Codes) (parent : Option Mp4Box) (bound : Int) (fuel : Nat)
    (w w' : Walk Mp4Track) (hrc : w.retcode = SUCCESS) (hlog : w.resynced = [])
    (h : treeWalk codes (stsdDispatch codes) parent none (fun _ => true) bound fuel w =
      .ok (some w')) :
    w'.retcode = SUCCESS ∧ w'.acc.fcc = w.acc.fcc ∧
    ((∃ child ∈ w'.resynced, child.boxtype = codes.BOX_AVCC) → w'.acc.codec = CODEC_H264) ∧
    ((∀ child ∈ w'.resynced, child.boxtype ≠ codes.BOX_AVCC) →
      w'.acc.codec = w.acc.codec) := by
  unfold treeWalk at h
  have key := whileLoop_invariant (walkCond (fun _ => true) bound)
    (walkStep codes (stsdDispatch codes) parent none)
    (fun v => v.retcode = SUCCESS ∧ v.acc.fcc = w.acc.fcc ∧
      ((∃ child ∈ v.resynced, child.boxtype = codes.BOX_AVCC) → v.acc.codec = CODEC_H264) ∧
      ((∀ child ∈ v.resynced, child.boxtype ≠ codes.BOX_AVCC) → v.acc.codec = w.acc.codec))
    ?_ fuel w w' ?_ h
  · exact key.1
  · intro v v' _ hP hstep
    obtain ⟨_, hfcc, havc, hnone⟩ := hP
    obtain ⟨b1, box, _, hcase⟩ := walkStep_ok _ _ _ _ _ _ hstep
    rcases hcase with ⟨_, rcd, b2, acc, rcj, moved, calls, hd, _, hv'⟩ | ⟨hg, _⟩
    · obtain ⟨e1, e2, e3, e4⟩ := stsdDispatch_ok _ _ _ _ _ _ _ hd
      rw [hv']
      simp only [List.mem_append, List.mem_singleton]
      refine ⟨e1, by rw [e2, hfcc], ?_, ?_⟩
      · rintro ⟨child, hmem, hchild⟩
        by_cases hbox : box.boxtype = codes.BOX_AVCC
        · exact e3 hbox
        · rw [e4 hbox]
          rcases hmem with hmem | hmem
          · exact havc ⟨child, hmem, hchild⟩
          · rw [hmem] at hchild
            exact absurd hchild hbox
      · intro hall
        have hbox : box.boxtype ≠ codes.BOX_AVCC := hall box (Or.inr rfl)
        rw [e4 hbox]
        exact hnone (fun child hmem => hall child (Or.inl hmem))
    · simp [insideGuard] at hg
  · refine ⟨hrc, rfl, ?_, fun _ => rfl⟩
    rw [hlog]
    rintro ⟨child, hmem, _⟩
    cases hmem

/-! ### Claim on parse_stsd -/

/-- C30 (counterexample): the sample entry of `scenarioStsd` has the type tag `avc3`,
which is not in the table of the video handler, and holds an `avcC` box; `parse_stsd`
returns for the video track with the codec `CODEC_H264`, not `CODEC_UNKNOWN`. -/
theorem parse_stsd_counterexample :
    stsdVideoCodec scenarioCodes (tag 97 118 99 51) = CODEC_UNKNOWN ∧
    parse_stsd scenarioCodes 4 scenarioStsd emptyBox emptyTrack =
      .ok (some (SUCCESS, { scenarioStsd with position := 872 }, emptyBox,
        { emptyTrack with codec := CODEC_H264, fcc := tag 97 118 99 51 }, [scenarioAvcC])) := by
  refine ⟨by decide, rfl⟩

/-- C30 (amended): when `parse_stsd` returns, it returns `SUCCESS`, whatever the type tag
of the sample entry, and `fcc` is that tag (the 32 bits 12 bytes into the content).  For
an audio track the codec is the tag's entry in the table `mp4a` -> AAC, `AC-3`/`ac-3` ->
AC3, `AC-4`/`ac-4` -> AC4, `sowt` -> LPCM, every other tag -> `CODEC_UNKNOWN`.  For a video
track the codec is `CODEC_H264` when the sample entry holds an `avcC` box that the loop has
walked, whatever the tag; otherwise it is the tag's entry in the table `avc1` -> H264,
`hvc1` -> H265, `mp4v` -> MPEG4_ASP, `CFHD` -> VC5, every other tag -> `CODEC_UNKNOWN`.
For a track of another handler the codec is left as it was. -/
theorem parse_stsd_codec (codes : Mp4Codes) (fuel : Nat) (bitstr parsed : Bitstream)
    (box box' : Mp4Box) (track track' : Mp4Track) (rc : Int) (children : List Mp4Box)
    (h : parse_stsd codes fuel bitstr box track =
      .ok (some (rc, parsed, box', track', children))) :
    rc = SUCCESS ∧
    (∃ rest, read_bits { bitstr with position := bitstr.position + 96 } 32 =
      .ok (track'.fcc, rest)) ∧
    (track.handlerType = HANDLER_AUDIO →
      track'.codec = stsdAudioCodec codes track'.fcc) ∧
    (track.handlerType = HANDLER_VIDEO →
      ((∃ child ∈ children, child.boxtype = codes.BOX_AVCC) →
        track'.codec = CODEC_H264) ∧
      ((∀ child ∈ children, child.boxtype ≠ codes.BOX_AVCC) →
        track'.codec = stsdVideoCodec codes track'.fcc)) ∧
    (track.handlerType ≠ HANDLER_AUDIO → track.handlerType ≠ HANDLER_VIDEO →
      track'.codec = track.codec) := by
  unfold parse_stsd at h
  cases hhead : stsdHead codes bitstr box track with
  | error e =>
    rw [hhead] at h
    cases h
  | ok r =>
    obtain ⟨rc0, b0, hb, sub, t0⟩ := r
    rw [hhead] at h
    simp only at h
    obtain ⟨hrc0, ht0, rest, hread⟩ := stsdHead_ok _ _ _ _ _ _ _ _ _ hhead
    have hh : t0.handlerType = track.handlerType := by rw [ht0]
    have hf : t0.fcc = sub.boxtype := by rw [ht0]
    have hc : t0.codec = track.codec := by rw [ht0]
    by_cases haudio : track.handlerType = HANDLER_AUDIO
    · rw [show t0.handlerType = HANDLER_AUDIO by rw [hh, haudio]] at h
      simp only at h
      cases he : stsdAudioEntry codes b0 sub t0 with
      | error e =>
        rw [he] at h
        cases h
      | ok r =>
        obtain ⟨b1, t1⟩ := r
        rw [he] at h
        simp only [Except.ok.injEq, Option.some.injEq, Prod.mk.injEq] at h
        obtain ⟨hrc, _, _, ht, _⟩ := h
        obtain ⟨e1, e2⟩ := stsdAudioEntry_ok _ _ _ _ _ _ he
        have hfcc : track'.fcc = sub.boxtype := by rw [← ht, e2, hf]
        refine ⟨by rw [← hrc, hrc0], ⟨rest, by rw [hfcc]; exact hread⟩, ?_, ?_, ?_⟩
        · intro _
          rw [hfcc, ← ht]
          exact e1
        · intro hv
          rw [haudio] at hv
          cases hv
        · intro hna
          exact absurd haudio hna
    by_cases hvideo : track.handlerType = HANDLER_VIDEO
    · rw [show t0.handlerType = HANDLER_VIDEO by rw [hh, hvideo]] at h
      simp only at h
      cases he : stsdVideoEntry codes b0 sub t0 with
      | error e =>
        rw [he] at h
        cases h
      | ok r =>
        obtain ⟨b1, t1⟩ := r
        rw [he] at h
        simp only at h
        have e1 := stsdVideoEntry_ok _ _ _ _ _ _ he
        split at h
        · rename_i w hw
          simp only [Except.ok.injEq, Option.some.injEq, Prod.mk.injEq] at h
          obtain ⟨hrc, _, _, ht, hl⟩ := h
          obtain ⟨w1, w2, w3, w4⟩ := stsdWalk_codec codes _ _ _ _ w hrc0 rfl hw
          simp only at w2 w4
          have hfcc : track'.fcc = sub.boxtype := by rw [← ht, w2, e1, hf]
          refine ⟨by rw [← hrc, w1], ⟨rest, by rw [hfcc]; exact hread⟩, ?_, ?_, ?_⟩
          · intro ha
            exact absurd ha haudio
          · intro _
            rw [← hl, ← ht]
            refine ⟨w3, fun hall => ?_⟩
            rw [w4 hall, e1, w2, e1, hf]
          · intro _ hnv
            exact absurd hvideo hnv
        · cases h
        · cases h
    · have hother : t0.handlerType ≠ HANDLER_AUDIO ∧ t0.handlerType ≠ HANDLER_VIDEO := by
        rw [hh]
        exact ⟨haudio, hvideo⟩
      split at h
      · rename_i heq
        exact absurd heq hother.1
      · rename_i heq
        exact absurd heq hother.2
      · simp only [Except.ok.injEq, Option.some.injEq, Prod.mk.injEq] at h
        obtain ⟨hrc, _, _, ht, _⟩ := h
        have hfcc : track'.fcc = sub.boxtype := by rw [← ht, hf]
        refine ⟨by rw [← hrc, hrc0], ⟨rest, by rw [hfcc]; exact hread⟩, ?_, ?_, ?_⟩
        · intro ha
          exact absurd ha haudio
        · intro hv
          exact absurd hv hvideo
        · intro _ _
          rw [← ht, hc]

theorem parse_stsd_codec_witness :
    SUCCESS = SUCCESS ∧
    (∃ rest, read_bits { scenarioStsd with position := scenarioStsd.position + 96 } 32 =
      .ok (({ emptyTrack with codec := CODEC_H264, fcc := tag 97 118 99 51 } : Mp4Track).fcc,
        rest)) ∧
    (emptyTrack.handlerType = HANDLER_AUDIO →
      ({ emptyTrack with codec := CODEC_H264, fcc := tag 97 118 99 51 } : Mp4Track).codec =
        stsdAudioCodec scenarioCodes
          ({ emptyTrack with codec := CODEC_H264, fcc := tag 97 118 99 51 } : Mp4Track).fcc) ∧
    (emptyTrack.handlerType = HANDLER_VIDEO →
      ((∃ child ∈ [scenarioAvcC], child.boxtype = scenarioCodes.BOX_AVCC) →
        ({ emptyTrack with codec := CODEC_H264, fcc := tag 97 118 99 51 } : Mp4Track).codec =
          CODEC_H264) ∧
      ((∀ child ∈ [scenarioAvcC], child.boxtype ≠ scenarioCodes.BOX_AVCC) →
        ({ emptyTrack with codec := CODEC_H264, fcc := tag 97 118 99 51 } : Mp4Track).codec =
          stsdVideoCodec scenarioCodes
            ({ emptyTrack with codec := CODEC_H264,
                               fcc := tag 97 118 99 51 } : Mp4Track).fcc)) ∧
    (emptyTrack.handlerType ≠ HANDLER_AUDIO → emptyTrack.handlerType ≠ HANDLER_VIDEO →
      ({ emptyTrack with codec := CODEC_H264, fcc := tag 97 118 99 51 } : Mp4Track).codec =
        emptyTrack.codec) :=
  parse_stsd_codec scenarioCodes 4 scenarioStsd { scenarioStsd with position := 872 }
    emptyBox emptyBox emptyTrack
    { emptyTrack with codec := CODEC_H264, fcc := tag 97 118 99 51 } SUCCESS [scenarioAvcC]
    rfl

/-! ### fourcc.c -/

/-- The four bytes of a number that `tag` packs. -/
theorem tag_bytes (b3 b2 b1 b0 : Nat) (h3 : b3 < 256) (h2 : b2 < 256) (h1 : b1 < 256)
    (h0 : b0 < 256) :
    tag b3 b2 b1 b0 / 16777216 % 256 = b3 ∧ tag b3 b2 b1 b0 / 65536 % 256 = b2 ∧
    tag b3 b2 b1 b0 / 256 % 256 = b1 ∧ tag b3 b2 b1 b0 % 256 = b0 ∧
    tag b3 b2 b1 b0 < 4294967296 := by
  unfold tag
  refine ⟨?_, ?_, ?_, ?_, ?_⟩ <;> omega

/-- C40: for every 32-bit `fcc` and every buffer of at least 5 bytes, `getFccString_le`
stores the four bytes of `fcc`, the most significant first, and a 0 at index 4, leaving
the rest of the buffer alone; packing the four bytes big-endian gives `fcc` back;
`getFccString_be` stores the same four bytes in the reverse order and a 0 at index 4,
which is what `getFccString_le` stores for the byte-swapped `fcc`. -/
theorem getFccString_bytes (fcc : Nat) (buffer : List Nat) (hfcc : fcc < 4294967296)
    (hbuffer : 5 ≤ buffer.length) :
    ∃ b3 b2 b1 b0, b3 < 256 ∧ b2 < 256 ∧ b1 < 256 ∧ b0 < 256 ∧
      tag b3 b2 b1 b0 = fcc ∧
      getFccString_le fcc (some buffer) = .ok (some ([b3, b2, b1, b0, 0] ++ buffer.drop 5)) ∧
      getFccString_be fcc (some buffer) = .ok (some ([b0, b1, b2, b3, 0] ++ buffer.drop 5)) ∧
      getFccString_be fcc (some buffer) = getFccString_le (byteSwap32 fcc) (some buffer) := by
  have e24 : (2 : Nat) ^ 24 = 16777216 := by norm_num
  have e16 : (2 : Nat) ^ 16 = 65536 := by norm_num
  have e8 : (2 : Nat) ^ 8 = 256 := by norm_num
  have e0 : (2 : Nat) ^ 0 = 1 := by norm_num
  have hu : u32 fcc = fcc := by
    unfold u32
    omega
  have hswap : byteSwap32 fcc < 4294967296 :=
    (tag_bytes (fcc % 256) (fcc / 2 ^ 8 % 256) (fcc / 2 ^ 16 % 256) (fcc / 2 ^ 24 % 256)
      (Nat.mod_lt _ (by decide)) (Nat.mod_lt _ (by decide)) (Nat.mod_lt _ (by decide))
      (Nat.mod_lt _ (by decide))).2.2.2.2
  have hus : u32 (byteSwap32 fcc) = byteSwap32 fcc := by
    unfold u32
    omega
  rcases buffer with _ | ⟨x0, _ | ⟨x1, _ | ⟨x2, _ | ⟨x3, _ | ⟨x4, rest⟩⟩⟩⟩⟩
  · simp at hbuffer
  · simp at hbuffer
  · simp at hbuffer
  · simp at hbuffer
  · simp at hbuffer
  · have hle : getFccString_le fcc (some (x0 :: x1 :: x2 :: x3 :: x4 :: rest)) =
        .ok (some ([fcc / 16777216 % 256, fcc / 65536 % 256, fcc / 256 % 256, fcc % 256, 0] ++
          (x0 :: x1 :: x2 :: x3 :: x4 :: rest).drop 5)) := by
      unfold getFccString_le
      rw [hu, e24, e16, e8, e0]
      simp [writeAt, bind, Except.bind, pure, Except.pure]
    have hbe : getFccString_be fcc (some (x0 :: x1 :: x2 :: x3 :: x4 :: rest)) =
        .ok (some ([fcc % 256, fcc / 256 % 256, fcc / 65536 % 256, fcc / 16777216 % 256, 0] ++
          (x0 :: x1 :: x2 :: x3 :: x4 :: rest).drop 5)) := by
      unfold getFccString_be
      rw [hu, e24, e16, e8, e0]
      simp [writeAt, bind, Except.bind, pure, Except.pure]
    have hles : getFccString_le (byteSwap32 fcc) (some (x0 :: x1 :: x2 :: x3 :: x4 :: rest)) =
        .ok (some ([fcc % 256, fcc / 256 % 256, fcc / 65536 % 256, fcc / 16777216 % 256, 0] ++
          (x0 :: x1 :: x2 :: x3 :: x4 :: rest).drop 5)) := by
      unfold getFccString_le
      rw [hus, e24, e16, e8, e0]
      obtain ⟨a3, a2, a1, a0, _⟩ := tag_bytes (fcc % 256) (fcc / 2 ^ 8 % 256)
        (fcc / 2 ^ 16 % 256) (fcc / 2 ^ 24 % 256) (Nat.mod_lt _ (by decide))
        (Nat.mod_lt _ (by decide)) (Nat.mod_lt _ (by decide)) (Nat.mod_lt _ (by decide))
      rw [e8, e16, e24] at a3 a2 a1 a0
      unfold byteSwap32
      rw [e8, e16, e24, Nat.div_one]
      rw [a3, a2, a1, a0]
      simp [writeAt, bind, Except.bind, pure, Except.pure]
    refine ⟨fcc / 16777216 % 256, fcc / 65536 % 256, fcc / 256 % 256, fcc % 256,
      by omega, by omega, by omega, by omega, ?_, hle, hbe, ?_⟩
    · unfold tag
      omega
    · rw [hbe, hles]

theorem getFccString_bytes_witness :
    ∃ b3 b2 b1 b0, b3 < 256 ∧ b2 < 256 ∧ b1 < 256 ∧ b0 < 256 ∧
      tag b3 b2 b1 b0 = 1835295092 ∧
      getFccString_le 1835295092 (some [9, 9, 9, 9, 9, 9]) =
        .ok (some ([b3, b2, b1, b0, 0] ++ [9, 9, 9, 9, 9, 9].drop 5)) ∧
      getFccString_be 1835295092 (some [9, 9, 9, 9, 9, 9]) =
        .ok (some ([b0, b1, b2, b3, 0] ++ [9, 9, 9, 9, 9, 9].drop 5)) ∧
      getFccString_be 1835295092 (some [9, 9, 9, 9, 9, 9]) =
        getFccString_le (byteSwap32 1835295092) (some [9, 9, 9, 9, 9, 9]) :=
  getFccString_bytes 1835295092 [9, 9, 9, 9, 9, 9] (by decide) (by decide)

/-! ### The two tables from type tags to codecs -/

theorem scenarioFourcc_injective : Function.Injective scenarioFourcc := by
  intro a b h
  unfold scenarioFourcc at h
  have e : a.toCtorIdx = b.toCtorIdx := by omega
  rw [← Fcc.ofNat_toCtorIdx a, ← Fcc.ofNat_toCtorIdx b, e]

/-- What `getCodecFromFourCC` gives for the ten constants that `parse_stsd` knows, when
the case labels of its `switch` are pairwise distinct. -/
theorem getCodecFromFourCC_tags (fourcc : Fcc → Nat) (hinj : Function.Injective fourcc) :
    getCodecFromFourCC fourcc (fourcc Fcc.fcc_mp4a) = CODEC_AAC ∧
    getCodecFromFourCC fourcc (fourcc Fcc.fcc_AC3) = CODEC_AC3 ∧
    getCodecFromFourCC fourcc (fourcc Fcc.fcc_ac3) = CODEC_AC3 ∧
    getCodecFromFourCC fourcc (fourcc Fcc.fcc_AC4) = CODEC_AC4 ∧
    getCodecFromFourCC fourcc (fourcc Fcc.fcc_ac4) = CODEC_AC4 ∧
    getCodecFromFourCC fourcc (fourcc Fcc.fcc_sowt) = CODEC_LPCM ∧
    getCodecFromFourCC fourcc (fourcc Fcc.fcc_avc1) = CODEC_H264 ∧
    getCodecFromFourCC fourcc (fourcc Fcc.fcc_hvc1) = CODEC_H265 ∧
    getCodecFromFourCC fourcc (fourcc Fcc.fcc_mp4v) = CODEC_MPEG4_ASP ∧
    getCodecFromFourCC fourcc (fourcc Fcc.fcc_CFHD) = CODEC_VC5 := by
  refine ⟨?_, ?_, ?_, ?_, ?_, ?_, ?_, ?_, ?_, ?_⟩ <;>
    simp [getCodecFromFourCC, hinj.eq_iff]

/-- C39: when the case labels of the `switch` of `getCodecFromFourCC` are pairwise
distinct (as C requires of a `switch`) and the tags that `parse_stsd` compares with are
the constants of the same names, then for every type tag the codec of the audio table of
`parse_stsd` is `CODEC_UNKNOWN` or the codec that `getCodecFromFourCC` gives for the tag,
and so is the codec of its video table. -/
theorem stsd_tables_agree (codes : Mp4Codes) (fourcc : Fcc → Nat)
    (hinj : Function.Injective fourcc) (htags : SameTags codes fourcc) (boxtype : Nat) :
    (stsdAudioCodec codes boxtype = CODEC_UNKNOWN ∨
      stsdAudioCodec codes boxtype = getCodecFromFourCC fourcc boxtype) ∧
    (stsdVideoCodec codes boxtype = CODEC_UNKNOWN ∨
      stsdVideoCodec codes boxtype = getCodecFromFourCC fourcc boxtype) := by
  obtain ⟨t1, t2, t3, t4, t5, t6, t7, t8, t9, t10⟩ := htags
  obtain ⟨g1, g2, g3, g4, g5, g6, g7, g8, g9, g10⟩ := getCodecFromFourCC_tags fourcc hinj
  constructor
  · unfold stsdAudioCodec
    rw [t1, t2, t3, t4, t5, t6]
    by_cases h1 : boxtype = fourcc Fcc.fcc_mp4a
    · rw [if_pos h1, h1, g1]
      exact Or.inr rfl
    rw [if_neg h1]
    by_cases h2 : boxtype = fourcc Fcc.fcc_AC3 ∨ boxtype = fourcc Fcc.fcc_ac3
    · rw [if_pos h2]
      rcases h2 with h2 | h2
      · rw [h2, g2]
        exact Or.inr rfl
      · rw [h2, g3]
        exact Or.inr rfl
    rw [if_neg h2]
    by_cases h3 : boxtype = fourcc Fcc.fcc_AC4 ∨ boxtype = fourcc Fcc.fcc_ac4
    · rw [if_pos h3]
      rcases h3 with h3 | h3
      · rw [h3, g4]
        exact Or.inr rfl
      · rw [h3, g5]
        exact Or.inr rfl
    rw [if_neg h3]
    by_cases h4 : boxtype = fourcc Fcc.fcc_sowt
    · rw [if_pos h4, h4, g6]
      exact Or.inr rfl
    rw [if_neg h4]
    exact Or.inl rfl
  · unfold stsdVideoCodec
    rw [t7, t8, t9, t10]
    by_cases h1 : boxtype = fourcc Fcc.fcc_avc1
    · rw [if_pos h1, h1, g7]
      exact Or.inr rfl
    rw [if_neg h1]
    by_cases h2 : boxtype = fourcc Fcc.fcc_hvc1
    · rw [if_pos h2, h2, g8]
      exact Or.inr rfl
    rw [if_neg h2]
    by_cases h3 : boxtype = fourcc Fcc.fcc_mp4v
    · rw [if_pos h3, h3, g9]
      exact Or.inr rfl
    rw [if_neg h3]
    by_cases h4 : boxtype = fourcc Fcc.fcc_CFHD
    · rw [if_pos h4, h4, g10]
      exact Or.inr rfl
    rw [if_neg h4]
    exact Or.inl rfl

theorem stsd_tables_agree_witness :
    (stsdAudioCodec scenarioTagCodes (scenarioFourcc Fcc.fcc_sowt) = CODEC_UNKNOWN ∨
      stsdAudioCodec scenarioTagCodes (scenarioFourcc Fcc.fcc_sowt) =
        getCodecFromFourCC scenarioFourcc (scenarioFourcc Fcc.fcc_sowt)) ∧
    (stsdVideoCodec scenarioTagCodes (scenarioFourcc Fcc.fcc_sowt) = CODEC_UNKNOWN ∨
      stsdVideoCodec scenarioTagCodes (scenarioFourcc Fcc.fcc_sowt) =
        getCodecFromFourCC scenarioFourcc (scenarioFourcc Fcc.fcc_sowt)) :=
  stsd_tables_agree scenarioTagCodes scenarioFourcc scenarioFourcc_injective
    ⟨rfl, rfl, rfl, rfl, rfl, rfl, rfl, rfl, rfl, rfl⟩ (scenarioFourcc Fcc.fcc_sowt)

/-! ### The target of jumpy_mp4 -/

/-- C38: the target of `jumpy_mp4`, the end offset as the function clamps it, never
exceeds the size of the file, for every parent and current header; when
`current.offset_end` and the parent's `offset_end` (if there is a parent) are not
negative, the target lies between 0 and the size of the file; and a call that starts with
the cursor inside the file leaves it inside the file, every seek being one to the
target. -/
theorem jumpy_mp4_target_bounds (bitstr : Bitstream) (parent : Option Mp4Box)
    (current : Mp4Box) (rc : Int) (moved : Bitstream) (calls : List CursorCall)
    (hpos : bitstr.position ≤ 8 * bitstr.bytes.length)
    (h : jumpy_mp4 bitstr parent current = .ok (rc, moved, calls)) :
    jumpTarget parent current (bitstream_get_full_size bitstr) ≤
      bitstream_get_full_size bitstr ∧
    (0 ≤ current.offset_end → (∀ p, parent = some p → 0 ≤ p.offset_end) →
      0 ≤ jumpTarget parent current (bitstream_get_full_size bitstr)) ∧
    (∀ n, CursorCall.seek n ∈ calls →
      n = jumpTarget parent current (bitstream_get_full_size bitstr)) ∧
    bitstream_get_absolute_byte_offset moved ≤ bitstream_get_full_size bitstr := by
  have hU : ((UINT_MAX / 8 : Nat) : Int) = 536870911 := by decide
  have hle : jumpTarget parent current (bitstream_get_full_size bitstr) ≤
      bitstream_get_full_size bitstr := by
    unfold jumpTarget
    split
    · split <;> split <;> omega
    · split <;> omega
  have hnn : 0 ≤ current.offset_end → (∀ p, parent = some p → 0 ≤ p.offset_end) →
      0 ≤ jumpTarget parent current (bitstream_get_full_size bitstr) := by
    intro hc hp
    have hfs : 0 ≤ bitstream_get_full_size bitstr := by
      unfold bitstream_get_full_size
      omega
    unfold jumpTarget
    split
    · rename_i p
      have := hp p rfl
      split <;> split <;> omega
    · split <;> omega
  refine ⟨hle, hnn, ?_⟩
  by_cases hcur : bitstream_get_absolute_byte_offset bitstr = current.offset_end
  · unfold jumpy_mp4 at h
    simp only [ne_eq, hcur, not_true_eq_false, if_false, Except.ok.injEq, Prod.mk.injEq] at h
    obtain ⟨_, hm, hc⟩ := h
    rw [← hm, ← hc]
    refine ⟨(fun n hn => by cases hn), ?_⟩
    unfold bitstream_get_absolute_byte_offset bitstream_get_full_size
    omega
  by_cases hend : jumpTarget parent current (bitstream_get_full_size bitstr) ≥
      bitstream_get_full_size bitstr
  · rw [jumpy_mp4_at_end bitstr parent current hcur hend] at h
    simp only [Except.ok.injEq, Prod.mk.injEq] at h
    obtain ⟨_, hm, hc⟩ := h
    rw [← hm, ← hc]
    refine ⟨(fun n hn => by cases hn), ?_⟩
    unfold bitstream_get_absolute_byte_offset bitstream_get_full_size
    simp only
    omega
  generalize hTdef : jumpTarget parent current (bitstream_get_full_size bitstr) = T at *
  unfold jumpy_mp4 at h
  simp only [ne_eq, hcur, not_false_eq_true, if_true, hTdef, hend, if_false] at h
  unfold bitstream_get_absolute_byte_offset bitstream_get_full_size at *
  by_cases hfwd : ((bitstr.position / 8 : Nat) : Int) < T
  · simp only [hfwd, if_true, bind_ok_iff, subI64_ok_iff] at h
    obtain ⟨jump, ⟨_, rfl⟩, h⟩ := h
    by_cases hsmall : T - ((bitstr.position / 8 : Nat) : Int) < ((UINT_MAX / 8 : Nat) : Int)
    · simp only [hsmall, if_true, bind_ok_iff, mulI64_ok_iff, pure_ok_iff, Prod.mk.injEq] at h
      obtain ⟨bits, ⟨_, rfl⟩, _, hmoved, hc⟩ := h
      rw [← hc]
      refine ⟨(fun n hn => by simp at hn), ?_⟩
      rw [← hmoved]
      unfold skip_bits
      split
      · simp only
        omega
      · simp only
        omega
    · simp only [hsmall, if_false, pure_ok_iff, Prod.mk.injEq] at h
      obtain ⟨_, hmoved, hc⟩ := h
      rw [← hc]
      refine ⟨(fun n hn => by simpa using hn), ?_⟩
      rw [← hmoved]
      unfold bitstream_goto_offset
      split
      · simp only
        omega
      · simp only
        omega
  · simp only [hfwd, if_false, bind_ok_iff, subI64_ok_iff] at h
    obtain ⟨rewind, ⟨_, rfl⟩, h⟩ := h
    by_cases hback : ((bitstr.position / 8 : Nat) : Int) - T > 0
    · by_cases hlarge : ((bitstr.position / 8 : Nat) : Int) - T > ((UINT_MAX / 8 : Nat) : Int)
      · simp only [hback, hlarge, if_true, bind_ok_iff, mulI64_ok_iff, pure_ok_iff,
          Prod.mk.injEq] at h
        obtain ⟨bits, ⟨_, rfl⟩, _, hmoved, hc⟩ := h
        rw [← hc]
        refine ⟨(fun n hn => by simp at hn), ?_⟩
        rw [← hmoved]
        unfold rewind_bits
        split
        · simp only
          omega
        · simp only
          omega
      · simp only [hback, hlarge, if_true, if_false, pure_ok_iff, Prod.mk.injEq] at h
        obtain ⟨_, hmoved, hc⟩ := h
        rw [← hc]
        refine ⟨(fun n hn => by simpa using hn), ?_⟩
        rw [← hmoved]
        unfold bitstream_goto_offset
        split
        · simp only
          omega
        · simp only
          omega
    · simp only [hback, if_false, pure_ok_iff, Prod.mk.injEq] at h
      obtain ⟨_, hm, hc⟩ := h
      rw [← hm, ← hc]
      refine ⟨(fun n hn => by cases hn), ?_⟩
      omega

theorem jumpy_mp4_target_bounds_witness :
    jumpTarget none scenarioShortBoxHeader
        (bitstream_get_full_size { scenarioShortBox with position := 64 }) ≤
      bitstream_get_full_size { scenarioShortBox with position := 64 } ∧
    (0 ≤ scenarioShortBoxHeader.offset_end →
      (∀ p, (none : Option Mp4Box) = some p → 0 ≤ p.offset_end) →
      0 ≤ jumpTarget none scenarioShortBoxHeader
        (bitstream_get_full_size { scenarioShortBox with position := 64 })) ∧
    (∀ n, CursorCall.seek n ∈ [CursorCall.seek 4] →
      n = jumpTarget none scenarioShortBoxHeader
        (bitstream_get_full_size { scenarioShortBox with position := 64 })) ∧
    bitstream_get_absolute_byte_offset { scenarioShortBox with position := 32 } ≤
      bitstream_get_full_size { scenarioShortBox with position := 64 } :=
  jumpy_mp4_target_bounds { scenarioShortBox with position := 64 } none
    scenarioShortBoxHeader SUCCESS { scenarioShortBox with position := 32 }
    [CursorCall.seek 4] (by decide) rfl

/-! ### Which timestamps the chunk walk normalizes -/

/-- C37: `convertTrack` scales the timestamps of exactly the samples that the chunk walk
visits.  With `m3` the map as the timestamp pass leaves it (times in timescale units) and
`index` the final value of the walk's sample index, which is the first real sample plus
the number of samples of the chunks walked: every real sample before `index` has the
decode and the presentation time `value * 1000000 / timescale` of its value in `m3`, one
scaling each, and every entry from `index` on has the timestamps of `m3`. -/
theorem convertTrack_scales_visited (track : Mp4Track) (m0 : BitstreamMap)
    (s : OffsetState) (n : Nat)
    (hcount : track.sps_count + track.pps_count + track.stsz_sample_count < 4294967296)
    (hn : n < 4294967296) (hm : HasEntries m0 n)
    (h : convertTrackWalk track m0 = .ok s) :
    convertTrack track m0 = .ok s.map ∧
    ∃ m1 m2 m3, setParameterSets track m0 = .ok m1 ∧ setTypesAndSizes track m1 = .ok m2 ∧
      setTimecodes track m2 = .ok m3 ∧
      s.index = firstSample track + samplesWalked s.visited ∧
      (∀ p, firstSample track ≤ p → p < s.index →
        ∃ d q, m3.sample_dts[p]? = some d ∧ m3.sample_pts[p]? = some q ∧
          s.map.sample_dts[p]? = some (Int.tdiv (d * 1000000) (track.timescale : Int)) ∧
          s.map.sample_pts[p]? = some (Int.tdiv (q * 1000000) (track.timescale : Int))) ∧
      (∀ p, s.index ≤ p →
        s.map.sample_dts[p]? = m3.sample_dts[p]? ∧ s.map.sample_pts[p]? = m3.sample_pts[p]?) := by
  refine ⟨convertTrack_of_walk track m0 s h, ?_⟩
  obtain ⟨m1, m2, m3, h1, h2, h3, h4⟩ := (convertTrackWalk_ok_iff track m0 s).1 h
  obtain ⟨hshape, _⟩ := setParameterSets_spec track m0 m1 (by omega) h1
  obtain ⟨hoff2, _⟩ := setTypesAndSizes_spec track m1 m2 (by omega) h2
  obtain ⟨_, hoff3⟩ := setTimecodes_frame track m2 m3 h3
  have hlen : m3.sample_offset.length < 4294967296 := by
    rw [hoff3, hoff2, hshape.2.2.1, hm.2.2.1]
    exact hn
  obtain ⟨⟨_, _, _, _, hout, hin⟩, hindex⟩ := walkChunks_times track m3 s hlen h4
  refine ⟨m1, m2, m3, h1, h2, h3, hindex, hin, fun p hp => ?_⟩
  obtain ⟨e1, e2, _⟩ := hout p (Or.inr hp)
  exact ⟨e1, e2⟩

theorem convertTrack_scales_visited_witness :
    convertTrack scenarioH264 (zeroMap 6) = .ok scenarioH264Walk.map ∧
    ∃ m1 m2 m3, setParameterSets scenarioH264 (zeroMap 6) = .ok m1 ∧
      setTypesAndSizes scenarioH264 m1 = .ok m2 ∧ setTimecodes scenarioH264 m2 = .ok m3 ∧
      scenarioH264Walk.index = firstSample scenarioH264 + samplesWalked scenarioH264Walk.visited ∧
      (∀ p, firstSample scenarioH264 ≤ p → p < scenarioH264Walk.index →
        ∃ d q, m3.sample_dts[p]? = some d ∧ m3.sample_pts[p]? = some q ∧
          scenarioH264Walk.map.sample_dts[p]? =
            some (Int.tdiv (d * 1000000) (scenarioH264.timescale : Int)) ∧
          scenarioH264Walk.map.sample_pts[p]? =
            some (Int.tdiv (q * 1000000) (scenarioH264.timescale : Int))) ∧
      (∀ p, scenarioH264Walk.index ≤ p →
        scenarioH264Walk.map.sample_dts[p]? = m3.sample_dts[p]? ∧
        scenarioH264Walk.map.sample_pts[p]? = m3.sample_pts[p]?) :=
  convertTrack_scales_visited scenarioH264 (zeroMap 6) scenarioH264Walk 6 (by decide)
    (by decide) ⟨rfl, rfl, rfl, rfl, rfl⟩ rfl

/-! ### The WAVE indexer -/

/-- What `wave_indexer_initmap` stores when the allocation of a map of one entry succeeds
and the registry holds no audio track yet. -/
theorem wave_indexer_initmap_ok (env : WaveEnv) (media : MediaFile) (wave : Wave)
    (track : BitstreamMap) (halloc : env.init_bitstream_map 1 = some track)
    (hentries : HasEntries track 1) (hfresh : media.tracks_audio = []) :
    wave_indexer_initmap env media wave =
      .ok (SUCCESS,
        { media with tracks_audio :=
          [{ sample_count := 1
             stream_size := waveStreamSize env wave track.stream_size
             sample_type := [env.sample_type_1]
             sample_size := [wave.data.datasSize]
             sample_offset := [wave.data.datasOffset]
             sample_pts := [0]
             sample_dts := [0] }] }) := by
  obtain ⟨h1, h2, h3, h4, h5⟩ := hentries
  obtain ⟨a1, e1⟩ := List.length_eq_one.1 h1
  obtain ⟨a2, e2⟩ := List.length_eq_one.1 h2
  obtain ⟨a3, e3⟩ := List.length_eq_one.1 h3
  obtain ⟨a4, e4⟩ := List.length_eq_one.1 h4
  obtain ⟨a5, e5⟩ := List.length_eq_one.1 h5
  unfold wave_indexer_initmap
  rw [halloc]
  simp only [hfresh, List.length_nil, if_true, e1, e2, e3, e4, e5]
  simp [writeAt, bind, Except.bind, pure, Except.pure]

/-- C33 (counterexample): in `scenarioWaveShortFact` the `fact` chunk declares 0 bytes:
`parse_fact` returns `FAILURE`, the chunk walk ends with the return code `FAILURE` before
the data chunk, and `wave_fileParse` returns `SUCCESS` with one audio track. -/
theorem wave_fact_failure_counterexample :
    parse_fact scenarioWaveEnv { bytes := scenarioWaveShortFact, position := 160 }
      (some { offset_start := 12, offset_end := 20, dwFourCC := tag 102 97 99 116,
              dwSize := 0 })
      { zeroWave with run := true } =
      .ok (FAILURE, { bytes := scenarioWaveShortFact, position := 160 },
        { zeroWave with run := true }) ∧
    waveWalk scenarioWaveEnv 8 { bytes := scenarioWaveShortFact, position := 0 }
      { emptyMedia with file_size := 32 } =
      .ok (some { retcode := FAILURE,
                  bitstr := { bytes := scenarioWaveShortFact, position := 160 },
                  wave := { zeroWave with run := true } }) ∧
    wave_fileParse scenarioWaveEnv 8 (some { bytes := scenarioWaveShortFact, position := 0 })
      { emptyMedia with file_size := 32 } =
      .ok (some (SUCCESS,
        { emptyMedia with file_size := 32, tracks_audio :=
          [{ sample_count := 1, stream_size := 0, sample_type := [SampleType.sample_AUDIO],
             sample_size := [0], sample_offset := [0], sample_pts := [0],
             sample_dts := [0] }] })) := by
  refine ⟨rfl, rfl, rfl⟩

/-- C33 (amended): the return code with which the chunk walk ends, `FAILURE` after a
chunk parser has failed, is not what `wave_fileParse` returns: when `wave_fileParse`
returns for a cursor that is not NULL, it returns what `wave_indexer_initmap` returns for
the state in which the walk ended, which is `SUCCESS` exactly when the allocation of the
map succeeds and `FAILURE` exactly when it fails. -/
theorem wave_fileParse_return_code (env : WaveEnv) (fuel : Nat) (bitstr : Bitstream)
    (media media' : MediaFile) (rc : Int)
    (h : wave_fileParse env fuel (some bitstr) media = .ok (some (rc, media'))) :
    ∃ s, waveWalk env fuel bitstr media = .ok (some s) ∧
      wave_indexer_initmap env media s.wave = .ok (rc, media') ∧
      (rc = SUCCESS ↔ ∃ track, env.init_bitstream_map 1 = some track) ∧
      (rc = FAILURE ↔ env.init_bitstream_map 1 = none) := by
  unfold wave_fileParse at h
  simp only at h
  split at h
  · rename_i s hs
    have hidx := returned_ok _ _ h
    unfold wave_indexer at hidx
    refine ⟨s, hs, hidx, ?_⟩
    unfold wave_indexer_initmap at hidx
    cases halloc : env.init_bitstream_map 1 with
    | none =>
      rw [halloc] at hidx
      simp only [Except.ok.injEq, Prod.mk.injEq] at hidx
      rw [← hidx.1]
      simp [SUCCESS, FAILURE]
    | some track =>
      rw [halloc] at hidx
      simp only at hidx
      split at hidx
      · simp only [bind_ok_iff, pure_ok_iff, Prod.mk.injEq] at hidx
        obtain ⟨_, _, _, _, _, _, _, _, _, _, hrc, _⟩ := hidx
        rw [← hrc]
        simp [SUCCESS, FAILURE]
      · cases hidx
  · cases h
  · cases h

theorem wave_fileParse_return_code_witness :
    ∃ s, waveWalk scenarioWaveEnv 8 { bytes := scenarioWave, position := 0 }
        { emptyMedia with file_size := 60 } = .ok (some s) ∧
      wave_indexer_initmap scenarioWaveEnv { emptyMedia with file_size := 60 } s.wave =
        .ok (SUCCESS,
          { emptyMedia with file_size := 60, tracks_audio :=
            [{ sample_count := 1, stream_size := 256, sample_type := [SampleType.sample_AUDIO],
               sample_size := [4], sample_offset := [56], sample_pts := [0],
               sample_dts := [0] }] }) ∧
      (SUCCESS = SUCCESS ↔ ∃ track, scenarioWaveEnv.init_bitstream_map 1 = some track) ∧
      (SUCCESS = FAILURE ↔ scenarioWaveEnv.init_bitstream_map 1 = none) :=
  wave_fileParse_return_code scenarioWaveEnv 8 { bytes := scenarioWave, position := 0 }
    { emptyMedia with file_size := 60 }
    { emptyMedia with file_size := 60, tracks_audio :=
      [{ sample_count := 1, stream_size := 256, sample_type := [SampleType.sample_AUDIO],
         sample_size := [4], sample_offset := [56], sample_pts := [0],
         sample_dts := [0] }] }
    SUCCESS rfl

/-! ### The accesses of the decode-time pass -/

theorem writtenIndices_append (l l' : List DtsAccess) :
    writtenIndices (l ++ l') = writtenIndices l ++ writtenIndices l' := by
  simp [writtenIndices, List.filterMap_append]

theorem readIndices_append (l l' : List DtsAccess) :
    readIndices (l ++ l') = readIndices l ++ readIndices l' := by
  simp [readIndices, List.filterMap_append]

/-- A loop with a ghost component runs as the loop without it. -/
theorem forLoop_fst {σ τ : Type} (body : Nat → σ → Except Fault σ)
    (logged : Nat → σ × τ → Except Fault (σ × τ))
    (hbody : ∀ i st st', logged i st = .ok st' → body i st.1 = .ok st'.1) (n : Nat) :
    ∀ (lo : Nat) (st st' : σ × τ), forLoop logged lo n st = .ok st' →
      forLoop body lo n st.1 = .ok st'.1 := by
  induction n with
  | zero =>
    intro lo st st' h
    simp only [forLoop, Except.ok.injEq] at h
    rw [h]
    rfl
  | succ n ih =>
    intro lo st st' h
    rw [forLoop_succ_ok_iff] at h
    obtain ⟨s1, h1, h2⟩ := h
    rw [forLoop_succ_ok_iff]
    exact ⟨s1.1, hbody lo st s1 h1, ih (lo + 1) s1 st' h2⟩

theorem dtsStepLogged_ok (track : Mp4Track) (copy : Bool) (i j : Nat)
    (st st' : TimeState × List DtsAccess) (h : dtsStepLogged track copy i j st = .ok st') :
    dtsStep track copy i j st.1 = .ok st'.1 ∧
    st'.2 = st.2 ++ [DtsAccess.read (u32sub st.1.k 1), DtsAccess.write st.1.k] := by
  simp only [dtsStepLogged, bind_ok_iff, pure_ok_iff] at h
  obtain ⟨t, ht, rfl⟩ := h
  exact ⟨ht, rfl⟩

/-- The inner loop of "Compute DTS": `n` iterations from the index `k` write the indices
`k`, ..., `k + n - 1` in order and read the indices `k - 1`, ..., `k + n - 2`. -/
theorem dtsInnerLogged_spec (track : Mp4Track) (copy : Bool) (i : Nat) (n : Nat) :
    ∀ (lo : Nat) (st st' : TimeState × List DtsAccess),
      st.1.map.sample_dts.length < 4294967296 → 1 ≤ st.1.k →
      forLoop (dtsStepLogged track copy i) lo n st = .ok st' →
      st'.1.k = st.1.k + n ∧
      st'.1.map.sample_dts.length = st.1.map.sample_dts.length ∧
      writtenIndices st'.2 = writtenIndices st.2 ++ List.range' st.1.k n ∧
      ∀ r, r ∈ readIndices st'.2 → r ∈ readIndices st.2 ∨ st.1.k ≤ r + 1 := by
  induction n with
  | zero =>
    intro lo st st' _ _ h
    simp only [forLoop, Except.ok.injEq] at h
    rw [← h]
    exact ⟨rfl, rfl, by simp, fun r hr => Or.inl hr⟩
  | succ n ih =>
    intro lo st st' hlen hk h
    rw [forLoop_succ_ok_iff] at h
    obtain ⟨s1, h1, h2⟩ := h
    obtain ⟨hstep, hlog⟩ := dtsStepLogged_ok track copy i lo st s1 h1
    obtain ⟨a, d, _, _, _, hklt, hk1, hdts, _⟩ := dtsStep_spec track copy i lo st.1 s1.1 hstep
    have hk1' : s1.1.k = st.1.k + 1 := by
      rw [hk1]
      unfold u32
      omega
    have hlen1 : s1.1.map.sample_dts.length = st.1.map.sample_dts.length := by
      rw [hdts, List.length_set]
    obtain ⟨e1, e2, e3, e4⟩ := ih (lo + 1) s1 st' (by rw [hlen1]; exact hlen) (by omega) h2
    have hsub : u32sub st.1.k 1 = st.1.k - 1 := by
      unfold u32sub
      omega
    refine ⟨by omega, by rw [e2, hlen1], ?_, ?_⟩
    · rw [e3, hlog, writtenIndices_append, hk1', List.range'_succ, List.append_assoc]
      rfl
    · intro r hr
      rcases e4 r hr with hin | hge
      · rw [hlog, readIndices_append] at hin
        rcases List.mem_append.1 hin with hin | hin
        · exact Or.inl hin
        · right
          simp only [readIndices, List.filterMap_cons, List.filterMap_nil,
            List.mem_singleton] at hin
          rw [hin, hsub]
          omega
      · right
        omega

theorem dtsRunLogged_ok (track : Mp4Track) (copy : Bool) (i : Nat)
    (st st' : TimeState × List DtsAccess) (h : dtsRunLogged track copy i st = .ok st') :
    dtsRun track copy i st.1 = .ok st'.1 := by
  unfold dtsRunLogged at h
  unfold dtsRun
  by_cases hk : st.1.k = firstSample track
  · simp only [hk, if_true, bind_ok_iff] at h ⊢
    obtain ⟨ptss, hp, dtss, hd, count, hc, hloop⟩ := h
    refine ⟨ptss, hp, dtss, hd, count, hc, ?_⟩
    exact forLoop_fst (dtsStep track copy i) (dtsStepLogged track copy i)
      (fun j s s' hs => (dtsStepLogged_ok track copy i j s s' hs).1) (count - 1) 1 _ st' hloop
  · simp only [hk, if_false, bind_ok_iff] at h ⊢
    obtain ⟨count, hc, hloop⟩ := h
    refine ⟨count, hc, ?_⟩
    exact forLoop_fst (dtsStep track copy i) (dtsStepLogged track copy i)
      (fun j s s' hs => (dtsStepLogged_ok track copy i j s s' hs).1) count 0 st st' hloop

/-- One run of "Compute DTS" with the log: the run that starts on the first real sample
writes that index and `count - 1` more, every other run writes `count` indices from `k`
on, and no read is below the index that the run starts from, less one. -/
theorem dtsRunLogged_spec (track : Mp4Track) (copy : Bool) (i : Nat)
    (st st' : TimeState × List DtsAccess)
    (hlen : st.1.map.sample_dts.length < 4294967296)
    (h : dtsRunLogged track copy i st = .ok st') :
    ∃ count, track.stts_sample_count[i]? = some count ∧
      st'.1.map.sample_dts.length = st.1.map.sample_dts.length ∧
      (st.1.k = firstSample track →
        st'.1.k = st.1.k + (1 + (count - 1)) ∧
        writtenIndices st'.2 = writtenIndices st.2 ++ List.range' st.1.k (1 + (count - 1)) ∧
        ∀ r, r ∈ readIndices st'.2 → r ∈ readIndices st.2 ∨ st.1.k ≤ r) ∧
      (st.1.k ≠ firstSample track → 1 ≤ st.1.k →
        st'.1.k = st.1.k + count ∧
        writtenIndices st'.2 = writtenIndices st.2 ++ List.range' st.1.k count ∧
        ∀ r, r ∈ readIndices st'.2 → r ∈ readIndices st.2 ∨ st.1.k ≤ r + 1) := by
  have hlens := (dtsRun_lengths track copy i st.1 st'.1
    (dtsRunLogged_ok track copy i st st' h)).1
  unfold dtsRunLogged at h
  by_cases hk : st.1.k = firstSample track
  · simp only [hk, if_true, bind_ok_iff, readAt_ok_iff, writeAt_ok_iff] at h
    obtain ⟨ptss, _, dtss, ⟨hlt, hd⟩, count, hc, hloop⟩ := h
    have hu : u32 (firstSample track + 1) = firstSample track + 1 := by
      unfold u32
      omega
    rw [hu] at hloop
    obtain ⟨e1, _, e3, e4⟩ := dtsInnerLogged_spec track copy i (count - 1) 1 _ st'
      (by simp only; rw [hd, List.length_set]; exact hlen) (by simp only; omega) hloop
    simp only at e1 e3 e4
    refine ⟨count, hc, hlens, fun _ => ⟨?_, ?_, ?_⟩, fun hne => absurd hk hne⟩
    · rw [e1, hk]
      omega
    · rw [e3, writtenIndices_append, hk, List.append_assoc, Nat.add_comm 1 (count - 1),
        List.range'_succ]
      rfl
    · intro r hr
      rcases e4 r hr with hin | hge
      · rw [readIndices_append] at hin
        rcases List.mem_append.1 hin with hin | hin
        · exact Or.inl hin
        · simp [readIndices] at hin
      · right
        omega
  · simp only [hk, if_false, bind_ok_iff, readAt_ok_iff] at h
    obtain ⟨count, hc, hloop⟩ := h
    refine ⟨count, hc, hlens, fun he => absurd he hk, fun _ hk1 => ?_⟩
    obtain ⟨e1, _, e3, e4⟩ := dtsInnerLogged_spec track copy i count 0 st st' hlen hk1 hloop
    exact ⟨e1, e3, e4⟩

/-- The accesses of the whole "Compute DTS" loop. -/
theorem computeDtsLogged_spec (track : Mp4Track) (copy : Bool) (map : BitstreamMap)
    (n : Nat) (st : TimeState × List DtsAccess)
    (hlen : map.sample_dts.length < 4294967296)
    (h : forLoop (dtsRunLogged track copy) 0 n
      ({ map := map, k := firstSample track }, []) = .ok st) :
    (∀ r, r ∈ readIndices st.2 → firstSample track ≤ r) ∧
    (n = 0 → st.2 = []) ∧
    (0 < n → ∃ c0, track.stts_sample_count[0]? = some c0 ∧
      writtenIndices st.2 = List.range' (firstSample track)
        (samplesBefore track.stts_sample_count n + (if c0 = 0 then 1 else 0))) := by
  have key := forLoop_invariant (dtsRunLogged track copy)
    (fun i s => s.1.map.sample_dts.length = map.sample_dts.length ∧
      (∀ r, r ∈ readIndices s.2 → firstSample track ≤ r) ∧
      ((i = 0 ∧ s.1.k = firstSample track ∧ s.2 = []) ∨
       (0 < i ∧ ∃ c0, track.stts_sample_count[0]? = some c0 ∧
          s.1.k = firstSample track +
            (samplesBefore track.stts_sample_count i + (if c0 = 0 then 1 else 0)) ∧
          0 < samplesBefore track.stts_sample_count i + (if c0 = 0 then 1 else 0) ∧
          writtenIndices s.2 = List.range' (firstSample track)
            (samplesBefore track.stts_sample_count i + (if c0 = 0 then 1 else 0)))))
    n 0 _ st ?_ ?_ h
  · simp only [Nat.zero_add] at key
    obtain ⟨_, hreads, hcase⟩ := key
    refine ⟨hreads, fun hn => ?_, fun hn => ?_⟩
    · rcases hcase with ⟨_, _, hlog⟩ | ⟨hpos, _⟩
      · exact hlog
      · omega
    · rcases hcase with ⟨hzero, _⟩ | ⟨_, c0, hc0, _, _, hw⟩
      · omega
      · exact ⟨c0, hc0, hw⟩
  · intro i s s' _ _ hP hstep
    obtain ⟨hl, hreads, hcase⟩ := hP
    obtain ⟨count, hcount, hl', hfirst, hnext⟩ :=
      dtsRunLogged_spec track copy i s s' (by rw [hl]; exact hlen) hstep
    refine ⟨by rw [hl', hl], ?_, ?_⟩
    · intro r hr
      rcases hcase with ⟨_, hk, _⟩ | ⟨_, c0, _, hk, hpos, _⟩
      · rcases (hfirst hk).2.2 r hr with hin | hge
        · exact hreads r hin
        · omega
      · rcases (hnext (by omega) (by omega)).2.2 r hr with hin | hge
        · exact hreads r hin
        · omega
    · right
      refine ⟨by omega, ?_⟩
      rcases hcase with ⟨hi, hk, hlog⟩ | ⟨hi, c0, hc0, hk, hpos, hw⟩
      · subst hi
        obtain ⟨e1, e2, _⟩ := hfirst hk
        have hsb : samplesBefore track.stts_sample_count (0 + 1) = count := by
          rw [samplesBefore_succ _ 0 count hcount, samplesBefore_zero]
          omega
        have hW : samplesBefore track.stts_sample_count (0 + 1) +
            (if count = 0 then 1 else 0) = 1 + (count - 1) := by
          rw [hsb]
          split <;> omega
        refine ⟨count, hcount, ?_, ?_, ?_⟩
        · rw [hW, e1, hk]
        · rw [hW]
          omega
        · rw [hW, e2, hlog, hk]
          simp [writtenIndices]
      · obtain ⟨e1, e2, _⟩ := hnext (by omega) (by omega)
        have hsb := samplesBefore_succ track.stts_sample_count i count hcount
        refine ⟨c0, hc0, ?_, ?_, ?_⟩
        · rw [e1, hk, hsb]
          omega
        · rw [hsb]
          omega
        · rw [e2, hw, hk, hsb]
          have hsplit : samplesBefore track.stts_sample_count i + count +
              (if c0 = 0 then 1 else 0) =
              (samplesBefore track.stts_sample_count i + (if c0 = 0 then 1 else 0)) +
                count := by omega
          rw [hsplit, List.range'_append_1, Nat.add_comm count]
  · exact ⟨rfl, fun r hr => by simp [readIndices] at hr, Or.inl ⟨rfl, rfl, rfl⟩⟩

/-! ### Claim on the accesses of the decode-time pass -/

/-- C35: in the decode-time pass of `convertTrack` (either copy of the "Compute DTS"
loop, with the ghost log of its accesses to `sample_dts`), no read of `sample_dts` is at
an index below the first real sample, `sps_count + pps_count`.  When the first run of
`time_to_sample` is not empty the pass writes exactly the indices from the first real
sample on, as many as the sum of the run lengths, each once and in order; so when that sum
is `stsz_sample_count`, exactly the indices of the real samples.  When the first run has
the length 0 the pass writes one index more than the sum of the run lengths. -/
theorem decode_time_pass_accesses (track : Mp4Track) (copy : Bool) (map : BitstreamMap)
    (s : TimeState) (log : List DtsAccess) (c0 : Nat)
    (hlen : map.sample_dts.length < 4294967296)
    (hruns : 0 < track.stts_entry_count)
    (hfirst : track.stts_sample_count[0]? = some c0)
    (h : computeDtsLogged track copy map = .ok (s, log)) :
    forLoop (dtsRun track copy) 0 track.stts_entry_count
      { map := map, k := firstSample track } = .ok s ∧
    (∀ r, r ∈ readIndices log → firstSample track ≤ r) ∧
    (0 < c0 →
      writtenIndices log = List.range' (firstSample track)
        (samplesBefore track.stts_sample_count track.stts_entry_count) ∧
      (samplesBefore track.stts_sample_count track.stts_entry_count =
          track.stsz_sample_count →
        writtenIndices log = List.range' (firstSample track) track.stsz_sample_count)) ∧
    (c0 = 0 →
      writtenIndices log = List.range' (firstSample track)
        (samplesBefore track.stts_sample_count track.stts_entry_count + 1)) := by
  unfold computeDtsLogged at h
  obtain ⟨hreads, _, hwrites⟩ := computeDtsLogged_spec track copy map
    track.stts_entry_count (s, log) hlen h
  obtain ⟨c, hc, hw⟩ := hwrites hruns
  rw [hfirst] at hc
  simp only [Option.some.injEq] at hc
  subst hc
  simp only at hw hreads
  refine ⟨?_, hreads, fun hpos => ?_, fun hzero => ?_⟩
  · exact forLoop_fst (dtsRun track copy) (dtsRunLogged track copy)
      (fun i st st' hs => dtsRunLogged_ok track copy i st st' hs)
      track.stts_entry_count 0 _ (s, log) h
  · have hne : ¬ c0 = 0 := by omega
    rw [if_neg hne, Nat.add_zero] at hw
    exact ⟨hw, fun hsum => by rw [← hsum]; exact hw⟩
  · rw [if_pos hzero] at hw
    exact hw

theorem decode_time_pass_accesses_witness :
    forLoop (dtsRun scenarioTrack true) 0 scenarioTrack.stts_entry_count
      { map := zeroMap 3, k := firstSample scenarioTrack } =
      .ok { map := { zeroMap 3 with sample_dts := [0, 1000, 2000],
                                    sample_pts := [0, 1000, 2000] }, k := 3 } ∧
    (∀ r, r ∈ readIndices [DtsAccess.write 0, DtsAccess.read 0, DtsAccess.write 1,
        DtsAccess.read 1, DtsAccess.write 2] → firstSample scenarioTrack ≤ r) ∧
    (0 < 3 →
      writtenIndices [DtsAccess.write 0, DtsAccess.read 0, DtsAccess.write 1,
          DtsAccess.read 1, DtsAccess.write 2] =
        List.range' (firstSample scenarioTrack)
          (samplesBefore scenarioTrack.stts_sample_count scenarioTrack.stts_entry_count) ∧
      (samplesBefore scenarioTrack.stts_sample_count scenarioTrack.stts_entry_count =
          scenarioTrack.stsz_sample_count →
        writtenIndices [DtsAccess.write 0, DtsAccess.read 0, DtsAccess.write 1,
            DtsAccess.read 1, DtsAccess.write 2] =
          List.range' (firstSample scenarioTrack) scenarioTrack.stsz_sample_count)) ∧
    (3 = 0 →
      writtenIndices [DtsAccess.write 0, DtsAccess.read 0, DtsAccess.write 1,
          DtsAccess.read 1, DtsAccess.write 2] =
        List.range' (firstSample scenarioTrack)
          (samplesBefore scenarioTrack.stts_sample_count scenarioTrack.stts_entry_count +
            1)) :=
  decode_time_pass_accesses scenarioTrack true (zeroMap 3)
    { map := { zeroMap 3 with sample_dts := [0, 1000, 2000],
                              sample_pts := [0, 1000, 2000] }, k := 3 }
    [DtsAccess.write 0, DtsAccess.read 0, DtsAccess.write 1, DtsAccess.read 1,
      DtsAccess.write 2]
    3 (by decide) (by decide) rfl rfl

/-! ### The parameter sets of parse_avcC -/

theorem read_bits_lt (bitstr rest : Bitstream) (n v : Nat)
    (h : read_bits bitstr n = .ok (v, rest)) : v < 2 ^ n := by
  unfold read_bits at h
  split at h
  · simp only [Except.ok.injEq, Prod.mk.injEq] at h
    rw [← h.1]
    clear h
    induction n with
    | zero => simp
    | succ k ih =>
      rw [List.range_succ, List.foldl_append]
      simp only [List.foldl_cons, List.foldl_nil]
      have hbit : bitstr.bitAt (bitstr.position + k) < 2 := by
        unfold Bitstream.bitAt
        omega
      rw [Nat.pow_succ]
      omega
  · cases h

/-- What one pass of a parameter-set loop of `parse_avcC` does, from an aligned cursor. -/
theorem avcCParamSet_spec (i : Nat) (s s' : ParamSetState)
    (haligned : s.bitstr.position % 8 = 0) (h : avcCParamSet i s = .ok s') :
    ∃ z rest, read_bits s.bitstr 16 = .ok (z, rest) ∧
      i < s.sample_size.length ∧ i < s.sample_offset.length ∧
      s'.sample_size = s.sample_size.set i z ∧
      s'.sample_offset = s.sample_offset.set i ((s.bitstr.position / 8 + 2 : Nat) : Int) ∧
      s'.bitstr.bytes = s.bitstr.bytes ∧
      s'.bitstr.position =
        8 * (if s.bitstr.position / 8 + 2 + z ≤ s.bitstr.bytes.length
             then s.bitstr.position / 8 + 2 + z else s.bitstr.position / 8 + 2) := by
  simp only [avcCParamSet, bind_ok_iff, pure_ok_iff, writeAt_ok_iff] at h
  obtain ⟨⟨z, b1⟩, hread, sizes, ⟨hlt, hsizes⟩, offsets, ⟨hlt', hoffsets⟩, hs'⟩ := h
  have hz := read_bits_lt _ _ _ _ hread
  obtain ⟨_, hb1⟩ := read_bits_spec _ _ _ _ hread
  have hu : u32 (z * 8) = z * 8 := by
    unfold u32
    omega
  refine ⟨z, b1, hread, hlt, hlt', ?_, ?_, ?_, ?_⟩
  · rw [← hs']
    exact hsizes
  · rw [← hs']
    simp only
    rw [hoffsets, hb1]
    unfold bitstream_get_absolute_byte_offset
    simp only
    congr 2
    omega
  · rw [← hs']
    simp only [hu, skip_bits, hb1]
    split <;> rfl
  · rw [← hs']
    simp only [hu, skip_bits, hb1]
    split
    · rename_i hle
      simp only
      rw [if_pos (by omega)]
      omega
    · rename_i hle
      simp only
      rw [if_neg (by omega)]
      omega

/-- The records of a parameter-set loop of `parse_avcC`, whether the skips succeed or
not. -/
theorem avcCParamSet_loop (n : Nat) (s s' : ParamSetState)
    (haligned : s.bitstr.position % 8 = 0)
    (h : forLoop avcCParamSet 0 n s = .ok s') :
    s'.bitstr.bytes = s.bitstr.bytes ∧ s'.bitstr.position % 8 = 0 ∧
    s'.sample_size.length = s.sample_size.length ∧
    s'.sample_offset.length = s.sample_offset.length ∧
    (n = 0 → s'.bitstr = s.bitstr) ∧
    (0 < n → s'.sample_offset[0]? = some ((s.bitstr.position / 8 + 2 : Nat) : Int)) ∧
    ∀ j, j < n → ∃ (b z : Nat),
      s'.sample_offset[j]? = some ((b + 2 : Nat) : Int) ∧ s'.sample_size[j]? = some z ∧
      (∃ rest, read_bits { s.bitstr with position := 8 * b } 16 = .ok (z, rest)) ∧
      (j + 1 < n → s'.sample_offset[j + 1]? = some
        (((if b + 2 + z ≤ s.bitstr.bytes.length then b + 2 + z else b + 2) + 2 : Nat) : Int)) ∧
      (j + 1 = n → s'.bitstr.position =
        8 * (if b + 2 + z ≤ s.bitstr.bytes.length then b + 2 + z else b + 2)) := by
  have key := forLoop_invariant avcCParamSet
    (fun i st => st.bitstr.bytes = s.bitstr.bytes ∧ st.bitstr.position % 8 = 0 ∧
      st.sample_size.length = s.sample_size.length ∧
      st.sample_offset.length = s.sample_offset.length ∧
      (i = 0 → st.bitstr = s.bitstr) ∧
      (0 < i → st.sample_offset[0]? = some ((s.bitstr.position / 8 + 2 : Nat) : Int)) ∧
      ∀ j, j < i → ∃ (b z : Nat),
        st.sample_offset[j]? = some ((b + 2 : Nat) : Int) ∧ st.sample_size[j]? = some z ∧
        (∃ rest, read_bits { s.bitstr with position := 8 * b } 16 = .ok (z, rest)) ∧
        (j + 1 < i → st.sample_offset[j + 1]? = some
          (((if b + 2 + z ≤ s.bitstr.bytes.length then b + 2 + z else b + 2) + 2 : Nat) :
            Int)) ∧
        (j + 1 = i → st.bitstr.position =
          8 * (if b + 2 + z ≤ s.bitstr.bytes.length then b + 2 + z else b + 2)))
    n 0 s s' ?_ ?_ h
  · simpa only [Nat.zero_add] using key
  · intro i st st' _ _ hP hstep
    obtain ⟨hbytes, hal, hl1, hl2, hzero, hhead, hall⟩ := hP
    obtain ⟨z, rest, hread, hlt, hlt', hsz, hoff, hb', hpos'⟩ :=
      avcCParamSet_spec i st st' hal hstep
    have hbitstr : st.bitstr = { s.bitstr with position := 8 * (st.bitstr.position / 8) } := by
      cases hst : st.bitstr with
      | mk bytes position =>
        rw [hst] at hbytes hal
        simp only at hbytes hal
        simp only [Bitstream.mk.injEq]
        exact ⟨hbytes, by omega⟩
    refine ⟨by rw [hb', hbytes], ?_, by rw [hsz, List.length_set, hl1],
      by rw [hoff, List.length_set, hl2], fun hi => by omega, fun _ => ?_, ?_⟩
    · rw [hpos']
      omega
    · by_cases hi : i = 0
      · subst hi
        rw [hoff, List.getElem?_set_self hlt', hzero rfl]
      · rw [hoff, List.getElem?_set_ne (by omega)]
        exact hhead (by omega)
    · intro j hj
      by_cases hji : j = i
      · subst hji
        refine ⟨st.bitstr.position / 8, z, ?_, ?_, ⟨rest, ?_⟩, fun hlt2 => by omega,
          fun _ => ?_⟩
        · rw [hoff, List.getElem?_set_self hlt']
        · rw [hsz, List.getElem?_set_self hlt]
        · rw [← hbitstr]
          exact hread
        · rw [hpos', hbytes]
      · obtain ⟨b, z0, ho, hs0, hrd, hnext, hlast⟩ := hall j (by omega)
        refine ⟨b, z0, ?_, ?_, hrd, fun hlt2 => ?_, fun heq => by omega⟩
        · rw [hoff, List.getElem?_set_ne (by omega)]
          exact ho
        · rw [hsz, List.getElem?_set_ne (by omega)]
          exact hs0
        · by_cases hj1 : j + 1 = i
          · have hp := hlast hj1
            rw [hoff, ← hj1, List.getElem?_set_self (by omega), hp]
            congr 2
            omega
          · rw [hoff, List.getElem?_set_ne (by omega)]
            exact hnext (by omega)
  · exact ⟨rfl, haligned, rfl, rfl, fun _ => rfl, fun h0 => by omega, fun j hj => by omega⟩

/-- The records of a parameter-set loop of `parse_avcC` when every parameter set lies in
the data: the sets follow one another. -/
theorem avcCParamSet_chain (n : Nat) (s s' : ParamSetState)
    (haligned : s.bitstr.position % 8 = 0)
    (h : forLoop avcCParamSet 0 n s = .ok s')
    (hfit : ∀ (i : Nat) (o : Int) (z : Nat), s'.sample_offset[i]? = some o →
      s'.sample_size[i]? = some z → o + z ≤ s.bitstr.bytes.length) :
    s'.bitstr.bytes = s.bitstr.bytes ∧ s'.bitstr.position % 8 = 0 ∧
    (n = 0 → s'.bitstr = s.bitstr) ∧
    (0 < n → s'.sample_offset[0]? = some ((s.bitstr.position / 8 + 2 : Nat) : Int)) ∧
    ∀ j, j < n → ∃ (o z : Nat),
      s'.sample_offset[j]? = some (o : Int) ∧ s'.sample_size[j]? = some z ∧ 2 ≤ o ∧
      (∃ rest, read_bits { s.bitstr with position := 8 * (o - 2) } 16 = .ok (z, rest)) ∧
      (j + 1 < n → s'.sample_offset[j + 1]? = some ((o : Int) + z + 2)) ∧
      (j + 1 = n → s'.bitstr.position = 8 * (o + z)) := by
  obtain ⟨hb, hal, _, _, hzero, hhead, hall⟩ := avcCParamSet_loop n s s' haligned h
  refine ⟨hb, hal, hzero, hhead, fun j hj => ?_⟩
  obtain ⟨b, z, ho, hz, hrd, hnext, hlast⟩ := hall j hj
  have hle := hfit j _ z ho hz
  have hle2 : b + 2 + z ≤ s.bitstr.bytes.length := by omega
  rw [if_pos hle2] at hnext hlast
  refine ⟨b + 2, z, ho, hz, by omega, ?_, fun hlt => ?_, hlast⟩
  · rw [Nat.add_sub_cancel]
    exact hrd
  · rw [hnext hlt]
    congr 1

/-! ### Claim on the parameter sets of parse_avcC -/

/-! ### Accesses within bounds -/

theorem inBounds_ok {α : Type} (a : α) : InBounds (Except.ok a : Except Fault α) := by
  unfold InBounds
  intro h
  cases h

theorem inBounds_pure {α : Type} (a : α) : InBounds (pure a : Except Fault α) :=
  inBounds_ok a

theorem inBounds_bind {α β : Type} (x : Except Fault α) (f : α → Except Fault β)
    (hx : InBounds x) (hf : ∀ a, x = .ok a → InBounds (f a)) : InBounds (x >>= f) := by
  cases x with
  | ok a => exact hf a rfl
  | error e =>
    unfold InBounds at hx
    unfold InBounds
    simpa [bind, Except.bind] using hx

theorem inBounds_readAt {α : Type} (a : List α) (i : Nat) (h : i < a.length) :
    InBounds (readAt a i) := by
  unfold readAt
  rw [List.getElem?_eq_getElem h]
  exact inBounds_ok _

theorem inBounds_writeAt {α : Type} (a : List α) (i : Nat) (v : α) (h : i < a.length) :
    InBounds (writeAt a i v) := by
  unfold writeAt
  rw [if_pos h]
  exact inBounds_ok _

theorem inBounds_addI64 (a b : Int) : InBounds (addI64 a b) := by
  unfold addI64 InBounds
  split <;> intro h <;> cases h

theorem inBounds_mulI64 (a b : Int) : InBounds (mulI64 a b) := by
  unfold mulI64 InBounds
  split <;> intro h <;> cases h

theorem inBounds_divI64 (a : Int) (b : Nat) : InBounds (divI64 a b) := by
  unfold divI64 InBounds
  split <;> intro h <;> cases h

/-- Invariant rule for `forLoop` that also excludes an access outside an array. -/
theorem forLoop_safe {σ : Type} (body : Nat → σ → Except Fault σ) (P : Nat → σ → Prop)
    (n : Nat) : ∀ (lo : Nat) (s : σ),
    (∀ i t, lo ≤ i → i < lo + n → P i t →
      InBounds (body i t) ∧ ∀ t', body i t = .ok t' → P (i + 1) t') →
    P lo s →
    InBounds (forLoop body lo n s) ∧ ∀ s', forLoop body lo n s = .ok s' → P (lo + n) s' := by
  induction n with
  | zero =>
    intro lo s _ hP
    refine ⟨inBounds_ok s, fun s' h => ?_⟩
    rw [forLoop_zero] at h
    cases h
    exact hP
  | succ n ih =>
    intro lo s hstep hP
    obtain ⟨hsafe, hnext⟩ := hstep lo s (Nat.le_refl _) (by omega) hP
    cases hb : body lo s with
    | error e =>
      have hrun : forLoop body lo (n + 1) s = .error e := by rw [forLoop, hb]
      rw [hrun]
      rw [hb] at hsafe
      exact ⟨hsafe, fun s' h => by cases h⟩
    | ok s1 =>
      have hrun : forLoop body lo (n + 1) s = forLoop body (lo + 1) n s1 := by
        rw [forLoop, hb]
      rw [hrun]
      obtain ⟨h1, h2⟩ := ih (lo + 1) s1
        (fun i t hlo hhi => hstep i t (by omega) (by omega)) (hnext s1 hb)
      refine ⟨h1, fun s' h => ?_⟩
      have e : lo + (n + 1) = lo + 1 + n := by omega
      rw [e]
      exact h2 s' h

/-! ### The byte-offset pass on well-formed tables -/

theorem visitedSamples_append (l l' : List ChunkVisit) :
    visitedSamples (l ++ l') = visitedSamples l ++ visitedSamples l' := by
  induction l with
  | nil => rfl
  | cons v rest ih =>
    show List.range' v.first v.samples ++ visitedSamples (rest ++ l') = _
    rw [ih, visitedSamples, List.append_assoc]

theorem scaleAt_inBounds (track : Mp4Track) (times : List Int) (index : Nat) (value : Int)
    (h : index < times.length) : InBounds (scaleAt track times index value) := by
  unfold scaleAt
  exact inBounds_bind _ _ (inBounds_mulI64 _ _) (fun _ _ =>
    inBounds_bind _ _ (inBounds_divI64 _ _) (fun _ _ => inBounds_writeAt _ _ _ h))

theorem adjustUnit_inBounds (track : Mp4Track) (index : Nat) (m : BitstreamMap)
    (hd : index < m.sample_dts.length) (hp : index < m.sample_pts.length) :
    InBounds (adjustUnit track index m) := by
  unfold adjustUnit
  refine inBounds_bind _ _ (inBounds_readAt _ _ hd) (fun dts _ =>
    inBounds_bind _ _ ?_ (fun dtss _ =>
      inBounds_bind _ _ (inBounds_readAt _ _ hp) (fun pts _ =>
        inBounds_bind _ _ (scaleAt_inBounds _ _ _ _ hp) (fun _ _ => inBounds_pure _))))
  split
  · exact scaleAt_inBounds _ _ _ _ hd
  · exact inBounds_pure _

theorem adjustUnit_entries (track : Mp4Track) (index : Nat) (m m' : BitstreamMap) (N : Nat)
    (hmap : HasEntries m N) (h : adjustUnit track index m = .ok m') : HasEntries m' N := by
  obtain ⟨⟨a1, a2, _⟩, a4, _, d, p, _, _, hd, hp⟩ := adjustUnit_spec track index m m' h
  obtain ⟨e1, e2, e3, e4, e5⟩ := hmap
  exact ⟨by rw [a1, e1], by rw [a2, e2], by rw [a4, e3],
    by rw [hp, List.length_set, e4], by rw [hd, List.length_set, e5]⟩

/-- One pass of the sample loop of "Set sample offset" stays within the arrays. -/
theorem offsetStep_safe (track : Mp4Track) (l : Nat) (s : OffsetState) (N : Nat)
    (hN : N < 4294967296) (hmap : HasEntries s.map N) (hidx : s.index < N)
    (hfirst : l = 0 → s.chunkOffset < track.stco_chunk_offset.length)
    (hlater : l ≠ 0 → 1 ≤ s.index) :
    InBounds (offsetStep track l s) ∧ ∀ s', offsetStep track l s = .ok s' →
      s'.index = s.index + 1 ∧ s'.chunkOffset = s.chunkOffset ∧ s'.visited = s.visited ∧
      HasEntries s'.map N ∧
      ∀ p, p ≠ s.index → s'.map.sample_offset[p]? = s.map.sample_offset[p]? := by
  obtain ⟨e1, e2, e3, e4, e5⟩ := hmap
  constructor
  · unfold offsetStep
    refine inBounds_bind _ _ (adjustUnit_inBounds _ _ _ (by omega) (by omega))
      (fun m1 h1 => ?_)
    obtain ⟨f1, f2, f3, _, _⟩ := adjustUnit_entries track s.index s.map m1 N
      ⟨e1, e2, e3, e4, e5⟩ h1
    refine inBounds_bind _ _ ?_ (fun off _ =>
      inBounds_bind _ _ (inBounds_writeAt _ _ _ (by omega)) (fun _ _ => inBounds_pure _))
    split
    · rename_i hl
      exact inBounds_readAt _ _ (hfirst hl)
    · rename_i hl
      have h1le := hlater hl
      have hsub : u32sub s.index 1 < N := by
        unfold u32sub
        omega
      exact inBounds_bind _ _ (inBounds_readAt _ _ (by omega)) (fun _ _ =>
        inBounds_bind _ _ (inBounds_readAt _ _ (by omega)) (fun _ _ => inBounds_addI64 _ _))
  · intro s' h
    obtain ⟨g1, g2, g3, _, _, off, hoff, _, _⟩ := offsetStep_spec track l s s' h
    simp only [offsetStep, bind_ok_iff, pure_ok_iff, writeAt_ok_iff] at h
    obtain ⟨m1, hadj, _, _, offs, ⟨_, hoffs⟩, hs'⟩ := h
    obtain ⟨f1, f2, f3, f4, f5⟩ := adjustUnit_entries track s.index s.map m1 N
      ⟨e1, e2, e3, e4, e5⟩ hadj
    refine ⟨?_, g2, g3, ?_, fun p hp => ?_⟩
    · rw [g1]
      unfold u32
      omega
    · rw [← hs']
      exact ⟨f1, f2, by simp only; rw [hoffs, List.length_set, f3], f4, f5⟩
    · rw [hoff, List.getElem?_set_ne (Ne.symm hp)]

/-- The sample loop of a chunk stays within the arrays. -/
theorem chunkSamples_safe (track : Mp4Track) (n : Nat) (s : OffsetState) (N : Nat)
    (hN : N < 4294967296) (hmap : HasEntries s.map N) (hidx : s.index + n ≤ N)
    (hchunk : s.chunkOffset < track.stco_chunk_offset.length) :
    InBounds (forLoop (offsetStep track) 0 n s) ∧
    ∀ s', forLoop (offsetStep track) 0 n s = .ok s' →
      s'.index = s.index + n ∧ s'.chunkOffset = s.chunkOffset ∧ s'.visited = s.visited ∧
      HasEntries s'.map N ∧
      ∀ p, p < s.index → s'.map.sample_offset[p]? = s.map.sample_offset[p]? := by
  have key := forLoop_safe (offsetStep track)
    (fun l t => t.index = s.index + l ∧ t.chunkOffset = s.chunkOffset ∧
      t.visited = s.visited ∧ HasEntries t.map N ∧
      ∀ p, p < s.index → t.map.sample_offset[p]? = s.map.sample_offset[p]?)
    n 0 s ?_ ⟨rfl, rfl, rfl, hmap, fun _ _ => rfl⟩
  · simpa only [Nat.zero_add] using key
  · intro l t _ hl ⟨p1, p2, p3, p4, p5⟩
    obtain ⟨hsafe, hok⟩ := offsetStep_safe track l t N hN p4 (by omega)
      (fun _ => by rw [p2]; exact hchunk) (fun hne => by omega)
    refine ⟨hsafe, fun t' ht' => ?_⟩
    obtain ⟨q1, q2, q3, q4, q5⟩ := hok t' ht'
    refine ⟨by omega, by rw [q2, p2], by rw [q3, p3], q4, fun p hp => ?_⟩
    rw [q5 p (by omega), p5 p hp]

/-- One pass of the chunk loop stays within the arrays. -/
theorem offsetChunk_safe (track : Mp4Track) (i k : Nat) (s : OffsetState) (N : Nat)
    (hN : N < 4294967296) (hmap : HasEntries s.map N)
    (hi : i < track.stsc_samples_per_chunk.length)
    (hidx : s.index + samplesPerChunk track i ≤ N)
    (hchunk : s.chunkOffset < track.stco_chunk_offset.length)
    (hc32 : s.chunkOffset + 1 < 4294967296) :
    InBounds (offsetChunk track i k s) ∧ ∀ s', offsetChunk track i k s = .ok s' →
      s'.index = s.index + samplesPerChunk track i ∧
      s'.chunkOffset = s.chunkOffset + 1 ∧
      s'.visited = s.visited ++
        [{ chunk := s.chunkOffset, first := s.index, samples := samplesPerChunk track i }] ∧
      HasEntries s'.map N ∧
      ∀ p, p < s.index → s'.map.sample_offset[p]? = s.map.sample_offset[p]? := by
  have hspc : track.stsc_samples_per_chunk[i]? = some (samplesPerChunk track i) := by
    unfold samplesPerChunk
    rw [List.getD_eq_getElem?_getD, List.getElem?_eq_getElem hi]
    rfl
  constructor
  · unfold offsetChunk
    refine inBounds_bind _ _ (inBounds_readAt _ _ hi) (fun samples hs => ?_)
    rw [readAt_ok_iff, hspc] at hs
    simp only [Option.some.injEq] at hs
    subst hs
    exact inBounds_bind _ _ (chunkSamples_safe track _ s N hN hmap hidx hchunk).1
      (fun _ _ => inBounds_pure _)
  · intro s' h
    simp only [offsetChunk, bind_ok_iff, pure_ok_iff, readAt_ok_iff] at h
    obtain ⟨samples, hs, s1, hloop, hs'⟩ := h
    rw [hspc] at hs
    simp only [Option.some.injEq] at hs
    subst hs
    obtain ⟨q1, q2, q3, q4, q5⟩ :=
      (chunkSamples_safe track _ s N hN hmap hidx hchunk).2 s1 hloop
    rw [← hs']
    refine ⟨q1, ?_, by simp only; rw [q3], q4, q5⟩
    simp only
    rw [q2]
    unfold u32
    omega

/-- The chunk loop of an entry of `sample_to_chunk` stays within the arrays. -/
theorem chunkLoop_safe (track : Mp4Track) (i n : Nat) (s : OffsetState) (N : Nat)
    (hN : N < 4294967296) (hmap : HasEntries s.map N)
    (hi : i < track.stsc_samples_per_chunk.length)
    (hidx : s.index + n * samplesPerChunk track i ≤ N)
    (hchunk : s.chunkOffset + n ≤ track.stco_chunk_offset.length)
    (hc32 : s.chunkOffset + n < 4294967296) :
    InBounds (forLoop (offsetChunk track i) 0 n s) ∧
    ∀ s', forLoop (offsetChunk track i) 0 n s = .ok s' →
      s'.index = s.index + n * samplesPerChunk track i ∧
      s'.chunkOffset = s.chunkOffset + n ∧
      s'.visited.map (fun v => v.chunk) =
        s.visited.map (fun v => v.chunk) ++ List.range' s.chunkOffset n ∧
      visitedSamples s'.visited = visitedSamples s.visited ++
        List.range' s.index (n * samplesPerChunk track i) ∧
      HasEntries s'.map N ∧
      ∀ p, p < s.index → s'.map.sample_offset[p]? = s.map.sample_offset[p]? := by
  have key := forLoop_safe (offsetChunk track i)
    (fun k t => t.index = s.index + k * samplesPerChunk track i ∧
      t.chunkOffset = s.chunkOffset + k ∧
      t.visited.map (fun v => v.chunk) =
        s.visited.map (fun v => v.chunk) ++ List.range' s.chunkOffset k ∧
      visitedSamples t.visited = visitedSamples s.visited ++
        List.range' s.index (k * samplesPerChunk track i) ∧
      HasEntries t.map N ∧
      ∀ p, p < s.index → t.map.sample_offset[p]? = s.map.sample_offset[p]?)
    n 0 s ?_ ⟨by omega, rfl, by simp, by simp, hmap, fun _ _ => rfl⟩
  · simpa only [Nat.zero_add] using key
  · intro k t _ hk ⟨p1, p2, p3, p4, p5, p6⟩
    have hmul : (k + 1) * samplesPerChunk track i ≤ n * samplesPerChunk track i :=
      Nat.mul_le_mul_right _ (by omega)
    have hsucc : (k + 1) * samplesPerChunk track i =
        k * samplesPerChunk track i + samplesPerChunk track i := Nat.succ_mul _ _
    obtain ⟨hsafe, hok⟩ := offsetChunk_safe track i k t N hN p5 hi (by omega) (by omega)
      (by omega)
    refine ⟨hsafe, fun t' ht' => ?_⟩
    obtain ⟨q1, q2, q3, q4, q5⟩ := hok t' ht'
    refine ⟨by omega, by omega, ?_, ?_, q4, fun p hp => ?_⟩
    · rw [q3, List.map_append, p3, List.append_assoc, p2]
      simp only [List.map_cons, List.map_nil]
      rw [List.range'_concat]
      simp
    · rw [q3, visitedSamples_append, p4, List.append_assoc, p1, hsucc]
      simp only [visitedSamples, List.append_nil]
      rw [List.range'_append_1, Nat.add_comm (samplesPerChunk track i)]
    · rw [q5 p (by omega), p6 p hp]

/-- In well-formed tables the first chunks increase by at least one per entry. -/
theorem firstChunk_mono (track : Mp4Track) (hwf : WellFormedChunks track) :
    ∀ j, j < track.stsc_entry_count → ∀ i, i ≤ j →
      firstChunk track i + (j - i) ≤ firstChunk track j := by
  obtain ⟨_, _, _, _, _, hinc, _, _⟩ := hwf
  intro j
  induction j with
  | zero =>
    intro _ i hi
    have h0 : i = 0 := by omega
    subst h0
    omega
  | succ j ih =>
    intro hj i hi
    by_cases hij : i = j + 1
    · subst hij
      omega
    · have h1 := ih (by omega) i (by omega)
      have h2 := hinc j hj
      omega

theorem samplesInChunks_le (track : Mp4Track) (i : Nat) :
    ∀ j, i ≤ j → samplesInChunks track i ≤ samplesInChunks track j := by
  intro j
  induction j with
  | zero =>
    intro hi
    have h0 : i = 0 := by omega
    subst h0
    exact Nat.le_refl _
  | succ j ih =>
    intro hi
    by_cases hij : i = j + 1
    · subst hij
      exact Nat.le_refl _
    · have h1 := ih (by omega)
      rw [samplesInChunks]
      omega

/-- The number of chunks walked for an entry of well-formed tables. -/
theorem chunkRunLength_wf (track : Mp4Track) (hwf : WellFormedChunks track)
    (hC : track.stco_entry_count < 4294967296) (i : Nat) (hi : i < track.stsc_entry_count) :
    1 ≤ firstChunk track i ∧ firstChunk track i ≤ track.stco_entry_count ∧
    chunkRunLength track i (firstChunk track i - 1) = .ok (chunksOfEntry track i) ∧
    firstChunk track i - 1 + chunksOfEntry track i =
      (if i + 1 < track.stsc_entry_count then firstChunk track (i + 1) - 1
       else track.stco_entry_count) := by
  have hmono := firstChunk_mono track hwf
  obtain ⟨hE, hfc, _, _, h0, hinc, hlast, _⟩ := hwf
  have hlow := hmono i hi 0 (by omega)
  have hhigh := hmono (track.stsc_entry_count - 1) (by omega) i (by omega)
  have hread : ∀ j, j < track.stsc_entry_count →
      readAt track.stsc_first_chunk j = .ok (firstChunk track j) := by
    intro j hj
    rw [readAt_ok_iff]
    unfold firstChunk
    rw [List.getD_eq_getElem?_getD, List.getElem?_eq_getElem (by omega)]
    rfl
  refine ⟨by omega, by omega, ?_, ?_⟩
  · unfold chunkRunLength chunksOfEntry
    by_cases hl : i + 1 = track.stsc_entry_count
    · rw [if_pos hl, if_pos hl]
      by_cases h1 : track.stsc_entry_count > 1
      · have hne : ¬ (track.stsc_entry_count > 1 ∧ firstChunk track i - 1 = 0) := by
          intro hc
          omega
        rw [if_neg hne]
        show Except.ok _ = Except.ok _
        congr 1
        unfold u32sub
        omega
      · have hne : ¬ (track.stsc_entry_count > 1 ∧ firstChunk track i - 1 = 0) := by
          intro hc
          omega
        rw [if_neg hne]
        show Except.ok _ = Except.ok _
        congr 1
        unfold u32sub
        omega
    · rw [if_neg hl, if_neg hl, hread (i + 1) (by omega), ok_bind, hread i hi, ok_bind]
      have hstep := hinc i (by omega)
      have hnext := hmono (track.stsc_entry_count - 1) (by omega) (i + 1) (by omega)
      show Except.ok _ = Except.ok _
      congr 1
      unfold u32sub
      omega
  · unfold chunksOfEntry
    by_cases hl : i + 1 = track.stsc_entry_count
    · rw [if_pos hl, if_neg (by omega)]
      omega
    · rw [if_neg hl, if_pos (by omega)]
      have hstep := hinc i (by omega)
      omega

/-- The body of the outer loop stays within the arrays on well-formed tables. -/
theorem offsetEntry_safe (track : Mp4Track) (i : Nat) (s : OffsetState) (N : Nat)
    (hwf : WellFormedChunks track) (hC : track.stco_entry_count < 4294967296)
    (hN : N < 4294967296) (hmap : HasEntries s.map N)
    (hi : i < track.stsc_entry_count) (hco : s.chunkOffset = firstChunk track i - 1)
    (hidx : s.index + chunksOfEntry track i * samplesPerChunk track i ≤ N) :
    InBounds (offsetEntry track i s) ∧ ∀ s', offsetEntry track i s = .ok s' →
      s'.index = s.index + chunksOfEntry track i * samplesPerChunk track i ∧
      s'.chunkOffset = (if i + 1 < track.stsc_entry_count then firstChunk track (i + 1) - 1
        else track.stco_entry_count) ∧
      s'.visited.map (fun v => v.chunk) =
        s.visited.map (fun v => v.chunk) ++
          List.range' s.chunkOffset (chunksOfEntry track i) ∧
      visitedSamples s'.visited = visitedSamples s.visited ++
        List.range' s.index (chunksOfEntry track i * samplesPerChunk track i) ∧
      HasEntries s'.map N ∧
      ∀ p, p < s.index → s'.map.sample_offset[p]? = s.map.sample_offset[p]? := by
  obtain ⟨hge, hle, hrun, hpos⟩ := chunkRunLength_wf track hwf hC i hi
  have hspc := hwf.2.2.1
  have hstco := hwf.2.2.2.1
  have hentry : offsetEntry track i s =
      forLoop (offsetChunk track i) 0 (chunksOfEntry track i) s := by
    unfold offsetEntry
    rw [if_pos (by omega), hco, hrun, ok_bind]
  rw [hentry]
  have hsum : s.chunkOffset + chunksOfEntry track i ≤ track.stco_entry_count := by
    rw [hco, hpos]
    split
    · rename_i hlt
      have hnext := firstChunk_mono track hwf (track.stsc_entry_count - 1) (by omega)
        (i + 1) (by omega)
      have hlast := hwf.2.2.2.2.2.2.1
      omega
    · exact Nat.le_refl _
  obtain ⟨hsafe, hok⟩ := chunkLoop_safe track i (chunksOfEntry track i) s N hN hmap
    (by omega) hidx (by omega) (by omega)
  refine ⟨hsafe, fun s' hs' => ?_⟩
  obtain ⟨q1, q2, q3, q4, q5, q6⟩ := hok s' hs'
  exact ⟨q1, by rw [q2, hco, hpos], q3, q4, q5, q6⟩

/-- The byte-offset pass on well-formed tables. -/
theorem walkChunks_safe (track : Mp4Track) (map : BitstreamMap)
    (hwf : WellFormedChunks track)
    (hmap : HasEntries map (firstSample track + track.stsz_sample_count))
    (hN : firstSample track + track.stsz_sample_count < 4294967296)
    (hC : track.stco_entry_count < 4294967296) :
    InBounds (walkChunks track map) ∧ ∀ s, walkChunks track map = .ok s →
      s.index = firstSample track + track.stsz_sample_count ∧
      s.chunkOffset = track.stco_entry_count ∧
      s.visited.map (fun v => v.chunk) = List.range track.stco_entry_count ∧
      visitedSamples s.visited =
        List.range' (firstSample track) track.stsz_sample_count ∧
      HasEntries s.map (firstSample track + track.stsz_sample_count) ∧
      ∀ p, p < firstSample track → s.map.sample_offset[p]? = map.sample_offset[p]? := by
  have hE := hwf.1
  have h0 := hwf.2.2.2.2.1
  have htotal := hwf.2.2.2.2.2.2.2
  unfold walkChunks
  have key := forLoop_safe (offsetEntry track)
    (fun i t => t.index = firstSample track + samplesInChunks track i ∧
      t.chunkOffset = (if i < track.stsc_entry_count then firstChunk track i - 1
        else track.stco_entry_count) ∧
      t.visited.map (fun v => v.chunk) = List.range' 0 t.chunkOffset ∧
      visitedSamples t.visited =
        List.range' (firstSample track) (samplesInChunks track i) ∧
      HasEntries t.map (firstSample track + track.stsz_sample_count) ∧
      ∀ p, p < firstSample track → t.map.sample_offset[p]? = map.sample_offset[p]?)
    track.stsc_entry_count 0
    { map := map, index := firstSample track, chunkOffset := 0, visited := [] } ?_ ?_
  · obtain ⟨hsafe, hok⟩ := key
    refine ⟨hsafe, fun s hs => ?_⟩
    obtain ⟨q1, q2, q3, q4, q5, q6⟩ := hok s hs
    simp only [Nat.zero_add] at q1 q2 q4
    rw [if_neg (by omega)] at q2
    rw [htotal] at q1 q4
    refine ⟨q1, q2, ?_, q4, q5, q6⟩
    rw [q3, q2, List.range_eq_range']
  · intro i t _ hi ⟨p1, p2, p3, p4, p5, p6⟩
    have hi2 : i < track.stsc_entry_count := by omega
    rw [if_pos hi2] at p2
    have hle := samplesInChunks_le track (i + 1) track.stsc_entry_count (by omega)
    have hsucc : samplesInChunks track (i + 1) =
        samplesInChunks track i + chunksOfEntry track i * samplesPerChunk track i := by
      rw [samplesInChunks]
    obtain ⟨hsafe, hok⟩ := offsetEntry_safe track i t _ hwf hC hN p5 hi2 p2
      (by rw [p1]; omega)
    refine ⟨hsafe, fun t' ht' => ?_⟩
    obtain ⟨q1, q2, q3, q4, q5, q6⟩ := hok t' ht'
    obtain ⟨_, _, _, hpos⟩ := chunkRunLength_wf track hwf hC i hi2
    refine ⟨by rw [q1, p1, hsucc]; omega, q2, ?_, ?_, q5, fun p hp => ?_⟩
    · rw [q3, p3, q2, ← hpos, p2]
      have hr := List.range'_append_1 0 (firstChunk track i - 1) (chunksOfEntry track i)
      rw [Nat.zero_add] at hr
      rw [hr, Nat.add_comm]
    · rw [q4, p4, p1, hsucc, List.range'_append_1, Nat.add_comm]
    · rw [q6 p (by omega), p6 p hp]
  · refine ⟨rfl, ?_, rfl, rfl, hmap, fun _ _ => rfl⟩
    rw [if_pos (by omega), h0]

/-! ### Claim on the byte-offset pass on well-formed tables -/

/-- C36: for well-formed tables (`first_chunk` starting at 1 and strictly increasing, the
last `first_chunk` at most `stco_entry_count`, the samples per chunk summed over all the
chunks equal to `stsz_sample_count`) and a map of `sps_count + pps_count +
stsz_sample_count` entries, the byte-offset pass of `convertTrack` never indexes
`stco_chunk_offset`, the `sample_to_chunk` arrays or the sample arrays out of bounds.
When it completes, the chunk counter equals `stco_entry_count`, the chunks walked are the
chunks `0`, ..., `stco_entry_count - 1`, each once and in order, the samples that the
sample loop assigned an offset to are exactly the indices of the real samples, each once
and in order, `index` ends behind the last real sample, and the offsets of the parameter
sets in front are left as they were. -/
theorem offset_pass_well_formed (track : Mp4Track) (map : BitstreamMap)
    (hwf : WellFormedChunks track)
    (hmap : HasEntries map (firstSample track + track.stsz_sample_count))
    (hsamples : firstSample track + track.stsz_sample_count < 4294967296)
    (hchunks : track.stco_entry_count < 4294967296) :
    InBounds (walkChunks track map) ∧ ∀ s, walkChunks track map = .ok s →
      s.chunkOffset = track.stco_entry_count ∧
      s.visited.map (fun v => v.chunk) = List.range track.stco_entry_count ∧
      visitedSamples s.visited =
        List.range' (firstSample track) track.stsz_sample_count ∧
      s.index = firstSample track + track.stsz_sample_count ∧
      ∀ p, p < firstSample track → s.map.sample_offset[p]? = map.sample_offset[p]? := by
  obtain ⟨hsafe, hok⟩ := walkChunks_safe track map hwf hmap hsamples hchunks
  refine ⟨hsafe, fun s hs => ?_⟩
  obtain ⟨q1, q2, q3, q4, _, q6⟩ := hok s hs
  exact ⟨q2, q3, q4, q1, q6⟩

theorem offset_pass_well_formed_witness :
    WellFormedChunks scenarioTwoRuns ∧
    HasEntries scenarioTwoRunsMap
      (firstSample scenarioTwoRuns + scenarioTwoRuns.stsz_sample_count) ∧
    InBounds (walkChunks scenarioTwoRuns scenarioTwoRunsMap) ∧
    walkChunks scenarioTwoRuns scenarioTwoRunsMap = .ok scenarioTwoRunsWalk ∧
    scenarioTwoRunsWalk.chunkOffset = scenarioTwoRuns.stco_entry_count ∧
    scenarioTwoRunsWalk.visited.map (fun v => v.chunk) =
      List.range scenarioTwoRuns.stco_entry_count ∧
    visitedSamples scenarioTwoRunsWalk.visited =
      List.range' (firstSample scenarioTwoRuns) scenarioTwoRuns.stsz_sample_count ∧
    scenarioTwoRunsWalk.index =
      firstSample scenarioTwoRuns + scenarioTwoRuns.stsz_sample_count ∧
    ∀ p, p < firstSample scenarioTwoRuns →
      scenarioTwoRunsWalk.map.sample_offset[p]? = scenarioTwoRunsMap.sample_offset[p]? :=
  have hwf : WellFormedChunks scenarioTwoRuns :=
    ⟨by decide, by decide, by decide, by decide, by decide,
     (fun i hi => by
       have h0 : i = 0 := Nat.lt_one_iff.1 (Nat.lt_of_succ_lt_succ hi)
       subst h0
       decide),
     by decide, by decide⟩
  have hmap : HasEntries scenarioTwoRunsMap
      (firstSample scenarioTwoRuns + scenarioTwoRuns.stsz_sample_count) :=
    ⟨rfl, rfl, rfl, rfl, rfl⟩
  ⟨hwf, hmap,
   (offset_pass_well_formed scenarioTwoRuns scenarioTwoRunsMap hwf hmap
      (by decide) (by decide)).1,
   rfl,
   (offset_pass_well_formed scenarioTwoRuns scenarioTwoRunsMap hwf hmap
      (by decide) (by decide)).2 scenarioTwoRunsWalk rfl⟩

/-! ### parse_box_header over any cursor implementation -/

theorem boxSizeReads_cases (reads : CursorReads) (bitstr : Bitstream) (offset_start : Int)
    (size : Nat) :
    (∃ r, boxSizeReads reads bitstr offset_start size = .ok r) ∨
    boxSizeReads reads bitstr offset_start size = .error Fault.overflow := by
  unfold boxSizeReads
  by_cases h0 : size = 0
  · rw [if_pos h0]
    unfold subI64
    by_cases hin : inI64 ((bitstr.bytes.length : Int) - offset_start)
    · rw [if_pos hin]
      exact Or.inl ⟨_, rfl⟩
    · rw [if_neg hin]
      exact Or.inr rfl
  · rw [if_neg h0]
    by_cases h1 : size = 1
    · rw [if_pos h1]
      exact Or.inl ⟨_, rfl⟩
    · rw [if_neg h1]
      exact Or.inl ⟨_, rfl⟩

theorem addI64_cases (a b : Int) :
    (∃ r, addI64 a b = .ok r) ∨ addI64 a b = .error Fault.overflow := by
  unfold addI64
  by_cases hin : inI64 (a + b)
  · rw [if_pos hin]
    exact Or.inl ⟨_, rfl⟩
  · rw [if_neg hin]
    exact Or.inr rfl

theorem boxUsertypeReads_total (reads : CursorReads) (BOX_UUID : Nat) (bitstr : Bitstream)
    (boxtype : Nat) (usertype : List Nat) :
    ∃ s, boxUsertypeReads reads BOX_UUID bitstr boxtype usertype = .ok s := by
  unfold boxUsertypeReads
  by_cases h : boxtype = BOX_UUID
  · rw [if_pos h]
    obtain ⟨s, hs, _⟩ := forLoop_total (readUsertypeReads reads) (fun _ _ => True) 16 0
      { bitstr := bitstr, usertype := [] } (fun i t _ _ _ => ⟨_, rfl, trivial⟩) trivial
    exact ⟨s, hs⟩
  · rw [if_neg h]
    exact ⟨_, rfl⟩

/-- For a header that is not NULL, `parse_box_header` over any readers returns `SUCCESS`,
or has no result because of a signed overflow. -/
theorem parse_box_header_reads_some (reads : CursorReads) (BOX_UUID : Nat)
    (bitstr : Bitstream) (hdr : Mp4Box) :
    (∃ parsed result, parse_box_header_reads reads BOX_UUID bitstr (some hdr) =
      .ok (SUCCESS, parsed, some result)) ∨
    parse_box_header_reads reads BOX_UUID bitstr (some hdr) = .error Fault.overflow := by
  unfold parse_box_header_reads
  simp only
  rcases boxSizeReads_cases reads (reads.read_bits (reads.read_bits bitstr 32).2 32).2
    (bitstream_get_absolute_byte_offset bitstr) (u32 (reads.read_bits bitstr 32).1) with
    ⟨⟨size, b1⟩, hsz⟩ | hsz
  · rw [hsz, ok_bind]
    simp only
    rcases addI64_cases (bitstream_get_absolute_byte_offset bitstr) size with ⟨oe, hadd⟩ | hadd
    · rw [hadd, ok_bind]
      obtain ⟨s, hs⟩ := boxUsertypeReads_total reads BOX_UUID b1
        (u32 (reads.read_bits (reads.read_bits bitstr 32).2 32).1) hdr.usertype
      rw [hs, ok_bind]
      exact Or.inl ⟨_, _, rfl⟩
    · rw [hadd]
      exact Or.inr rfl
  · rw [hsz]
    exact Or.inr rfl

theorem forLoop_ok_of_ok {σ : Type} (body body' : Nat → σ → Except Fault σ)
    (hbody : ∀ i s s', body i s = .ok s' → body' i s = .ok s') (n : Nat) :
    ∀ (lo : Nat) (s s' : σ), forLoop body lo n s = .ok s' → forLoop body' lo n s = .ok s' := by
  induction n with
  | zero =>
    intro lo s s' h
    exact h
  | succ n ih =>
    intro lo s s' h
    rw [forLoop_succ_ok_iff] at h
    obtain ⟨s1, h1, h2⟩ := h
    rw [forLoop_succ_ok_iff]
    exact ⟨s1, hbody lo s s1 h1, ih (lo + 1) s1 s' h2⟩

/-- Where the cursor of the specification supplies every byte that `parse_box_header`
reads, the function over the readers `scenarioReads` gives the same result. -/
theorem parse_box_header_reads_agrees (BOX_UUID : Nat) (bitstr : Bitstream)
    (box_header : Option Mp4Box) (r : Int × Bitstream × Option Mp4Box)
    (h : parse_box_header BOX_UUID bitstr box_header = .ok r) :
    parse_box_header_reads scenarioReads BOX_UUID bitstr box_header = .ok r := by
  cases box_header with
  | none => exact h
  | some hdr =>
    simp only [parse_box_header, bind_ok_iff, pure_ok_iff] at h
    obtain ⟨⟨size, b1⟩, h1, ⟨boxtype, b2⟩, h2, ⟨size', b3⟩, hsz, oe, hadd, s, hus, hr⟩ := h
    simp only at h2 hsz hadd hus hr
    have hs1 := read_bits_lt _ _ _ _ h1
    have hs2 := read_bits_lt _ _ _ _ h2
    have r1 : scenarioReads.read_bits bitstr 32 = (size, b1) := by
      simp only [scenarioReads, h1]
    have r2 : scenarioReads.read_bits b1 32 = (boxtype, b2) := by
      simp only [scenarioReads, h2]
    have u1 : u32 size = size := by
      unfold u32
      omega
    have u2 : u32 boxtype = boxtype := by
      unfold u32
      omega
    have hsz' : boxSizeReads scenarioReads b2 (bitstream_get_absolute_byte_offset bitstr)
        size = .ok (size', b3) := by
      unfold boxSize at hsz
      unfold boxSizeReads
      by_cases h0 : size = 0
      · rw [if_pos h0] at hsz
        rw [if_pos h0]
        exact hsz
      · rw [if_neg h0] at hsz
        rw [if_neg h0]
        by_cases hone : size = 1
        · rw [if_pos hone] at hsz
          rw [if_pos hone]
          simp only [bind_ok_iff, pure_ok_iff, Prod.mk.injEq] at hsz
          obtain ⟨⟨large, b⟩, hl, e1, e2⟩ := hsz
          have r3 : scenarioReads.read_bits_64 b2 64 = (large, b) := by
            simp only [scenarioReads, hl]
          rw [r3]
          simp only at e1 e2
          rw [← e1, ← e2]
          have ht : toI64 (u64 large) = toI64 large := by
            unfold toI64 u64
            rw [Nat.mod_mod]
          rw [ht]
          rfl
        · rw [if_neg hone] at hsz
          rw [if_neg hone]
          exact hsz
    have hus' : boxUsertypeReads scenarioReads BOX_UUID b3 boxtype hdr.usertype = .ok s := by
      unfold boxUsertype at hus
      unfold boxUsertypeReads
      by_cases hu : boxtype = BOX_UUID
      · rw [if_pos hu] at hus
        rw [if_pos hu]
        refine forLoop_ok_of_ok readUsertype (readUsertypeReads scenarioReads) ?_ 16 0 _ _ hus
        intro i t t' ht
        simp only [readUsertype, bind_ok_iff, pure_ok_iff] at ht
        obtain ⟨⟨byte, b⟩, hb, e⟩ := ht
        have r4 : scenarioReads.read_bits t.bitstr 8 = (byte, b) := by
          simp only [scenarioReads, hb]
        unfold readUsertypeReads
        rw [r4, ← e]
        rfl
      · rw [if_neg hu] at hus
        rw [if_neg hu]
        exact hus
    unfold parse_box_header_reads
    simp only [r1, r2, u1, u2]
    rw [hsz', ok_bind]
    simp only
    rw [hadd, ok_bind, hus', ok_bind, ← hr]
    rfl

/-! ### Claim on the return code of parse_box_header -/

/-- C23 (counterexample): on a file of 4 bytes the cursor cannot supply the 8 bytes of a
header.  With readers that give 0 where the file has ended, `parse_box_header` returns
`SUCCESS`, with the header of a box of 8 bytes whose type is 0. -/
theorem parse_box_header_short_counterexample :
    8 * scenarioTruncated.bytes.length < scenarioTruncated.position + 64 ∧
    parse_box_header_reads scenarioReads scenarioCodes.BOX_UUID scenarioTruncated
      (some emptyBox) =
      .ok (SUCCESS, { scenarioTruncated with position := 32 },
        some { emptyBox with offset_end := 8, size := 8, boxtype := 0 }) := by
  refine ⟨by decide, rfl⟩

/-- C23 (amended): over every implementation of the readers `read_bits` and
`read_bits_64`, hence whatever they hand back when the cursor cannot supply the bytes of
the header, `parse_box_header` returns `FAILURE` for a NULL header and for no other: for
a header that is not NULL it returns `SUCCESS`, or the signed addition `offset_start +
size` (the subtraction `bitstream_size - offset_start` for the size field 0) overflows
and C defines no result; it does return `SUCCESS` whenever the size field is neither 0
nor 1 and the cursor stands below byte 2^62.  No size field, consistent with the parent
and the file or not, makes it return `FAILURE`. -/
theorem parse_box_header_return_code (reads : CursorReads) (BOX_UUID : Nat)
    (bitstr : Bitstream) (box_header : Option Mp4Box) :
    (box_header = none →
      parse_box_header_reads reads BOX_UUID bitstr box_header = .ok (FAILURE, bitstr, none)) ∧
    (box_header ≠ none →
      ((∃ parsed result, parse_box_header_reads reads BOX_UUID bitstr box_header =
          .ok (SUCCESS, parsed, some result)) ∨
        parse_box_header_reads reads BOX_UUID bitstr box_header = .error Fault.overflow) ∧
      (2 ≤ u32 (reads.read_bits bitstr 32).1 → bitstr.position / 8 < 2 ^ 62 →
        ∃ parsed result, parse_box_header_reads reads BOX_UUID bitstr box_header =
          .ok (SUCCESS, parsed, some result))) ∧
    (∀ rc parsed result,
      parse_box_header_reads reads BOX_UUID bitstr box_header = .ok (rc, parsed, result) →
      (rc = FAILURE ↔ box_header = none) ∧ (rc = SUCCESS ↔ box_header ≠ none)) := by
  cases box_header with
  | none =>
    refine ⟨fun _ => rfl, fun hne => absurd rfl hne, ?_⟩
    intro rc parsed result h
    simp only [parse_box_header_reads, Except.ok.injEq, Prod.mk.injEq] at h
    rw [← h.1]
    simp [FAILURE, SUCCESS]
  | some hdr =>
    have hcases := parse_box_header_reads_some reads BOX_UUID bitstr hdr
    refine ⟨(fun hnone => by cases hnone), fun _ => ⟨hcases, fun hsize hpos => ?_⟩, ?_⟩
    · rcases hcases with hok | hover
      · exact hok
      · exfalso
        unfold parse_box_header_reads at hover
        simp only at hover
        have hsz : boxSizeReads reads (reads.read_bits (reads.read_bits bitstr 32).2 32).2
            (bitstream_get_absolute_byte_offset bitstr) (u32 (reads.read_bits bitstr 32).1) =
            .ok (((u32 (reads.read_bits bitstr 32).1 : Nat) : Int),
              (reads.read_bits (reads.read_bits bitstr 32).2 32).2) := by
          unfold boxSizeReads
          rw [if_neg (by omega), if_neg (by omega)]
          rfl
        rw [hsz, ok_bind] at hover
        simp only at hover
        have hlt : u32 (reads.read_bits bitstr 32).1 < 4294967296 := by
          unfold u32
          omega
        have hadd : addI64 (bitstream_get_absolute_byte_offset bitstr)
            ((u32 (reads.read_bits bitstr 32).1 : Nat) : Int) =
            .ok (bitstream_get_absolute_byte_offset bitstr +
              ((u32 (reads.read_bits bitstr 32).1 : Nat) : Int)) := by
          unfold addI64
          rw [if_pos]
          unfold inI64 bitstream_get_absolute_byte_offset
          have h62 : (2 : Nat) ^ 62 = 4611686018427387904 := by norm_num
          rw [h62] at hpos
          omega
        rw [hadd, ok_bind] at hover
        obtain ⟨s, hs⟩ := boxUsertypeReads_total reads BOX_UUID
          (reads.read_bits (reads.read_bits bitstr 32).2 32).2
          (u32 (reads.read_bits (reads.read_bits bitstr 32).2 32).1) hdr.usertype
        rw [hs, ok_bind] at hover
        cases hover
    · intro rc parsed result h
      rcases hcases with ⟨p, r, hok⟩ | hover
      · rw [hok] at h
        simp only [Except.ok.injEq, Prod.mk.injEq] at h
        rw [← h.1]
        simp [FAILURE, SUCCESS]
      · rw [hover] at h
        cases h

theorem parse_box_header_return_code_witness :
    (some emptyBox = none →
      parse_box_header_reads scenarioReads scenarioCodes.BOX_UUID scenarioTruncated
        (some emptyBox) = .ok (FAILURE, scenarioTruncated, none)) ∧
    (some emptyBox ≠ none →
      ((∃ parsed result, parse_box_header_reads scenarioReads scenarioCodes.BOX_UUID
          scenarioTruncated (some emptyBox) = .ok (SUCCESS, parsed, some result)) ∨
        parse_box_header_reads scenarioReads scenarioCodes.BOX_UUID scenarioTruncated
          (some emptyBox) = .error Fault.overflow) ∧
      (2 ≤ u32 (scenarioReads.read_bits scenarioTruncated 32).1 →
        scenarioTruncated.position / 8 < 2 ^ 62 →
        ∃ parsed result, parse_box_header_reads scenarioReads scenarioCodes.BOX_UUID
          scenarioTruncated (some emptyBox) = .ok (SUCCESS, parsed, some result))) ∧
    (∀ rc parsed result,
      parse_box_header_reads scenarioReads scenarioCodes.BOX_UUID scenarioTruncated
        (some emptyBox) = .ok (rc, parsed, result) →
      (rc = FAILURE ↔ some emptyBox = none) ∧ (rc = SUCCESS ↔ some emptyBox ≠ none)) :=
  parse_box_header_return_code scenarioReads scenarioCodes.BOX_UUID scenarioTruncated
    (some emptyBox)

/-! ### The one sample of a WAVE file -/

theorem recordedData_append (env : WaveEnv) (log : List ChunkRecord) (r : ChunkRecord) :
    recordedData env (log ++ [r]) =
      if r.header.dwFourCC = env.fcc_data then
        { datasOffset := r.payload, datasSize := r.header.dwSize }
      else recordedData env log := by
  simp [recordedData, List.foldl_append]

/-- The chunk parser `parse_fmt` leaves `wave.data` as it is. -/
theorem parse_fmt_data (env : WaveEnv) (bitstr bitstr' : Bitstream)
    (fmt_header : Option RiffChunk) (wave wave' : Wave) (rc : Int)
    (h : parse_fmt env bitstr fmt_header wave = .ok (rc, bitstr', wave')) :
    wave'.data = wave.data := by
  unfold parse_fmt at h
  cases fmt_header with
  | none =>
    simp only [Except.ok.injEq, Prod.mk.injEq] at h
    rw [← h.2.2]
  | some fmt_header =>
    simp only [bind_ok_iff, pure_ok_iff, Prod.mk.injEq] at h
    obtain ⟨⟨b1, w1⟩, h1, b2, _, _, _, hw⟩ := h
    rw [← hw]
    split at h1
    · unfold fmtFields at h1
      simp only [bind_ok_iff, pure_ok_iff, Prod.mk.injEq] at h1
      obtain ⟨_, _, _, _, _, _, _, _, _, _, _, _, _, hw1⟩ := h1
      rw [← hw1]
    · simp only [pure_ok_iff, Prod.mk.injEq] at h1
      rw [← h1.2]

/-- The chunk parser `parse_fact` leaves `wave.data` as it is. -/
theorem parse_fact_data (env : WaveEnv) (bitstr bitstr' : Bitstream)
    (fact_header : Option RiffChunk) (wave wave' : Wave) (rc : Int)
    (h : parse_fact env bitstr fact_header wave = .ok (rc, bitstr', wave')) :
    wave'.data = wave.data := by
  unfold parse_fact at h
  cases fact_header with
  | none =>
    simp only [Except.ok.injEq, Prod.mk.injEq] at h
    rw [← h.2.2]
  | some fact_header =>
    simp only at h
    split at h
    · simp only [Except.ok.injEq, Prod.mk.injEq] at h
      rw [← h.2.2]
    · simp only [bind_ok_iff, pure_ok_iff, Prod.mk.injEq] at h
      obtain ⟨_, _, _, _, hw⟩ := h
      rw [← hw]

/-- What the `switch` of `wave_fileParse` does to `wave.data`, when the tag `fcc_data` is
neither `fcc_fmt_` nor `fcc_fact`: a chunk with the tag `fcc_data` replaces it by the byte
offset of the cursor and the declared size, every other chunk leaves it as it is. -/
theorem waveDispatch_data (env : WaveEnv) (RIFF_header : RiffList) (bitstr bitstr' : Bitstream)
    (chunk_header : RiffChunk) (wave wave' : Wave) (rc : Int)
    (hfmt : env.fcc_data ≠ env.fcc_fmt_) (hfact : env.fcc_data ≠ env.fcc_fact)
    (h : waveDispatch env RIFF_header bitstr chunk_header wave = .ok (rc, bitstr', wave')) :
    wave'.data =
      if chunk_header.dwFourCC = env.fcc_data then
        { datasOffset := bitstream_get_absolute_byte_offset bitstr,
          datasSize := chunk_header.dwSize }
      else wave.data := by
  unfold waveDispatch at h
  by_cases h1 : chunk_header.dwFourCC = env.fcc_fmt_
  · rw [if_pos h1] at h
    rw [if_neg (fun hd => hfmt (hd.symm.trans h1))]
    exact parse_fmt_data env _ _ _ _ _ _ h
  · rw [if_neg h1] at h
    by_cases h2 : chunk_header.dwFourCC = env.fcc_fact
    · rw [if_pos h2] at h
      rw [if_neg (fun hd => hfact (hd.symm.trans h2))]
      exact parse_fact_data env _ _ _ _ _ _ h
    · rw [if_neg h2] at h
      by_cases h3 : chunk_header.dwFourCC = env.fcc_data
      · rw [if_pos h3] at h
        rw [if_pos h3]
        unfold parse_data at h
        simp only [Except.ok.injEq, Prod.mk.injEq] at h
        rw [← h.2.2]
      · rw [if_neg h3] at h
        rw [if_neg h3]
        by_cases h4 : chunk_header.dwFourCC = env.fcc_cue_
        · rw [if_pos h4] at h
          simp only [bind_ok_iff, pure_ok_iff, Prod.mk.injEq] at h
          obtain ⟨_, _, _, _, hw⟩ := h
          rw [← hw]
          rfl
        · rw [if_neg h4] at h
          simp only [bind_ok_iff, pure_ok_iff, Prod.mk.injEq] at h
          obtain ⟨_, _, _, _, hw⟩ := h
          rw [← hw]

/-- One pass of the chunk loop with the log: the state is that of `waveChunk`, the log
gets one record, and `wave.data` stays what the log records. -/
theorem waveChunkLogged_step (env : WaveEnv) (RIFF_header : RiffList) (s t : WaveWalk)
    (log : List ChunkRecord)
    (hfmt : env.fcc_data ≠ env.fcc_fmt_) (hfact : env.fcc_data ≠ env.fcc_fact)
    (hinv : s.wave.data = recordedData env log)
    (h : waveChunk env RIFF_header s = .ok (some t)) :
    ∃ r, waveChunkLogged env RIFF_header (s, log) = .ok (some (t, log ++ [r])) ∧
      t.wave.data = recordedData env (log ++ [r]) := by
  have h0 := h
  unfold waveChunk at h
  simp only [bind_ok_iff, pure_ok_iff, Option.some.injEq] at h
  obtain ⟨⟨rc0, b, ch⟩, hhead, ⟨rc, b1, w1⟩, hdisp, ⟨rc2, b2⟩, _, ht⟩ := h
  refine ⟨{ header := ch, payload := bitstream_get_absolute_byte_offset b }, ?_, ?_⟩
  · unfold waveChunkLogged
    simp only [hhead, h0, ok_bind]
    rfl
  · rw [recordedData_append, ← ht]
    simp only
    rw [waveDispatch_data env RIFF_header b b1 ch s.wave w1 rc hfmt hfact hdisp, hinv]

/-- The chunk loop with the log ends where the chunk loop ends, and `wave.data` is then
what the log records. -/
theorem waveLoopLogged (env : WaveEnv) (RIFF_header : RiffList) (bound : Int)
    (hfmt : env.fcc_data ≠ env.fcc_fmt_) (hfact : env.fcc_data ≠ env.fcc_fact) :
    ∀ (fuel : Nat) (s s' : WaveWalk) (log : List ChunkRecord),
      s.wave.data = recordedData env log →
      whileLoop (fun s => s.wave.run && decide (s.retcode = SUCCESS) &&
          decide (bitstream_get_absolute_byte_offset s.bitstr < bound))
        (waveChunk env RIFF_header) fuel s = .ok (some s') →
      ∃ log', whileLoop (fun (s : WaveWalk × List ChunkRecord) =>
            s.1.wave.run && decide (s.1.retcode = SUCCESS) &&
            decide (bitstream_get_absolute_byte_offset s.1.bitstr < bound))
          (waveChunkLogged env RIFF_header) fuel (s, log) = .ok (some (s', log')) ∧
        s'.wave.data = recordedData env log' := by
  intro fuel
  induction fuel with
  | zero =>
    intro s s' log hinv h
    unfold whileLoop at h
    split at h
    · cases h
    · rename_i hc
      simp only [Except.ok.injEq, Option.some.injEq] at h
      subst h
      refine ⟨log, ?_, hinv⟩
      unfold whileLoop
      rw [if_neg hc]
  | succ n ih =>
    intro s s' log hinv h
    unfold whileLoop at h
    split at h
    · rename_i hc
      cases hb : waveChunk env RIFF_header s with
      | error e =>
        rw [hb] at h
        cases h
      | ok r =>
        rw [hb] at h
        cases r with
        | none => cases h
        | some t =>
          simp only at h
          obtain ⟨r, hstep, hinv'⟩ :=
            waveChunkLogged_step env RIFF_header s t log hfmt hfact hinv hb
          obtain ⟨log', hloop, hdata⟩ := ih t s' (log ++ [r]) hinv' h
          refine ⟨log', ?_, hdata⟩
          unfold whileLoop
          rw [if_pos hc, hstep]
          exact hloop
    · rename_i hc
      simp only [Except.ok.injEq, Option.some.injEq] at h
      subst h
      refine ⟨log, ?_, hinv⟩
      unfold whileLoop
      rw [if_neg hc]

/-- The chunk walk with the log ends where `waveWalk` ends, and `wave.data` is then what
the log records. -/
theorem waveWalkLogged_of_waveWalk (env : WaveEnv) (fuel : Nat) (bitstr : Bitstream)
    (media : MediaFile) (s : WaveWalk)
    (hfmt : env.fcc_data ≠ env.fcc_fmt_) (hfact : env.fcc_data ≠ env.fcc_fact)
    (h : waveWalk env fuel bitstr media = .ok (some s)) :
    ∃ log, waveWalkLogged env fuel bitstr media = .ok (some (s, log)) ∧
      s.wave.data = recordedData env log := by
  unfold waveWalk at h
  simp only [bind_ok_iff] at h
  obtain ⟨⟨rc, b, RIFF_header⟩, hhead, h⟩ := h
  unfold waveWalkLogged
  simp only [hhead, ok_bind]
  simp only at h
  split at h
  · rename_i hriff
    rw [if_pos hriff]
    split at h
    · cases h
    · rename_i hover
      rw [if_neg hover]
      exact waveLoopLogged env RIFF_header (media.file_size - 8) hfmt hfact fuel _ s [] rfl h
  · rename_i hriff
    rw [if_neg hriff]
    simp only [pure_ok_iff, Option.some.injEq] at h
    subst h
    exact ⟨[], rfl, rfl⟩

/-- C31 (counterexample): `scenarioWaveShortFact` has a data chunk at byte 20, whose
header declares 4 bytes and whose payload starts at byte 28, behind a `fact` chunk that
declares 0 bytes.  The chunk walk goes through the `fact` chunk only, and the one sample
of the audio track that `wave_fileParse` produces has the byte offset 0 and the size 0. -/
theorem wave_data_unread_counterexample :
    scenarioWaveEnv.parse_chunk_header { bytes := scenarioWaveShortFact, position := 160 } =
      .ok (SUCCESS, { bytes := scenarioWaveShortFact, position := 224 },
        { offset_start := 20, offset_end := 32, dwFourCC := scenarioWaveEnv.fcc_data,
          dwSize := 4 }) ∧
    bitstream_get_absolute_byte_offset
      { bytes := scenarioWaveShortFact, position := 224 } = 28 ∧
    waveWalkLogged scenarioWaveEnv 8 { bytes := scenarioWaveShortFact, position := 0 }
      { emptyMedia with file_size := 32 } =
      .ok (some ({ retcode := FAILURE,
                   bitstr := { bytes := scenarioWaveShortFact, position := 160 },
                   wave := { zeroWave with run := true } },
        [{ header := { offset_start := 12, offset_end := 20,
                       dwFourCC := scenarioWaveEnv.fcc_fact, dwSize := 0 },
           payload := 20 }])) ∧
    wave_fileParse scenarioWaveEnv 8 (some { bytes := scenarioWaveShortFact, position := 0 })
      { emptyMedia with file_size := 32 } =
      .ok (some (SUCCESS,
        { emptyMedia with file_size := 32, tracks_audio :=
          [{ sample_count := 1, stream_size := 0, sample_type := [SampleType.sample_AUDIO],
             sample_size := [0], sample_offset := [0], sample_pts := [0],
             sample_dts := [0] }] })) := by
  refine ⟨rfl, rfl, rfl, rfl⟩

/-- C31 (amended): when the tag `fcc_data` is neither `fcc_fmt_` nor `fcc_fact`, the
allocation of a map of one entry succeeds, the registry holds no audio track and the
chunk walk of `wave_fileParse` ends, `wave_fileParse` returns `SUCCESS` with exactly one
audio track, which holds exactly one sample, whose decode and presentation times are 0.
The byte offset and the size of the sample are those of the last data chunk that the
chunk walk has gone through, the start of its payload and the size that its header
declares, and 0 and 0 when the walk has gone through no data chunk (the log is that of
`waveWalkLogged`, which ends in the state in which the walk ends). -/
theorem wave_fileParse_single_sample (env : WaveEnv) (fuel : Nat) (bitstr : Bitstream)
    (media : MediaFile) (track : BitstreamMap) (s : WaveWalk)
    (hfmt : env.fcc_data ≠ env.fcc_fmt_) (hfact : env.fcc_data ≠ env.fcc_fact)
    (halloc : env.init_bitstream_map 1 = some track) (hentries : HasEntries track 1)
    (hfresh : media.tracks_audio = [])
    (hwalk : waveWalk env fuel bitstr media = .ok (some s)) :
    ∃ log audio, waveWalkLogged env fuel bitstr media = .ok (some (s, log)) ∧
      wave_fileParse env fuel (some bitstr) media =
        .ok (some (SUCCESS, { media with tracks_audio := [audio] })) ∧
      audio.sample_count = 1 ∧ HasEntries audio 1 ∧
      audio.sample_offset = [(recordedData env log).datasOffset] ∧
      audio.sample_size = [(recordedData env log).datasSize] ∧
      audio.sample_pts = [0] ∧ audio.sample_dts = [0] := by
  obtain ⟨log, hlog, hdata⟩ :=
    waveWalkLogged_of_waveWalk env fuel bitstr media s hfmt hfact hwalk
  refine ⟨log,
    { sample_count := 1
      stream_size := waveStreamSize env s.wave track.stream_size
      sample_type := [env.sample_type_1]
      sample_size := [s.wave.data.datasSize]
      sample_offset := [s.wave.data.datasOffset]
      sample_pts := [0]
      sample_dts := [0] }, hlog, ?_, rfl, ⟨rfl, rfl, rfl, rfl, rfl⟩, ?_, ?_, rfl, rfl⟩
  · unfold wave_fileParse
    simp only [hwalk]
    unfold wave_indexer
    rw [wave_indexer_initmap_ok env media s.wave track halloc hentries hfresh]
    rfl
  · rw [hdata]
  · rw [hdata]

theorem wave_fileParse_single_sample_witness :
    ∃ log audio, waveWalkLogged scenarioWaveEnv 8 { bytes := scenarioWave, position := 0 }
        { emptyMedia with file_size := 60 } =
        .ok (some ({ retcode := SUCCESS, bitstr := { bytes := scenarioWave, position := 480 },
                     wave := scenarioWaveState }, log)) ∧
      wave_fileParse scenarioWaveEnv 8 (some { bytes := scenarioWave, position := 0 })
        { emptyMedia with file_size := 60 } =
        .ok (some (SUCCESS, { emptyMedia with file_size := 60, tracks_audio := [audio] })) ∧
      audio.sample_count = 1 ∧ HasEntries audio 1 ∧
      audio.sample_offset = [(recordedData scenarioWaveEnv log).datasOffset] ∧
      audio.sample_size = [(recordedData scenarioWaveEnv log).datasSize] ∧
      audio.sample_pts = [0] ∧ audio.sample_dts = [0] :=
  wave_fileParse_single_sample scenarioWaveEnv 8 { bytes := scenarioWave, position := 0 }
    { emptyMedia with file_size := 60 } (zeroMap 1)
    { retcode := SUCCESS, bitstr := { bytes := scenarioWave, position := 480 },
      wave := scenarioWaveState }
    (by decide) (by decide) rfl ⟨rfl, rfl, rfl, rfl, rfl⟩ rfl rfl

/-! ### Claim on the parameter sets of parse_avcC -/

/-- C34: `parse_avcC`, called with the cursor on a byte boundary over a file in which
every parameter set it records lies within the data, returns `SUCCESS` and copies
nothing: apart from the codec, the two counts and the four arrays the track is unchanged.
The count of the SPS is the 5-bit field behind the first 43 bits of the content, the count
of the PPS the byte behind the last SPS (behind the SPS count when there is no SPS), and
each of the four arrays has as many entries as its count.  For each sequence and each
picture parameter set the function records the 16-bit length and the absolute byte offset
of the first byte behind that length field, and the cursor skips exactly the bytes of the
set: the first SPS offset is 8 bytes behind the start of the content, for consecutive SPS
`offset[i+1] = offset[i] + size[i] + 2`, the same for consecutive PPS, the first PPS
offset is the last SPS offset + size + 3 (9 bytes behind the start of the content when
there is no SPS), and the cursor ends behind the last PPS. -/
theorem parse_avcC_offsets (bitstr b : Bitstream) (box : Mp4Box) (track t : Mp4Track)
    (rc : Int) (haligned : bitstr.position % 8 = 0)
    (h : parse_avcC bitstr box track = .ok (rc, b, t))
    (hsps : ∀ (i : Nat) (o : Int) (z : Nat), t.sps_sample_offset[i]? = some o →
      t.sps_sample_size[i]? = some z → o + z ≤ bitstr.bytes.length)
    (hpps : ∀ (i : Nat) (o : Int) (z : Nat), t.pps_sample_offset[i]? = some o →
      t.pps_sample_size[i]? = some z → o + z ≤ bitstr.bytes.length) :
    rc = SUCCESS ∧ b.bytes = bitstr.bytes ∧
    t = { track with codec := CODEC_H264, sps_count := t.sps_count,
                     sps_sample_offset := t.sps_sample_offset,
                     sps_sample_size := t.sps_sample_size, pps_count := t.pps_count,
                     pps_sample_offset := t.pps_sample_offset,
                     pps_sample_size := t.pps_sample_size } ∧
    (∃ rest, read_bits { bitstr with position := bitstr.position + 43 } 5 =
      .ok (t.sps_count, rest)) ∧
    t.sps_sample_offset.length = t.sps_count ∧ t.sps_sample_size.length = t.sps_count ∧
    t.pps_sample_offset.length = t.pps_count ∧ t.pps_sample_size.length = t.pps_count ∧
    (t.sps_count = 0 →
      (∃ rest, read_bits { bitstr with position := bitstr.position + 48 } 8 =
        .ok (t.pps_count, rest)) ∧
      (0 < t.pps_count →
        t.pps_sample_offset[0]? = some ((bitstr.position / 8 + 9 : Nat) : Int))) ∧
    (0 < t.sps_count →
      t.sps_sample_offset[0]? = some ((bitstr.position / 8 + 8 : Nat) : Int)) ∧
    (∀ i, i < t.sps_count → ∃ (o z : Nat),
      t.sps_sample_offset[i]? = some (o : Int) ∧ t.sps_sample_size[i]? = some z ∧ 2 ≤ o ∧
      (∃ rest, read_bits { bitstr with position := 8 * (o - 2) } 16 = .ok (z, rest)) ∧
      (i + 1 < t.sps_count → t.sps_sample_offset[i + 1]? = some ((o : Int) + z + 2)) ∧
      (i + 1 = t.sps_count →
        (∃ rest, read_bits { bitstr with position := 8 * (o + z) } 8 =
          .ok (t.pps_count, rest)) ∧
        (0 < t.pps_count → t.pps_sample_offset[0]? = some ((o : Int) + z + 3)))) ∧
    (∀ i, i < t.pps_count → ∃ (o z : Nat),
      t.pps_sample_offset[i]? = some (o : Int) ∧ t.pps_sample_size[i]? = some z ∧ 2 ≤ o ∧
      (∃ rest, read_bits { bitstr with position := 8 * (o - 2) } 16 = .ok (z, rest)) ∧
      (i + 1 < t.pps_count → t.pps_sample_offset[i + 1]? = some ((o : Int) + z + 2)) ∧
      (i + 1 = t.pps_count → b.position = 8 * (o + z))) := by
  simp only [parse_avcC, bind_ok_iff, pure_ok_iff, Prod.mk.injEq] at h
  obtain ⟨⟨v1, b1⟩, h1, ⟨v2, b2⟩, h2, ⟨v3, b3⟩, h3, ⟨v4, b4⟩, h4, ⟨v5, b5⟩, h5,
    ⟨v6, b6⟩, h6, ⟨v7, b7⟩, h7, ⟨n1, b8⟩, h8, sps, hloop1, ⟨n2, b9⟩, h9, pps, hloop2,
    hrc, hb, ht⟩ := h
  simp only at h2 h3 h4 h5 h6 h7 h8 hloop1 h9 hloop2 hb ht
  obtain ⟨_, e1⟩ := read_bits_spec _ _ _ _ h1
  obtain ⟨_, e2⟩ := read_bits_spec _ _ _ _ h2
  obtain ⟨_, e3⟩ := read_bits_spec _ _ _ _ h3
  obtain ⟨_, e4⟩ := read_bits_spec _ _ _ _ h4
  obtain ⟨_, e5⟩ := read_bits_spec _ _ _ _ h5
  obtain ⟨_, e6⟩ := read_bits_spec _ _ _ _ h6
  obtain ⟨_, e7⟩ := read_bits_spec _ _ _ _ h7
  obtain ⟨_, e8⟩ := read_bits_spec _ _ _ _ h8
  obtain ⟨_, e9⟩ := read_bits_spec _ _ _ _ h9
  have hb7 : b7 = { bitstr with position := bitstr.position + 43 } := by
    rw [e7, e6, e5, e4, e3, e2, e1]
  have hb8 : b8 = { bitstr with position := bitstr.position + 48 } := by
    rw [e8, hb7]
  rw [hb7] at h8
  rw [hb8] at hloop1
  rw [← ht] at hsps hpps
  simp only at hsps hpps
  obtain ⟨_, _, hlen1, hlen1', _, _, _⟩ := avcCParamSet_loop n1 _ sps
    (by simp only; omega) hloop1
  obtain ⟨hbytes1, hal1, hzero1, hhead1, hall1⟩ := avcCParamSet_chain n1 _ sps
    (by simp only; omega) hloop1 hsps
  simp only [List.length_replicate] at hbytes1 hzero1 hhead1 hall1 hlen1 hlen1'
  have hspsb : sps.bitstr = { bitstr with position := sps.bitstr.position } := by
    cases hs : sps.bitstr with
    | mk bytes position =>
      rw [hs] at hbytes1
      simp only at hbytes1
      rw [hbytes1]
  have hb9 : b9 = { bitstr with position := sps.bitstr.position + 8 } := by
    rw [e9]
    cases hs : sps.bitstr with
    | mk bytes position =>
      rw [hs] at hbytes1
      simp only at hbytes1
      rw [hbytes1]
  rw [hb9] at hloop2
  rw [hspsb] at h9
  obtain ⟨_, _, hlen2, hlen2', _, _, _⟩ := avcCParamSet_loop n2 _ pps
    (by simp only; omega) hloop2
  obtain ⟨hbytes2, hal2, hzero2, hhead2, hall2⟩ := avcCParamSet_chain n2 _ pps
    (by simp only; omega) hloop2 hpps
  simp only [List.length_replicate] at hbytes2 hzero2 hhead2 hall2 hlen2 hlen2'
  rw [← ht, ← hb]
  simp only
  refine ⟨hrc.symm, hbytes2, trivial, ⟨b8, h8⟩, hlen1', hlen1, hlen2', hlen2,
    fun hnone => ?_, fun hpos => ?_, fun i hi => ?_, fun i hi => ?_⟩
  · have hp : sps.bitstr.position = bitstr.position + 48 := by
      rw [hzero1 hnone]
    rw [hp] at h9
    refine ⟨⟨_, h9⟩, fun hpos => ?_⟩
    rw [hhead2 hpos, hp]
    congr 2
    omega
  · rw [hhead1 hpos]
    congr 2
    omega
  · obtain ⟨o, z, ho, hz, h2o, hrd, hnext, hlast⟩ := hall1 i hi
    refine ⟨o, z, ho, hz, h2o, hrd, hnext, fun hl => ?_⟩
    rw [hlast hl] at h9
    refine ⟨⟨_, h9⟩, fun hpos => ?_⟩
    rw [hhead2 hpos, hlast hl]
    have hdiv : (8 * (o + z) + 8) / 8 + 2 = o + z + 3 := by omega
    rw [hdiv]
    push_cast
    rfl
  · exact hall2 i hi

theorem parse_avcC_offsets_witness :
    scenarioAvcCContent.position % 8 = 0 ∧
    parse_avcC scenarioAvcCContent scenarioAvcC emptyTrack =
      .ok (SUCCESS, { scenarioAvcCContent with position := 136 },
        { emptyTrack with codec := CODEC_H264, sps_count := 1, sps_sample_offset := [8],
                          sps_sample_size := [4], pps_count := 1, pps_sample_offset := [15],
                          pps_sample_size := [2] }) ∧
    (∃ rest, read_bits { scenarioAvcCContent with
        position := scenarioAvcCContent.position + 43 } 5 = .ok (1, rest)) ∧
    [(8 : Int)].length = 1 ∧ [4].length = 1 ∧ [(15 : Int)].length = 1 ∧ [2].length = 1 ∧
    (1 = 0 →
      (∃ rest, read_bits { scenarioAvcCContent with
          position := scenarioAvcCContent.position + 48 } 8 = .ok (1, rest)) ∧
      (0 < 1 →
        [(15 : Int)][0]? = some ((scenarioAvcCContent.position / 8 + 9 : Nat) : Int))) ∧
    (0 < 1 → [(8 : Int)][0]? = some ((scenarioAvcCContent.position / 8 + 8 : Nat) : Int)) ∧
    (∀ i, i < 1 → ∃ (o z : Nat),
      [(8 : Int)][i]? = some (o : Int) ∧ [4][i]? = some z ∧ 2 ≤ o ∧
      (∃ rest, read_bits { scenarioAvcCContent with position := 8 * (o - 2) } 16 =
        .ok (z, rest)) ∧
      (i + 1 < 1 → [(8 : Int)][i + 1]? = some ((o : Int) + z + 2)) ∧
      (i + 1 = 1 →
        (∃ rest, read_bits { scenarioAvcCContent with position := 8 * (o + z) } 8 =
          .ok (1, rest)) ∧
        (0 < 1 → [(15 : Int)][0]? = some ((o : Int) + z + 3)))) ∧
    (∀ i, i < 1 → ∃ (o z : Nat),
      [(15 : Int)][i]? = some (o : Int) ∧ [2][i]? = some z ∧ 2 ≤ o ∧
      (∃ rest, read_bits { scenarioAvcCContent with position := 8 * (o - 2) } 16 =
        .ok (z, rest)) ∧
      (i + 1 < 1 → [(15 : Int)][i + 1]? = some ((o : Int) + z + 2)) ∧
      (i + 1 = 1 → 136 = 8 * (o + z))) :=
  ⟨by decide, rfl,
   (parse_avcC_offsets scenarioAvcCContent { scenarioAvcCContent with position := 136 }
      scenarioAvcC emptyTrack
      { emptyTrack with codec := CODEC_H264, sps_count := 1, sps_sample_offset := [8],
                        sps_sample_size := [4], pps_count := 1, pps_sample_offset := [15],
                        pps_sample_size := [2] }
      SUCCESS (by decide) rfl
      (by
        intro i o z ho hz
        cases i with
        | zero =>
          simp only [List.getElem?_cons_zero, Option.some.injEq] at ho hz
          subst ho
          subst hz
          decide
        | succ k => simp at ho)
      (by
        intro i o z ho hz
        cases i with
        | zero =>
          simp only [List.getElem?_cons_zero, Option.some.injEq] at ho hz
          subst ho
          subst hz
          decide
        | succ k => simp at ho)).2.2.2⟩

/-! ### Claims on mp4_fileParse: files with one sample -/

set_option maxRecDepth 100000

/-- C25 (counterexample): in `scenarioVideoFile`, whose video track has one sample, the
allocation of `parse_ctts` fails: `parse_ctts` returns `FAILURE`, the loop of
`mp4_fileParse` ends with the return code `FAILURE` and one track registered; with an
allocator that refuses a map without entries, `mp4_fileParse` returns `SUCCESS` and the
registry holds one video track with the sample. -/
theorem parser_failure_counterexample :
    parse_ctts ((scenarioTableEnv false).calloc_ctts
        { bytes := scenarioVideoFile, position := 1664 })
      { bytes := scenarioVideoFile, position := 1664 } scenarioTableCtts
      { scenarioVideoTrack with ctts_entry_count := 0 } =
      .ok (FAILURE, { bytes := scenarioVideoFile, position := 1728 }, scenarioTableCtts,
        scenarioVideoTrack) ∧
    fileWalk scenarioCodes (scenarioTableEnv false) 8
      { bytes := scenarioVideoFile, position := 0 } { emptyMedia with file_size := 236 } =
      .ok (some { retcode := FAILURE,
                  bitstr := { bytes := scenarioVideoFile, position := 1792 },
                  acc := { run := true, tracks := [scenarioVideoTrack] },
                  resynced := [scenarioTableMoov] }) ∧
    (scenarioTableEnv false).init_bitstream_map 0 = none ∧
    mp4_fileParse scenarioCodes (scenarioTableEnv false) 8
      (some { bytes := scenarioVideoFile, position := 0 })
      { emptyMedia with file_size := 236 } =
      .ok (some (SUCCESS, scenarioVideoRegistry)) := by
  refine ⟨rfl, rfl, rfl, rfl⟩

theorem mp4_fileParse_after_walk_witness :
    (({ run := true, tracks := [scenarioVideoTrack] } : Mp4).tracks = [] →
      mp4_fileParse scenarioCodes (scenarioTableEnv false) 8
        (some { bytes := scenarioVideoFile, position := 0 })
        { emptyMedia with file_size := 236 } =
        .ok (some (FAILURE, { emptyMedia with file_size := 236 }))) ∧
    (({ run := true, tracks := [scenarioVideoTrack] } : Mp4).tracks ≠ [] →
      ∀ media',
      convertTracks (scenarioTableEnv false).init_bitstream_map
        ({ run := true, tracks := [scenarioVideoTrack] } : Mp4).tracks
        { emptyMedia with file_size := 236 } = .ok media' →
      (media'.tracks_video = [] ∧ media'.tracks_audio = [] →
        mp4_fileParse scenarioCodes (scenarioTableEnv false) 8
          (some { bytes := scenarioVideoFile, position := 0 })
          { emptyMedia with file_size := 236 } = .ok (some (FAILURE, media'))) ∧
      (¬ (media'.tracks_video = [] ∧ media'.tracks_audio = []) →
        mp4_fileParse scenarioCodes (scenarioTableEnv false) 8
          (some { bytes := scenarioVideoFile, position := 0 })
          { emptyMedia with file_size := 236 } = .ok (some (SUCCESS, media')))) :=
  mp4_fileParse_after_walk scenarioCodes (scenarioTableEnv false) 8
    { bytes := scenarioVideoFile, position := 0 } { emptyMedia with file_size := 236 }
    { retcode := FAILURE, bitstr := { bytes := scenarioVideoFile, position := 1792 },
      acc := { run := true, tracks := [scenarioVideoTrack] },
      resynced := [scenarioTableMoov] }
    rfl

/-- C26 (counterexample): `scenarioTextFile` holds one text track with one sample; every
content parser succeeds, `convertTrack` indexes the track, with its sample, in the
subtitle slot of the registry (the allocator refuses a map without entries), and
`mp4_fileParse` returns `FAILURE`. -/
theorem subtitle_only_counterexample :
    fileWalk scenarioCodes (scenarioTableEnv true) 8
      { bytes := scenarioTextFile, position := 0 } { emptyMedia with file_size := 236 } =
      .ok (some { retcode := SUCCESS,
                  bitstr := { bytes := scenarioTextFile, position := 1888 },
                  acc := { run := true, tracks := [scenarioTextTrack] },
                  resynced := [scenarioTableMoov, scenarioTableMdat] }) ∧
    (scenarioTableEnv true).init_bitstream_map 0 = none ∧
    convertTrack_media (scenarioTableEnv true).init_bitstream_map
      (some { emptyMedia with file_size := 236 }) (some scenarioTextTrack) =
      .ok (SUCCESS, some scenarioTextRegistry) ∧
    mp4_fileParse scenarioCodes (scenarioTableEnv true) 8
      (some { bytes := scenarioTextFile, position := 0 })
      { emptyMedia with file_size := 236 } =
      .ok (some (FAILURE, scenarioTextRegistry)) := by
  refine ⟨rfl, rfl, rfl, rfl⟩

theorem mp4_fileParse_return_code_witness :
    ∃ w, fileWalk scenarioCodes (scenarioTableEnv true) 8
        { bytes := scenarioTextFile, position := 0 } { emptyMedia with file_size := 236 } =
        .ok (some w) ∧
      ((0 : Int) = SUCCESS ∨ (0 : Int) = FAILURE) ∧
      ((0 : Int) = FAILURE ↔
        (w.acc.tracks = [] ∨
          (scenarioTextRegistry.tracks_video = [] ∧
           scenarioTextRegistry.tracks_audio = []))) ∧
      (w.acc.tracks = [] →
        scenarioTextRegistry = { emptyMedia with file_size := 236 }) ∧
      (w.acc.tracks ≠ [] →
        convertTracks (scenarioTableEnv true).init_bitstream_map w.acc.tracks
          { emptyMedia with file_size := 236 } =
          .ok scenarioTextRegistry) :=
  mp4_fileParse_return_code scenarioCodes (scenarioTableEnv true) 8
    { bytes := scenarioTextFile, position := 0 } { emptyMedia with file_size := 236 }
    scenarioTextRegistry 0 rfl

end MiniVideo
